import Mathlib

/-!
# glTF loader: binary container, extensions, scene-graph linking, skeletons, animation
parameters, transform clips, skeleton animations, manifest decoding, lookups, cameras,
techniques, construction

A shallow embedding of `src/src/gltf.cpp`.

Conventions of the embedding:

* a pointer into one of the `File` registries (`Node*`, `Accessor*`, ...) is the key of the
  registry entry it points to; `nullptr` is `none`;
* bytes are natural numbers below 256, a buffer is a list of bytes, a `float` read from a
  buffer is its 32-bit pattern and a `float` read from the manifest is the number it was
  converted from (the loader only copies floats);
* unsigned machine arithmetic is written with explicit `% 2 ^ w`;
* a run of the loader ends in an `Outcome`: a value, undefined behaviour (a read outside a
  buffer, a dereference of `end()` or of a null pointer), an exception thrown by the JSON
  library or by a `throw` of the loader, a failed `CI_ASSERT`, or exhaustion of the bound
  put on the depth of a recursion that the source leaves unbounded;
* what the decoding loop of `load` takes from outside the functions embedded here (the file
  system, the default-constructed entities, the decoders of the other categories) is a
  parameter, the `Host`; the reader of the JSON library, which the constructor calls, is a
  parameter too, the `JsonLibrary`.

The definitions come first (the model of the source, then the notions the statements are
written with, then sample inputs), the theorems follow.
-/

namespace gltf

/-! ## Outcomes -/

/-- Result of running a piece of the loader. -/
inductive Outcome (α : Type) where
  | ok (a : α)
  | undefined
  | thrown
  | assertFailed
  | outOfFuel
  deriving Repr, DecidableEq

namespace Outcome

/-- Sequencing: the first non-`ok` outcome stops the run. -/
def bind {α β : Type} (x : Outcome α) (f : α → Outcome β) : Outcome β :=
  match x with
  | ok a => f a
  | undefined => undefined
  | thrown => thrown
  | assertFailed => assertFailed
  | outOfFuel => outOfFuel

/-- True exactly on `ok _`. -/
def isOk {α : Type} : Outcome α → Bool
  | ok _ => true
  | _ => false

end Outcome

/-! ## Binary container (`File::verifyFile`) -/

/-- The 20-byte header of a `.glb` file. -/
structure BinaryHeader where
  magic : List Nat
  version : Nat
  length : Nat
  sceneLength : Nat
  sceneFormat : Nat
  deriving Repr, DecidableEq

/-- Value of `sizeof( BinaryHeader )`. -/
def sizeofBinaryHeader : Nat := 20

/-- A little-endian `uint32_t` stored at byte offset `off`. -/
def readU32 (buf : List Nat) (off : Nat) : Nat :=
  buf.getD off 0 % 256 + 256 * (buf.getD (off + 1) 0 % 256)
    + 65536 * (buf.getD (off + 2) 0 % 256) + 16777216 * (buf.getD (off + 3) 0 % 256)

/-- The fields seen through `reinterpret_cast<BinaryHeader*>( buffer->getData() )`. -/
def readHeader (buf : List Nat) : BinaryHeader :=
  { magic := buf.take 4
    version := readU32 buf 4
    length := readU32 buf 8
    sceneLength := readU32 buf 12
    sceneFormat := readU32 buf 16 }

/-- Copy of `n` bytes starting at offset `off`; reading past the end of the buffer is
undefined behaviour. -/
def readBytes (buf : List Nat) (off n : Nat) : Outcome (List Nat) :=
  if off + n ≤ buf.length then .ok ((buf.drop off).take n) else .undefined

/-- The file handed to the loader: the extension of its path and its bytes. -/
structure DataSource where
  extension : String
  buffer : List Nat
  deriving Repr, DecidableEq

/-- What `verifyFile` leaves behind: the manifest text `gltfJson` and the member `mBuffer`
(null unless the file is a binary container). -/
structure VerifiedFile where
  gltfJson : List Nat
  mBuffer : Option (List Nat)
  deriving Repr, DecidableEq

/-- Model of `File::verifyFile`. `binarySize` is computed as in the source:
`uint32_t - uint32_t` wraps modulo `2 ^ 32`, the subtraction of `sizeof` is done in
`size_t` (64 bits). -/
def verifyFile (data : DataSource) : Outcome VerifiedFile :=
  if data.extension = ".glb" then
    if sizeofBinaryHeader ≤ data.buffer.length then
      let header := readHeader data.buffer
      let sceneStart := sizeofBinaryHeader
      (readBytes data.buffer sceneStart header.sceneLength).bind fun gltfJson =>
      let binaryStart := sceneStart + header.sceneLength
      let binarySize :=
        ((header.length + 2 ^ 32 - header.sceneLength) % 2 ^ 32 + 2 ^ 64 - sizeofBinaryHeader)
          % 2 ^ 64
      (readBytes data.buffer binaryStart binarySize).bind fun blob =>
      .ok { gltfJson := gltfJson, mBuffer := some blob }
    else .undefined
  else
    .ok { gltfJson := data.buffer, mBuffer := none }

/-! ## JSON values (the JsonCpp calls the loader makes) -/

/-- A parsed JSON value. The members of an object are listed in iteration order; a real
number is kept as the text the library prints for it. -/
inductive Json where
  | null
  | bool (b : Bool)
  | num (n : Int)
  | real (printed : String)
  | str (s : String)
  | arr (elems : List Json)
  | obj (members : List (String × Json))

namespace Json

/-- Model of `Json::Value::isNull`. -/
def isNull : Json → Bool
  | null => true
  | _ => false

/-- Model of `Json::Value::isArray`. -/
def isArray : Json → Bool
  | arr _ => true
  | _ => false

/-- Model of `Json::Value::asString`: a string is itself, null is the empty string, a
boolean or a number is printed, an array or an object is not convertible (`none`, the
library throws). -/
def asString : Json → Option String
  | null => some ""
  | bool b => some (if b then "true" else "false")
  | num n => some (toString n)
  | real printed => some printed
  | str s => some s
  | arr _ => none
  | obj _ => none

/-- The values a range-based `for` over a `Json::Value` visits: the elements of an array,
the member values of an object, nothing for any other value. -/
def elements : Json → List Json
  | arr elems => elems
  | obj members => members.map Prod.snd
  | _ => []

/-- Model of `Json::Value::empty`: null, or an array or object without elements. -/
def empty : Json → Bool
  | null => true
  | arr elems => elems.isEmpty
  | obj members => members.isEmpty
  | _ => false

/-- Member lookup in a member list; an absent member reads as null. -/
def lookupMember (key : String) : List (String × Json) → Json
  | [] => null
  | (k, v) :: rest => if k = key then v else lookupMember key rest

/-- Model of `Json::Value::operator[]( key )`: the member of an object (null when absent),
null on a null value, and `none` (the library throws) on any other value. -/
def get (j : Json) (key : String) : Option Json :=
  match j with
  | null => some null
  | obj members => some (lookupMember key members)
  | _ => none

/-- Model of `Json::Value::isString`. -/
def isString : Json → Bool
  | str _ => true
  | _ => false

/-- Model of `Json::Value::isNumeric` (`isIntegral() || isDouble()` in the library version
bundled with Cinder, where a boolean counts as integral). -/
def isNumeric : Json → Bool
  | bool _ => true
  | num _ => true
  | real _ => true
  | _ => false

/-- Model of `Json::Value::isObject` on a value that is not null. On null the versions of
the library differ; the one caller, `addAnimationInfo`, rejects a null `target` in its next
assertion either way. -/
def isObject : Json → Bool
  | obj _ => true
  | _ => false

/-- Model of `Json::Value::asUInt`: null is 0, a boolean is 0 or 1, an integer must lie in
the range of `UInt` (32 bits), a real is converted by `realToUInt` (which the host
supplies: reals are kept as text), a string, array or object is not convertible (`none`,
the library throws). -/
def asUInt (realToUInt : String → Option Nat) : Json → Option Nat
  | null => some 0
  | bool b => some (if b then 1 else 0)
  | num n => if 0 ≤ n ∧ n < 2 ^ 32 then some n.toNat else none
  | real printed => realToUInt printed
  | str _ => none
  | arr _ => none
  | obj _ => none

/-- A `float` obtained from a JSON value, kept as the number it was converted from. -/
inductive Number where
  | int (n : Int)
  | real (printed : String)
  deriving Repr, DecidableEq

/-- Model of `Json::Value::asFloat`: null is 0, a boolean is 0 or 1, a string, array or
object is not convertible (`none`, the library throws). -/
def asFloat : Json → Option Number
  | null => some (.int 0)
  | bool b => some (.int (if b then 1 else 0))
  | num n => some (.int n)
  | real printed => some (.real printed)
  | str _ => none
  | arr _ => none
  | obj _ => none

/-- Model of `Json::Value::size`: the number of elements of an array or object, 0 for any
other value. -/
def size : Json → Nat
  | arr elems => elems.length
  | obj members => members.length
  | _ => 0

/-- Model of `Json::Value::getMemberNames`: the member names of an object, none for null,
and `none` (the library throws) on any other value. -/
def getMemberNames : Json → Option (List String)
  | null => some []
  | obj members => some (members.map Prod.fst)
  | _ => none

/-- Model of `Json::Value::operator[]( index )` on a constant value: the element of an
array (null past its end), null on a null value, and `none` (the library throws) on any
other value. -/
def getIndex (j : Json) (index : Nat) : Option Json :=
  match j with
  | null => some null
  | arr elems => some (elems.getD index null)
  | _ => none

end Json

/-- Lift of a JSON-library result: `none` is a thrown exception. -/
def Outcome.ofJson {α : Type} : Option α → Outcome α
  | some a => .ok a
  | none => .thrown

/-! ## Extensions (`File::loadExtensions`, `File::hasExtension`) -/

/-- The `std::transform` of `loadExtensions`: `asString` of every element, appended in
order; the first element that is not convertible throws. -/
def collectStrings : List Json → Outcome (List String)
  | [] => .ok []
  | j :: rest =>
    (Outcome.ofJson j.asString).bind fun s =>
    (collectStrings rest).bind fun ss => .ok (s :: ss)

/-- Model of `std::sort` on a `std::vector<std::string>`: the ascending arrangement. Strings
compare lexicographically as with `operator<` of `std::string` (on UTF-8 text the order of
the bytes and the order of the code points agree). -/
def sortStrings (xs : List String) : List String :=
  xs.insertionSort (fun a b => a ≤ b)

/-- Model of `File::loadExtensions`; the result is the member `mExtensions`, which is empty
before the call. -/
def loadExtensions (mGltfTree : Json) : Outcome (List String) :=
  (Outcome.ofJson (mGltfTree.get "extensionsUsed")).bind fun extensions =>
  if !extensions.isNull && extensions.isArray then
    (collectStrings extensions.elements).bind fun mExtensions =>
    .ok (sortStrings mExtensions)
  else .ok []

/-- Model of `std::lower_bound` on the index range `[first, first + count)` of `xs`; the
loop halves `count`, so `count` iterations are always enough. -/
def lowerBound (xs : List String) (value : String) : Nat → Nat → Nat → Nat
  | 0, first, _ => first
  | iters + 1, first, count =>
    if count = 0 then first
    else
      let step := count / 2
      let it := first + step
      if xs.getD it "" < value then lowerBound xs value iters (it + 1) (count - (step + 1))
      else lowerBound xs value iters first step

/-- Model of `std::binary_search( begin, end, value )`. -/
def binarySearch (xs : List String) (value : String) : Bool :=
  let first := lowerBound xs value xs.length 0 xs.length
  decide (first ≠ xs.length) && !decide (value < xs.getD first "")

/-- Model of `File::hasExtension`. -/
def hasExtension (mExtensions : List String) (extension : String) : Bool :=
  binarySearch mExtensions extension

/-! ## Registries and nodes -/

/-- A keyed collection of the `File` (`mNodes`, `mAccessors`, ...), in iteration order. -/
abbrev Registry (α : Type) := List (String × α)

namespace Registry

/-- Model of `find( key )`: the entry stored under `key`, `none` for `end()`. -/
def find {α : Type} : Registry α → String → Option α
  | [], _ => none
  | (k, v) :: rest, key => if k = key then some v else find rest key

/-- A write through a reference or pointer to the entry stored under `key`. -/
def modify {α : Type} : Registry α → String → (α → α) → Registry α
  | [], _, _ => []
  | (k, v) :: rest, key, f =>
    if k = key then (k, f v) :: rest else (k, v) :: modify rest key f

end Registry

/-- The members of `gltf::Node` that the linking walk, the skeleton builder and the decoder
read or write. `parent`, `children` and the other references hold registry keys in place of
pointers. -/
structure Node where
  parent : Option String := none
  children : List String := []
  name : String := ""
  jointName : String := ""
  transformMatrix : List Json.Number := []
  translation : List Json.Number := []
  rotation : List Json.Number := []
  scale : List Json.Number := []
  light : Option String := none
  camera : Option String := none
  skin : Option String := none
  meshes : List String := []
  skeletons : List String := []
  deriving Repr, DecidableEq

/-! ## Scene-graph linking (`File::setParentForChildren`, tail of `File::load`) -/

/-- A `for` loop that threads a state through its body and stops at the first outcome
that is not `ok`. -/
def forEach {β σ : Type} (body : β → σ → Outcome σ) : List β → σ → Outcome σ
  | [], s => .ok s
  | x :: rest, s => (body x s).bind fun s1 => forEach body rest s1

/-- The value `mGltfTree["nodes"][childKey]["children"]`. -/
def nodeChildren (mGltfTree : Json) (childKey : String) : Outcome Json :=
  (Outcome.ofJson (mGltfTree.get "nodes")).bind fun nodes =>
  (Outcome.ofJson (nodes.get childKey)).bind fun node =>
  Outcome.ofJson (node.get "children")

/-- Model of `File::setParentForChildren`. The first argument bounds the depth of the
recursion: the source recurses without a bound. -/
def setParentForChildren (mGltfTree : Json) :
    Nat → Option String → String → Registry Node → Outcome (Registry Node)
  | 0, _, _, _ => .outOfFuel
  | depth + 1, parent, childKey, mNodes =>
    match mNodes.find childKey with
    | none => .undefined
    | some _ =>
      let mNodes1 := mNodes.modify childKey fun currentNode => { currentNode with parent := parent }
      let mNodes2 :=
        match parent with
        | some p => mNodes1.modify p fun n => { n with children := n.children ++ [childKey] }
        | none => mNodes1
      (nodeChildren mGltfTree childKey).bind fun children =>
      if !children.empty then
        forEach (fun child acc =>
            (Outcome.ofJson child.asString).bind fun key =>
            setParentForChildren mGltfTree depth (some childKey) key acc)
          children.elements mNodes2
      else .ok mNodes2

/-- The loop that ends `File::load`: every root key of every scene is walked with a null
parent. -/
def linkScenes (mGltfTree : Json) (depth : Nat) (mNodes : Registry Node) :
    Outcome (Registry Node) :=
  (Outcome.ofJson (mGltfTree.get "scenes")).bind fun scenesObj =>
  forEach (fun scenes acc =>
      (Outcome.ofJson (scenes.get "nodes")).bind fun nodes =>
      forEach (fun node acc1 =>
          (Outcome.ofJson node.asString).bind fun key =>
          setParentForChildren mGltfTree depth none key acc1)
        nodes.elements acc)
    scenesObj.elements mNodes

/-! ### The manifest's view of the graph, and the calls of the walk -/

/-- The child keys that the loop of `setParentForChildren` iterates over for node `key`. -/
def childKeys (mGltfTree : Json) (key : String) : Outcome (List String) :=
  (nodeChildren mGltfTree key).bind fun children =>
  if !children.empty then collectStrings children.elements else .ok []

/-- The manifest children of `key` as a plain list (empty when they cannot be read). -/
def childList (mGltfTree : Json) (key : String) : List String :=
  match childKeys mGltfTree key with
  | .ok cs => cs
  | _ => []

/-- One call `setParentForChildren( parent, child )`. -/
abbrev Visit := Option String × String

/-- Concatenation of the results of `f` over `keys`, stopping at the first failure. -/
def visitsEach (f : String → Outcome (List Visit)) : List String → Outcome (List Visit)
  | [] => .ok []
  | k :: rest => (f k).bind fun t => (visitsEach f rest).bind fun ts => .ok (t ++ ts)

/-- The calls that `setParentForChildren( parent, key )` unfolds into, in execution order,
read off the manifest alone. -/
def visits (mGltfTree : Json) : Nat → Option String → String → Outcome (List Visit)
  | 0, _, _ => .outOfFuel
  | depth + 1, parent, key =>
    (childKeys mGltfTree key).bind fun cs =>
    (visitsEach (fun c => visits mGltfTree depth (some key) c) cs).bind fun sub =>
    .ok ((parent, key) :: sub)

/-- The root keys of one scene. -/
def sceneRootKeys (scenes : Json) : Outcome (List String) :=
  (Outcome.ofJson (scenes.get "nodes")).bind fun nodes => collectStrings nodes.elements

/-- The root keys of all scenes, in the order the loop of `File::load` walks them. -/
def rootKeysOf : List Json → Outcome (List String)
  | [] => .ok []
  | scenes :: rest =>
    (sceneRootKeys scenes).bind fun ks => (rootKeysOf rest).bind fun kss => .ok (ks ++ kss)

/-- The root keys of the manifest. -/
def rootKeys (mGltfTree : Json) : Outcome (List String) :=
  (Outcome.ofJson (mGltfTree.get "scenes")).bind fun scenesObj => rootKeysOf scenesObj.elements

/-- The calls of the whole linking loop. -/
def visitsOfScenes (mGltfTree : Json) (depth : Nat) : Outcome (List Visit) :=
  (rootKeys mGltfTree).bind fun roots => visitsEach (fun r => visits mGltfTree depth none r) roots

/-- The two writes of one call: the child's `parent`, and the `push_back` on the parent. -/
def applyVisit (mNodes : Registry Node) (v : Visit) : Registry Node :=
  let mNodes1 := mNodes.modify v.2 fun currentNode => { currentNode with parent := v.1 }
  match v.1 with
  | some p => mNodes1.modify p fun n => { n with children := n.children ++ [v.2] }
  | none => mNodes1

/-- The writes of a sequence of calls. -/
def applyVisits (tr : List Visit) (mNodes : Registry Node) : Registry Node :=
  tr.foldl applyVisit mNodes

/-- The children that the calls `tr` append to node `p`, in order. -/
def appendedTo (p : String) (tr : List Visit) : List String :=
  tr.filterMap fun v => if v.1 = some p then some v.2 else none

/-- The keys that the calls `tr` visit, in order. -/
def visited (tr : List Visit) : List String := tr.map Prod.snd

/-- The parent written last for `k` by the calls `tr`, or `init` when `k` is not visited. -/
def lastParent (k : String) (init : Option String) (tr : List Visit) : Option String :=
  tr.foldl (fun acc v => if v.2 = k then v.1 else acc) init

/-- Every key visited by the calls `tr` has an entry in the registry. -/
def allDeclared (mNodes : Registry Node) (tr : List Visit) : Bool :=
  tr.all fun v => (mNodes.find v.2).isSome

/-- The effect of one call on the node stored under `k`. -/
def visitNode (k : String) (n : Node) (v : Visit) : Node :=
  let n1 := if k = v.2 then { n with parent := v.1 } else n
  if v.1 = some k then { n1 with children := n1.children ++ [v.2] } else n1

/-- The manifest lists `b` among the children of node `a`. -/
def childRel (mGltfTree : Json) (a b : String) : Prop := b ∈ childList mGltfTree a

/-- The walk from `k`, read off the manifest, fits in recursion depth `d`. -/
def Walkable (mGltfTree : Json) (d : Nat) (k : String) : Prop :=
  ∃ tr, visits mGltfTree d none k = .ok tr

/-- The registry stores `b` as a child of `a`. -/
def storedChild (mNodes : Registry Node) (a b : String) : Prop :=
  ∃ n, mNodes.find a = some n ∧ b ∈ n.children

/-- Every node reachable from `k` in the manifest has a registry entry and a readable
children list. -/
def Readable (mGltfTree : Json) (mNodes : Registry Node) (k : String) : Prop :=
  ∀ b, Relation.ReflTransGen (childRel mGltfTree) k b →
    (mNodes.find b).isSome = true ∧ ∃ cs, childKeys mGltfTree b = .ok cs

/-! ## Buffers, buffer views, accessors -/

/-- The enumeration `Accessor::DataType`. -/
inductive DataType where
  | SCALAR | VEC2 | VEC3 | VEC4 | MAT2 | MAT3 | MAT4
  deriving Repr, DecidableEq

/-- The members of `gltf::Buffer`, `extras` apart: its bytes (`none` for a null
`BufferRef`), the declared length, and the strings of the manifest entry. -/
structure Buffer where
  data : Option (List Nat)
  byteLength : Nat
  uri : String := ""
  type : String := ""
  name : String := ""
  deriving Repr, DecidableEq

/-- The members of `gltf::BufferView`; `buffer` holds a registry key in place of `Buffer*`. -/
structure BufferView where
  buffer : Option String
  byteOffset : Nat
  byteLength : Nat
  target : Nat
  name : String := ""
  deriving Repr, DecidableEq

/-- The members of `gltf::Accessor`; `bufferView` holds a registry key in place of
`BufferView*`. -/
structure Accessor where
  bufferView : Option String
  byteOffset : Nat
  count : Nat
  componentType : Nat
  dataType : DataType
  byteStride : Nat
  name : String := ""
  max : List Json.Number := []
  min : List Json.Number := []
  deriving Repr, DecidableEq

/-- The record `Animation::Parameter`; `accessor` holds a registry key in place of
`Accessor*`. -/
structure Parameter where
  parameter : String
  accessor : Option String
  deriving Repr, DecidableEq

/-- The record `Animation::Channel`; `target` holds a registry key in place of `Node*`. -/
structure Channel where
  targetId : String
  target : Option String
  sampler : String
  path : String
  deriving Repr, DecidableEq

/-- The record `Animation::Sampler`; `linear` says that the decoder assigned
`LerpType::LINEAR` to `type`, which keeps its initial value otherwise. -/
structure Sampler where
  input : String
  output : String
  linear : Bool
  deriving Repr, DecidableEq

/-- The members of `gltf::Animation`. -/
structure Animation where
  target : String
  timeAccessor : Option String
  parameters : List Parameter
  channels : List Channel := []
  samplers : List Sampler := []
  name : String := ""
  deriving Repr, DecidableEq

/-- The enumeration `Camera::Type`, with the two enumerators the source names. -/
inductive CameraType where
  | PERSPECTIVE | ORTHOGRAPHIC
  deriving Repr, DecidableEq

/-- The members of `gltf::Camera`, the two `extras` apart; the floats are kept as the
numbers of the manifest. -/
structure Camera where
  type : CameraType := .PERSPECTIVE
  aspectRatio : Json.Number := .int 0
  yfov : Json.Number := .int 0
  znear : Json.Number := .int 0
  zfar : Json.Number := .int 0
  xmag : Json.Number := .int 0
  ymag : Json.Number := .int 0
  name : String := ""
  deriving Repr, DecidableEq

/-- The members of `gltf::Scene`; `nodes` holds registry keys in place of `Node*`. -/
structure Scene where
  nodes : List String
  name : String := ""
  deriving Repr, DecidableEq

/-- The registries of a `File` that are embedded here, and the key of its default scene. -/
structure File where
  mBuffers : Registry Buffer
  mBufferViews : Registry BufferView
  mAccessors : Registry Accessor
  mNodes : Registry Node
  mAnimations : Registry Animation := []
  mScenes : Registry Scene := []
  mDefaultScene : String := ""
  mCameras : Registry Camera := []
  deriving Repr, DecidableEq

/-- Dereference of a pointer into a registry: a null pointer, or a key without an entry, is
undefined behaviour. -/
def deref {α : Type} (reg : Registry α) : Option String → Outcome α
  | none => .undefined
  | some key =>
    match reg.find key with
    | some a => .ok a
    | none => .undefined

/-- Model of `Accessor::getNumComponents` (as written in the source, `MAT4` gives 12). -/
def Accessor.getNumComponents (acc : Accessor) : Nat :=
  match acc.dataType with
  | .SCALAR => 1
  | .VEC2 => 2
  | .VEC3 => 3
  | .VEC4 => 4
  | .MAT2 => 4
  | .MAT3 => 9
  | .MAT4 => 12

/-- A byte pointer: the block of memory it points into and the offset within the block. -/
structure DataPtr where
  memory : List Nat
  offset : Nat
  deriving Repr, DecidableEq

/-- Model of `Accessor::getDataPtr`:
`buffer->getBuffer()->getData() + bufferView->byteOffset + byteOffset`. -/
def Accessor.getDataPtr (file : File) (acc : Accessor) : Outcome DataPtr :=
  (deref file.mBufferViews acc.bufferView).bind fun bufferView =>
  (deref file.mBuffers bufferView.buffer).bind fun buffer =>
  match buffer.data with
  | none => .undefined
  | some bytes => .ok { memory := bytes, offset := bufferView.byteOffset + acc.byteOffset }

/-- The `n` floats that `memcpy( dst, ptr, n * sizeof( float ) )` copies, each as its 32-bit
pattern; a copy that leaves the block is undefined behaviour. -/
def readFloats (ptr : DataPtr) (n : Nat) : Outcome (List Nat) :=
  if ptr.offset + 4 * n ≤ ptr.memory.length then
    .ok ((List.range n).map fun i => readU32 ptr.memory (ptr.offset + 4 * i))
  else .undefined

/-- The first `n` floats at the data pointer of an accessor. -/
def accessorFloats (file : File) (acc : Accessor) (n : Nat) : Outcome (List Nat) :=
  (acc.getDataPtr file).bind fun ptr => readFloats ptr n

/-! ## Animation parameters (`Animation::getParameters`) -/

/-- The record `Animation::ParameterData`; `data` holds the floats as 32-bit patterns. -/
structure ParameterData where
  paramName : String
  numComponents : Nat
  data : List Nat
  deriving Repr, DecidableEq

/-- One iteration of the loop of `getParameters`. The vector is sized with the `uint32_t`
product `totalKeyFrames * numComponents`; the copy has `accessor->count * numComponents`
floats (the same `uint32_t` product, then times `sizeof( float )` in `size_t`), and a copy
longer than the vector is undefined behaviour. -/
def getParametersStep (file : File) (totalKeyFrames : Nat) (param : Parameter)
    (ret : List ParameterData) : Outcome (List ParameterData) :=
  (deref file.mAccessors param.accessor).bind fun accessor =>
  let numComponents := accessor.getNumComponents
  if totalKeyFrames ≠ accessor.count then .assertFailed
  else
    (accessor.getDataPtr file).bind fun dataPtr =>
    let size := (totalKeyFrames * numComponents) % 2 ^ 32
    let copied := (accessor.count * numComponents) % 2 ^ 32
    if size < copied then .undefined
    else
      (readFloats dataPtr copied).bind fun floats =>
      .ok (ret ++ [{ paramName := param.parameter, numComponents := numComponents,
                     data := floats ++ List.replicate (size - copied) 0 }])

/-- Model of `Animation::getParameters`. -/
def Animation.getParameters (file : File) (anim : Animation) : Outcome (List ParameterData) :=
  (deref file.mAccessors anim.timeAccessor).bind fun timeAccessor =>
  if timeAccessor.dataType ≠ .SCALAR then .assertFailed
  else
    let totalKeyFrames := timeAccessor.count
    (timeAccessor.getDataPtr file).bind fun dataPtr =>
    (readFloats dataPtr totalKeyFrames).bind fun timeData =>
    forEach (getParametersStep file totalKeyFrames) anim.parameters
      [{ paramName := "TIME", numComponents := 1, data := timeData }]

/-! ## Skeletons (`Skin::createSkeleton`) -/

/-- The members of `gltf::Skin` read by `createSkeleton`; `inverseBindMatrices` and `joints`
hold registry keys in place of `Accessor*` and `Node*`. -/
structure Skin where
  inverseBindMatrices : Option String
  joints : List String
  deriving Repr, DecidableEq

/-- The record `Skeleton::Joint`: `parentId` is a `uint8_t`, `nameId` a 32-bit index, the
matrix is kept as its sixteen 32-bit float patterns. -/
structure Joint where
  parentId : Nat
  nameId : Nat
  inverseBind : List Nat
  deriving Repr, DecidableEq

/-- A `Skeleton`: the joints and the joint names it is constructed from. -/
structure Skeleton where
  joints : List Joint
  jointNames : List String
  deriving Repr, DecidableEq

/-- The read `*matricesPtr` once the pointer has been incremented `i` times. -/
def readMat4 (matricesPtr : DataPtr) (i : Nat) : Outcome (List Nat) :=
  readFloats { matricesPtr with offset := matricesPtr.offset + 64 * i } 16

/-- The loop of `Skin::createSkeleton`, from iteration `i` on; `jointNames` and
`jointsContainer` are the vectors built so far. `std::find` followed by `std::distance` is
`indexOf` (the length when absent), the assignment to the `uint8_t` reduces modulo 256. -/
def createSkeletonLoop (file : File) (matricesPtr : DataPtr) :
    List String → Nat → List String → List Joint → Outcome Skeleton
  | [], _, jointNames, jointsContainer =>
    .ok { joints := jointsContainer, jointNames := jointNames }
  | jointKey :: rest, i, jointNames, jointsContainer =>
    (deref file.mNodes (some jointKey)).bind fun joint =>
    (if i = 0 then .ok 0xFF
      else
        (deref file.mNodes joint.parent).bind fun parent =>
        .ok (jointNames.indexOf parent.name % 256)).bind fun parentId =>
    if joint.jointName = "" then .assertFailed
    else
      let jointNames1 := jointNames ++ [joint.jointName]
      (readMat4 matricesPtr i).bind fun inverseBind =>
      createSkeletonLoop file matricesPtr rest (i + 1) jointNames1
        (jointsContainer ++ [{ parentId := parentId,
                               nameId := (jointNames1.length - 1) % 2 ^ 32,
                               inverseBind := inverseBind }])

/-- Model of `Skin::createSkeleton`. The loop counter is an `int`: a joint list of `2 ^ 31`
entries or more overflows it, which is undefined behaviour. -/
def Skin.createSkeleton (file : File) (skin : Skin) : Outcome Skeleton :=
  (deref file.mAccessors skin.inverseBindMatrices).bind fun inverseBindMatrices =>
  (inverseBindMatrices.getDataPtr file).bind fun matricesPtr =>
  let numJoints := skin.joints.length
  if 2 ^ 31 ≤ numJoints then .undefined
  else createSkeletonLoop file matricesPtr skin.joints 0 [] []

/-! ### What the skeleton is expected to hold -/

/-- The `jointName` of the node stored under `key` (empty when there is no such node). -/
def jointNameOf (file : File) (key : String) : String :=
  match file.mNodes.find key with
  | some joint => joint.jointName
  | none => ""

/-- The node `name` of the parent of the node stored under `key`, when both exist. -/
def parentNameOf (file : File) (key : String) : Option String :=
  match file.mNodes.find key with
  | some joint =>
    match deref file.mNodes joint.parent with
    | .ok parent => some parent.name
    | _ => none
  | none => none

/-- The parent index the loop gives to joint `i` stored under `key`, `jointNames` being the
joint names of the joints before it. -/
def parentIdAt (file : File) (jointNames : List String) (i : Nat) (key : String) : Nat :=
  if i = 0 then 0xFF
  else
    match parentNameOf file key with
    | some parentName => jointNames.indexOf parentName % 256
    | none => 0

/-- The sixteen float patterns of the `i`-th matrix behind `matricesPtr`. -/
def matAt (matricesPtr : DataPtr) (i : Nat) : List Nat :=
  (List.range 16).map fun t => readU32 matricesPtr.memory (matricesPtr.offset + 64 * i + 4 * t)

/-- The joints the loop appends from iteration `i` on. -/
def jointsFrom (file : File) (matricesPtr : DataPtr) : List String → Nat → List String → List Joint
  | [], _, _ => []
  | key :: rest, i, jointNames =>
    { parentId := parentIdAt file jointNames i key, nameId := i,
      inverseBind := matAt matricesPtr i } ::
      jointsFrom file matricesPtr rest (i + 1) (jointNames ++ [jointNameOf file key])

/-- The position, in the skin's joint order, of the joint whose node name equals the name of
the parent node of joint `i` (the parent index as C8 words it). -/
def parentPositionByNodeName (file : File) (skin : Skin) (i : Nat) : Option Nat :=
  match skin.joints[i]? with
  | some key =>
    match parentNameOf file key with
    | some parentName =>
      some ((skin.joints.map fun k =>
        match file.mNodes.find k with
        | some n => n.name
        | none => "").indexOf parentName)
    | none => none
  | none => none

/-- What the loop needs of joint number `i`, stored under `key`, to run through: the node
exists, its `jointName` is not empty, its parent resolves unless it is the first joint, and
its matrix lies inside the buffer. -/
def jointReady (file : File) (matricesPtr : DataPtr) (i : Nat) (key : String) : Bool :=
  match file.mNodes.find key with
  | some joint =>
    decide (joint.jointName ≠ "") && (decide (i = 0) || (deref file.mNodes joint.parent).isOk)
      && decide (matricesPtr.offset + 64 * i + 64 ≤ matricesPtr.memory.length)
  | none => false

/-- Every joint from number `i` on is ready. -/
def jointsReady (file : File) (matricesPtr : DataPtr) : List String → Nat → Bool
  | [], _ => true
  | key :: rest, i => jointReady file matricesPtr i key && jointsReady file matricesPtr rest (i + 1)

/-- The skin can be turned into a skeleton without undefined behaviour or a failed
assertion. -/
def Skin.wellFormed (file : File) (skin : Skin) : Bool :=
  match deref file.mAccessors skin.inverseBindMatrices with
  | .ok acc =>
    match acc.getDataPtr file with
    | .ok matricesPtr =>
      decide (skin.joints.length < 2 ^ 31) && jointsReady file matricesPtr skin.joints 0
    | _ => false
  | _ => false

/-- Every joint after the first has a parent whose node name is the `jointName` of an
earlier joint of the skin. -/
def parentsPrecede (file : File) (skin : Skin) : Bool :=
  (List.range skin.joints.length).all fun i =>
    decide (i = 0) ||
      match skin.joints[i]? with
      | some key =>
        match parentNameOf file key with
        | some parentName =>
          decide (parentName ∈ (skin.joints.take i).map (jointNameOf file))
        | none => false
      | none => false

/-- Model of `Accessor::getNumBytesForComponentType`: the size of a BYTE (5120),
UNSIGNED_BYTE (5121), SHORT (5122), UNSIGNED_SHORT (5123) or FLOAT (5126) component, and 0
(after an error is logged) for any other component type. -/
def Accessor.getNumBytesForComponentType (acc : Accessor) : Nat :=
  if acc.componentType = 5120 ∨ acc.componentType = 5121 then 1
  else if acc.componentType = 5122 ∨ acc.componentType = 5123 then 2
  else if acc.componentType = 5126 then 4
  else 0

/-! ## Transform clips (`Animation::createTransformClip`) -/

/-- A `ci::vec3`, its three floats as 32-bit patterns. -/
structure Vec3 where
  x : Nat
  y : Nat
  z : Nat
  deriving Repr, DecidableEq

/-- A `ci::quat`, its four floats as 32-bit patterns in the order they lie in memory
(x, y, z, w). -/
structure Quat where
  x : Nat
  y : Nat
  z : Nat
  w : Nat
  deriving Repr, DecidableEq

/-- The pattern of the float `1.0f` (`0x3F800000`); the pattern of `0.0f` is `0`. -/
def floatOne : Nat := 1065353216

/-- The default-constructed `ci::vec3`: the math library initialises it to zero. -/
def Vec3.zero : Vec3 := { x := 0, y := 0, z := 0 }

/-- The vector `vec3( 1 )`. -/
def Vec3.one : Vec3 := { x := floatOne, y := floatOne, z := floatOne }

/-- The default-constructed `ci::quat`: the math library initialises it to the identity
rotation. -/
def Quat.identity : Quat := { x := 0, y := 0, z := 0, w := floatOne }

/-- A keyframe `std::pair<double, T>`. The time is a `double` converted from a `float`; the
conversion is exact, and the time is kept as the pattern of that float (`0` for `0.0`). -/
abbrev Keyframe (α : Type) := Nat × α

/-- The three keyframe vectors a `TransformClip` is constructed from. -/
structure TransformClip where
  translation : List (Keyframe Vec3)
  rotation : List (Keyframe Quat)
  scale : List (Keyframe Vec3)
  deriving Repr, DecidableEq

/-- The four pointers `timeData`, `scaleData`, `transData`, `rotData` of
`createTransformClip`; `none` is `nullptr`. -/
structure ClipData where
  timeData : Option (List Nat) := none
  scaleData : Option (List Nat) := none
  transData : Option (List Nat) := none
  rotData : Option (List Nat) := none
  deriving Repr, DecidableEq

/-- The body of the first loop of `createTransformClip`: the record's data is taken when its
name is one of the four known names. -/
def selectParam (sel : ClipData) (param : ParameterData) : ClipData :=
  if param.paramName = "TIME" then { sel with timeData := some param.data }
  else if param.paramName = "rotation" then { sel with rotData := some param.data }
  else if param.paramName = "scale" then { sel with scaleData := some param.data }
  else if param.paramName = "translation" then { sel with transData := some param.data }
  else sel

/-- The first loop of `createTransformClip`: of several records with one name the last one
is kept. -/
def selectData (paramData : List ParameterData) : ClipData :=
  paramData.foldl selectParam {}

/-- The conversion of a `size_t` to `int` (`int end = totalKeyFrames`): the low 32 bits, read
as a two's complement number. -/
def toInt32 (n : Nat) : Int :=
  if n % 2 ^ 32 < 2 ^ 31 then ((n % 2 ^ 32 : Nat) : Int) else ((n % 2 ^ 32 : Nat) : Int) - 2 ^ 32

/-- The product `i * k` of two non-negative `int`s; signed overflow is undefined behaviour. -/
def intMul (i k : Nat) : Outcome Nat :=
  if i * k < 2 ^ 31 then .ok (i * k) else .undefined

/-- The read `*reinterpret_cast<const ci::vec3*>( &data[index] )`: three floats from
`index` on; leaving the vector is undefined behaviour. -/
def readVec3 (data : List Nat) (index : Nat) : Outcome Vec3 :=
  if index + 3 ≤ data.length then
    .ok { x := data.getD index 0, y := data.getD (index + 1) 0, z := data.getD (index + 2) 0 }
  else .undefined

/-- The read `*reinterpret_cast<const ci::quat*>( &data[index] )`: four floats from `index`
on, in the order x, y, z, w. -/
def readQuat (data : List Nat) (index : Nat) : Outcome Quat :=
  if index + 4 ≤ data.length then
    .ok { x := data.getD index 0, y := data.getD (index + 1) 0, z := data.getD (index + 2) 0,
          w := data.getD (index + 3) 0 }
  else .undefined

/-- The assignment `keyframes[i].first = time`. -/
def setTime {α : Type} (keyframes : List (Keyframe α)) (i : Nat) (time : Nat) :
    List (Keyframe α) :=
  keyframes.modify (fun kf => (time, kf.2)) i

/-- The assignment `keyframes[i].second = value`. -/
def setValue {α : Type} (keyframes : List (Keyframe α)) (i : Nat) (value : α) :
    List (Keyframe α) :=
  keyframes.modify (fun kf => (kf.1, value)) i

/-- The value read for keyframe `i` of a track with `stride` floats per key: nothing when
the pointer is null. -/
def readKey {α : Type} (read : List Nat → Nat → Outcome α) (stride : Nat)
    (data : Option (List Nat)) (i : Nat) : Outcome (Option α) :=
  match data with
  | none => .ok none
  | some d => (intMul i stride).bind fun index => (read d index).bind fun v => .ok (some v)

/-- The assignment of a value that was read, none when the pointer is null. -/
def setRead {α : Type} (keyframes : List (Keyframe α)) (i : Nat) (value : Option α) :
    List (Keyframe α) :=
  match value with
  | none => keyframes
  | some v => setValue keyframes i v

/-- The body of the second loop of `createTransformClip` for the index `i`. -/
def clipStep (timeData : List Nat) (sel : ClipData) (i : Nat) (clip : TransformClip) :
    Outcome TransformClip :=
  match timeData[i]? with
  | none => .undefined
  | some time =>
    let translationKeyframes := setTime clip.translation i time
    let rotationKeyframes := setTime clip.rotation i time
    let scaleKeyframes := setTime clip.scale i time
    (readKey readVec3 3 sel.transData i).bind fun translation =>
    (readKey readQuat 4 sel.rotData i).bind fun rotation =>
    (readKey readVec3 3 sel.scaleData i).bind fun scale =>
    .ok { translation := setRead translationKeyframes i translation
          rotation := setRead rotationKeyframes i rotation
          scale := setRead scaleKeyframes i scale }

/-- Model of `Animation::createTransformClip`. Without a TIME record `timeData` stays null
and is dereferenced. The translation and rotation vectors start value-initialised, the
scale vector is filled with `{ 0.0, vec3( 1 ) }`; the loop runs while `i < end`, `end` being
the key count converted to `int`. -/
def createTransformClip (paramData : List ParameterData) : Outcome TransformClip :=
  let sel := selectData paramData
  match sel.timeData with
  | none => .undefined
  | some timeData =>
    let totalKeyFrames := timeData.length
    forEach (clipStep timeData sel) (List.range (toInt32 totalKeyFrames).toNat)
      { translation := List.replicate totalKeyFrames (0, Vec3.zero)
        rotation := List.replicate totalKeyFrames (0, Quat.identity)
        scale := List.replicate totalKeyFrames (0, Vec3.one) }

/-! ## Skeleton animations (`File::createSkeletonAnim`) -/

/-- The `std::find_if` of `createSkeletonAnim`: the first entry of `mAnimations`, in
iteration order, whose `target` is the bone name; `none` is `mAnimations.end()`. -/
def findAnimation (mAnimations : Registry Animation) (boneName : String) :
    Option (String × Animation) :=
  mAnimations.find? fun animation => decide (animation.2.target = boneName)

/-- The call `gltf::Animation::createTransformClip( found->second.getParameters() )`. -/
def buildClip (file : File) (animation : Animation) : Outcome TransformClip :=
  (animation.getParameters file).bind fun params => createTransformClip params

/-- The body of the loop of `createSkeletonAnim` for one bone name. A bone without an
animation runs into `CI_ASSERT_MSG( false, ... )`. -/
def skeletonAnimStep (file : File) (boneName : String) (skeletonClips : List TransformClip) :
    Outcome (List TransformClip) :=
  match findAnimation file.mAnimations boneName with
  | some found => (buildClip file found.2).bind fun clip => .ok (skeletonClips ++ [clip])
  | none => .assertFailed

/-- Model of `File::createSkeletonAnim`; the result is the vector of clips the
`Skeleton::Anim` is made from. -/
def File.createSkeletonAnim (file : File) (skeleton : Skeleton) : Outcome (List TransformClip) :=
  forEach (skeletonAnimStep file) skeleton.jointNames []

/-! ### What the clip is expected to hold -/

/-- The record of a given name that counts: the last one in the list. -/
def lastNamed (paramData : List ParameterData) (name : String) : Option ParameterData :=
  (paramData.filter fun p => p.paramName = name).getLast?

/-- The value the loop reads for keyframe `i` of a track, none when the pointer is null. -/
def readValue {α : Type} (read : List Nat → Nat → Outcome α) (stride : Nat)
    (data : Option (List Nat)) (i : Nat) : Option α :=
  match readKey read stride data i with
  | .ok v => v
  | _ => none

/-- The keyframe a track holds at `j` once the loop has passed the indices below `k`. -/
def keyAfter {α : Type} (timeData : List Nat) (value : Nat → Option α) (k : Nat)
    (track : List (Keyframe α)) (j : Nat) : Option (Keyframe α) :=
  if j < k then track[j]?.map (fun kf => (timeData.getD j 0, (value j).getD kf.2))
  else track[j]?

/-- Every read of `n` keys from a track stays inside its data, with an index that fits an
`int`. -/
def trackReady (stride n : Nat) (data : Option (List Nat)) : Bool :=
  match data with
  | none => true
  | some d =>
    (List.range n).all fun i =>
      decide (i * stride < 2 ^ 31) && decide (i * stride + stride ≤ d.length)

/-- The records can be turned into a clip without undefined behaviour: there is a TIME
record, its key count fits an `int`, and every present track has data for every key. -/
def clipReady (paramData : List ParameterData) : Bool :=
  match (selectData paramData).timeData with
  | none => false
  | some timeData =>
    decide (timeData.length < 2 ^ 31) &&
    trackReady 3 timeData.length (selectData paramData).transData &&
    trackReady 4 timeData.length (selectData paramData).rotData &&
    trackReady 3 timeData.length (selectData paramData).scaleData

/-! ## Decoding the manifest (`File::load` and the `add...Info` functions) -/

namespace Registry

/-- Model of `operator[]( key )` used for its side effect: a key without an entry gets a
default-constructed one. Where the new entry stands in the iteration order depends on the
container and is not modelled: it is put last. -/
def touch {α : Type} (reg : Registry α) (key : String) (dflt : α) : Registry α :=
  match reg.find key with
  | some _ => reg
  | none => reg ++ [(key, dflt)]

/-- Model of `reg[key] = value`: the entry stored under `key` is replaced, a key without an
entry gets one. -/
def set {α : Type} (reg : Registry α) (key : String) (value : α) : Registry α :=
  match reg.find key with
  | some _ => reg.modify key fun _ => value
  | none => reg ++ [(key, value)]

/-- A run of `operator[]` over several keys. -/
def touchAll {α : Type} (reg : Registry α) (keys : List String) (dflt : α) : Registry α :=
  keys.foldl (fun r key => r.touch key dflt) reg

end Registry

/-- The default-constructed entities: what a declaration `Accessor ret;` and an insertion
by `operator[]` produce. The header that declares the members and their initialisers is not
among the sources, so the values are left open. -/
structure Defaults where
  buffer : Buffer
  bufferView : BufferView
  accessor : Accessor
  node : Node
  animation : Animation
  scene : Scene
  camera : Camera := {}

/-- What the loader takes from outside the decoders embedded here: the default-constructed
entities, the member `mBuffer` left by `verifyFile`, the file system (`loadFile` of
`mGltfPath / uri`), `fromBase64`, the conversion of a real number (kept as text) to
`UInt`, and the decoders of the categories that are not embedded (images, lights,
materials, meshes, programs, samplers, shaders, skins, techniques, textures). Of such a
decoder the host gives the outcome and, on success, the keys on which it calls
`mAccessors[...]` (`addMeshInfo`, `addSkinInfo`) and `mNodes[...]` (`addSkinInfo`,
`addTechniqueInfo`); its other writes go to registries that are not embedded. -/
structure Host where
  defaults : Defaults
  mBuffer : Option (List Nat)
  loadFile : String → Outcome (List Nat)
  fromBase64 : String → List Nat
  realToUInt : String → Option Nat
  foreign : String → String → Json → Outcome (List String × List String)

/-- The macro `CI_ASSERT`, enabled. -/
def CI_ASSERT (cond : Bool) : Outcome Unit :=
  if cond then .ok () else .assertFailed

/-- The member `info[name]` of a manifest entry. -/
def member (info : Json) (name : String) : Outcome Json :=
  Outcome.ofJson (info.get name)

/-- The call `info[name].asString()`. -/
def memberString (info : Json) (name : String) : Outcome String :=
  (member info name).bind fun v => Outcome.ofJson v.asString

/-- The call `info[name].asUInt()`. -/
def memberUInt (host : Host) (info : Json) (name : String) : Outcome Nat :=
  (member info name).bind fun v => Outcome.ofJson (v.asUInt host.realToUInt)

/-- The `asFloat` of every element, in order; the first element that is not convertible
throws. -/
def collectFloats : List Json → Outcome (List Json.Number)
  | [] => .ok []
  | j :: rest =>
    (Outcome.ofJson j.asFloat).bind fun x =>
    (collectFloats rest).bind fun xs => .ok (x :: xs)

/-- The chain of comparisons of `addAccessorInfo` on the `type` string; the last branch is
`CI_ASSERT_MSG( false, "Unknown data type" )`. -/
def parseDataType (type : String) : Outcome DataType :=
  if type = "SCALAR" then .ok .SCALAR
  else if type = "VEC2" then .ok .VEC2
  else if type = "VEC3" then .ok .VEC3
  else if type = "VEC4" then .ok .VEC4
  else if type = "MAT2" then .ok .MAT2
  else if type = "MAT3" then .ok .MAT3
  else if type = "MAT4" then .ok .MAT4
  else .assertFailed

/-- One round of the loop `for( int i = 0; i < maxSize; i++ )` of `addAccessorInfo`; the
increment that would leave the range of `int` is undefined behaviour. -/
def minMaxStep (maxElem minElem : Json) (i : Nat)
    (ret : List Json.Number × List Json.Number) :
    Outcome (List Json.Number × List Json.Number) :=
  if 2 ^ 31 ≤ i then .undefined
  else
    (Outcome.ofJson (maxElem.getIndex i)).bind fun maxVal =>
    (Outcome.ofJson maxVal.asFloat).bind fun maxFloat =>
    (Outcome.ofJson (minElem.getIndex i)).bind fun minVal =>
    (Outcome.ofJson minVal.asFloat).bind fun minFloat =>
    .ok (ret.1 ++ [maxFloat], ret.2 ++ [minFloat])

/-- The part of `addAccessorInfo` that fills `ret` from the manifest entry, in the order
of the source. The copy of `extras` is left out. -/
def decodeAccessor (host : Host) (accessorInfo : Json) : Outcome Accessor :=
  (member accessorInfo "bufferView").bind fun bufferViewVal =>
  (CI_ASSERT bufferViewVal.isString).bind fun _ =>
  (member accessorInfo "byteOffset").bind fun byteOffsetVal =>
  (CI_ASSERT byteOffsetVal.isNumeric).bind fun _ =>
  (member accessorInfo "componentType").bind fun componentTypeVal =>
  (CI_ASSERT componentTypeVal.isNumeric).bind fun _ =>
  (member accessorInfo "type").bind fun typeVal =>
  (CI_ASSERT typeVal.isString).bind fun _ =>
  (member accessorInfo "count").bind fun countVal =>
  (CI_ASSERT countVal.isNumeric).bind fun _ =>
  (memberString accessorInfo "bufferView").bind fun bufferViewKey =>
  (memberUInt host accessorInfo "byteOffset").bind fun byteOffset =>
  (memberUInt host accessorInfo "count").bind fun count =>
  (memberString accessorInfo "type").bind fun type =>
  (parseDataType type).bind fun dataType =>
  (memberUInt host accessorInfo "componentType").bind fun componentType =>
  (memberString accessorInfo "name").bind fun name =>
  (member accessorInfo "byteStride").bind fun byteStrideVal =>
  (if !byteStrideVal.isNull then memberUInt host accessorInfo "byteStride"
   else .ok host.defaults.accessor.byteStride).bind fun byteStride =>
  (member accessorInfo "max").bind fun maxElem =>
  (member accessorInfo "min").bind fun minElem =>
  (if !maxElem.isNull && !minElem.isNull then
    (CI_ASSERT (decide (maxElem.size = minElem.size))).bind fun _ =>
    forEach (minMaxStep maxElem minElem) (List.range maxElem.size) ([], [])
   else .ok (host.defaults.accessor.max, host.defaults.accessor.min)).bind fun maxMin =>
  .ok { host.defaults.accessor with
        bufferView := some bufferViewKey
        byteOffset := byteOffset
        count := count
        dataType := dataType
        componentType := componentType
        name := name
        byteStride := byteStride
        max := maxMin.1
        min := maxMin.2 }

/-- The part of `addBufferViewInfo` that fills `ret` from the manifest entry. -/
def decodeBufferView (host : Host) (bufferViewInfo : Json) : Outcome BufferView :=
  (member bufferViewInfo "byteOffset").bind fun byteOffsetVal =>
  (CI_ASSERT byteOffsetVal.isNumeric).bind fun _ =>
  (member bufferViewInfo "buffer").bind fun bufferVal =>
  (CI_ASSERT bufferVal.isString).bind fun _ =>
  (memberString bufferViewInfo "buffer").bind fun bufferKey =>
  (memberUInt host bufferViewInfo "byteOffset").bind fun byteOffset =>
  (memberUInt host bufferViewInfo "byteLength").bind fun byteLength =>
  (memberUInt host bufferViewInfo "target").bind fun target =>
  (memberString bufferViewInfo "name").bind fun name =>
  .ok { host.defaults.bufferView with
        buffer := some bufferKey
        byteOffset := byteOffset
        byteLength := byteLength
        target := target
        name := name }

/-- The part of `addBufferInfo` that fills `ret`. A uri with a comma is split at the first
one and the rest is decoded as base64; otherwise the key `binary_glTF` takes `mBuffer` and
any other key loads the file the uri names. -/
def decodeBuffer (host : Host) (key : String) (bufferInfo : Json) : Outcome Buffer :=
  (member bufferInfo "uri").bind fun uriVal =>
  (CI_ASSERT uriVal.isString).bind fun _ =>
  (memberString bufferInfo "uri").bind fun uri =>
  (if ',' ∈ uri.toList then
    .ok (String.mk (uri.toList.takeWhile fun c => c ≠ ','),
         some (host.fromBase64 (String.mk ((uri.toList.dropWhile fun c => c ≠ ',').drop 1))))
   else if key = "binary_glTF" then .ok (host.defaults.buffer.uri, host.mBuffer)
   else (host.loadFile uri).bind fun bytes =>
    .ok (host.defaults.buffer.uri, some bytes)).bind fun uriData =>
  (memberString bufferInfo "type").bind fun type =>
  (memberUInt host bufferInfo "byteLength").bind fun byteLength =>
  (memberString bufferInfo "name").bind fun name =>
  .ok { host.defaults.buffer with
        uri := uriData.1
        data := uriData.2
        type := type
        byteLength := byteLength
        name := name }

/-- The body of the channel loop of `addAnimationInfo`. -/
def decodeChannel (channel : Json) : Outcome Channel :=
  (member channel "target").bind fun target =>
  (member channel "sampler").bind fun samplerVal =>
  (CI_ASSERT samplerVal.isString).bind fun _ =>
  (CI_ASSERT target.isObject).bind fun _ =>
  (member target "id").bind fun idVal =>
  (CI_ASSERT idVal.isString).bind fun _ =>
  (member target "path").bind fun pathVal =>
  (CI_ASSERT pathVal.isString).bind fun _ =>
  (memberString target "id").bind fun targetNodeKey =>
  (memberString channel "sampler").bind fun sampler =>
  (memberString target "path").bind fun path =>
  .ok { targetId := targetNodeKey, target := some targetNodeKey, sampler := sampler,
        path := path }

/-- The body of the sampler loop of `addAnimationInfo`. -/
def decodeSampler (sampler : Json) : Outcome Sampler :=
  (member sampler "input").bind fun inputVal =>
  (CI_ASSERT inputVal.isString).bind fun _ =>
  (member sampler "output").bind fun outputVal =>
  (CI_ASSERT outputVal.isString).bind fun _ =>
  (memberString sampler "input").bind fun input =>
  (memberString sampler "output").bind fun output =>
  (member sampler "interpolation").bind fun interpolation =>
  .ok { input := input, output := output,
        linear := interpolation.isString && decide (interpolation.asString = some "LINEAR") }

/-- A loop that decodes every element and appends the results in order. -/
def decodeEach {α β : Type} (decode : α → Outcome β) : List α → Outcome (List β)
  | [] => .ok []
  | x :: rest =>
    (decode x).bind fun y => (decodeEach decode rest).bind fun ys => .ok (y :: ys)

/-- The state of the parameter loop of `addAnimationInfo`: the two members it writes, and
the keys on which it called `mAccessors[...]`. -/
structure ParameterLoop where
  timeAccessor : Option String
  parameters : List Parameter
  accessorKeys : List String

/-- The body of the parameter loop of `addAnimationInfo`: the key `TIME` sets the time
accessor, any other key appends a parameter. -/
def decodeParameter (params : Json) (key : String) (ret : ParameterLoop) :
    Outcome ParameterLoop :=
  (memberString params key).bind fun accessorKey =>
  if key = "TIME" then
    .ok { ret with timeAccessor := some accessorKey,
                   accessorKeys := ret.accessorKeys ++ [accessorKey] }
  else
    .ok { ret with
          parameters := ret.parameters ++ [{ parameter := key, accessor := some accessorKey }]
          accessorKeys := ret.accessorKeys ++ [accessorKey] }

/-- What `addAnimationInfo` has when it reaches `add`: the animation, and the keys on which
it called `mNodes[...]` and `mAccessors[...]`. -/
structure DecodedAnimation where
  ret : Animation
  nodeKeys : List String
  accessorKeys : List String

/-- The part of `addAnimationInfo` that fills `ret`. The animation's `target` is
`ret.channels[0].targetId`, which does not exist when there is no channel. The copies of
`extras` are left out. -/
def decodeAnimation (host : Host) (animationInfo : Json) : Outcome DecodedAnimation :=
  (member animationInfo "channels").bind fun channels =>
  (decodeEach decodeChannel channels.elements).bind fun decoded =>
  let retChannels := host.defaults.animation.channels ++ decoded
  match retChannels.head? with
  | none => .undefined
  | some first =>
    (member animationInfo "samplers").bind fun samplers =>
    (decodeEach decodeSampler samplers.elements).bind fun retSamplers =>
    (memberString animationInfo "name").bind fun name =>
    (member animationInfo "parameters").bind fun params =>
    (Outcome.ofJson params.getMemberNames).bind fun paramKeys =>
    (forEach (decodeParameter params) paramKeys
      { timeAccessor := host.defaults.animation.timeAccessor
        parameters := host.defaults.animation.parameters
        accessorKeys := [] }).bind
    fun loop =>
    .ok { ret := { host.defaults.animation with
                   channels := retChannels
                   target := first.targetId
                   samplers := host.defaults.animation.samplers ++ retSamplers
                   name := name
                   timeAccessor := loop.timeAccessor
                   parameters := loop.parameters }
          nodeKeys := decoded.map fun channel => channel.targetId
          accessorKeys := loop.accessorKeys }

/-- A member of a node that holds an array of floats: nothing is appended when the member
is null. -/
def memberFloats (nodeInfo : Json) (name : String) (init : List Json.Number) :
    Outcome (List Json.Number) :=
  (member nodeInfo name).bind fun array =>
  if !array.isNull then (collectFloats array.elements).bind fun xs => .ok (init ++ xs)
  else .ok init

/-- A member of a node that holds an array of keys: nothing is appended when the member is
null. -/
def memberKeys (nodeInfo : Json) (name : String) (init : List String) :
    Outcome (List String) :=
  (member nodeInfo name).bind fun array =>
  if !array.isNull then (collectStrings array.elements).bind fun xs => .ok (init ++ xs)
  else .ok init

/-- The transform part of `addNodeInfo`: a `matrix` member keeps the decoder from reading
`translation`, `rotation` and `scale`. -/
def decodeTransform (ret : Node) (nodeInfo : Json) : Outcome Node :=
  (member nodeInfo "matrix").bind fun matrix =>
  if !matrix.isNull then
    (collectFloats matrix.elements).bind fun xs =>
    .ok { ret with transformMatrix := ret.transformMatrix ++ xs }
  else
    (memberFloats nodeInfo "translation" ret.translation).bind fun translation =>
    (memberFloats nodeInfo "rotation" ret.rotation).bind fun rotation =>
    (memberFloats nodeInfo "scale" ret.scale).bind fun scale =>
    .ok { ret with translation := translation, rotation := rotation, scale := scale }

/-- What `addNodeInfo` has when it reaches `add`: the node, and the keys on which it called
`mNodes[...]` (the skeleton roots) and `mCameras[...]`. -/
structure DecodedNode where
  ret : Node
  nodeKeys : List String
  cameraKeys : List String := []

/-- The attachment part of `addNodeInfo`: one of extensions (a light), camera, joint name,
or the renderable data (meshes, skin, skeletons). -/
def decodeAttachment (ret : Node) (nodeInfo : Json) : Outcome DecodedNode :=
  (member nodeInfo "extensions").bind fun ext =>
  if !ext.isNull then
    (member ext "KHR_materials_common").bind fun common =>
    if !common.isNull then
      (memberString common "light").bind fun lightKey =>
      .ok { ret := { ret with light := some lightKey }, nodeKeys := [] }
    else .ok { ret := ret, nodeKeys := [] }
  else
    (member nodeInfo "camera").bind fun camera =>
    if !camera.isNull then
      (memberString nodeInfo "camera").bind fun cameraKey =>
      .ok { ret := { ret with camera := some cameraKey }, nodeKeys := [],
            cameraKeys := [cameraKey] }
    else
      (member nodeInfo "jointName").bind fun jointName =>
      if !jointName.isNull then
        (memberString nodeInfo "jointName").bind fun name =>
        .ok { ret := { ret with jointName := name }, nodeKeys := [] }
      else
        (memberKeys nodeInfo "meshes" ret.meshes).bind fun meshes =>
        (member nodeInfo "skin").bind fun skin =>
        (if !skin.isNull then
          (memberString nodeInfo "skin").bind fun skinKey => .ok (some skinKey)
         else .ok ret.skin).bind fun retSkin =>
        (memberKeys nodeInfo "skeletons" []).bind fun skeletonKeys =>
        .ok { ret := { ret with meshes := meshes, skin := retSkin,
                                skeletons := ret.skeletons ++ skeletonKeys }
              nodeKeys := skeletonKeys }

/-- The part of `addNodeInfo` that fills `ret`. The copy of `extras` is left out. -/
def decodeNode (host : Host) (nodeInfo : Json) : Outcome DecodedNode :=
  (decodeTransform host.defaults.node nodeInfo).bind fun ret1 =>
  (decodeAttachment ret1 nodeInfo).bind fun ret2 =>
  (memberString nodeInfo "name").bind fun name =>
  .ok { ret2 with ret := { ret2.ret with name := name } }

/-- The part of `addSceneInfo` that fills `ret`: `nodes` is resized to the size of the
manifest's list and assigned entry by entry; the name is read from the member `names`. The
copy of `extras` is left out. -/
def decodeScene (host : Host) (sceneInfo : Json) : Outcome Scene :=
  (member sceneInfo "nodes").bind fun nodes =>
  (collectStrings nodes.elements).bind fun nodeKeys =>
  (memberString sceneInfo "names").bind fun name =>
  .ok { host.defaults.scene with nodes := nodeKeys, name := name }

/-- Model of `File::addAccessorInfo`. The entry is decoded first and the writes to the
registries follow: a failing decoder ends the load, so the call `mBufferViews[...]` it made
before it failed is not observable. -/
def addAccessorInfo (host : Host) (key : String) (accessorInfo : Json) (file : File) :
    Outcome File :=
  (decodeAccessor host accessorInfo).bind fun ret =>
  .ok { file with
        mBufferViews :=
          file.mBufferViews.touchAll ret.bufferView.toList host.defaults.bufferView
        mAccessors := file.mAccessors.set key ret }

/-- Model of `File::addBufferViewInfo`, decoded first like `addAccessorInfo`. -/
def addBufferViewInfo (host : Host) (key : String) (bufferViewInfo : Json) (file : File) :
    Outcome File :=
  (decodeBufferView host bufferViewInfo).bind fun ret =>
  .ok { file with
        mBuffers := file.mBuffers.touchAll ret.buffer.toList host.defaults.buffer
        mBufferViews := file.mBufferViews.set key ret }

/-- Model of `File::addBufferInfo`. -/
def addBufferInfo (host : Host) (key : String) (bufferInfo : Json) (file : File) :
    Outcome File :=
  (decodeBuffer host key bufferInfo).bind fun ret =>
  .ok { file with mBuffers := file.mBuffers.set key ret }

/-- Model of `File::addAnimationInfo`, decoded first like `addAccessorInfo`. -/
def addAnimationInfo (host : Host) (key : String) (animationInfo : Json) (file : File) :
    Outcome File :=
  (decodeAnimation host animationInfo).bind fun decoded =>
  .ok { file with
        mNodes := file.mNodes.touchAll decoded.nodeKeys host.defaults.node
        mAccessors := file.mAccessors.touchAll decoded.accessorKeys host.defaults.accessor
        mAnimations := file.mAnimations.set key decoded.ret }

/-- Model of `File::addNodeInfo`, decoded first like `addAccessorInfo`. The registries of
lights, meshes and skins, on which it also calls `operator[]`, are not embedded. -/
def addNodeInfo (host : Host) (key : String) (nodeInfo : Json) (file : File) : Outcome File :=
  (decodeNode host nodeInfo).bind fun decoded =>
  .ok { file with
        mNodes := (file.mNodes.touchAll decoded.nodeKeys host.defaults.node).set key
          decoded.ret
        mCameras := file.mCameras.touchAll decoded.cameraKeys host.defaults.camera }

/-- The perspective branch of `addCameraInfo`. -/
def decodePerspective (ret : Camera) (cameraInfo : Json) : Outcome Camera :=
  (member cameraInfo "perspective").bind fun perspectiveInfo =>
  (member perspectiveInfo "yfov").bind fun yfovVal =>
  (CI_ASSERT yfovVal.isNumeric).bind fun _ =>
  (member perspectiveInfo "znear").bind fun znearVal =>
  (CI_ASSERT znearVal.isNumeric).bind fun _ =>
  (member perspectiveInfo "zfar").bind fun zfarVal =>
  (CI_ASSERT zfarVal.isNumeric).bind fun _ =>
  (member perspectiveInfo "aspectRatio").bind fun aspectRatioVal =>
  (Outcome.ofJson aspectRatioVal.asFloat).bind fun aspectRatio =>
  (Outcome.ofJson yfovVal.asFloat).bind fun yfov =>
  (Outcome.ofJson znearVal.asFloat).bind fun znear =>
  (Outcome.ofJson zfarVal.asFloat).bind fun zfar =>
  .ok { ret with aspectRatio := aspectRatio, yfov := yfov, znear := znear, zfar := zfar }

/-- The orthographic branch of `addCameraInfo`. -/
def decodeOrthographic (ret : Camera) (cameraInfo : Json) : Outcome Camera :=
  (member cameraInfo "orthographic").bind fun orthographicInfo =>
  (member orthographicInfo "xmag").bind fun xmagVal =>
  (CI_ASSERT xmagVal.isNumeric).bind fun _ =>
  (member orthographicInfo "ymag").bind fun ymagVal =>
  (CI_ASSERT ymagVal.isNumeric).bind fun _ =>
  (member orthographicInfo "znear").bind fun znearVal =>
  (CI_ASSERT znearVal.isNumeric).bind fun _ =>
  (member orthographicInfo "zfar").bind fun zfarVal =>
  (CI_ASSERT zfarVal.isNumeric).bind fun _ =>
  (Outcome.ofJson xmagVal.asFloat).bind fun xmag =>
  (Outcome.ofJson ymagVal.asFloat).bind fun ymag =>
  (Outcome.ofJson znearVal.asFloat).bind fun znear =>
  (Outcome.ofJson zfarVal.asFloat).bind fun zfar =>
  .ok { ret with xmag := xmag, ymag := ymag, znear := znear, zfar := zfar }

/-- The part of `addCameraInfo` that fills `ret`: the type is PERSPECTIVE for the string
`perspective` and ORTHOGRAPHIC for any other string. The copies of `extras` are left
out. -/
def decodeCamera (host : Host) (cameraInfo : Json) : Outcome Camera :=
  (member cameraInfo "type").bind fun typeVal =>
  (CI_ASSERT typeVal.isString).bind fun _ =>
  (memberString cameraInfo "type").bind fun cameraType =>
  let type := if cameraType = "perspective" then CameraType.PERSPECTIVE
    else CameraType.ORTHOGRAPHIC
  (match type with
    | .PERSPECTIVE => decodePerspective { host.defaults.camera with type := type } cameraInfo
    | .ORTHOGRAPHIC =>
      decodeOrthographic { host.defaults.camera with type := type } cameraInfo).bind
  fun ret1 =>
  (memberString cameraInfo "name").bind fun name =>
  .ok { ret1 with name := name }

/-- Model of `File::addCameraInfo`. -/
def addCameraInfo (host : Host) (key : String) (cameraInfo : Json) (file : File) :
    Outcome File :=
  (decodeCamera host cameraInfo).bind fun ret =>
  .ok { file with mCameras := file.mCameras.set key ret }

/-- Model of `File::addSceneInfo`, decoded first like `addAccessorInfo`. -/
def addSceneInfo (host : Host) (key : String) (sceneInfo : Json) (file : File) :
    Outcome File :=
  (decodeScene host sceneInfo).bind fun ret =>
  .ok { file with
        mNodes := file.mNodes.touchAll ret.nodes host.defaults.node
        mScenes := file.mScenes.set key ret }

/-- A decoder of a category that is not embedded: the host gives its outcome and the keys
of accessors and nodes on which it calls `operator[]`. -/
def addForeignInfo (host : Host) (typeName key : String) (obj : Json) (file : File) :
    Outcome File :=
  (host.foreign typeName key obj).bind fun touched =>
  .ok { file with
        mAccessors := file.mAccessors.touchAll touched.1 host.defaults.accessor
        mNodes := file.mNodes.touchAll touched.2 host.defaults.node }

/-- The chain of comparisons in the inner loop of `File::load`: the decoder of the category
named `typeName` is run on the entry; an unknown name does nothing. -/
def addInfo (host : Host) (typeName typeKey : String) (obj : Json) (file : File) :
    Outcome File :=
  if typeName = "accessors" then addAccessorInfo host typeKey obj file
  else if typeName = "animations" then addAnimationInfo host typeKey obj file
  else if typeName = "bufferViews" then addBufferViewInfo host typeKey obj file
  else if typeName = "buffers" then addBufferInfo host typeKey obj file
  else if typeName = "cameras" then addCameraInfo host typeKey obj file
  else if typeName = "images" then addForeignInfo host typeName typeKey obj file
  else if typeName = "materials" then addForeignInfo host typeName typeKey obj file
  else if typeName = "meshes" then addForeignInfo host typeName typeKey obj file
  else if typeName = "nodes" then addNodeInfo host typeKey obj file
  else if typeName = "programs" then addForeignInfo host typeName typeKey obj file
  else if typeName = "samplers" then addForeignInfo host typeName typeKey obj file
  else if typeName = "scenes" then addSceneInfo host typeKey obj file
  else if typeName = "shaders" then addForeignInfo host typeName typeKey obj file
  else if typeName = "skins" then addForeignInfo host typeName typeKey obj file
  else if typeName = "techniques" then addForeignInfo host typeName typeKey obj file
  else if typeName = "textures" then addForeignInfo host typeName typeKey obj file
  else .ok file

/-- The inner loop of `File::load` over the members of one category. -/
def loadType (host : Host) (typeName : String) (typeObj : Json) (file : File) :
    Outcome File :=
  (Outcome.ofJson typeObj.getMemberNames).bind fun typeKeys =>
  forEach (fun typeKey file1 =>
      (member typeObj typeKey).bind fun obj => addInfo host typeName typeKey obj file1)
    typeKeys file

/-- The loop of `File::load` over the lights of the `KHR_materials_common` extension. -/
def loadLights (host : Host) (typeObj : Json) (file : File) : Outcome File :=
  (member typeObj "KHR_materials_common").bind fun common =>
  (member common "lights").bind fun lights =>
  (Outcome.ofJson lights.getMemberNames).bind fun lightKeys =>
  forEach (fun lightKey file1 =>
      (member lights lightKey).bind fun obj => addForeignInfo host "lights" lightKey obj file1)
    lightKeys file

/-- The body of the outer loop of `File::load` for one member name of the manifest. -/
def loadStep (host : Host) (hasMaterialsCommon : Bool) (mGltfTree : Json) (typeName : String)
    (file : File) : Outcome File :=
  (member mGltfTree typeName).bind fun typeObj =>
  if typeName = "scene" then
    (Outcome.ofJson typeObj.asString).bind fun scene => .ok { file with mDefaultScene := scene }
  else if typeName = "extensionsUsed" then .ok file
  else
    (if typeName = "extensions" then
      if hasMaterialsCommon then loadLights host typeObj file else .ok file
     else .ok file).bind fun file1 =>
    loadType host typeName typeObj file1

/-- The first loop of `File::load`: every category of the manifest is decoded into the
registries. -/
def decodeManifest (host : Host) (mExtensions : List String) (mGltfTree : Json) (file : File) :
    Outcome File :=
  (Outcome.ofJson mGltfTree.getMemberNames).bind fun gltfTypes =>
  forEach (loadStep host (hasExtension mExtensions "KHR_materials_common") mGltfTree)
    gltfTypes file

/-- Model of `File::load` on the state `file` that the constructor has reached: the
decoding loop, then the linking loop. `depth` bounds the recursion of the linking walk. -/
def load (host : Host) (mExtensions : List String) (mGltfTree : Json) (depth : Nat)
    (file : File) : Outcome File :=
  (decodeManifest host mExtensions mGltfTree file).bind fun file1 =>
  (linkScenes mGltfTree depth file1.mNodes).bind fun mNodes =>
  .ok { file1 with mNodes := mNodes }

/-! ### What the registries are expected to hold after `load` -/

/-- The entry that the manifest declares under `key` in the category `typeName`: the
manifest is an object with a member `typeName`, which is an object with a member `key`. -/
def declared (mGltfTree : Json) (typeName key : String) : Option Json :=
  match mGltfTree with
  | .obj members =>
    if typeName ∈ members.map Prod.fst then
      match Json.lookupMember typeName members with
      | .obj entries =>
        if key ∈ entries.map Prod.fst then some (Json.lookupMember key entries) else none
      | _ => none
    else none
  | _ => none

/-- The registry `reg` holds under `k` what the decoder makes of `info`. -/
def Stored {α : Type} (reg : File → Registry α)
    (decode : Host → String → Json → Outcome α) (host : Host) (k : String) (info : Json)
    (f : File) : Prop :=
  ∃ v, decode host k info = .ok v ∧ (reg f).find k = some v

/-! ## Lookups and insertions (`File::get...Info`, `File::add`) -/

/-- Model of the body shared by the lookups `File::get...Info( key )`: `find( key )` followed
by `found->second`. Nothing is compared with `end()`, so a key without an entry is a
dereference of `end()`. -/
def Registry.getInfo {α : Type} (reg : Registry α) (key : String) : Outcome α :=
  match reg.find key with
  | some entity => .ok entity
  | none => .undefined

/-- Model of `File::getAccessorInfo`. -/
def File.getAccessorInfo (file : File) (key : String) : Outcome Accessor :=
  file.mAccessors.getInfo key

/-- Model of `File::getBufferViewInfo`. -/
def File.getBufferViewInfo (file : File) (name : String) : Outcome BufferView :=
  file.mBufferViews.getInfo name

/-- Model of `File::getBufferInfo`. -/
def File.getBufferInfo (file : File) (key : String) : Outcome Buffer :=
  file.mBuffers.getInfo key

/-- Model of `File::getNodeInfo`. -/
def File.getNodeInfo (file : File) (key : String) : Outcome Node :=
  file.mNodes.getInfo key

/-- Model of `File::getAnimationInfo`. -/
def File.getAnimationInfo (file : File) (key : String) : Outcome Animation :=
  file.mAnimations.getInfo key

/-- Model of `File::getSceneInfo`. -/
def File.getSceneInfo (file : File) (key : String) : Outcome Scene :=
  file.mScenes.getInfo key

/-- Model of `File::add( key, accessor )`: `mAccessors[key] = move( accessor )`. -/
def File.addAccessor (file : File) (key : String) (accessor : Accessor) : File :=
  { file with mAccessors := file.mAccessors.set key accessor }

/-- Model of `File::add( key, node )`: `mNodes[key] = move( node )`. -/
def File.addNode (file : File) (key : String) (node : Node) : File :=
  { file with mNodes := file.mNodes.set key node }

/-! ## Node transforms (`Node::getTransformMatrix`, `getTranslation`, `getRotation`,
`getScale`) -/

/-- A `ci::vec3` whose floats come from the manifest. -/
structure Float3 where
  x : Json.Number
  y : Json.Number
  z : Json.Number
  deriving Repr, DecidableEq

/-- A `ci::quat` whose floats come from the manifest, in the order they lie in memory
(x, y, z, w). -/
structure Float4 where
  x : Json.Number
  y : Json.Number
  z : Json.Number
  w : Json.Number
  deriving Repr, DecidableEq

/-- The default-constructed `ci::vec3`: the math library initialises it to zero. -/
def Float3.zero : Float3 := { x := .int 0, y := .int 0, z := .int 0 }

/-- The vector `ci::vec3( 1.0f )`. -/
def Float3.one : Float3 := { x := .int 1, y := .int 1, z := .int 1 }

/-- The default-constructed `ci::quat`: the math library initialises it to the identity
rotation. -/
def Float4.identity : Float4 := { x := .int 0, y := .int 0, z := .int 0, w := .int 1 }

/-- The default-constructed `ci::mat4`, the identity matrix, as its sixteen floats in
memory order (column after column). -/
def identityMat4 : List Json.Number :=
  [.int 1, .int 0, .int 0, .int 0, .int 0, .int 1, .int 0, .int 0,
   .int 0, .int 0, .int 1, .int 0, .int 0, .int 0, .int 0, .int 1]

/-- Model of `glm::make_vec3( v.data() )`: the first three floats of the vector; a shorter
vector is read past its end. -/
def makeVec3 : List Json.Number → Outcome Float3
  | x :: y :: z :: _ => .ok { x := x, y := y, z := z }
  | _ => .undefined

/-- Model of `glm::make_quat( v.data() )`: the first four floats of the vector, copied in
memory order. -/
def makeQuat : List Json.Number → Outcome Float4
  | x :: y :: z :: w :: _ => .ok { x := x, y := y, z := z, w := w }
  | _ => .undefined

/-- Model of `glm::make_mat4( v.data() )`: the first sixteen floats of the vector, copied in
memory order, which is column-major. -/
def makeMat4 (v : List Json.Number) : Outcome (List Json.Number) :=
  if 16 ≤ v.length then .ok (v.take 16) else .undefined

/-- Model of `Node::getTransformMatrix`. -/
def Node.getTransformMatrix (node : Node) : Outcome (List Json.Number) :=
  if !node.transformMatrix.isEmpty then makeMat4 node.transformMatrix else .ok identityMat4

/-- Model of `Node::getTranslation`. -/
def Node.getTranslation (node : Node) : Outcome Float3 :=
  if !node.translation.isEmpty then makeVec3 node.translation else .ok Float3.zero

/-- Model of `Node::getRotation`. -/
def Node.getRotation (node : Node) : Outcome Float4 :=
  if !node.rotation.isEmpty then makeQuat node.rotation else .ok Float4.identity

/-- Model of `Node::getScale`. -/
def Node.getScale (node : Node) : Outcome Float3 :=
  if !node.scale.isEmpty then makeVec3 node.scale else .ok Float3.one

/-! ## Cameras (`File::getOrthoCameraByName`, `File::getPerspCameraByName`) -/

/-- Model of `File::getCameraInfo`. -/
def File.getCameraInfo (file : File) (key : String) : Outcome Camera :=
  file.mCameras.getInfo key

/-- A float handed to a projection: a member of the camera, or its negation. -/
inductive SignedFloat where
  | plus (x : Json.Number)
  | minus (x : Json.Number)
  deriving Repr, DecidableEq

/-- The arguments a `ci::CameraOrtho` is constructed from, in the order of its constructor
(left, right, bottom, top, near plane, far plane). -/
structure CameraOrtho where
  left : SignedFloat
  right : SignedFloat
  bottom : SignedFloat
  top : SignedFloat
  nearPlane : SignedFloat
  farPlane : SignedFloat
  deriving Repr, DecidableEq

/-- The four arguments of the call `setPerspective` that configures a `ci::CameraPersp`,
in the order the source passes them. -/
structure CameraPersp where
  first : Json.Number
  second : Json.Number
  third : Json.Number
  fourth : Json.Number
  deriving Repr, DecidableEq

/-- Model of `File::getOrthoCameraByName`: a camera of another type makes it throw. -/
def File.getOrthoCameraByName (file : File) (name : String) : Outcome CameraOrtho :=
  (file.getCameraInfo name).bind fun cam =>
  if cam.type ≠ .ORTHOGRAPHIC then .thrown
  else
    .ok { left := .minus cam.xmag, right := .plus cam.xmag, bottom := .minus cam.ymag,
          top := .plus cam.ymag, nearPlane := .plus cam.znear, farPlane := .plus cam.zfar }

/-- Model of `File::getPerspCameraByName`: a camera of another type makes it throw; the
arguments of `setPerspective` are `cam.aspectRatio, cam.yfov, cam.znear, cam.zfar`. -/
def File.getPerspCameraByName (file : File) (name : String) : Outcome CameraPersp :=
  (file.getCameraInfo name).bind fun cam =>
  if cam.type ≠ .PERSPECTIVE then .thrown
  else .ok { first := cam.aspectRatio, second := cam.yfov, third := cam.znear,
             fourth := cam.zfar }

/-! ## The default scene (`File::getDefaultScene`) -/

/-- Model of `File::getDefaultScene`: the scene stored under `mDefaultScene` when that
string is not empty, the first scene of the registry otherwise; neither lookup is compared
with `end()`. -/
def File.getDefaultScene (file : File) : Outcome Scene :=
  if file.mDefaultScene ≠ "" then file.mScenes.getInfo file.mDefaultScene
  else
    match file.mScenes with
    | (_, scene) :: _ => .ok scene
    | [] => .undefined

/-- The top-level `scene` member of the manifest, none when the manifest has no such
member. -/
def sceneEntry (mGltfTree : Json) : Option Json :=
  match mGltfTree with
  | .obj members =>
    if "scene" ∈ members.map Prod.fst then some (Json.lookupMember "scene" members) else none
  | _ => none

/-! ## The other two skeleton animations (`File::createSkeletonAnimCombined`,
`File::createSkeletonAnimSeparated`) -/

/-- The body of the loop of `createSkeletonAnimCombined` for one bone name. A bone without
an animation runs into `CI_ASSERT_MSG( false, ... )`. -/
def skeletonAnimCombinedStep (file : File) (boneName : String)
    (skeletonClips : List TransformClip) : Outcome (List TransformClip) :=
  match file.mAnimations.find? fun animation => decide (animation.2.target = boneName) with
  | some found =>
    ((found.2.getParameters file).bind fun params => createTransformClip params).bind
      fun clip => .ok (skeletonClips ++ [clip])
  | none => .assertFailed

/-- Model of `File::createSkeletonAnimCombined`; the result is the vector of clips the
`Skeleton::AnimCombined` is made from. -/
def File.createSkeletonAnimCombined (file : File) (skeleton : Skeleton) :
    Outcome (List TransformClip) :=
  forEach (skeletonAnimCombinedStep file) skeleton.jointNames []

/-- The body of the loop of `createSkeletonAnimSeparated` for one bone name. A bone without
an animation runs into `CI_ASSERT_MSG( false, ... )`. -/
def skeletonAnimSeparatedStep (file : File) (boneName : String)
    (skeletonClips : List TransformClip) : Outcome (List TransformClip) :=
  match file.mAnimations.find? fun animation => decide (animation.2.target = boneName) with
  | some found =>
    ((found.2.getParameters file).bind fun params => createTransformClip params).bind
      fun clip => .ok (skeletonClips ++ [clip])
  | none => .assertFailed

/-- Model of `File::createSkeletonAnimSeparated`; the result is the vector of clips the
`Skeleton::AnimSeparated` is made from. -/
def File.createSkeletonAnimSeparated (file : File) (skeleton : Skeleton) :
    Outcome (List TransformClip) :=
  forEach (skeletonAnimSeparatedStep file) skeleton.jointNames []

/-! ## What a node is attached to -/

/-- How many of the four kinds of attachment a node carries: a light, a camera, a joint
name that is not empty, renderable data (a mesh, a skin or a skeleton root). -/
def Node.attachmentCount (node : Node) : Nat :=
  (if node.light.isSome then 1 else 0) + (if node.camera.isSome then 1 else 0) +
    (if node.jointName ≠ "" then 1 else 0) +
    (if node.meshes ≠ [] ∨ node.skin.isSome ∨ node.skeletons ≠ [] then 1 else 0)

/-! ## Techniques (`File::addTechniqueInfo`) -/

/-- The members of `gltf::Technique` that `addTechniqueInfo` fills before it turns to the
states: the program (a registry key in place of `Program*`) and the two vectors of pairs,
which a default-constructed Technique holds empty. -/
structure Technique where
  program : Option String := none
  attributes : List (String × String) := []
  uniforms : List (String × String) := []
  deriving Repr, DecidableEq

/-- The body of the two pair loops of `addTechniqueInfo`:
`make_pair( name, source[name].asString() )` is appended. -/
def pairStep (source : Json) (name : String) (pairs : List (String × String)) :
    Outcome (List (String × String)) :=
  (member source name).bind fun value =>
  (Outcome.ofJson value.asString).bind fun text => .ok (pairs ++ [(name, text)])

/-- The head of `addTechniqueInfo`, from the assertion to the end of the uniforms loop, in
the order of the source. The uniforms loop runs over the member names of `uniforms` and, as
in the source, reads its values from `attribs`. The statements that follow (states,
parameters, name, extras) write neither `ret.attributes` nor `ret.uniforms` and are not
embedded; in the model of `load` the category `techniques` is one of those the host
decodes. -/
def decodeTechnique (techniqueInfo : Json) : Outcome Technique :=
  (member techniqueInfo "program").bind fun programVal =>
  (CI_ASSERT programVal.isString).bind fun _ =>
  (memberString techniqueInfo "program").bind fun programKey =>
  (member techniqueInfo "attributes").bind fun attribs =>
  (Outcome.ofJson attribs.getMemberNames).bind fun attribNames =>
  (forEach (pairStep attribs) attribNames []).bind fun attributes =>
  (member techniqueInfo "uniforms").bind fun uniforms =>
  (Outcome.ofJson uniforms.getMemberNames).bind fun uniformNames =>
  (forEach (pairStep attribs) uniformNames []).bind fun uniformPairs =>
  .ok { program := some programKey, attributes := attributes, uniforms := uniformPairs }

/-- The uniform pairs as the manifest states them: every member name of the `uniforms`
object with the parameter name that object maps it to. -/
def declaredUniforms (techniqueInfo : Json) : Outcome (List (String × String)) :=
  (member techniqueInfo "uniforms").bind fun uniforms =>
  (Outcome.ofJson uniforms.getMemberNames).bind fun uniformNames =>
  forEach (pairStep uniforms) uniformNames []

/-! ## Construction (`File::create`, `File::File`, `File::setAssetInfo`) -/

/-- What a call of `Json::Reader::parse` leaves behind: either it returns its verdict, or
it throws a `std::runtime_error`, which the constructor catches and logs; `root` is the
state of `mGltfTree` after the call. -/
inductive ParseResult where
  | returned (successful : Bool) (root : Json)
  | runtimeError (root : Json)

/-- The tree the reader has left in `mGltfTree`. -/
def ParseResult.root : ParseResult → Json
  | .returned _ root => root
  | .runtimeError root => root

/-- What the constructor takes from the JSON library beyond the calls modelled in `Json`:
the reader (created with `allowComments_` and `strictRoot_`), and the conversion of a real
number, kept as text, to `bool`. -/
structure JsonLibrary where
  parse : List Nat → ParseResult
  realToBool : String → Bool

/-- Model of `Json::Value::asBool`: null is false, a boolean is itself, a number is whether
it differs from zero, a string, array or object is not convertible (`none`, the library
throws). -/
def Json.asBool (realToBool : String → Bool) : Json → Option Bool
  | .null => some false
  | .bool b => some b
  | .num n => some (decide (n ≠ 0))
  | .real printed => some (realToBool printed)
  | .str _ => none
  | .arr _ => none
  | .obj _ => none

/-- The members of `mAssetInfo` that `setAssetInfo` writes. -/
structure Asset where
  version : String := ""
  profileApi : String := ""
  profileVersion : String := ""
  copyright : String := ""
  generator : String := ""
  premultipliedAlpha : Bool := false
  deriving Repr, DecidableEq

/-- Model of `File::setAssetInfo` on the value `mAssetInfo` holds when it is called. A null
`profile` writes nothing whether or not the library counts null as an object: its members
are null and no string. -/
def setAssetInfo (realToBool : String → Bool) (mAssetInfo : Asset) (assetInfo : Json) :
    Outcome Asset :=
  (member assetInfo "version").bind fun versionVal =>
  (CI_ASSERT (!versionVal.isNull)).bind fun _ =>
  (memberString assetInfo "version").bind fun version =>
  (member assetInfo "profile").bind fun profile =>
  (if profile.isObject then
    (member profile "api").bind fun api =>
    (if api.isString then memberString profile "api" else .ok mAssetInfo.profileApi).bind
      fun profileApi =>
    (member profile "version").bind fun pversion =>
    (if pversion.isString then memberString profile "version"
     else .ok mAssetInfo.profileVersion).bind fun profileVersion =>
    .ok (profileApi, profileVersion)
   else .ok (mAssetInfo.profileApi, mAssetInfo.profileVersion)).bind fun profilePair =>
  (memberString assetInfo "copyright").bind fun copyright =>
  (memberString assetInfo "generator").bind fun generator =>
  (member assetInfo "premultipliedAlpha").bind fun alphaVal =>
  (Outcome.ofJson (alphaVal.asBool realToBool)).bind fun premultipliedAlpha =>
  .ok { version := version, profileApi := profilePair.1, profileVersion := profilePair.2,
        copyright := copyright, generator := generator,
        premultipliedAlpha := premultipliedAlpha }

/-- The registries of a File when the body of its constructor starts: all empty. -/
def File.initial : File :=
  { mBuffers := [], mBufferViews := [], mAccessors := [], mNodes := [] }

/-- Model of `File::create`, that is of the constructor `File::File`: `verifyFile`, the
reader, whose verdict is not looked at, `loadExtensions`, `setAssetInfo` when the tree has
an `asset` member, and `load`. The result is the handle the caller receives; the asset
record is not part of it, so `setAssetInfo` is run for its failures. `depth` bounds the
recursion of the linking walk. -/
def File.create (host : Host) (json : JsonLibrary) (depth : Nat) (gltfFile : DataSource) :
    Outcome File :=
  (verifyFile gltfFile).bind fun verified =>
  let mGltfTree := (json.parse verified.gltfJson).root
  (loadExtensions mGltfTree).bind fun mExtensions =>
  (member mGltfTree "asset").bind fun asset =>
  (if !asset.isNull then (setAssetInfo json.realToBool {} asset).bind fun _ => .ok ()
   else .ok ()).bind fun _ =>
  load { host with mBuffer := verified.mBuffer } mExtensions mGltfTree depth File.initial

/-! ### The key sets of the registries after `load` -/

/-- The keys of a registry, in iteration order. -/
def Registry.keys {α : Type} (reg : Registry α) : List String := reg.map Prod.fst

/-- The writes of one decoder to one registry: `operator[]` on the keys it references, then,
when the registry is the one of the decoder's own category, the `add` of the decoded entry
under its key. -/
def Registry.written {α : Type} (reg : Registry α) (keys : List String) (dflt : α)
    (own : Bool) (key : String) (value : α) : Registry α :=
  if own then (reg.touchAll keys dflt).set key value else reg.touchAll keys dflt

/-- Keys that the decoder of one manifest entry looks up with `operator[]`, by the registry
they are looked up in. -/
structure References where
  buffers : List String := []
  bufferViews : List String := []
  accessors : List String := []
  nodes : List String := []
  cameras : List String := []

/-- The keys that the decoder of the entry `obj`, declared under `typeKey` in the category
`typeName`, looks up with `operator[]` in the registries embedded here: the buffer view of
an accessor, the buffer of a buffer view, the channel targets and the parameter accessors of
an animation, the camera and the skeleton roots of a node, the nodes of a scene, and what
the host reports for a category that is not embedded. The children of a node are not among
them: `addNodeInfo` does not read them. -/
def references (host : Host) (typeName typeKey : String) (obj : Json) : References :=
  if typeName = "accessors" then
    match decodeAccessor host obj with
    | .ok ret => { bufferViews := ret.bufferView.toList }
    | _ => {}
  else if typeName = "animations" then
    match decodeAnimation host obj with
    | .ok decoded => { nodes := decoded.nodeKeys, accessors := decoded.accessorKeys }
    | _ => {}
  else if typeName = "bufferViews" then
    match decodeBufferView host obj with
    | .ok ret => { buffers := ret.buffer.toList }
    | _ => {}
  else if typeName = "nodes" then
    match decodeNode host obj with
    | .ok decoded => { nodes := decoded.nodeKeys, cameras := decoded.cameraKeys }
    | _ => {}
  else if typeName = "scenes" then
    match decodeScene host obj with
    | .ok ret => { nodes := ret.nodes }
    | _ => {}
  else if typeName ∈ ["images", "materials", "meshes", "programs", "samplers", "shaders",
      "skins", "techniques", "textures"] then
    match host.foreign typeName typeKey obj with
    | .ok touched => { accessors := touched.1, nodes := touched.2 }
    | _ => {}
  else {}
/-- The key `k` is referenced in the registry that `sel` picks: the decoder of some declared
entry of the manifest looks it up there with `operator[]`. -/
def Referenced (host : Host) (mGltfTree : Json) (sel : References → List String)
    (k : String) : Prop :=
  ∃ tn tk obj, declared mGltfTree tn tk = some obj ∧ k ∈ sel (references host tn tk obj)

/-- The number of paths of the manifest graph that lead from `k` to `c` over fewer than `d`
edges; a child that a node lists twice gives two paths. -/
def pathCount (mGltfTree : Json) : Nat → String → String → Nat
  | 0, _, _ => 0
  | d + 1, k, c =>
    (if k = c then 1 else 0) +
      ((childList mGltfTree k).map fun x => pathCount mGltfTree d x c).sum

/-! ## Sample inputs -/

/-- A 26-byte container: header (`length` 26, `sceneLength` 2), the text `{}`, four
payload bytes. -/
def sampleGlb : DataSource :=
  { extension := ".glb"
    buffer := [103, 108, 84, 70, 1, 0, 0, 0, 26, 0, 0, 0, 2, 0, 0, 0, 0, 0, 0, 0,
      123, 125, 1, 2, 3, 4] }

/-- A manifest that declares two extensions, one of them twice, out of order. -/
def sampleManifest : Json :=
  .obj [("asset", .obj [("version", .str "1.0")]),
    ("extensionsUsed",
      .arr [.str "KHR_materials_common", .str "KHR_binary_glTF", .str "KHR_materials_common"])]

/-- Nodes `r → c → g`, scene roots `[r]`. -/
def chainTree : Json :=
  .obj [("nodes", .obj [("c", .obj [("children", .arr [.str "g"])]), ("g", .obj []),
      ("r", .obj [("children", .arr [.str "c"])])]),
    ("scene", .str "s"),
    ("scenes", .obj [("s", .obj [("nodes", .arr [.str "r"])])])]

/-- The node registry of `chainTree` when the linking loop starts. -/
def chainNodes : Registry Node := [("c", {}), ("g", {}), ("r", {})]

/-- The registry `chainNodes` after one run of the linking loop. -/
def chainLinked : Registry Node :=
  [("c", { parent := some "r", children := ["g"] }), ("g", { parent := some "c" }),
    ("r", { children := ["c"] })]

/-- Nodes `r → a → d` and `r → b → d`: the node `d` is listed by two parents. -/
def diamondTree : Json :=
  .obj [("nodes", .obj [("a", .obj [("children", .arr [.str "d"])]),
      ("b", .obj [("children", .arr [.str "d"])]), ("d", .obj []),
      ("r", .obj [("children", .arr [.str "a", .str "b"])])]),
    ("scenes", .obj [("s", .obj [("nodes", .arr [.str "r"])])])]

/-- The node registry of `diamondTree` when the linking loop starts. -/
def diamondNodes : Registry Node := [("a", {}), ("b", {}), ("d", {}), ("r", {})]

/-- A node `a` that lists itself as its child, scene roots `[a]`. -/
def loopTree : Json :=
  .obj [("nodes", .obj [("a", .obj [("children", .arr [.str "a"])])]),
    ("scenes", .obj [("s", .obj [("nodes", .arr [.str "a"])])])]

/-- The node registry of `loopTree` when the linking loop starts. -/
def loopNodes : Registry Node := [("a", {})]

/-- Three joints `j0 → j1`, `j0 → j2` whose `jointName` equals the node name, and an
accessor over 192 zero bytes for the three inverse-bind matrices. -/
def rigFile : File :=
  { mBuffers := [("b", { data := some (List.replicate 192 0), byteLength := 192 })]
    mBufferViews :=
      [("v", { buffer := some "b", byteOffset := 0, byteLength := 192, target := 34962 })]
    mAccessors :=
      [("ibm", { bufferView := some "v", byteOffset := 0, count := 3, componentType := 5126,
                 dataType := .MAT4, byteStride := 0 })]
    mNodes :=
      [("j0", { children := ["j1", "j2"], name := "j0", jointName := "j0" }),
        ("j1", { parent := some "j0", name := "j1", jointName := "j1" }),
        ("j2", { parent := some "j0", name := "j2", jointName := "j2" })] }

/-- The skin over the three joints of `rigFile`. -/
def rigSkin : Skin := { inverseBindMatrices := some "ibm", joints := ["j0", "j1", "j2"] }

/-- Two joints `A → B` whose `jointName` (`jA`, `jB`) differs from the node name. -/
def aliasFile : File :=
  { rigFile with
    mNodes :=
      [("A", { children := ["B"], name := "A", jointName := "jA" }),
        ("B", { parent := some "A", name := "B", jointName := "jB" })] }

/-- The skin over the two joints of `aliasFile`. -/
def aliasSkin : Skin := { inverseBindMatrices := some "ibm", joints := ["A", "B"] }

/-- A joint `B` whose parent `X` is not a joint of the skin. -/
def strayFile : File :=
  { rigFile with
    mNodes :=
      [("root", { name := "root", jointName := "root" }),
        ("X", { children := ["B"], name := "X" }),
        ("B", { parent := some "X", name := "B", jointName := "B" })] }

/-- The skin over the joints `root`, `B` of `strayFile`. -/
def straySkin : Skin := { inverseBindMatrices := some "ibm", joints := ["root", "B"] }

/-- A buffer of 32 bytes: the floats `0.0, 1.0` (time) and `0,0,0, 1,0,0` (translation). -/
def clipFile : File :=
  { mBuffers :=
      [("b", { data := some [0, 0, 0, 0, 0, 0, 128, 63,
                             0, 0, 0, 0, 0, 0, 0, 0, 0, 0, 0, 0,
                             0, 0, 128, 63, 0, 0, 0, 0, 0, 0, 0, 0],
               byteLength := 32 })]
    mBufferViews :=
      [("v", { buffer := some "b", byteOffset := 0, byteLength := 32, target := 34962 })]
    mAccessors :=
      [("time", { bufferView := some "v", byteOffset := 0, count := 2, componentType := 5126,
                  dataType := .SCALAR, byteStride := 0 }),
        ("trans", { bufferView := some "v", byteOffset := 8, count := 2, componentType := 5126,
                    dataType := .VEC3, byteStride := 0 })]
    mNodes := [] }

/-- The translation accessor of `clipFile`. -/
def clipTranslation : Accessor :=
  { bufferView := some "v", byteOffset := 8, count := 2, componentType := 5126,
    dataType := .VEC3, byteStride := 0 }

/-- The time accessor of `clipFile`. -/
def clipTime : Accessor :=
  { bufferView := some "v", byteOffset := 0, count := 2, componentType := 5126,
    dataType := .SCALAR, byteStride := 0 }

/-- An animation of `clipFile` with a TIME and a translation parameter. -/
def clipAnimation : Animation :=
  { target := "n", timeAccessor := some "time",
    parameters := [{ parameter := "translation", accessor := some "trans" }] }

/-- The inverse-bind accessor of `rigFile`, of type MAT4. -/
def rigMatrices : Accessor :=
  { bufferView := some "v", byteOffset := 0, count := 3, componentType := 5126,
    dataType := .MAT4, byteStride := 0 }

/-- The records of an animation with TIME `[0.0, 1.0]`, translation `[0,0,0, 1,0,0]` and
rotation `[0,0,0,1, 0,0,0,1]`, and no scale. -/
def clipRecords : List ParameterData :=
  [{ paramName := "TIME", numComponents := 1, data := [0, floatOne] },
   { paramName := "translation", numComponents := 3, data := [0, 0, 0, floatOne, 0, 0] },
   { paramName := "rotation", numComponents := 4,
     data := [0, 0, 0, floatOne, 0, 0, 0, floatOne] }]

/-- The records of an animation that has a time axis of two keys and nothing else. -/
def timeOnlyRecords : List ParameterData :=
  [{ paramName := "TIME", numComponents := 1, data := [0, floatOne] }]

/-- Records with two keys and pairwise different floats in all three tracks. -/
def gradedRecords : List ParameterData :=
  [{ paramName := "TIME", numComponents := 1, data := [100, 101] },
   { paramName := "scale", numComponents := 3, data := [1, 2, 3, 4, 5, 6] },
   { paramName := "translation", numComponents := 3, data := [11, 12, 13, 14, 15, 16] },
   { paramName := "rotation", numComponents := 4, data := [21, 22, 23, 24, 25, 26, 27, 28] }]

/-- The file `clipFile` with three animations: two that target the node `n` (the first
with a translation track, the second with a time axis only) and one that targets `m`. -/
def boneFile : File :=
  { clipFile with
    mAnimations :=
      [("a", clipAnimation),
       ("b", { target := "n", timeAccessor := some "time", parameters := [] }),
       ("c", { target := "m", timeAccessor := some "time", parameters := [] })] }

/-- A skeleton of two joints named after the nodes `n` and `m`. -/
def boneSkeleton : Skeleton :=
  { joints := [{ parentId := 255, nameId := 0, inverseBind := List.replicate 16 0 },
               { parentId := 0, nameId := 1, inverseBind := List.replicate 16 0 }]
    jointNames := ["n", "m"] }

/-- A skeleton whose second joint, `ghost`, no animation of `boneFile` targets. -/
def ghostSkeleton : Skeleton :=
  { joints := [{ parentId := 255, nameId := 0, inverseBind := List.replicate 16 0 },
               { parentId := 0, nameId := 1, inverseBind := List.replicate 16 0 }]
    jointNames := ["n", "ghost"] }

/-- A host whose default-constructed entities hold null references, zeros and empty
strings and lists, whose file system has the 8-byte file `b.bin`, and whose other decoders
succeed without touching a registry. -/
def plainHost : Host :=
  { defaults :=
      { buffer := { data := none, byteLength := 0 }
        bufferView := { buffer := none, byteOffset := 0, byteLength := 0, target := 0 }
        accessor := { bufferView := none, byteOffset := 0, count := 0, componentType := 0,
                      dataType := .SCALAR, byteStride := 0 }
        node := {}
        animation := { target := "", timeAccessor := none, parameters := [] }
        scene := { nodes := [] } }
    mBuffer := none
    loadFile := fun uri => if uri = "b.bin" then .ok [0, 0, 0, 0, 0, 0, 128, 63] else .thrown
    fromBase64 := fun _ => []
    realToUInt := fun _ => none
    foreign := fun _ _ _ => .ok ([], []) }

/-- The state of a `File` when `load` starts: every registry is empty. -/
def emptyFile : File := { mBuffers := [], mBufferViews := [], mAccessors := [], mNodes := [] }

/-- A manifest with a buffer `b` of 8 bytes, a buffer view `v` that claims the bytes 4 to
12 of it, and an accessor `a` that claims 100 `VEC3` floats (1200 bytes) of the view. -/
def overrunManifest : Json :=
  .obj [("accessors", .obj [("a", .obj [("bufferView", .str "v"), ("byteOffset", .num 0),
          ("componentType", .num 5126), ("count", .num 100), ("type", .str "VEC3")])]),
        ("bufferViews", .obj [("v", .obj [("buffer", .str "b"), ("byteLength", .num 8),
          ("byteOffset", .num 4), ("target", .num 34962)])]),
        ("buffers", .obj [("b", .obj [("byteLength", .num 8), ("type", .str "arraybuffer"),
          ("uri", .str "b.bin")])])]

/-- A manifest in which an accessor, a buffer view, a buffer, an animation, a node and a
scene refer to one another; the categories stand in the order of their names, which is
the order the loop of `load` takes them in. -/
def crossManifest : Json :=
  .obj [("accessors", .obj [("a", .obj [("bufferView", .str "v"), ("byteOffset", .num 0),
          ("componentType", .num 5126), ("count", .num 2), ("type", .str "SCALAR")])]),
        ("animations", .obj [("an", .obj [
          ("channels", .arr [.obj [("sampler", .str "s"),
            ("target", .obj [("id", .str "n"), ("path", .str "translation")])]]),
          ("parameters", .obj [("TIME", .str "a")]),
          ("samplers", .obj [("s", .obj [("input", .str "TIME"),
            ("interpolation", .str "LINEAR"), ("output", .str "translation")])])])]),
        ("asset", .obj [("version", .str "1.0")]),
        ("bufferViews", .obj [("v", .obj [("buffer", .str "b"), ("byteLength", .num 8),
          ("byteOffset", .num 0), ("target", .num 34962)])]),
        ("buffers", .obj [("b", .obj [("byteLength", .num 8), ("type", .str "arraybuffer"),
          ("uri", .str "b.bin")])]),
        ("nodes", .obj [("n", .obj [("children", .arr []), ("name", .str "N"),
          ("translation", .arr [.num 1, .num 2, .num 3])])]),
        ("scene", .str "s"),
        ("scenes", .obj [("s", .obj [("nodes", .arr [.str "n"])])])]

/-- The `File` that `load` makes of `crossManifest`. -/
def crossLoaded : File :=
  { mBuffers := [("b", { data := some [0, 0, 0, 0, 0, 0, 128, 63], byteLength := 8,
                         type := "arraybuffer" })]
    mBufferViews := [("v", { buffer := some "b", byteOffset := 0, byteLength := 8,
                             target := 34962 })]
    mAccessors := [("a", { bufferView := some "v", byteOffset := 0, count := 2,
                           componentType := 5126, dataType := .SCALAR, byteStride := 0 })]
    mNodes := [("n", { name := "N", translation := [.int 1, .int 2, .int 3] })]
    mAnimations :=
      [("an", { target := "n", timeAccessor := some "a", parameters := []
                channels := [{ targetId := "n", target := some "n", sampler := "s",
                               path := "translation" }]
                samplers := [{ input := "TIME", output := "translation", linear := true }] })]
    mScenes := [("s", { nodes := ["n"] })]
    mDefaultScene := "s" }

/-- The container `sampleGlb` with its first four bytes set to zero. -/
def badMagicGlb : DataSource :=
  { extension := ".glb"
    buffer := [0, 0, 0, 0, 1, 0, 0, 0, 26, 0, 0, 0, 2, 0, 0, 0, 0, 0, 0, 0,
      123, 125, 1, 2, 3, 4] }

/-- A container of 26 bytes whose header claims a manifest of 40 bytes and a length of 100
bytes. -/
def truncatedGlb : DataSource :=
  { extension := ".glb"
    buffer := [103, 108, 84, 70, 1, 0, 0, 0, 100, 0, 0, 0, 40, 0, 0, 0, 0, 0, 0, 0,
      123, 125, 1, 2, 3, 4] }

/-- A container of 26 bytes whose header gives the right manifest length, 2, and a length
of 10, less than the 22 bytes of header and manifest. -/
def shortLengthGlb : DataSource :=
  { extension := ".glb"
    buffer := [103, 108, 84, 70, 1, 0, 0, 0, 10, 0, 0, 0, 2, 0, 0, 0, 0, 0, 0, 0,
      123, 125, 1, 2, 3, 4] }

/-- The joints of `rigFile`, the second one without a `jointName`. -/
def namelessFile : File :=
  { rigFile with
    mNodes :=
      [("j0", { children := ["j1", "j2"], name := "j0", jointName := "j0" }),
        ("j1", { parent := some "j0", name := "j1", jointName := "" }),
        ("j2", { parent := some "j0", name := "j2", jointName := "j2" })] }

/-- A manifest node with a decomposed transform: translation `[1,2,3]`, rotation
`[0,0,0,1]`, scale `[2,2,2]`. -/
def trsNodeInfo : Json :=
  .obj [("rotation", .arr [.num 0, .num 0, .num 0, .num 1]),
        ("scale", .arr [.num 2, .num 2, .num 2]),
        ("translation", .arr [.num 1, .num 2, .num 3])]

/-- A manifest node that declares both a matrix (a translation by `(5,6,7)`) and a
translation `[1,2,3]`. -/
def matrixNodeInfo : Json :=
  .obj [("matrix", .arr [.num 1, .num 0, .num 0, .num 0, .num 0, .num 1, .num 0, .num 0,
                         .num 0, .num 0, .num 1, .num 0, .num 5, .num 6, .num 7, .num 1]),
        ("translation", .arr [.num 1, .num 2, .num 3])]

/-- What the decoder makes of `trsNodeInfo`. -/
def trsDecoded : DecodedNode :=
  { ret := { translation := [.int 1, .int 2, .int 3]
             rotation := [.int 0, .int 0, .int 0, .int 1]
             scale := [.int 2, .int 2, .int 2] }
    nodeKeys := [] }

/-- What the decoder makes of `matrixNodeInfo`. -/
def matrixDecoded : DecodedNode :=
  { ret := { transformMatrix :=
      [.int 1, .int 0, .int 0, .int 0, .int 0, .int 1, .int 0, .int 0,
       .int 0, .int 0, .int 1, .int 0, .int 5, .int 6, .int 7, .int 1] }
    nodeKeys := [] }

/-- A manifest with an orthographic camera `o` and a perspective camera `p`. -/
def cameraManifest : Json :=
  .obj [("cameras", .obj [
    ("o", .obj [("orthographic", .obj [("xmag", .num 2), ("ymag", .num 3), ("zfar", .num 100),
                  ("znear", .num 1)]),
                ("type", .str "orthographic")]),
    ("p", .obj [("perspective", .obj [("aspectRatio", .real "1.5"), ("yfov", .real "0.66"),
                  ("zfar", .num 100), ("znear", .num 1)]),
                ("type", .str "perspective")])])]

/-- The `File` that `load` makes of `cameraManifest`. -/
def cameraFile : File :=
  { emptyFile with
    mCameras :=
      [("o", { type := .ORTHOGRAPHIC, xmag := .int 2, ymag := .int 3, znear := .int 1,
               zfar := .int 100 }),
       ("p", { type := .PERSPECTIVE, aspectRatio := .real "1.5", yfov := .real "0.66",
               znear := .int 1, zfar := .int 100 })] }

/-- The manifest of an empty scene: a default scene `s` without nodes. -/
def emptySceneManifest : Json :=
  .obj [("asset", .obj [("version", .str "1.0")]),
        ("scene", .str "s"),
        ("scenes", .obj [("s", .obj [("nodes", .arr [])])])]

/-- The `File` that `load` makes of `emptySceneManifest`. -/
def emptySceneFile : File :=
  { emptyFile with mScenes := [("s", { nodes := [] })], mDefaultScene := "s" }

/-- A manifest with two scenes and no `scene` member. -/
def twoScenesManifest : Json :=
  .obj [("nodes", .obj [("n", .obj [])]),
        ("scenes", .obj [("a", .obj [("nodes", .arr [.str "n"])]),
                         ("b", .obj [("nodes", .arr [])])])]

/-- A binary container of 104 bytes: the header, a manifest text of 80 bytes that declares
the buffer `binary_glTF` (byteLength 4, type arraybuffer) with the uri `data:,`, and the
binary chunk `1, 2, 3, 4`. -/
def dataUriGlb : DataSource :=
  { extension := ".glb"
    buffer :=
      [103, 108, 84, 70, 1, 0, 0, 0, 104, 0, 0, 0, 80, 0, 0, 0, 0, 0, 0, 0, 123, 34, 98,
       117, 102, 102, 101, 114, 115, 34, 58, 123, 34, 98, 105, 110, 97, 114, 121, 95, 103,
       108, 84, 70, 34, 58, 123, 34, 98, 121, 116, 101, 76, 101, 110, 103, 116, 104, 34,
       58, 52, 44, 34, 116, 121, 112, 101, 34, 58, 34, 97, 114, 114, 97, 121, 98, 117, 102,
       102, 101, 114, 34, 44, 34, 117, 114, 105, 34, 58, 34, 100, 97, 116, 97, 58, 44, 34,
       125, 125, 125, 1, 2, 3, 4] }

/-- The manifest text of `dataUriGlb`. -/
def dataUriGlbText : List Nat :=
  [123, 34, 98, 117, 102, 102, 101, 114, 115, 34, 58, 123, 34, 98, 105, 110, 97, 114,
   121, 95, 103, 108, 84, 70, 34, 58, 123, 34, 98, 121, 116, 101, 76, 101, 110, 103,
   116, 104, 34, 58, 52, 44, 34, 116, 121, 112, 101, 34, 58, 34, 97, 114, 114, 97, 121,
   98, 117, 102, 102, 101, 114, 34, 44, 34, 117, 114, 105, 34, 58, 34, 100, 97, 116,
   97, 58, 44, 34, 125, 125, 125]

/-- The manifest of `dataUriGlb`, parsed. -/
def dataUriManifest : Json :=
  .obj [("buffers", .obj [("binary_glTF", .obj [("byteLength", .num 4),
    ("type", .str "arraybuffer"), ("uri", .str "data:,")])])]

/-- A binary container of 98 bytes: the header, a manifest text of 74 bytes that declares
the buffer `binary_glTF` (byteLength 4, type arraybuffer) with an empty uri, and the binary
chunk `1, 2, 3, 4`. -/
def binaryGlb : DataSource :=
  { extension := ".glb"
    buffer :=
      [103, 108, 84, 70, 1, 0, 0, 0, 98, 0, 0, 0, 74, 0, 0, 0, 0, 0, 0, 0, 123, 34, 98,
       117, 102, 102, 101, 114, 115, 34, 58, 123, 34, 98, 105, 110, 97, 114, 121, 95, 103,
       108, 84, 70, 34, 58, 123, 34, 98, 121, 116, 101, 76, 101, 110, 103, 116, 104, 34,
       58, 52, 44, 34, 116, 121, 112, 101, 34, 58, 34, 97, 114, 114, 97, 121, 98, 117, 102,
       102, 101, 114, 34, 44, 34, 117, 114, 105, 34, 58, 34, 34, 125, 125, 125, 1, 2, 3, 4] }

/-- The manifest text of `binaryGlb`. -/
def binaryGlbText : List Nat :=
  [123, 34, 98, 117, 102, 102, 101, 114, 115, 34, 58, 123, 34, 98, 105, 110, 97, 114,
   121, 95, 103, 108, 84, 70, 34, 58, 123, 34, 98, 121, 116, 101, 76, 101, 110, 103,
   116, 104, 34, 58, 52, 44, 34, 116, 121, 112, 101, 34, 58, 34, 97, 114, 114, 97, 121,
   98, 117, 102, 102, 101, 114, 34, 44, 34, 117, 114, 105, 34, 58, 34, 34, 125, 125,
   125]

/-- The manifest of `binaryGlb`, parsed. -/
def binaryManifest : Json :=
  .obj [("buffers", .obj [("binary_glTF", .obj [("byteLength", .num 4),
    ("type", .str "arraybuffer"), ("uri", .str "")])])]

/-- The host of a load from a binary container whose chunk is `1, 2, 3, 4`: `plainHost`
with that chunk as `mBuffer`. -/
def chunkHost : Host := { plainHost with mBuffer := some [1, 2, 3, 4] }

/-- A manifest node with an `extensions` member that has no `KHR_materials_common`, and
with a camera, a joint name, a mesh, a skin and a skeleton root beside it. -/
def extendedNodeInfo : Json :=
  .obj [("camera", .str "cam"), ("extensions", .obj [("other", .num 1)]),
        ("jointName", .str "hip"), ("meshes", .arr [.str "m"]), ("name", .str "n"),
        ("skeletons", .arr [.str "root"]), ("skin", .str "s")]

/-- A manifest node with a camera and a mesh and no `extensions` member. -/
def cameraNodeInfo : Json :=
  .obj [("camera", .str "cam"), ("meshes", .arr [.str "m"])]

/-- An accessor entry whose `componentType` is 5125 (UNSIGNED_INT). -/
def uintAccessorInfo : Json :=
  .obj [("bufferView", .str "v"), ("byteOffset", .num 0), ("componentType", .num 5125),
        ("count", .num 3), ("type", .str "SCALAR")]

/-- A technique with one attribute and one uniform. -/
def sampleTechniqueInfo : Json :=
  .obj [("attributes", .obj [("a_position", .str "position")]),
        ("program", .str "p"),
        ("uniforms", .obj [("u_mvp", .str "modelViewProjection")])]

/-- A JSON library that behaves as JsonCpp does on three texts: the text of an empty object
parses; an opening brace alone is rejected with the root left an empty object; the text of a
string alone (here the four bytes of a quoted `hi`) is read and then rejected by the
strict-root check, the root being that string; any other text is rejected with the root left
null. -/
def sampleJsonLibrary : JsonLibrary :=
  { parse := fun text =>
      if text = [123, 125] then .returned true (.obj [])
      else if text = [123] then .returned false (.obj [])
      else if text = [34, 104, 105, 34] then .returned false (.str "hi")
      else .returned false .null
    realToBool := fun _ => true }

/-- A manifest file whose text is an opening brace and nothing else. -/
def openBraceFile : DataSource := { extension := ".gltf", buffer := [123] }

/-- A manifest file whose text is a quoted string. -/
def stringRootFile : DataSource := { extension := ".gltf", buffer := [34, 104, 105, 34] }

/-- A manifest whose only entry is an accessor that names the buffer view `ghostView`,
which is declared nowhere. -/
def danglingManifest : Json :=
  .obj [("accessors", .obj [("a", .obj [("bufferView", .str "ghostView"),
          ("byteOffset", .num 0), ("componentType", .num 5126), ("count", .num 2),
          ("type", .str "SCALAR")])])]

/-- A manifest whose node `a` lists the child `ghost`, which is declared nowhere; no scene
reaches `a`. -/
def ghostChildManifest : Json :=
  .obj [("nodes", .obj [("a", .obj [("children", .arr [.str "ghost"])])])]

/-- The manifest `ghostChildManifest` with a scene whose root is `a`. -/
def ghostChildScene : Json :=
  .obj [("nodes", .obj [("a", .obj [("children", .arr [.str "ghost"])])]),
        ("scenes", .obj [("s", .obj [("nodes", .arr [.str "a"])])])]

/-- The `File` that `load` makes of `danglingManifest`: the accessor, and a
default-constructed buffer view under the key the accessor names. -/
def danglingLoaded : File :=
  { mBuffers := []
    mBufferViews := [("ghostView", { buffer := none, byteOffset := 0, byteLength := 0,
                                     target := 0 })]
    mAccessors := [("a", { bufferView := some "ghostView", byteOffset := 0, count := 2,
                           componentType := 5126, dataType := .SCALAR, byteStride := 0 })]
    mNodes := [] }

/-! # Theorems -/

/-! ### Outcomes and registries -/

@[simp] theorem Outcome.bind_ok {α β : Type} (a : α) (f : α → Outcome β) :
    (Outcome.ok a).bind f = f a := rfl

theorem Outcome.bind_eq_ok {α β : Type} {x : Outcome α} {f : α → Outcome β} {b : β} :
    x.bind f = .ok b ↔ ∃ a, x = .ok a ∧ f a = .ok b := by
  cases x <;> simp [Outcome.bind]

theorem Outcome.ofJson_eq_ok {α : Type} {x : Option α} {a : α} :
    Outcome.ofJson x = .ok a ↔ x = some a := by
  cases x <;> simp [Outcome.ofJson]

theorem Registry.find_modify {α : Type} (m : Registry α) (key : String) (f : α → α)
    (k : String) :
    (m.modify key f).find k = if k = key then (m.find key).map f else m.find k := by
  induction m with
  | nil => simp [Registry.modify, Registry.find]
  | cons e rest ih =>
    obtain ⟨k0, v0⟩ := e
    by_cases h0 : k0 = key
    · by_cases hk : k = key
      · simp [Registry.modify, Registry.find, h0, hk]
      · have hk' : ¬ key = k := fun h => hk h.symm
        simp [Registry.modify, Registry.find, h0, hk, hk']
    · by_cases hk : k = key
      · subst hk
        simp [Registry.modify, Registry.find, h0, ih]
      · by_cases h1 : k0 = k
        · simp [Registry.modify, Registry.find, h0, hk, h1]
        · simp [Registry.modify, Registry.find, h0, hk, h1, ih]


/-! ### Facts about the container reader -/

theorem readU32_lt (buf : List Nat) (off : Nat) : readU32 buf off < 2 ^ 32 := by
  unfold readU32
  omega

theorem readBytes_ok {buf : List Nat} {off n : Nat} (h : off + n ≤ buf.length) :
    readBytes buf off n = .ok ((buf.drop off).take n) := by
  simp [readBytes, h]

theorem getElem?_drop_take (buf : List Nat) (off n i : Nat) (hi : i < n) :
    ((buf.drop off).take n)[i]? = buf[off + i]? := by
  rw [List.getElem?_take_of_lt hi, List.getElem?_drop]

/-- C1. For a `.glb` file whose header fields satisfy
`20 + sceneLength ≤ length ≤ file size`, `verifyFile` returns as manifest text exactly
the bytes at offsets `[20, 20 + sceneLength)` and as binary blob exactly the bytes at
offsets `[20 + sceneLength, length)`; the blob has `length - sceneLength - 20` bytes. -/
theorem verifyFile_glb_chunks (data : DataSource)
    (hext : data.extension = ".glb")
    (hscene : 20 + (readHeader data.buffer).sceneLength ≤ (readHeader data.buffer).length)
    (hlen : (readHeader data.buffer).length ≤ data.buffer.length) :
    ∃ json blob, verifyFile data = .ok { gltfJson := json, mBuffer := some blob } ∧
      json.length = (readHeader data.buffer).sceneLength ∧
      (∀ i, i < (readHeader data.buffer).sceneLength → json[i]? = data.buffer[20 + i]?) ∧
      blob.length = (readHeader data.buffer).length - (readHeader data.buffer).sceneLength - 20 ∧
      (∀ i, 20 + (readHeader data.buffer).sceneLength + i < (readHeader data.buffer).length →
        blob[i]? = data.buffer[20 + (readHeader data.buffer).sceneLength + i]?) := by
  have hL : (readHeader data.buffer).length < 2 ^ 32 := readU32_lt _ _
  generalize hS : (readHeader data.buffer).sceneLength = S at *
  generalize hLe : (readHeader data.buffer).length = L at *
  have hsize : ((L + 2 ^ 32 - S) % 2 ^ 32 + 2 ^ 64 - sizeofBinaryHeader) % 2 ^ 64 = L - S - 20 := by
    unfold sizeofBinaryHeader
    omega
  refine ⟨(data.buffer.drop 20).take S, (data.buffer.drop (20 + S)).take (L - S - 20), ?_, ?_, ?_, ?_, ?_⟩
  · have h20 : sizeofBinaryHeader ≤ data.buffer.length := by
      unfold sizeofBinaryHeader
      omega
    have hr1 : readBytes data.buffer 20 S = .ok ((data.buffer.drop 20).take S) :=
      readBytes_ok (by omega)
    have hr2 : readBytes data.buffer (20 + S) (L - S - 20)
        = .ok ((data.buffer.drop (20 + S)).take (L - S - 20)) :=
      readBytes_ok (by omega)
    simp only [verifyFile, hext, if_true, h20, hS, hLe, hsize]
    simp only [sizeofBinaryHeader, hr1, hr2, Outcome.bind]
  · simp only [List.length_take, List.length_drop]
    omega
  · intro i hi
    exact getElem?_drop_take _ _ _ _ hi
  · simp only [List.length_take, List.length_drop]
    omega
  · intro i hi
    exact getElem?_drop_take _ _ _ _ (by omega)

/-! ### Facts about the extension list -/

theorem sorted_getD_le {xs : List String} (hs : xs.Sorted (fun a b => a ≤ b)) {i j : Nat}
    (hij : i ≤ j) (hj : j < xs.length) : xs.getD i "" ≤ xs.getD j "" := by
  have hi : i < xs.length := lt_of_le_of_lt hij hj
  rw [List.getD_eq_getElem _ _ hi, List.getD_eq_getElem _ _ hj]
  rcases Nat.eq_or_lt_of_le hij with h | h
  · subst h
    exact le_refl _
  · exact (List.pairwise_iff_getElem.mp hs) i j hi hj h

/-- On a sorted list `lowerBound` returns the partition point of `· < value`. -/
theorem lowerBound_spec (xs : List String) (value : String)
    (hs : xs.Sorted (fun a b => a ≤ b)) :
    ∀ iters first count, count ≤ iters → first + count ≤ xs.length →
      (∀ i, i < first → xs.getD i "" < value) →
      (∀ i, first + count ≤ i → i < xs.length → ¬ xs.getD i "" < value) →
      lowerBound xs value iters first count ≤ xs.length ∧
      (∀ i, i < lowerBound xs value iters first count → xs.getD i "" < value) ∧
      (∀ i, lowerBound xs value iters first count ≤ i → i < xs.length →
        ¬ xs.getD i "" < value) := by
  intro iters
  induction iters with
  | zero =>
    intro first count hc hlen hlo hhi
    have h0 : count = 0 := Nat.le_zero.mp hc
    subst h0
    simp only [lowerBound]
    exact ⟨by omega, hlo, fun i hi hil => hhi i (by omega) hil⟩
  | succ n ih =>
    intro first count hc hlen hlo hhi
    unfold lowerBound
    by_cases h0 : count = 0
    · subst h0
      simp only [if_true]
      exact ⟨by omega, hlo, fun i hi hil => hhi i (by omega) hil⟩
    · simp only [h0, if_false]
      have hstep : count / 2 < count := Nat.div_lt_self (Nat.pos_of_ne_zero h0) (by decide)
      have hit : first + count / 2 < xs.length := by omega
      by_cases hlt : xs.getD (first + count / 2) "" < value
      · simp only [hlt, if_true]
        apply ih
        · omega
        · omega
        · intro i hi
          exact lt_of_le_of_lt (sorted_getD_le hs (by omega) hit) hlt
        · intro i hi hil
          exact hhi i (by omega) hil
      · simp only [hlt, if_false]
        apply ih
        · omega
        · omega
        · exact hlo
        · intro i hi hil hcon
          exact hlt (lt_of_le_of_lt (sorted_getD_le hs hi hil) hcon)

/-- On a sorted list `binarySearch` decides membership. -/
theorem binarySearch_iff_mem (xs : List String) (value : String)
    (hs : xs.Sorted (fun a b => a ≤ b)) : binarySearch xs value = true ↔ value ∈ xs := by
  obtain ⟨hle, hlo, hhi⟩ := lowerBound_spec xs value hs xs.length 0 xs.length (le_refl _)
    (by omega) (fun i hi => absurd hi (Nat.not_lt_zero i)) (fun i hi hil => by omega)
  generalize hr : lowerBound xs value xs.length 0 xs.length = r at hle hlo hhi
  simp only [binarySearch, hr, Bool.and_eq_true, decide_eq_true_eq, Bool.not_eq_true',
    decide_eq_false_iff_not]
  constructor
  · rintro ⟨hne, hnlt⟩
    have hrl : r < xs.length := lt_of_le_of_ne hle hne
    have hge : ¬ xs.getD r "" < value := hhi r (le_refl _) hrl
    have heq : xs.getD r "" = value := le_antisymm (not_lt.mp hnlt) (not_lt.mp hge)
    rw [← heq, List.getD_eq_getElem _ _ hrl]
    exact List.getElem_mem _
  · intro hmem
    obtain ⟨j, hj, hjv⟩ := List.getElem_of_mem hmem
    have hjd : xs.getD j "" = value := by rw [List.getD_eq_getElem _ _ hj, hjv]
    have hrj : r ≤ j := by
      by_contra hcon
      have := hlo j (by omega)
      rw [hjd] at this
      exact lt_irrefl _ this
    refine ⟨by omega, ?_⟩
    have := sorted_getD_le hs hrj hj
    rw [hjd] at this
    exact not_lt.mpr this

theorem collectStrings_strs (exts : List String) :
    collectStrings (exts.map Json.str) = .ok exts := by
  induction exts with
  | nil => rfl
  | cons x rest ih => simp [collectStrings, ih, Json.asString, Outcome.ofJson, Outcome.bind]

/-- C2. When the manifest's `extensionsUsed` member is an array of strings (any order,
duplicates allowed), `loadExtensions` records a list on which `hasExtension x` holds exactly
for the strings `x` of that array. -/
theorem hasExtension_iff_declared (mGltfTree : Json) (exts : List String)
    (hused : mGltfTree.get "extensionsUsed" = some (Json.arr (exts.map Json.str))) :
    ∃ mExtensions, loadExtensions mGltfTree = .ok mExtensions ∧
      ∀ x, hasExtension mExtensions x = true ↔ x ∈ exts := by
  refine ⟨sortStrings exts, ?_, ?_⟩
  · simp [loadExtensions, hused, Outcome.ofJson, Outcome.bind, Json.isNull, Json.isArray,
      Json.elements, collectStrings_strs]
  · intro x
    unfold hasExtension sortStrings
    rw [binarySearch_iff_mem _ _ (List.sorted_insertionSort _ _)]
    exact List.mem_insertionSort _

/-! ### The writes of the linking walk -/

theorem find_applyVisit (m : Registry Node) (v : Visit) (k : String) :
    (applyVisit m v).find k = (m.find k).map fun n => visitNode k n v := by
  obtain ⟨par, c⟩ := v
  cases par with
  | none =>
    simp only [applyVisit, Registry.find_modify, visitNode]
    by_cases hk : k = c
    · subst hk
      cases m.find k <;> simp
    · cases m.find k <;> simp [hk]
  | some p =>
    simp only [applyVisit, Registry.find_modify, visitNode]
    by_cases hp : k = p
    · subst hp
      by_cases hc : k = c
      · subst hc
        cases m.find k <;> simp
      · have hc' : ¬ c = k := fun h => hc h.symm
        cases m.find k <;> simp [hc]
    · have hp' : ¬ p = k := fun h => hp h.symm
      by_cases hc : k = c
      · subst hc
        cases m.find k <;> simp [hp, hp']
      · cases m.find k <;> simp [hp, hp', hc]

theorem find_applyVisits (tr : List Visit) (m : Registry Node) (k : String) :
    (applyVisits tr m).find k = (m.find k).map fun n => tr.foldl (visitNode k) n := by
  induction tr generalizing m with
  | nil => cases h : m.find k <;> simp [applyVisits, h]
  | cons v rest ih =>
    have h := ih (applyVisit m v)
    simp only [applyVisits, List.foldl_cons] at h ⊢
    rw [h, find_applyVisit]
    cases m.find k <;> simp

theorem applyVisits_append (t ts : List Visit) (m : Registry Node) :
    applyVisits (t ++ ts) m = applyVisits ts (applyVisits t m) := by
  simp [applyVisits, List.foldl_append]

theorem visitNode_children (k : String) (n : Node) (v : Visit) :
    (visitNode k n v).children = n.children ++ (if v.1 = some k then [v.2] else []) := by
  obtain ⟨par, c⟩ := v
  unfold visitNode
  dsimp only
  split_ifs <;> simp

theorem visitNode_parent (k : String) (n : Node) (v : Visit) :
    (visitNode k n v).parent = if v.2 = k then v.1 else n.parent := by
  obtain ⟨par, c⟩ := v
  unfold visitNode
  dsimp only
  by_cases hc : k = c
  · subst hc
    split_ifs <;> simp
  · have hc' : ¬ c = k := fun h => hc h.symm
    rw [if_neg hc, if_neg hc']
    split_ifs <;> simp

theorem visitNode_names (k : String) (n : Node) (v : Visit) :
    (visitNode k n v).name = n.name ∧ (visitNode k n v).jointName = n.jointName := by
  obtain ⟨par, c⟩ := v
  unfold visitNode
  dsimp only
  split_ifs <;> simp

theorem foldl_visitNode_children (k : String) (tr : List Visit) (n : Node) :
    (tr.foldl (visitNode k) n).children = n.children ++ appendedTo k tr := by
  induction tr generalizing n with
  | nil => simp [appendedTo]
  | cons v rest ih =>
    rw [List.foldl_cons, ih, visitNode_children]
    by_cases hp : v.1 = some k <;> simp [appendedTo, hp, List.filterMap_cons]

theorem foldl_visitNode_parent (k : String) (tr : List Visit) (n : Node) :
    (tr.foldl (visitNode k) n).parent = lastParent k n.parent tr := by
  induction tr generalizing n with
  | nil => simp [lastParent]
  | cons v rest ih =>
    rw [List.foldl_cons, ih, visitNode_parent]
    simp [lastParent]

theorem foldl_visitNode_names (k : String) (tr : List Visit) (n : Node) :
    (tr.foldl (visitNode k) n).name = n.name ∧
      (tr.foldl (visitNode k) n).jointName = n.jointName := by
  induction tr generalizing n with
  | nil => simp
  | cons v rest ih =>
    rw [List.foldl_cons]
    obtain ⟨h1, h2⟩ := ih (visitNode k n v)
    obtain ⟨h3, h4⟩ := visitNode_names k n v
    rw [h1, h2, h3, h4]
    exact ⟨rfl, rfl⟩

theorem allDeclared_applyVisits (t ts : List Visit) (m : Registry Node) :
    allDeclared (applyVisits t m) ts = allDeclared m ts := by
  unfold allDeclared
  congr 1
  funext v
  rw [find_applyVisits]
  cases m.find v.2 <;> simp

theorem allDeclared_append (m : Registry Node) (t ts : List Visit) :
    allDeclared m (t ++ ts) = (allDeclared m t && allDeclared m ts) := by
  simp [allDeclared, List.all_append]

/-! ### The walk performs exactly the calls read off the manifest -/

theorem collectStrings_cons_eq_ok {j : Json} {rest : List Json} {cs : List String} :
    collectStrings (j :: rest) = .ok cs ↔
      ∃ k ks, j.asString = some k ∧ collectStrings rest = .ok ks ∧ cs = k :: ks := by
  simp only [collectStrings, Outcome.bind_eq_ok, Outcome.ofJson_eq_ok, Outcome.ok.injEq]
  constructor
  · rintro ⟨k, hk, ks, hks, rfl⟩
    exact ⟨k, ks, hk, hks, rfl⟩
  · rintro ⟨k, ks, hk, hks, rfl⟩
    exact ⟨k, hk, ks, hks, rfl⟩

theorem visitsEach_cons_eq_ok {f : String → Outcome (List Visit)} {k : String}
    {rest : List String} {tr : List Visit} :
    visitsEach f (k :: rest) = .ok tr ↔
      ∃ t ts, f k = .ok t ∧ visitsEach f rest = .ok ts ∧ tr = t ++ ts := by
  simp only [visitsEach, Outcome.bind_eq_ok, Outcome.ok.injEq]
  constructor
  · rintro ⟨t, ht, ts, hts, rfl⟩
    exact ⟨t, ts, ht, hts, rfl⟩
  · rintro ⟨t, ts, ht, hts, rfl⟩
    exact ⟨t, ht, ts, hts, rfl⟩

theorem visitsEach_append_eq_ok {f : String → Outcome (List Visit)} {ks kss : List String}
    {tr : List Visit} :
    visitsEach f (ks ++ kss) = .ok tr ↔
      ∃ t ts, visitsEach f ks = .ok t ∧ visitsEach f kss = .ok ts ∧ tr = t ++ ts := by
  induction ks generalizing tr with
  | nil =>
    simp only [List.nil_append, visitsEach, Outcome.ok.injEq]
    constructor
    · intro h
      exact ⟨[], tr, rfl, h, rfl⟩
    · rintro ⟨t, ts, rfl, hts, rfl⟩
      simpa using hts
  | cons k rest ih =>
    rw [List.cons_append, visitsEach_cons_eq_ok]
    constructor
    · rintro ⟨t, ts, ht, hts, rfl⟩
      obtain ⟨t1, t2, h1, h2, rfl⟩ := ih.mp hts
      exact ⟨t ++ t1, t2, visitsEach_cons_eq_ok.mpr ⟨t, t1, ht, h1, rfl⟩, h2,
        (List.append_assoc _ _ _).symm⟩
    · rintro ⟨t, ts, ht, hts, rfl⟩
      obtain ⟨t0, t1, h0, h1, rfl⟩ := visitsEach_cons_eq_ok.mp ht
      exact ⟨t0, t1 ++ ts, h0, ih.mpr ⟨t1, ts, h1, hts, rfl⟩, List.append_assoc _ _ _⟩

/-- A loop over JSON keys whose body behaves like a sequence of calls behaves like the
concatenated sequence. -/
theorem forEach_keys_eq_ok_iff
    (walk : String → Registry Node → Outcome (Registry Node))
    (vis : String → Outcome (List Visit))
    (h : ∀ key m m', walk key m = .ok m' ↔
      ∃ tr, vis key = .ok tr ∧ allDeclared m tr = true ∧ m' = applyVisits tr m) :
    ∀ (elems : List Json) (m m' : Registry Node),
      forEach (fun child acc => (Outcome.ofJson child.asString).bind fun key => walk key acc)
          elems m = .ok m' ↔
        ∃ cs tr, collectStrings elems = .ok cs ∧ visitsEach vis cs = .ok tr ∧
          allDeclared m tr = true ∧ m' = applyVisits tr m := by
  intro elems
  induction elems with
  | nil =>
    intro m m'
    simp only [forEach, Outcome.ok.injEq, collectStrings]
    constructor
    · rintro rfl
      exact ⟨[], [], rfl, rfl, rfl, rfl⟩
    · rintro ⟨cs, tr, rfl, htr, _, rfl⟩
      simp only [visitsEach, Outcome.ok.injEq] at htr
      subst htr
      rfl
  | cons j rest ih =>
    intro m m'
    simp only [forEach, Outcome.bind_eq_ok, Outcome.ofJson_eq_ok]
    constructor
    · rintro ⟨s1, ⟨k, hk, hw⟩, hrest⟩
      obtain ⟨t, ht, hd, rfl⟩ := (h k m s1).mp hw
      obtain ⟨ks, ts, hks, hts, hds, rfl⟩ := (ih _ m').mp hrest
      refine ⟨k :: ks, t ++ ts, collectStrings_cons_eq_ok.mpr ⟨k, ks, hk, hks, rfl⟩,
        visitsEach_cons_eq_ok.mpr ⟨t, ts, ht, hts, rfl⟩, ?_, (applyVisits_append _ _ _).symm⟩
      rw [allDeclared_append, hd, Bool.true_and]
      rw [allDeclared_applyVisits] at hds
      exact hds
    · rintro ⟨cs, tr, hcs, htr, hd, rfl⟩
      obtain ⟨k, ks, hk, hks, rfl⟩ := collectStrings_cons_eq_ok.mp hcs
      obtain ⟨t, ts, ht, hts, rfl⟩ := visitsEach_cons_eq_ok.mp htr
      rw [allDeclared_append, Bool.and_eq_true] at hd
      refine ⟨applyVisits t m, ⟨k, hk, (h k m _).mpr ⟨t, ht, hd.1, rfl⟩⟩, ?_⟩
      refine (ih _ _).mpr ⟨ks, ts, hks, hts, ?_, applyVisits_append _ _ _⟩
      rw [allDeclared_applyVisits]
      exact hd.2

theorem applyVisits_cons (v : Visit) (tr : List Visit) (m : Registry Node) :
    applyVisits (v :: tr) m = applyVisits tr (applyVisit m v) := rfl

/-- One unfolding of the walk, its two writes gathered in `applyVisit`. -/
theorem setParentForChildren_succ (mGltfTree : Json) (d : Nat) (parent : Option String)
    (key : String) (m : Registry Node) :
    setParentForChildren mGltfTree (d + 1) parent key m =
      match m.find key with
      | none => .undefined
      | some _ =>
        (nodeChildren mGltfTree key).bind fun children =>
        if !children.empty then
          forEach (fun child acc =>
              (Outcome.ofJson child.asString).bind fun k =>
              setParentForChildren mGltfTree d (some key) k acc)
            children.elements (applyVisit m (parent, key))
        else .ok (applyVisit m (parent, key)) := by
  cases parent <;> rfl

theorem allDeclared_cons_applyVisit (m : Registry Node) (v : Visit) (tr : List Visit) :
    allDeclared (applyVisit m v) tr = allDeclared m tr :=
  allDeclared_applyVisits [v] tr m

/-- The walk returns exactly when the calls read off the manifest exist within the depth
bound and visit declared keys only; its result is then the writes of those calls. -/
theorem setParentForChildren_eq_ok_iff (mGltfTree : Json) :
    ∀ (depth : Nat) (parent : Option String) (key : String) (m m' : Registry Node),
      setParentForChildren mGltfTree depth parent key m = .ok m' ↔
        ∃ tr, visits mGltfTree depth parent key = .ok tr ∧ allDeclared m tr = true ∧
          m' = applyVisits tr m := by
  intro depth
  induction depth with
  | zero =>
    intro parent key m m'
    simp [setParentForChildren, visits]
  | succ d ih =>
    intro parent key m m'
    have hloop := forEach_keys_eq_ok_iff
      (fun k acc => setParentForChildren mGltfTree d (some key) k acc)
      (fun c => visits mGltfTree d (some key) c) (fun k m0 m1 => ih (some key) k m0 m1)
    rw [setParentForChildren_succ]
    unfold visits
    cases hfind : m.find key with
    | none =>
      constructor
      · intro h
        cases h
      · rintro ⟨tr, htr, hd, _⟩
        obtain ⟨cs, _, hsub⟩ := Outcome.bind_eq_ok.mp htr
        obtain ⟨sub, _, hok⟩ := Outcome.bind_eq_ok.mp hsub
        cases hok
        simp [allDeclared, hfind] at hd
    | some n =>
      have hkey : (m.find key).isSome = true := by rw [hfind]; rfl
      constructor
      · intro hrun
        obtain ⟨children, hch, hbody⟩ := Outcome.bind_eq_ok.mp hrun
        by_cases hempty : children.empty = true
        · simp only [hempty, Bool.not_true, Bool.false_eq_true, if_false,
            Outcome.ok.injEq] at hbody
          subst hbody
          refine ⟨[(parent, key)], ?_, ?_, rfl⟩
          · have hck : childKeys mGltfTree key = .ok [] := by
              simp [childKeys, hch, hempty]
            simp [hck, visitsEach]
          · simp [allDeclared, hkey]
        · simp only [hempty, Bool.not_false, if_true] at hbody
          obtain ⟨cs, tr, hcs, htr, hd, rfl⟩ := (hloop _ _ _).mp hbody
          refine ⟨(parent, key) :: tr, ?_, ?_, rfl⟩
          · have hck : childKeys mGltfTree key = .ok cs := by
              simp [childKeys, hch, hempty, hcs]
            simp [hck, htr]
          · rw [allDeclared_cons_applyVisit] at hd
            simp only [allDeclared, List.all_cons, Bool.and_eq_true] at hd ⊢
            exact ⟨hkey, hd⟩
      · rintro ⟨tr0, htr0, hd, rfl⟩
        obtain ⟨cs, hck, hsub0⟩ := Outcome.bind_eq_ok.mp htr0
        obtain ⟨sub, hsub, hok⟩ := Outcome.bind_eq_ok.mp hsub0
        cases hok
        obtain ⟨children, hch, hcs⟩ := Outcome.bind_eq_ok.mp hck
        have hd' : allDeclared (applyVisit m (parent, key)) sub = true := by
          rw [allDeclared_cons_applyVisit]
          simp only [allDeclared, List.all_cons, Bool.and_eq_true] at hd ⊢
          exact hd.2
        refine Outcome.bind_eq_ok.mpr ⟨children, hch, ?_⟩
        by_cases hempty : children.empty = true
        · simp only [hempty, Bool.not_true, Bool.false_eq_true, if_false,
            Outcome.ok.injEq] at hcs ⊢
          subst hcs
          simp only [visitsEach, Outcome.ok.injEq] at hsub
          subst hsub
          rfl
        · simp only [hempty, Bool.not_false, if_true] at hcs ⊢
          exact (hloop _ _ _).mpr ⟨cs, sub, hcs, hsub, hd', rfl⟩

theorem forEach_scenes_eq_ok_iff (mGltfTree : Json) (depth : Nat) :
    ∀ (scenesList : List Json) (m m' : Registry Node),
      forEach (fun scenes acc =>
          (Outcome.ofJson (scenes.get "nodes")).bind fun nodes =>
          forEach (fun node acc1 =>
              (Outcome.ofJson node.asString).bind fun key =>
              setParentForChildren mGltfTree depth none key acc1)
            nodes.elements acc)
        scenesList m = .ok m' ↔
      ∃ roots tr, rootKeysOf scenesList = .ok roots ∧
        visitsEach (fun r => visits mGltfTree depth none r) roots = .ok tr ∧
        allDeclared m tr = true ∧ m' = applyVisits tr m := by
  have hloop := forEach_keys_eq_ok_iff
    (fun k acc => setParentForChildren mGltfTree depth none k acc)
    (fun r => visits mGltfTree depth none r)
    (fun k m0 m1 => setParentForChildren_eq_ok_iff mGltfTree depth none k m0 m1)
  intro scenesList
  induction scenesList with
  | nil =>
    intro m m'
    simp only [forEach, Outcome.ok.injEq, rootKeysOf]
    constructor
    · rintro rfl
      exact ⟨[], [], rfl, rfl, rfl, rfl⟩
    · rintro ⟨roots, tr, rfl, htr, _, rfl⟩
      simp only [visitsEach, Outcome.ok.injEq] at htr
      subst htr
      rfl
  | cons sc rest ih =>
    intro m m'
    simp only [forEach, rootKeysOf, sceneRootKeys]
    constructor
    · intro hrun
      obtain ⟨s1, hfirst, hrest⟩ := Outcome.bind_eq_ok.mp hrun
      obtain ⟨nodes, hnodes, hinner⟩ := Outcome.bind_eq_ok.mp hfirst
      obtain ⟨ks, t, hks, ht, hd, rfl⟩ := (hloop _ _ _).mp hinner
      obtain ⟨kss, ts, hkss, hts, hds, rfl⟩ := (ih _ _).mp hrest
      refine ⟨ks ++ kss, t ++ ts, ?_, visitsEach_append_eq_ok.mpr ⟨t, ts, ht, hts, rfl⟩, ?_,
        (applyVisits_append _ _ _).symm⟩
      · simp [hnodes, hks, hkss]
      · rw [allDeclared_append, hd, Bool.true_and]
        rw [allDeclared_applyVisits] at hds
        exact hds
    · rintro ⟨roots, tr, hroots, htr, hd, rfl⟩
      obtain ⟨ks, hks0, hrest0⟩ := Outcome.bind_eq_ok.mp hroots
      obtain ⟨nodes, hnodes, hks⟩ := Outcome.bind_eq_ok.mp hks0
      obtain ⟨kss, hkss, hok⟩ := Outcome.bind_eq_ok.mp hrest0
      cases hok
      obtain ⟨t, ts, ht, hts, rfl⟩ := visitsEach_append_eq_ok.mp htr
      rw [allDeclared_append, Bool.and_eq_true] at hd
      refine Outcome.bind_eq_ok.mpr ⟨applyVisits t m, ?_, ?_⟩
      · exact Outcome.bind_eq_ok.mpr ⟨nodes, hnodes, (hloop _ _ _).mpr ⟨ks, t, hks, ht, hd.1, rfl⟩⟩
      · refine (ih _ _).mpr ⟨kss, ts, hkss, hts, ?_, applyVisits_append _ _ _⟩
        rw [allDeclared_applyVisits]
        exact hd.2

/-- The linking loop of `load` returns exactly when its calls, read off the manifest, exist
within the depth bound and visit declared keys only; the result is their writes. -/
theorem linkScenes_eq_ok_iff (mGltfTree : Json) (depth : Nat) (m m' : Registry Node) :
    linkScenes mGltfTree depth m = .ok m' ↔
      ∃ tr, visitsOfScenes mGltfTree depth = .ok tr ∧ allDeclared m tr = true ∧
        m' = applyVisits tr m := by
  unfold linkScenes visitsOfScenes rootKeys
  constructor
  · intro hrun
    obtain ⟨scenesObj, hsc, hbody⟩ := Outcome.bind_eq_ok.mp hrun
    obtain ⟨roots, tr, hroots, htr, hd, rfl⟩ :=
      (forEach_scenes_eq_ok_iff mGltfTree depth _ _ _).mp hbody
    refine ⟨tr, ?_, hd, rfl⟩
    simp [hsc, hroots, htr]
  · rintro ⟨tr, htr0, hd, rfl⟩
    obtain ⟨roots, hroots0, htr⟩ := Outcome.bind_eq_ok.mp htr0
    obtain ⟨scenesObj, hsc, hroots⟩ := Outcome.bind_eq_ok.mp hroots0
    exact Outcome.bind_eq_ok.mpr ⟨scenesObj, hsc,
      (forEach_scenes_eq_ok_iff mGltfTree depth _ _ _).mpr ⟨roots, tr, hroots, htr, hd, rfl⟩⟩

/-! ### Shape of the call sequence -/

theorem visits_succ_eq_ok {mGltfTree : Json} {d : Nat} {parent : Option String} {key : String}
    {tr : List Visit} :
    visits mGltfTree (d + 1) parent key = .ok tr ↔
      ∃ cs sub, childKeys mGltfTree key = .ok cs ∧
        visitsEach (fun c => visits mGltfTree d (some key) c) cs = .ok sub ∧
        tr = (parent, key) :: sub := by
  simp only [visits, Outcome.bind_eq_ok, Outcome.ok.injEq]
  constructor
  · rintro ⟨cs, hcs, sub, hsub, rfl⟩
    exact ⟨cs, sub, hcs, hsub, rfl⟩
  · rintro ⟨cs, sub, hcs, hsub, rfl⟩
    exact ⟨cs, hcs, sub, hsub, rfl⟩

theorem visits_zero_ne_ok (mGltfTree : Json) (parent : Option String) (key : String)
    (tr : List Visit) : visits mGltfTree 0 parent key ≠ .ok tr := by
  simp [visits]

theorem childList_of_childKeys {mGltfTree : Json} {key : String} {cs : List String}
    (h : childKeys mGltfTree key = .ok cs) : childList mGltfTree key = cs := by
  simp [childList, h]

theorem appendedTo_append (p : String) (t ts : List Visit) :
    appendedTo p (t ++ ts) = appendedTo p t ++ appendedTo p ts := by
  simp [appendedTo, List.filterMap_append]

theorem appendedTo_cons (p : String) (v : Visit) (tr : List Visit) :
    appendedTo p (v :: tr) = (if v.1 = some p then [v.2] else []) ++ appendedTo p tr := by
  by_cases h : v.1 = some p <;> simp [appendedTo, List.filterMap_cons, h]

theorem visited_append (t ts : List Visit) : visited (t ++ ts) = visited t ++ visited ts := by
  simp [visited]

theorem visited_cons (v : Visit) (tr : List Visit) : visited (v :: tr) = v.2 :: visited tr := rfl

/-- The children appended to `p` by a run of sibling calls whose parent is not `p`, given
the same fact for each single call. -/
theorem appendedTo_visitsEach_other (mGltfTree : Json) (d : Nat) (p : String)
    (hA : ∀ par key tr, visits mGltfTree d par key = .ok tr → (visited tr).count p ≤ 1 →
      appendedTo p tr.tail = (List.replicate ((visited tr).count p) (childList mGltfTree p)).flatten)
    (par : Option String) (hpar : par ≠ some p) :
    ∀ (cs : List String) (tr : List Visit),
      visitsEach (fun c => visits mGltfTree d par c) cs = .ok tr → (visited tr).count p ≤ 1 →
      appendedTo p tr = (List.replicate ((visited tr).count p) (childList mGltfTree p)).flatten := by
  intro cs
  induction cs with
  | nil =>
    intro tr htr _
    simp only [visitsEach, Outcome.ok.injEq] at htr
    subst htr
    simp [appendedTo, visited]
  | cons c rest ih =>
    intro tr htr hcount
    obtain ⟨t, ts, ht, hts, rfl⟩ := visitsEach_cons_eq_ok.mp htr
    rw [visited_append, List.count_append] at hcount ⊢
    have h1 := hA par c t ht (by omega)
    have h2 := ih ts hts (by omega)
    have hhead : appendedTo p t = appendedTo p t.tail := by
      cases d with
      | zero => exact absurd ht (visits_zero_ne_ok _ _ _ _)
      | succ d0 =>
        obtain ⟨cs0, sub, _, _, rfl⟩ := visits_succ_eq_ok.mp ht
        rw [appendedTo_cons]
        simp [hpar]
    rw [appendedTo_append, hhead, h1, h2, List.replicate_add, List.flatten_append]

/-- The children appended to `p` by the calls on its own children, when `p` is not
visited again below them. -/
theorem appendedTo_visitsEach_self (mGltfTree : Json) (d : Nat) (p : String)
    (hA : ∀ par key tr, visits mGltfTree d par key = .ok tr → (visited tr).count p ≤ 1 →
      appendedTo p tr.tail = (List.replicate ((visited tr).count p) (childList mGltfTree p)).flatten) :
    ∀ (cs : List String) (tr : List Visit),
      visitsEach (fun c => visits mGltfTree d (some p) c) cs = .ok tr → (visited tr).count p = 0 →
      appendedTo p tr = cs := by
  intro cs
  induction cs with
  | nil =>
    intro tr htr _
    simp only [visitsEach, Outcome.ok.injEq] at htr
    subst htr
    simp [appendedTo]
  | cons c rest ih =>
    intro tr htr hcount
    obtain ⟨t, ts, ht, hts, rfl⟩ := visitsEach_cons_eq_ok.mp htr
    rw [visited_append, List.count_append] at hcount
    have hc1 : (visited t).count p = 0 := by omega
    have h1 := hA (some p) c t ht (by omega)
    have h2 := ih ts hts (by omega)
    rw [hc1] at h1
    cases d with
    | zero => exact absurd ht (visits_zero_ne_ok _ _ _ _)
    | succ d0 =>
      obtain ⟨cs0, sub, _, _, rfl⟩ := visits_succ_eq_ok.mp ht
      rw [appendedTo_append, appendedTo_cons, h2]
      simp only [List.tail_cons] at h1
      simp [h1]

/-- A call appends, below its head, the manifest children of `p` once when `p` is visited
once, and nothing when `p` is not visited. -/
theorem appendedTo_visits (mGltfTree : Json) (p : String) :
    ∀ (d : Nat) (par : Option String) (key : String) (tr : List Visit),
      visits mGltfTree d par key = .ok tr → (visited tr).count p ≤ 1 →
      appendedTo p tr.tail = (List.replicate ((visited tr).count p) (childList mGltfTree p)).flatten := by
  intro d
  induction d with
  | zero =>
    intro par key tr htr _
    exact absurd htr (visits_zero_ne_ok _ _ _ _)
  | succ d ih =>
    intro par key tr htr hcount
    obtain ⟨cs, sub, hcs, hsub, rfl⟩ := visits_succ_eq_ok.mp htr
    rw [visited_cons, List.count_cons] at hcount ⊢
    simp only [List.tail_cons]
    by_cases hkey : key = p
    · subst hkey
      simp only [beq_self_eq_true, if_true] at hcount ⊢
      have h0 : (visited sub).count key = 0 := by omega
      rw [appendedTo_visitsEach_self mGltfTree d key ih cs sub hsub h0, h0,
        childList_of_childKeys hcs]
      simp
    · have hne : (key == p) = false := by simpa using hkey
      simp only [hne, Bool.false_eq_true, if_false, Nat.add_zero] at hcount ⊢
      have hpar : (some key : Option String) ≠ some p := by
        intro h
        exact hkey (Option.some.inj h)
      exact appendedTo_visitsEach_other mGltfTree d p ih (some key) hpar cs sub hsub hcount

theorem visits_head {mGltfTree : Json} {d : Nat} {par : Option String} {key : String}
    {tr : List Visit} (h : visits mGltfTree d par key = .ok tr) :
    ∃ sub, tr = (par, key) :: sub := by
  cases d with
  | zero => exact absurd h (visits_zero_ne_ok _ _ _ _)
  | succ d0 =>
    obtain ⟨cs, sub, _, _, rfl⟩ := visits_succ_eq_ok.mp h
    exact ⟨sub, rfl⟩

/-- In a run of sibling calls every call is either one of the siblings or has a visited
parent, given the same fact for each single call. -/
theorem visitsEach_parents (mGltfTree : Json) (d : Nat)
    (hA : ∀ par key tr, visits mGltfTree d par key = .ok tr →
      ∀ v ∈ tr.tail, ∃ q, v.1 = some q ∧ q ∈ visited tr)
    (par : Option String) :
    ∀ (cs : List String) (tr : List Visit),
      visitsEach (fun c => visits mGltfTree d par c) cs = .ok tr →
      ∀ v ∈ tr, (v.1 = par ∧ v.2 ∈ cs) ∨ ∃ q, v.1 = some q ∧ q ∈ visited tr := by
  intro cs
  induction cs with
  | nil =>
    intro tr htr v hv
    simp only [visitsEach, Outcome.ok.injEq] at htr
    subst htr
    cases hv
  | cons c rest ih =>
    intro tr htr v hv
    obtain ⟨t, ts, ht, hts, rfl⟩ := visitsEach_cons_eq_ok.mp htr
    rcases List.mem_append.mp hv with hvt | hvts
    · obtain ⟨sub, rfl⟩ := visits_head ht
      rcases List.mem_cons.mp hvt with rfl | hsub
      · exact Or.inl ⟨rfl, List.mem_cons_self _ _⟩
      · obtain ⟨q, hq, hqv⟩ := hA par c _ ht v hsub
        refine Or.inr ⟨q, hq, ?_⟩
        rw [visited_append]
        exact List.mem_append_left _ hqv
    · rcases ih ts hts v hvts with ⟨h1, h2⟩ | ⟨q, hq, hqv⟩
      · exact Or.inl ⟨h1, List.mem_cons_of_mem _ h2⟩
      · refine Or.inr ⟨q, hq, ?_⟩
        rw [visited_append]
        exact List.mem_append_right _ hqv

/-- Below its head, every call of a walk has a parent that the walk visits. -/
theorem visits_parents (mGltfTree : Json) :
    ∀ (d : Nat) (par : Option String) (key : String) (tr : List Visit),
      visits mGltfTree d par key = .ok tr →
      ∀ v ∈ tr.tail, ∃ q, v.1 = some q ∧ q ∈ visited tr := by
  intro d
  induction d with
  | zero =>
    intro par key tr htr
    exact absurd htr (visits_zero_ne_ok _ _ _ _)
  | succ d ih =>
    intro par key tr htr v hv
    obtain ⟨cs, sub, hcs, hsub, rfl⟩ := visits_succ_eq_ok.mp htr
    simp only [List.tail_cons] at hv
    rcases visitsEach_parents mGltfTree d ih (some key) cs sub hsub v hv with ⟨h1, _⟩ | ⟨q, hq, hqv⟩
    · exact ⟨key, h1, List.mem_cons_self _ _⟩
    · exact ⟨q, hq, List.mem_cons_of_mem _ hqv⟩

theorem visitsEach_heads (mGltfTree : Json) (d : Nat) (par : Option String) :
    ∀ (cs : List String) (tr : List Visit),
      visitsEach (fun c => visits mGltfTree d par c) cs = .ok tr →
      ∀ c ∈ cs, (par, c) ∈ tr := by
  intro cs
  induction cs with
  | nil =>
    intro tr _ c hc
    cases hc
  | cons c0 rest ih =>
    intro tr htr c hc
    obtain ⟨t, ts, ht, hts, rfl⟩ := visitsEach_cons_eq_ok.mp htr
    obtain ⟨sub, rfl⟩ := visits_head ht
    rcases List.mem_cons.mp hc with rfl | hrest
    · exact List.mem_append_left _ (List.mem_cons_self _ _)
    · exact List.mem_append_right _ (ih ts hts c hrest)

theorem visitsEach_childKeys (mGltfTree : Json) (d : Nat)
    (hA : ∀ par key tr, visits mGltfTree d par key = .ok tr →
      ∀ p ∈ visited tr, childKeys mGltfTree p = .ok (childList mGltfTree p))
    (par : Option String) :
    ∀ (cs : List String) (tr : List Visit),
      visitsEach (fun c => visits mGltfTree d par c) cs = .ok tr →
      ∀ p ∈ visited tr, childKeys mGltfTree p = .ok (childList mGltfTree p) := by
  intro cs
  induction cs with
  | nil =>
    intro tr htr p hp
    simp only [visitsEach, Outcome.ok.injEq] at htr
    subst htr
    cases hp
  | cons c rest ih =>
    intro tr htr p hp
    obtain ⟨t, ts, ht, hts, rfl⟩ := visitsEach_cons_eq_ok.mp htr
    rw [visited_append] at hp
    rcases List.mem_append.mp hp with h | h
    · exact hA par c t ht p h
    · exact ih ts hts p h

/-- The children list of every visited node is readable. -/
theorem visits_childKeys (mGltfTree : Json) :
    ∀ (d : Nat) (par : Option String) (key : String) (tr : List Visit),
      visits mGltfTree d par key = .ok tr →
      ∀ p ∈ visited tr, childKeys mGltfTree p = .ok (childList mGltfTree p) := by
  intro d
  induction d with
  | zero =>
    intro par key tr htr
    exact absurd htr (visits_zero_ne_ok _ _ _ _)
  | succ d ih =>
    intro par key tr htr p hp
    obtain ⟨cs, sub, hcs, hsub, rfl⟩ := visits_succ_eq_ok.mp htr
    rcases List.mem_cons.mp hp with rfl | hsubp
    · rw [childList_of_childKeys hcs]
      exact hcs
    · exact visitsEach_childKeys mGltfTree d ih (some key) cs sub hsub p hsubp

/-! ### Parents written by a call sequence -/

theorem lastParent_cons (k : String) (init : Option String) (v : Visit) (tr : List Visit) :
    lastParent k init (v :: tr) = lastParent k (if v.2 = k then v.1 else init) tr := rfl

theorem lastParent_not_visited (k : String) (tr : List Visit) :
    ∀ init, k ∉ visited tr → lastParent k init tr = init := by
  induction tr with
  | nil =>
    intro init _
    rfl
  | cons v rest ih =>
    intro init hk
    rw [visited_cons, List.mem_cons, not_or] at hk
    have hne : ¬ v.2 = k := fun h => hk.1 h.symm
    rw [lastParent_cons, if_neg hne]
    exact ih init hk.2

theorem lastParent_visited (k : String) (tr : List Visit) :
    ∀ i j, k ∈ visited tr → lastParent k i tr = lastParent k j tr := by
  induction tr with
  | nil =>
    intro i j hk
    cases hk
  | cons v rest ih =>
    intro i j hk
    rw [lastParent_cons, lastParent_cons]
    by_cases hv : v.2 = k
    · rw [if_pos hv, if_pos hv]
    · rw [if_neg hv, if_neg hv]
      rw [visited_cons, List.mem_cons] at hk
      rcases hk with h | h
      · exact absurd h.symm hv
      · exact ih i j h

theorem lastParent_idem (k : String) (init : Option String) (tr : List Visit) :
    lastParent k (lastParent k init tr) tr = lastParent k init tr := by
  by_cases hk : k ∈ visited tr
  · exact lastParent_visited k tr _ _ hk
  · rw [lastParent_not_visited k tr init hk, lastParent_not_visited k tr init hk]

/-- When every key is visited once, the parent written for a visited key is the parent of
its only call. -/
theorem lastParent_of_mem (k : String) (q : Option String) (tr : List Visit) :
    ∀ init, (visited tr).Nodup → (q, k) ∈ tr → lastParent k init tr = q := by
  induction tr with
  | nil =>
    intro init _ h
    cases h
  | cons v rest ih =>
    intro init hnd hmem
    rw [visited_cons, List.nodup_cons] at hnd
    rw [lastParent_cons]
    rcases List.mem_cons.mp hmem with rfl | hrest
    · simp only [if_true]
      exact lastParent_not_visited _ _ _ hnd.1
    · exact ih _ hnd.2 hrest

theorem mem_appendedTo {p c : String} {tr : List Visit} :
    c ∈ appendedTo p tr ↔ (some p, c) ∈ tr := by
  simp only [appendedTo, List.mem_filterMap]
  constructor
  · rintro ⟨⟨q, c0⟩, hv, hif⟩
    by_cases hq : q = some p
    · simp only [hq, if_true, Option.some.injEq] at hif
      subst hif
      subst hq
      exact hv
    · simp [hq] at hif
  · intro h
    exact ⟨(some p, c), h, by simp⟩

theorem appendedTo_sublist (p : String) (tr : List Visit) :
    (appendedTo p tr).Sublist (visited tr) := by
  induction tr with
  | nil => simp [appendedTo, visited]
  | cons v rest ih =>
    rw [appendedTo_cons, visited_cons]
    by_cases h : v.1 = some p
    · simp only [h, if_true, List.singleton_append]
      exact ih.cons₂ _
    · simp only [h, if_false, List.nil_append]
      exact ih.cons _

/-! ### The linking loop on a forest -/

theorem visitsOfScenes_eq_ok {mGltfTree : Json} {depth : Nat} {tr : List Visit}
    (h : visitsOfScenes mGltfTree depth = .ok tr) :
    ∃ roots, rootKeys mGltfTree = .ok roots ∧
      visitsEach (fun r => visits mGltfTree depth none r) roots = .ok tr :=
  Outcome.bind_eq_ok.mp h

theorem mem_visited {k : String} {tr : List Visit} :
    k ∈ visited tr ↔ ∃ q, (q, k) ∈ tr := by
  simp only [visited, List.mem_map]
  constructor
  · rintro ⟨⟨q, k0⟩, hv, rfl⟩
    exact ⟨q, hv⟩
  · rintro ⟨q, hv⟩
    exact ⟨(q, k), hv, rfl⟩

theorem find_of_allDeclared {m : Registry Node} {tr : List Visit} {k : String}
    (hd : allDeclared m tr = true) (hk : k ∈ visited tr) : ∃ n0, m.find k = some n0 := by
  obtain ⟨q, hv⟩ := mem_visited.mp hk
  have := (List.all_eq_true.mp hd) (q, k) hv
  exact Option.isSome_iff_exists.mp this

/-- The node stored under a key after the writes of `tr`: parent written last, children
appended. -/
theorem find_applyVisits_fields (tr : List Visit) {m : Registry Node} {k : String} {n0 : Node}
    (h0 : m.find k = some n0) :
    ∃ n, (applyVisits tr m).find k = some n ∧ n.parent = lastParent k n0.parent tr ∧
      n.children = n0.children ++ appendedTo k tr ∧ n.name = n0.name ∧
      n.jointName = n0.jointName := by
  refine ⟨tr.foldl (visitNode k) n0, ?_, foldl_visitNode_parent _ _ _,
    foldl_visitNode_children _ _ _, (foldl_visitNode_names _ _ _).1,
    (foldl_visitNode_names _ _ _).2⟩
  rw [find_applyVisits, h0]
  rfl

theorem appendedTo_of_once (mGltfTree : Json) (depth : Nat) (roots : List String)
    (tr : List Visit)
    (htr : visitsEach (fun r => visits mGltfTree depth none r) roots = .ok tr)
    (honce : (visited tr).Nodup) (p : String) (hp : p ∈ visited tr) :
    appendedTo p tr = childList mGltfTree p := by
  have hcount : (visited tr).count p = 1 := List.count_eq_one_of_mem honce hp
  have h := appendedTo_visitsEach_other mGltfTree depth p
    (appendedTo_visits mGltfTree p depth) none (by simp) roots tr htr (by omega)
  rw [h, hcount]
  simp

/-- The node stored for a call `(q, p)` after the writes of a call sequence that starts from
empty children lists and visits every key once: its parent is `q`, its children are the
keys appended to `p`, which are the manifest children of `p`. -/
theorem forest_node (mGltfTree : Json) (depth : Nat) (mNodes : Registry Node)
    (roots : List String) (tr : List Visit)
    (hinit : ∀ k n, mNodes.find k = some n → n.children = [])
    (htr : visitsEach (fun r => visits mGltfTree depth none r) roots = .ok tr)
    (hdecl : allDeclared mNodes tr = true)
    (honce : (visited tr).Nodup) (q : Option String) (p : String) (hmem : (q, p) ∈ tr) :
    ∃ n, (applyVisits tr mNodes).find p = some n ∧ n.parent = q ∧
      n.children = appendedTo p tr ∧ n.children = childList mGltfTree p := by
  have hp : p ∈ visited tr := mem_visited.mpr ⟨q, hmem⟩
  obtain ⟨n0, h0⟩ := find_of_allDeclared hdecl hp
  obtain ⟨n, hn, hpar, hch, _⟩ := find_applyVisits_fields tr h0
  have happ : n.children = appendedTo p tr := by
    rw [hch, hinit p n0 h0, List.nil_append]
  refine ⟨n, hn, ?_, happ, ?_⟩
  · rw [hpar, lastParent_of_mem p q tr _ honce hmem]
  · rw [happ, appendedTo_of_once mGltfTree depth roots tr htr honce p hp]

/-! ### Depth of the recursion -/

theorem visitsEach_each_ok {f : String → Outcome (List Visit)} :
    ∀ {cs : List String} {tr : List Visit}, visitsEach f cs = .ok tr →
      ∀ c ∈ cs, ∃ t, f c = .ok t ∧ ∀ v ∈ t, v ∈ tr := by
  intro cs
  induction cs with
  | nil =>
    intro tr _ c hc
    cases hc
  | cons c0 rest ih =>
    intro tr htr c hc
    obtain ⟨t, ts, ht, hts, rfl⟩ := visitsEach_cons_eq_ok.mp htr
    rcases List.mem_cons.mp hc with rfl | hrest
    · exact ⟨t, ht, fun v hv => List.mem_append_left _ hv⟩
    · obtain ⟨t1, ht1, hsub⟩ := ih hts c hrest
      exact ⟨t1, ht1, fun v hv => List.mem_append_right _ (hsub v hv)⟩

theorem visits_any_parent {mGltfTree : Json} {d : Nat} {par : Option String} {key : String}
    {tr : List Visit} (h : visits mGltfTree d par key = .ok tr) (par1 : Option String) :
    ∃ tr1, visits mGltfTree d par1 key = .ok tr1 := by
  cases d with
  | zero => exact absurd h (visits_zero_ne_ok _ _ _ _)
  | succ d0 =>
    obtain ⟨cs, sub, hcs, hsub, _⟩ := visits_succ_eq_ok.mp h
    exact ⟨(par1, key) :: sub, visits_succ_eq_ok.mpr ⟨cs, sub, hcs, hsub, rfl⟩⟩

theorem not_walkable_zero (mGltfTree : Json) (k : String) : ¬ Walkable mGltfTree 0 k := by
  rintro ⟨tr, h⟩
  exact visits_zero_ne_ok _ _ _ _ h

theorem walkable_child {mGltfTree : Json} {d : Nat} {k c : String}
    (h : Walkable mGltfTree (d + 1) k) (hc : childRel mGltfTree k c) : Walkable mGltfTree d c := by
  obtain ⟨tr, htr⟩ := h
  obtain ⟨cs, sub, hcs, hsub, _⟩ := visits_succ_eq_ok.mp htr
  unfold childRel at hc
  rw [childList_of_childKeys hcs] at hc
  obtain ⟨t, ht, _⟩ := visitsEach_each_ok hsub c hc
  exact visits_any_parent ht none

theorem walkable_transGen {mGltfTree : Json} {a b : String}
    (h : Relation.TransGen (childRel mGltfTree) a b) :
    ∀ d, Walkable mGltfTree d a → ∃ d1, d1 < d ∧ Walkable mGltfTree d1 b := by
  induction h with
  | single hab =>
    intro d hd
    cases d with
    | zero => exact absurd hd (not_walkable_zero _ _)
    | succ d0 => exact ⟨d0, Nat.lt_succ_self _, walkable_child hd hab⟩
  | tail _ hbc ih =>
    intro d hd
    obtain ⟨d1, hlt, hd1⟩ := ih d hd
    cases d1 with
    | zero => exact absurd hd1 (not_walkable_zero _ _)
    | succ d0 => exact ⟨d0, by omega, walkable_child hd1 hbc⟩

theorem walkable_reflTransGen {mGltfTree : Json} {a b : String}
    (h : Relation.ReflTransGen (childRel mGltfTree) a b) (d : Nat)
    (hd : Walkable mGltfTree d a) : ∃ d1, d1 ≤ d ∧ Walkable mGltfTree d1 b := by
  rcases Relation.reflTransGen_iff_eq_or_transGen.mp h with heq | htg
  · subst heq
    exact ⟨d, le_refl _, hd⟩
  · obtain ⟨d1, hlt, hd1⟩ := walkable_transGen htg d hd
    exact ⟨d1, Nat.le_of_lt hlt, hd1⟩

/-- A node on a cycle of the manifest cannot be walked within any depth. -/
theorem not_walkable_of_cycle {mGltfTree : Json} {a : String}
    (hcyc : Relation.TransGen (childRel mGltfTree) a a) : ∀ d, ¬ Walkable mGltfTree d a := by
  intro d
  induction d using Nat.strong_induction_on with
  | _ d ih =>
    intro hd
    obtain ⟨d1, hlt, hd1⟩ := walkable_transGen hcyc d hd
    exact ih d1 hlt hd1

/-! ### Without a failure in sight the walk returns or recurses on -/

theorem isSome_find_applyVisits (tr : List Visit) (m : Registry Node) (b : String) :
    ((applyVisits tr m).find b).isSome = (m.find b).isSome := by
  rw [find_applyVisits]
  cases m.find b <;> rfl

theorem readable_applyVisits {mGltfTree : Json} {m : Registry Node} {k : String}
    (tr : List Visit) (h : Readable mGltfTree m k) : Readable mGltfTree (applyVisits tr m) k := by
  intro b hb
  rw [isSome_find_applyVisits]
  exact h b hb

theorem readable_child {mGltfTree : Json} {m : Registry Node} {k c : String}
    (h : Readable mGltfTree m k) (hc : childRel mGltfTree k c) : Readable mGltfTree m c :=
  fun b hb => h b (Relation.ReflTransGen.head hc hb)

theorem forEach_walk_total (mGltfTree : Json) (d : Nat) (k : String)
    (ih : ∀ par c m, Readable mGltfTree m c →
      setParentForChildren mGltfTree d par c m = .outOfFuel ∨
        ∃ m', setParentForChildren mGltfTree d par c m = .ok m') :
    ∀ (elems : List Json) (cs : List String) (m0 : Registry Node),
      collectStrings elems = .ok cs → (∀ c ∈ cs, Readable mGltfTree m0 c) →
      forEach (fun child acc =>
          (Outcome.ofJson child.asString).bind fun key =>
          setParentForChildren mGltfTree d (some k) key acc) elems m0 = .outOfFuel ∨
      ∃ m', forEach (fun child acc =>
          (Outcome.ofJson child.asString).bind fun key =>
          setParentForChildren mGltfTree d (some k) key acc) elems m0 = .ok m' := by
  intro elems
  induction elems with
  | nil =>
    intro cs m0 _ _
    exact Or.inr ⟨m0, rfl⟩
  | cons j rest ihl =>
    intro cs m0 hcs hgood
    obtain ⟨c, ks, hj, hks, rfl⟩ := collectStrings_cons_eq_ok.mp hcs
    simp only [forEach, hj, Outcome.ofJson, Outcome.bind_ok]
    rcases ih (some k) c m0 (hgood c (List.mem_cons_self _ _)) with h | ⟨m1, h⟩
    · rw [h]
      exact Or.inl rfl
    · rw [h, Outcome.bind_ok]
      obtain ⟨t, _, _, rfl⟩ := (setParentForChildren_eq_ok_iff _ _ _ _ _ _).mp h
      exact ihl ks _ hks fun c1 hc1 =>
        readable_applyVisits t (hgood c1 (List.mem_cons_of_mem _ hc1))

/-- When everything reachable from `k` is declared and readable, the walk from `k` either
returns or exhausts its depth bound. -/
theorem setParentForChildren_total (mGltfTree : Json) :
    ∀ (d : Nat) (par : Option String) (k : String) (m : Registry Node),
      Readable mGltfTree m k →
      setParentForChildren mGltfTree d par k m = .outOfFuel ∨
        ∃ m', setParentForChildren mGltfTree d par k m = .ok m' := by
  intro d
  induction d with
  | zero =>
    intro par k m _
    exact Or.inl rfl
  | succ d ih =>
    intro par k m hgood
    obtain ⟨hsome, cs, hcs⟩ := hgood k Relation.ReflTransGen.refl
    obtain ⟨n, hn⟩ := Option.isSome_iff_exists.mp hsome
    obtain ⟨children, hch, hbody⟩ := Outcome.bind_eq_ok.mp hcs
    rw [setParentForChildren_succ, hn]
    simp only [hch, Outcome.bind_ok]
    by_cases hempty : children.empty = true
    · simp only [hempty, Bool.not_true, Bool.false_eq_true, if_false]
      exact Or.inr ⟨_, rfl⟩
    · simp only [hempty, Bool.not_false, if_true] at hbody ⊢
      refine forEach_walk_total mGltfTree d k ih _ cs _ hbody ?_
      intro c hc
      have hrel : childRel mGltfTree k c := by
        unfold childRel
        rw [childList_of_childKeys hcs]
        exact hc
      exact readable_applyVisits [(par, k)] (readable_child hgood hrel)

/-- From a node that reaches a cycle of the manifest the walk never returns. -/
theorem setParentForChildren_cycle_not_ok {mGltfTree : Json} {root a : String}
    (hreach : Relation.ReflTransGen (childRel mGltfTree) root a)
    (hcyc : Relation.TransGen (childRel mGltfTree) a a)
    (depth : Nat) (par : Option String) (m m' : Registry Node) :
    setParentForChildren mGltfTree depth par root m ≠ .ok m' := by
  intro h
  obtain ⟨tr, htr, _, _⟩ := (setParentForChildren_eq_ok_iff _ _ _ _ _ _).mp h
  obtain ⟨d1, _, hd1⟩ := walkable_reflTransGen hreach depth (visits_any_parent htr none)
  exact not_walkable_of_cycle hcyc d1 hd1

/-- From a node that reaches a cycle, everything reachable being declared and readable,
the walk exhausts every depth bound. -/
theorem setParentForChildren_cycle_outOfFuel {mGltfTree : Json} {root a : String}
    (hreach : Relation.ReflTransGen (childRel mGltfTree) root a)
    (hcyc : Relation.TransGen (childRel mGltfTree) a a)
    (m : Registry Node) (hgood : Readable mGltfTree m root) (depth : Nat)
    (par : Option String) :
    setParentForChildren mGltfTree depth par root m = .outOfFuel := by
  rcases setParentForChildren_total mGltfTree depth par root m hgood with h | ⟨m', h⟩
  · exact h
  · exact absurd h (setParentForChildren_cycle_not_ok hreach hcyc depth par m m')

/-- A manifest with a root that reaches a cycle is never linked. -/
theorem linkScenes_cycle_not_ok {mGltfTree : Json} {root a : String}
    (hreach : Relation.ReflTransGen (childRel mGltfTree) root a)
    (hcyc : Relation.TransGen (childRel mGltfTree) a a)
    (roots : List String) (hroots : rootKeys mGltfTree = .ok roots) (hroot : root ∈ roots)
    (depth : Nat) (m m' : Registry Node) :
    linkScenes mGltfTree depth m ≠ .ok m' := by
  intro h
  obtain ⟨tr, htr, _, _⟩ := (linkScenes_eq_ok_iff _ _ _ _).mp h
  obtain ⟨roots0, hroots0, hvis⟩ := visitsOfScenes_eq_ok htr
  rw [hroots] at hroots0
  cases hroots0
  obtain ⟨t, ht, _⟩ := visitsEach_each_ok hvis root hroot
  obtain ⟨d1, _, hd1⟩ := walkable_reflTransGen hreach depth ⟨t, ht⟩
  exact not_walkable_of_cycle hcyc d1 hd1

/-! ### Visited nodes are reachable, stored children are manifest children -/

theorem visitsEach_visited {f : String → Outcome (List Visit)} :
    ∀ {cs : List String} {tr : List Visit}, visitsEach f cs = .ok tr →
      ∀ p ∈ visited tr, ∃ c ∈ cs, ∃ t, f c = .ok t ∧ p ∈ visited t := by
  intro cs
  induction cs with
  | nil =>
    intro tr htr p hp
    simp only [visitsEach, Outcome.ok.injEq] at htr
    subst htr
    cases hp
  | cons c0 rest ih =>
    intro tr htr p hp
    obtain ⟨t, ts, ht, hts, rfl⟩ := visitsEach_cons_eq_ok.mp htr
    rw [visited_append] at hp
    rcases List.mem_append.mp hp with h | h
    · exact ⟨c0, List.mem_cons_self _ _, t, ht, h⟩
    · obtain ⟨c, hc, t1, ht1, hp1⟩ := ih hts p h
      exact ⟨c, List.mem_cons_of_mem _ hc, t1, ht1, hp1⟩

/-- Every key a walk visits is reachable from its starting key in the manifest. -/
theorem visits_reachable (mGltfTree : Json) :
    ∀ (d : Nat) (par : Option String) (key : String) (tr : List Visit),
      visits mGltfTree d par key = .ok tr →
      ∀ p ∈ visited tr, Relation.ReflTransGen (childRel mGltfTree) key p := by
  intro d
  induction d with
  | zero =>
    intro par key tr htr
    exact absurd htr (visits_zero_ne_ok _ _ _ _)
  | succ d ih =>
    intro par key tr htr p hp
    obtain ⟨cs, sub, hcs, hsub, rfl⟩ := visits_succ_eq_ok.mp htr
    rcases List.mem_cons.mp hp with rfl | hsubp
    · exact Relation.ReflTransGen.refl
    · obtain ⟨c, hc, t, ht, hpt⟩ := visitsEach_visited hsub p hsubp
      have hrel : childRel mGltfTree key c := by
        unfold childRel
        rw [childList_of_childKeys hcs]
        exact hc
      exact Relation.ReflTransGen.head hrel (ih (some key) c t ht p hpt)

/-- Every key the linking loop visits can be walked within the loop's depth bound. -/
theorem walkable_of_visited {mGltfTree : Json} {depth : Nat} {roots : List String}
    {tr : List Visit}
    (htr : visitsEach (fun r => visits mGltfTree depth none r) roots = .ok tr)
    {p : String} (hp : p ∈ visited tr) : ∃ d1, Walkable mGltfTree d1 p := by
  obtain ⟨r, _, t, ht, hpt⟩ := visitsEach_visited htr p hp
  obtain ⟨d1, _, hd1⟩ :=
    walkable_reflTransGen (visits_reachable mGltfTree depth none r t ht p hpt) depth ⟨t, ht⟩
  exact ⟨d1, hd1⟩

/-- A chain of stored children that starts at a visited node, every visited node storing
its manifest children, is a chain of the manifest and stays among the visited nodes. -/
theorem storedChild_transGen {mGltfTree : Json} {linked : Registry Node} {tr : List Visit}
    (hstored : ∀ p ∈ visited tr, ∀ c, storedChild linked p c →
      childRel mGltfTree p c ∧ c ∈ visited tr)
    {p q : String} (hp : p ∈ visited tr) (h : Relation.TransGen (storedChild linked) p q) :
    Relation.TransGen (childRel mGltfTree) p q ∧ q ∈ visited tr := by
  induction h with
  | single hpc =>
    obtain ⟨h1, h2⟩ := hstored p hp _ hpc
    exact ⟨Relation.TransGen.single h1, h2⟩
  | tail _ hbc ih =>
    obtain ⟨h1, h2⟩ := ih
    obtain ⟨h3, h4⟩ := hstored _ h2 _ hbc
    exact ⟨Relation.TransGen.tail h1 h3, h4⟩

/-! ### The loop of `getParameters` -/

theorem readFloats_length {ptr : DataPtr} {n : Nat} {floats : List Nat}
    (h : readFloats ptr n = .ok floats) : floats.length = n := by
  unfold readFloats at h
  split at h
  · cases h
    simp
  · cases h

theorem accessorFloats_length {file : File} {acc : Accessor} {n : Nat} {floats : List Nat}
    (h : accessorFloats file acc n = .ok floats) : floats.length = n := by
  obtain ⟨ptr, _, hread⟩ := Outcome.bind_eq_ok.mp h
  exact readFloats_length hread

/-- One iteration of the loop appends the record of its parameter. -/
theorem getParametersStep_ok (file : File) (n : Nat) (param : Parameter) (acc : Accessor)
    (floats : List Nat) (ret : List ParameterData)
    (hacc : deref file.mAccessors param.accessor = .ok acc)
    (hcount : acc.count = n)
    (hfit : n * acc.getNumComponents < 2 ^ 32)
    (hfloats : accessorFloats file acc (n * acc.getNumComponents) = .ok floats) :
    getParametersStep file n param ret =
      .ok (ret ++ [{ paramName := param.parameter, numComponents := acc.getNumComponents,
                     data := floats }]) := by
  obtain ⟨ptr, hptr, hread⟩ := Outcome.bind_eq_ok.mp hfloats
  have hmod : n * acc.getNumComponents % 2 ^ 32 = n * acc.getNumComponents :=
    Nat.mod_eq_of_lt hfit
  unfold getParametersStep
  simp only [hacc, Outcome.bind_ok, hcount, ne_eq, not_true_eq_false, if_false, hptr, hmod,
    lt_self_iff_false, hread, Nat.sub_self, List.replicate_zero, List.append_nil]

theorem getParameters_loop (file : File) (n : Nat) :
    ∀ (resolved : List (Parameter × Accessor × List Nat)) (ret : List ParameterData),
      (∀ r ∈ resolved, deref file.mAccessors r.1.accessor = .ok r.2.1 ∧ r.2.1.count = n ∧
        n * r.2.1.getNumComponents < 2 ^ 32 ∧
        accessorFloats file r.2.1 (n * r.2.1.getNumComponents) = .ok r.2.2) →
      forEach (getParametersStep file n) (resolved.map fun r => r.1) ret =
        .ok (ret ++ resolved.map fun r =>
          { paramName := r.1.parameter, numComponents := r.2.1.getNumComponents,
            data := r.2.2 }) := by
  intro resolved
  induction resolved with
  | nil =>
    intro ret _
    simp [forEach]
  | cons r rest ih =>
    intro ret hres
    obtain ⟨hacc, hcount, hfit, hfloats⟩ := hres r (List.mem_cons_self _ _)
    simp only [List.map_cons, forEach]
    rw [getParametersStep_ok file n r.1 r.2.1 r.2.2 ret hacc hcount hfit hfloats,
      Outcome.bind_ok, ih _ fun r1 hr1 => hres r1 (List.mem_cons_of_mem _ hr1)]
    simp

/-! ### The loop of `createSkeleton` -/

theorem deref_some_eq_ok {α : Type} {reg : Registry α} {key : String} {a : α} :
    deref reg (some key) = .ok a ↔ reg.find key = some a := by
  simp only [deref]
  cases h : reg.find key <;> simp

theorem readMat4_eq_ok {ptr : DataPtr} {i : Nat} {mat : List Nat}
    (h : readMat4 ptr i = .ok mat) : mat = matAt ptr i := by
  unfold readMat4 readFloats at h
  split at h
  · cases h
    rfl
  · cases h

theorem readMat4_ok_of_le {ptr : DataPtr} {i : Nat}
    (h : ptr.offset + 64 * i + 64 ≤ ptr.memory.length) : readMat4 ptr i = .ok (matAt ptr i) := by
  unfold readMat4 readFloats
  rw [if_pos (by simpa using h)]
  rfl

/-- The parent index computed in iteration `i`. -/
theorem parentId_step {file : File} {jointNames : List String} {i : Nat} {key : String}
    {joint : Node} {parentId : Nat} (hfind : file.mNodes.find key = some joint)
    (h : (if i = 0 then Outcome.ok 0xFF
      else (deref file.mNodes joint.parent).bind fun parent =>
        Outcome.ok (jointNames.indexOf parent.name % 256)) = .ok parentId) :
    parentId = parentIdAt file jointNames i key ∧
      (i ≠ 0 → ∃ parent, deref file.mNodes joint.parent = .ok parent) := by
  unfold parentIdAt parentNameOf
  by_cases hi : i = 0
  · rw [if_pos hi] at h
    rw [if_pos hi]
    cases h
    exact ⟨rfl, fun hne => absurd hi hne⟩
  · rw [if_neg hi] at h
    rw [if_neg hi]
    obtain ⟨parent, hparent, hpid⟩ := Outcome.bind_eq_ok.mp h
    cases hpid
    refine ⟨?_, fun _ => ⟨parent, hparent⟩⟩
    simp [hfind, hparent]

/-- What a completed run of the loop has built. -/
theorem createSkeletonLoop_eq_ok (file : File) (ptr : DataPtr) :
    ∀ (rest : List String) (i : Nat) (jointNames : List String) (js : List Joint)
      (skel : Skeleton),
      createSkeletonLoop file ptr rest i jointNames js = .ok skel →
      jointNames.length = i → i + rest.length ≤ 2 ^ 32 →
      skel.jointNames = jointNames ++ rest.map (jointNameOf file) ∧
      skel.joints = js ++ jointsFrom file ptr rest i jointNames ∧
      ∀ k key, rest[k]? = some key →
        ∃ joint, file.mNodes.find key = some joint ∧ joint.jointName ≠ "" ∧
          (i + k ≠ 0 → ∃ parent, deref file.mNodes joint.parent = .ok parent) := by
  intro rest
  induction rest with
  | nil =>
    intro i jointNames js skel h _ _
    simp only [createSkeletonLoop, Outcome.ok.injEq] at h
    subst h
    simp [jointsFrom]
  | cons key rest ih =>
    intro i jointNames js skel h hlen hfit
    simp only [List.length_cons] at hfit
    unfold createSkeletonLoop at h
    obtain ⟨joint, hjoint, h1⟩ := Outcome.bind_eq_ok.mp h
    have hfind : file.mNodes.find key = some joint := deref_some_eq_ok.mp hjoint
    obtain ⟨parentId, hpid, h2⟩ := Outcome.bind_eq_ok.mp h1
    obtain ⟨hpid_eq, hparent⟩ := parentId_step hfind hpid
    by_cases hempty : joint.jointName = ""
    · simp [hempty] at h2
    · simp only [hempty, if_false] at h2
      obtain ⟨mat, hmat, h3⟩ := Outcome.bind_eq_ok.mp h2
      have hname : jointNameOf file key = joint.jointName := by simp [jointNameOf, hfind]
      have hnameId : ((jointNames ++ [joint.jointName]).length - 1) % 2 ^ 32 = i := by
        simp only [List.length_append, List.length_singleton, Nat.add_sub_cancel, hlen]
        exact Nat.mod_eq_of_lt (by omega)
      obtain ⟨hn, hj, hk⟩ := ih (i + 1) _ _ skel h3 (by simp [hlen]) (by omega)
      refine ⟨?_, ?_, ?_⟩
      · rw [hn, List.map_cons, hname, List.append_assoc]
        rfl
      · rw [hj, hnameId, hpid_eq, readMat4_eq_ok hmat, List.append_assoc]
        simp [jointsFrom, hname]
      · intro k key1 hkey1
        cases k with
        | zero =>
          simp only [List.getElem?_cons_zero, Option.some.injEq] at hkey1
          subst hkey1
          exact ⟨joint, hfind, hempty, hparent⟩
        | succ k0 =>
          simp only [List.getElem?_cons_succ] at hkey1
          obtain ⟨j1, hj1, hne1, hp1⟩ := hk k0 key1 hkey1
          exact ⟨j1, hj1, hne1, fun _ => hp1 (by omega)⟩

/-- The loop runs through when every remaining joint is ready. -/
theorem createSkeletonLoop_total (file : File) (ptr : DataPtr) :
    ∀ (rest : List String) (i : Nat) (jointNames : List String) (js : List Joint),
      jointsReady file ptr rest i = true →
      ∃ skel, createSkeletonLoop file ptr rest i jointNames js = .ok skel := by
  intro rest
  induction rest with
  | nil =>
    intro i jointNames js _
    exact ⟨_, rfl⟩
  | cons key rest ih =>
    intro i jointNames js hready
    simp only [jointsReady, Bool.and_eq_true] at hready
    obtain ⟨hkey, hrest⟩ := hready
    unfold jointReady at hkey
    cases hfind : file.mNodes.find key with
    | none => simp [hfind] at hkey
    | some joint =>
      simp only [hfind, Bool.and_eq_true, Bool.or_eq_true, decide_eq_true_eq] at hkey
      obtain ⟨⟨hname, hpar⟩, hmat⟩ := hkey
      have hpid : ∃ parentId, (if i = 0 then Outcome.ok 0xFF
          else (deref file.mNodes joint.parent).bind fun parent =>
            Outcome.ok (jointNames.indexOf parent.name % 256)) = .ok parentId := by
        by_cases hi : i = 0
        · exact ⟨0xFF, by simp [hi]⟩
        · rcases hpar with h0 | hok
          · exact absurd h0 hi
          · cases hd : deref file.mNodes joint.parent with
            | ok parent => exact ⟨jointNames.indexOf parent.name % 256, by simp [hi]⟩
            | _ => simp [hd, Outcome.isOk] at hok
      obtain ⟨parentId, hpid⟩ := hpid
      unfold createSkeletonLoop
      simp only [deref_some_eq_ok.mpr hfind, Outcome.bind_ok, hpid, hname, if_false,
        readMat4_ok_of_le hmat]
      exact ih _ _ _ hrest

theorem jointsFrom_length (file : File) (ptr : DataPtr) :
    ∀ (rest : List String) (i : Nat) (jointNames : List String),
      (jointsFrom file ptr rest i jointNames).length = rest.length := by
  intro rest
  induction rest with
  | nil =>
    intro i jointNames
    rfl
  | cons key rest ih =>
    intro i jointNames
    simp [jointsFrom, ih]

/-- The `k`-th joint the loop appends. -/
theorem jointsFrom_getElem? (file : File) (ptr : DataPtr) :
    ∀ (rest : List String) (i : Nat) (jointNames : List String) (k : Nat),
      (jointsFrom file ptr rest i jointNames)[k]? =
        (rest[k]?).map fun key =>
          { parentId := parentIdAt file (jointNames ++ (rest.take k).map (jointNameOf file))
              (i + k) key,
            nameId := i + k, inverseBind := matAt ptr (i + k) } := by
  intro rest
  induction rest with
  | nil =>
    intro i jointNames k
    simp [jointsFrom]
  | cons key rest ih =>
    intro i jointNames k
    cases k with
    | zero => simp [jointsFrom]
    | succ k0 =>
      simp only [jointsFrom, List.getElem?_cons_succ, ih, List.take_succ_cons, List.map_cons]
      have h1 : i + 1 + k0 = i + (k0 + 1) := by omega
      rw [h1, List.append_assoc]
      rfl

/-- What `createSkeleton` returns when it returns. -/
theorem createSkeleton_eq_ok {file : File} {skin : Skin} {skel : Skeleton}
    (h : skin.createSkeleton file = .ok skel) :
    ∃ ptr, skel.jointNames = skin.joints.map (jointNameOf file) ∧
      skel.joints = jointsFrom file ptr skin.joints 0 [] ∧
      skin.joints.length < 2 ^ 31 ∧
      ∀ k key, skin.joints[k]? = some key →
        ∃ joint, file.mNodes.find key = some joint ∧ joint.jointName ≠ "" ∧
          (k ≠ 0 → ∃ parent, deref file.mNodes joint.parent = .ok parent) := by
  unfold Skin.createSkeleton at h
  obtain ⟨acc, _, h1⟩ := Outcome.bind_eq_ok.mp h
  obtain ⟨ptr, _, h2⟩ := Outcome.bind_eq_ok.mp h1
  dsimp only at h2
  by_cases hbig : 2 ^ 31 ≤ skin.joints.length
  · rw [if_pos hbig] at h2
    cases h2
  · rw [if_neg hbig] at h2
    obtain ⟨hn, hj, hk⟩ := createSkeletonLoop_eq_ok file ptr skin.joints 0 [] [] skel h2 rfl
      (by omega)
    refine ⟨ptr, by simpa using hn, by simpa using hj, by omega, ?_⟩
    intro k key hkey
    obtain ⟨joint, hfind, hne, hp⟩ := hk k key hkey
    exact ⟨joint, hfind, hne, fun hk0 => hp (by omega)⟩

/-- A well-formed skin is turned into a skeleton. -/
theorem createSkeleton_total {file : File} {skin : Skin}
    (h : skin.wellFormed file = true) : ∃ skel, skin.createSkeleton file = .ok skel := by
  unfold Skin.wellFormed at h
  cases hacc : deref file.mAccessors skin.inverseBindMatrices with
  | ok acc =>
    cases hptr : acc.getDataPtr file with
    | ok ptr =>
      simp only [hacc, hptr, Bool.and_eq_true, decide_eq_true_eq] at h
      obtain ⟨hlen, hready⟩ := h
      obtain ⟨skel, hskel⟩ := createSkeletonLoop_total file ptr skin.joints 0 [] [] hready
      refine ⟨skel, ?_⟩
      unfold Skin.createSkeleton
      simp only [hacc, Outcome.bind_ok, hptr]
      rw [if_neg (by omega)]
      exact hskel
    | _ => simp [hacc, hptr] at h
  | _ => simp [hacc] at h

/-- The joint a completed `createSkeleton` holds at index `i`. -/
theorem createSkeleton_getElem? {file : File} {skin : Skin} {skel : Skeleton}
    (h : skin.createSkeleton file = .ok skel) (i : Nat) :
    ∃ ptr, skel.joints[i]? =
      (skin.joints[i]?).map fun key =>
        { parentId := parentIdAt file ((skin.joints.take i).map (jointNameOf file)) i key,
          nameId := i, inverseBind := matAt ptr i } := by
  obtain ⟨ptr, _, hj, _, _⟩ := createSkeleton_eq_ok h
  refine ⟨ptr, ?_⟩
  rw [hj, jointsFrom_getElem?]
  simp

theorem parentIdAt_of_parent {file : File} {jointNames : List String} {i : Nat} {key : String}
    {node parent : Node} (hi : i ≠ 0) (hfind : file.mNodes.find key = some node)
    (hparent : deref file.mNodes node.parent = .ok parent) :
    parentIdAt file jointNames i key = jointNames.indexOf parent.name % 256 := by
  simp [parentIdAt, parentNameOf, hi, hfind, hparent]

/-! ### The loops of `createTransformClip` -/

theorem selectData_append (pd : List ParameterData) (p : ParameterData) :
    selectData (pd ++ [p]) = selectParam (selectData pd) p := by
  simp [selectData, List.foldl_append]

theorem lastNamed_append (pd : List ParameterData) (p : ParameterData) (name : String) :
    lastNamed (pd ++ [p]) name = if p.paramName = name then some p else lastNamed pd name := by
  unfold lastNamed
  by_cases h : p.paramName = name
  · simp [List.filter_append, h]
  · simp [List.filter_append, h]

theorem selectData_timeData (pd : List ParameterData) :
    (selectData pd).timeData = (lastNamed pd "TIME").map (fun p => p.data) := by
  induction pd using List.reverseRecOn with
  | nil => rfl
  | append_singleton pd p ih =>
    rw [selectData_append, lastNamed_append]
    unfold selectParam
    split_ifs <;> simp_all

theorem selectData_rotData (pd : List ParameterData) :
    (selectData pd).rotData = (lastNamed pd "rotation").map (fun p => p.data) := by
  induction pd using List.reverseRecOn with
  | nil => rfl
  | append_singleton pd p ih =>
    rw [selectData_append, lastNamed_append]
    unfold selectParam
    split_ifs <;> simp_all

theorem selectData_scaleData (pd : List ParameterData) :
    (selectData pd).scaleData = (lastNamed pd "scale").map (fun p => p.data) := by
  induction pd using List.reverseRecOn with
  | nil => rfl
  | append_singleton pd p ih =>
    rw [selectData_append, lastNamed_append]
    unfold selectParam
    split_ifs <;> simp_all

theorem selectData_transData (pd : List ParameterData) :
    (selectData pd).transData = (lastNamed pd "translation").map (fun p => p.data) := by
  induction pd using List.reverseRecOn with
  | nil => rfl
  | append_singleton pd p ih =>
    rw [selectData_append, lastNamed_append]
    unfold selectParam
    split_ifs <;> simp_all

theorem lastNamed_eq_none {pd : List ParameterData} {name : String} :
    lastNamed pd name = none ↔ ∀ p ∈ pd, p.paramName ≠ name := by
  unfold lastNamed
  rw [List.getLast?_eq_none_iff, List.filter_eq_nil_iff]
  simp

theorem lastNamed_mem {pd : List ParameterData} {name : String} {p : ParameterData}
    (h : lastNamed pd name = some p) : p ∈ pd ∧ p.paramName = name := by
  unfold lastNamed at h
  have := List.mem_of_getLast?_eq_some h
  simpa using this

theorem forEach_append {β σ : Type} (body : β → σ → Outcome σ) (xs ys : List β) (s : σ) :
    forEach body (xs ++ ys) s = (forEach body xs s).bind (forEach body ys) := by
  induction xs generalizing s with
  | nil => simp [forEach]
  | cons x xs ih =>
    simp only [List.cons_append, forEach]
    cases body x s <;> simp [Outcome.bind, ih]

theorem length_setRead_setTime {α : Type} (track : List (Keyframe α)) (i time : Nat)
    (v : Option α) : (setRead (setTime track i time) i v).length = track.length := by
  cases v <;> simp [setRead, setTime, setValue]

theorem getElem?_setRead_setTime {α : Type} (track : List (Keyframe α)) (i time : Nat)
    (v : Option α) (j : Nat) :
    (setRead (setTime track i time) i v)[j]? =
      if i = j then track[j]?.map (fun kf => (time, v.getD kf.2)) else track[j]? := by
  cases v <;> by_cases h : i = j <;>
    simp [setRead, setTime, setValue, List.getElem?_modify, h]
  cases track[j]? <;> simp

theorem readKey_eq_ok {α : Type} {read : List Nat → Nat → Outcome α} {stride : Nat}
    {data : Option (List Nat)} {i : Nat} {v : Option α}
    (h : readKey read stride data i = .ok v) : readValue read stride data i = v := by
  simp [readValue, h]

theorem clipStep_eq_ok {timeData : List Nat} {sel : ClipData} {i : Nat}
    {clip clip1 : TransformClip} (h : clipStep timeData sel i clip = .ok clip1) :
    ∃ time, timeData[i]? = some time ∧
      clip1.translation =
        setRead (setTime clip.translation i time) i (readValue readVec3 3 sel.transData i) ∧
      clip1.rotation =
        setRead (setTime clip.rotation i time) i (readValue readQuat 4 sel.rotData i) ∧
      clip1.scale =
        setRead (setTime clip.scale i time) i (readValue readVec3 3 sel.scaleData i) := by
  unfold clipStep at h
  cases ht : timeData[i]? with
  | none => simp [ht] at h
  | some time =>
    simp only [ht] at h
    obtain ⟨tr, htr, h⟩ := Outcome.bind_eq_ok.mp h
    obtain ⟨ro, hro, h⟩ := Outcome.bind_eq_ok.mp h
    obtain ⟨sc, hsc, h⟩ := Outcome.bind_eq_ok.mp h
    cases h
    exact ⟨time, rfl, by rw [readKey_eq_ok htr], by rw [readKey_eq_ok hro],
      by rw [readKey_eq_ok hsc]⟩

theorem keyAfter_step {α : Type} (timeData : List Nat) (value : Nat → Option α) (k : Nat)
    (track track1 track2 : List (Keyframe α)) (time : Nat) (ht : timeData[k]? = some time)
    (h1 : ∀ j, track1[j]? = keyAfter timeData value k track j)
    (h2 : track2 = setRead (setTime track1 k time) k (value k)) :
    ∀ j, track2[j]? = keyAfter timeData value (k + 1) track j := by
  intro j
  rw [h2, getElem?_setRead_setTime, h1]
  unfold keyAfter
  by_cases hj : k = j
  · subst hj
    simp [List.getD_eq_getElem?_getD, ht]
  · by_cases hlt : j < k
    · have : j < k + 1 := by omega
      simp [hj, hlt, this]
    · have : ¬ j < k + 1 := by omega
      simp [hj, hlt, this]

theorem clipLoop_eq_ok (timeData : List Nat) (sel : ClipData) (init : TransformClip) :
    ∀ (k : Nat) (clip : TransformClip),
      forEach (clipStep timeData sel) (List.range k) init = .ok clip →
      (clip.translation.length = init.translation.length ∧
        clip.rotation.length = init.rotation.length ∧
        clip.scale.length = init.scale.length) ∧
      (∀ j, clip.translation[j]? =
        keyAfter timeData (readValue readVec3 3 sel.transData) k init.translation j) ∧
      (∀ j, clip.rotation[j]? =
        keyAfter timeData (readValue readQuat 4 sel.rotData) k init.rotation j) ∧
      (∀ j, clip.scale[j]? =
        keyAfter timeData (readValue readVec3 3 sel.scaleData) k init.scale j) := by
  intro k
  induction k with
  | zero =>
    intro clip h
    simp only [List.range_zero, forEach, Outcome.ok.injEq] at h
    subst h
    simp [keyAfter]
  | succ k ih =>
    intro clip h
    rw [List.range_succ, forEach_append] at h
    obtain ⟨mid, hmid, h⟩ := Outcome.bind_eq_ok.mp h
    simp only [forEach] at h
    obtain ⟨clip1, hstep, h⟩ := Outcome.bind_eq_ok.mp h
    cases h
    obtain ⟨⟨l1, l2, l3⟩, k1, k2, k3⟩ := ih mid hmid
    obtain ⟨time, ht, e1, e2, e3⟩ := clipStep_eq_ok hstep
    refine ⟨⟨?_, ?_, ?_⟩, ?_, ?_, ?_⟩
    · rw [e1, length_setRead_setTime, l1]
    · rw [e2, length_setRead_setTime, l2]
    · rw [e3, length_setRead_setTime, l3]
    · exact keyAfter_step timeData _ k _ _ _ time ht k1 e1
    · exact keyAfter_step timeData _ k _ _ _ time ht k2 e2
    · exact keyAfter_step timeData _ k _ _ _ time ht k3 e3

theorem readKey_ready {α : Type} (read : List Nat → Nat → Outcome α) (stride n : Nat)
    (data : Option (List Nat))
    (hread : ∀ d index, index + stride ≤ d.length → ∃ v, read d index = .ok v)
    (h : trackReady stride n data = true) (i : Nat) (hi : i < n) :
    ∃ v, readKey read stride data i = .ok v := by
  cases data with
  | none => exact ⟨none, rfl⟩
  | some d =>
    simp only [trackReady, List.all_eq_true, List.mem_range, Bool.and_eq_true,
      decide_eq_true_eq] at h
    obtain ⟨h1, h2⟩ := h i hi
    obtain ⟨v, hv⟩ := hread d (i * stride) h2
    have h1' : i * stride < 2147483648 := h1
    exact ⟨some v, by simp [readKey, intMul, h1', hv]⟩

theorem readVec3_in_range (d : List Nat) (index : Nat) (h : index + 3 ≤ d.length) :
    ∃ v, readVec3 d index = .ok v := by
  simp [readVec3, h]

theorem readQuat_in_range (d : List Nat) (index : Nat) (h : index + 4 ≤ d.length) :
    ∃ v, readQuat d index = .ok v := by
  simp [readQuat, h]

theorem clipLoop_total (timeData : List Nat) (sel : ClipData) (n : Nat)
    (htr : trackReady 3 n sel.transData = true) (hro : trackReady 4 n sel.rotData = true)
    (hsc : trackReady 3 n sel.scaleData = true) :
    ∀ (k : Nat), k ≤ n → k ≤ timeData.length → ∀ init : TransformClip,
      ∃ clip, forEach (clipStep timeData sel) (List.range k) init = .ok clip := by
  intro k
  induction k with
  | zero => intro _ _ init; exact ⟨init, rfl⟩
  | succ k ih =>
    intro hk hlen init
    obtain ⟨mid, hmid⟩ := ih (by omega) (by omega) init
    obtain ⟨tr, htr1⟩ := readKey_ready readVec3 3 n _ readVec3_in_range htr k (by omega)
    obtain ⟨ro, hro1⟩ := readKey_ready readQuat 4 n _ readQuat_in_range hro k (by omega)
    obtain ⟨sc, hsc1⟩ := readKey_ready readVec3 3 n _ readVec3_in_range hsc k (by omega)
    have ht : timeData[k]? = some (timeData[k]) := List.getElem?_eq_getElem (by omega)
    rw [List.range_succ, forEach_append, hmid]
    simp [forEach, clipStep, ht, htr1, hro1, hsc1]

theorem toInt32_small {n : Nat} (h : n < 2 ^ 31) : (toInt32 n).toNat = n := by
  have h1 : n % 2 ^ 32 = n := Nat.mod_eq_of_lt (by omega)
  unfold toInt32
  rw [h1, if_pos h]
  simp

theorem keyAfter_replicate {α : Type} (timeData : List Nat) (value : Nat → Option α)
    (k n : Nat) (dflt : α) (j : Nat) (hj : j < n) :
    keyAfter timeData value k (List.replicate n (0, dflt)) j =
      some (if j < k then timeData.getD j 0 else 0,
            if j < k then (value j).getD dflt else dflt) := by
  unfold keyAfter
  by_cases h : j < k <;> simp [h, List.getElem?_replicate, hj]

theorem createTransformClip_eq_ok {paramData : List ParameterData} {timeData : List Nat}
    {clip : TransformClip} (ht : (selectData paramData).timeData = some timeData)
    (h : createTransformClip paramData = .ok clip) :
    (clip.translation.length = timeData.length ∧ clip.rotation.length = timeData.length ∧
      clip.scale.length = timeData.length) ∧
    ∀ j, j < timeData.length →
      clip.translation[j]? =
        some (if j < (toInt32 timeData.length).toNat then timeData.getD j 0 else 0,
          if j < (toInt32 timeData.length).toNat then
            (readValue readVec3 3 (selectData paramData).transData j).getD Vec3.zero
          else Vec3.zero) ∧
      clip.rotation[j]? =
        some (if j < (toInt32 timeData.length).toNat then timeData.getD j 0 else 0,
          if j < (toInt32 timeData.length).toNat then
            (readValue readQuat 4 (selectData paramData).rotData j).getD Quat.identity
          else Quat.identity) ∧
      clip.scale[j]? =
        some (if j < (toInt32 timeData.length).toNat then timeData.getD j 0 else 0,
          if j < (toInt32 timeData.length).toNat then
            (readValue readVec3 3 (selectData paramData).scaleData j).getD Vec3.one
          else Vec3.one) := by
  unfold createTransformClip at h
  simp only [ht] at h
  obtain ⟨⟨l1, l2, l3⟩, k1, k2, k3⟩ := clipLoop_eq_ok _ _ _ _ _ h
  simp only [List.length_replicate] at l1 l2 l3
  refine ⟨⟨l1, l2, l3⟩, fun j hj => ⟨?_, ?_, ?_⟩⟩
  · rw [k1, keyAfter_replicate _ _ _ _ _ _ hj]
  · rw [k2, keyAfter_replicate _ _ _ _ _ _ hj]
  · rw [k3, keyAfter_replicate _ _ _ _ _ _ hj]

theorem createTransformClip_total {paramData : List ParameterData}
    (h : clipReady paramData = true) : ∃ clip, createTransformClip paramData = .ok clip := by
  unfold clipReady at h
  unfold createTransformClip
  cases ht : (selectData paramData).timeData with
  | none => simp [ht] at h
  | some timeData =>
    simp only [ht, Bool.and_eq_true, decide_eq_true_eq] at h
    obtain ⟨⟨⟨hn, htr⟩, hro⟩, hsc⟩ := h
    simp only [ht]
    rw [toInt32_small hn]
    exact clipLoop_total timeData _ timeData.length htr hro hsc _ le_rfl le_rfl _

theorem readValue_none {α : Type} (read : List Nat → Nat → Outcome α) (stride i : Nat) :
    readValue read stride none i = none := rfl

theorem readValue_vec3 (d : List Nat) (i : Nat) (h1 : i * 3 < 2 ^ 31)
    (h2 : i * 3 + 3 ≤ d.length) :
    readValue readVec3 3 (some d) i =
      some { x := d.getD (3 * i) 0, y := d.getD (3 * i + 1) 0, z := d.getD (3 * i + 2) 0 } := by
  have h1' : i * 3 < 2147483648 := h1
  simp [readValue, readKey, intMul, readVec3, h1', h2, Nat.mul_comm 3 i]

theorem readValue_quat (d : List Nat) (i : Nat) (h1 : i * 4 < 2 ^ 31)
    (h2 : i * 4 + 4 ≤ d.length) :
    readValue readQuat 4 (some d) i =
      some { x := d.getD (4 * i) 0, y := d.getD (4 * i + 1) 0, z := d.getD (4 * i + 2) 0,
             w := d.getD (4 * i + 3) 0 } := by
  have h1' : i * 4 < 2147483648 := h1
  simp [readValue, readKey, intMul, readQuat, h1', h2, Nat.mul_comm 4 i]

theorem trackReady_of_length (stride n : Nat) (data : Option (List Nat))
    (hint : stride * n ≤ 2 ^ 31) (hstride : 0 < stride)
    (hlen : ∀ d, data = some d → d.length = stride * n) :
    trackReady stride n data = true := by
  cases data with
  | none => rfl
  | some d =>
    have hd := hlen d rfl
    simp only [trackReady, List.all_eq_true, List.mem_range, Bool.and_eq_true,
      decide_eq_true_eq]
    intro i hi
    have : i * stride + stride ≤ stride * n := by
      calc i * stride + stride = stride * (i + 1) := by ring
        _ ≤ stride * n := Nat.mul_le_mul_left _ (by omega)
    constructor <;> omega

/-! ### The loop of `createSkeletonAnim` -/

theorem findAnimation_eq_none {mAnimations : Registry Animation} {boneName : String} :
    findAnimation mAnimations boneName = none ↔
      ∀ e ∈ mAnimations, e.2.target ≠ boneName := by
  simp [findAnimation, List.find?_eq_none]

theorem findAnimation_eq_some {mAnimations : Registry Animation} {boneName : String}
    {found : String × Animation} :
    findAnimation mAnimations boneName = some found ↔
      found.2.target = boneName ∧ ∃ before after, mAnimations = before ++ found :: after ∧
        ∀ e ∈ before, e.2.target ≠ boneName := by
  simp [findAnimation, List.find?_eq_some]

theorem skeletonAnimStep_eq_ok {file : File} {boneName : String}
    {acc clips : List TransformClip} :
    skeletonAnimStep file boneName acc = .ok clips ↔
      ∃ found clip, findAnimation file.mAnimations boneName = some found ∧
        buildClip file found.2 = .ok clip ∧ clips = acc ++ [clip] := by
  unfold skeletonAnimStep
  cases hf : findAnimation file.mAnimations boneName with
  | none => simp
  | some found =>
    constructor
    · intro h
      obtain ⟨clip, hclip, h⟩ := Outcome.bind_eq_ok.mp h
      cases h
      exact ⟨found, clip, rfl, hclip, rfl⟩
    · rintro ⟨found1, clip, hfound, hclip, rfl⟩
      cases hfound
      simp [hclip]

theorem skeletonAnimLoop_eq_ok (file : File) :
    ∀ (names : List String) (acc clips : List TransformClip),
      forEach (skeletonAnimStep file) names acc = .ok clips →
      ∃ built, clips = acc ++ built ∧ built.length = names.length ∧
        ∀ (i : Nat) (name : String), names[i]? = some name →
          ∃ found clip, findAnimation file.mAnimations name = some found ∧
            buildClip file found.2 = .ok clip ∧ built[i]? = some clip := by
  intro names
  induction names with
  | nil =>
    intro acc clips h
    simp only [forEach, Outcome.ok.injEq] at h
    exact ⟨[], by simp [h], rfl, by simp⟩
  | cons name rest ih =>
    intro acc clips h
    simp only [forEach] at h
    obtain ⟨mid, hmid, h⟩ := Outcome.bind_eq_ok.mp h
    obtain ⟨found, clip, hf, hb, rfl⟩ := skeletonAnimStep_eq_ok.mp hmid
    obtain ⟨built, rfl, hlen, hall⟩ := ih _ _ h
    refine ⟨clip :: built, by simp, by simp [hlen], ?_⟩
    intro i nm hi
    cases i with
    | zero =>
      simp only [List.getElem?_cons_zero, Option.some.injEq] at hi
      subst hi
      exact ⟨found, clip, hf, hb, by simp⟩
    | succ i =>
      simp only [List.getElem?_cons_succ] at hi ⊢
      exact hall i nm hi

theorem skeletonAnimLoop_total (file : File) :
    ∀ (names : List String) (acc : List TransformClip),
      (∀ name ∈ names, ∃ found clip, findAnimation file.mAnimations name = some found ∧
        buildClip file found.2 = .ok clip) →
      ∃ clips, forEach (skeletonAnimStep file) names acc = .ok clips := by
  intro names
  induction names with
  | nil => intro acc _; exact ⟨acc, rfl⟩
  | cons name rest ih =>
    intro acc h
    obtain ⟨found, clip, hf, hb⟩ := h name (List.mem_cons_self _ _)
    have hstep : skeletonAnimStep file name acc = .ok (acc ++ [clip]) :=
      skeletonAnimStep_eq_ok.mpr ⟨found, clip, hf, hb, rfl⟩
    obtain ⟨clips, hclips⟩ := ih (acc ++ [clip]) fun n hn => h n (List.mem_cons_of_mem _ hn)
    exact ⟨clips, by simp [forEach, hstep, hclips]⟩

theorem skeletonAnimLoop_missing (file : File) :
    ∀ (names : List String) (acc : List TransformClip),
      (∃ name ∈ names, findAnimation file.mAnimations name = none) →
      (forEach (skeletonAnimStep file) names acc).isOk = false := by
  intro names acc ⟨name, hmem, hnone⟩
  cases h : forEach (skeletonAnimStep file) names acc with
  | ok clips =>
    obtain ⟨built, _, _, hall⟩ := skeletonAnimLoop_eq_ok file names acc clips h
    obtain ⟨i, hi⟩ := List.mem_iff_getElem?.mp hmem
    obtain ⟨found, _, hf, _⟩ := hall i name hi
    rw [hnone] at hf
    cases hf
  | _ => rfl

theorem skeletonAnimLoop_assert (file : File) :
    ∀ (names : List String) (acc : List TransformClip),
      (∀ name ∈ names, ∀ found, findAnimation file.mAnimations name = some found →
        ∃ clip, buildClip file found.2 = .ok clip) →
      (∃ name ∈ names, findAnimation file.mAnimations name = none) →
      forEach (skeletonAnimStep file) names acc = .assertFailed := by
  intro names
  induction names with
  | nil => intro acc _ ⟨_, hmem, _⟩; cases hmem
  | cons name rest ih =>
    intro acc hbuild ⟨missing, hmem, hnone⟩
    simp only [forEach]
    cases hf : findAnimation file.mAnimations name with
    | none => simp [skeletonAnimStep, hf, Outcome.bind]
    | some found =>
      obtain ⟨clip, hclip⟩ := hbuild name (List.mem_cons_self _ _) found hf
      have hstep : skeletonAnimStep file name acc = .ok (acc ++ [clip]) :=
        skeletonAnimStep_eq_ok.mpr ⟨found, clip, hf, hclip, rfl⟩
      rw [hstep, Outcome.bind_ok]
      apply ih _ fun n hn => hbuild n (List.mem_cons_of_mem _ hn)
      rcases List.mem_cons.mp hmem with h | h
      · subst h; rw [hf] at hnone; cases hnone
      · exact ⟨missing, h, hnone⟩

/-! ### The decoding loop of `load` -/

theorem Registry.find_append {α : Type} (reg : Registry α) (key : String) (value : α)
    (k : String) :
    Registry.find (reg ++ [(key, value)]) k =
      match reg.find k with
      | some v => some v
      | none => if key = k then some value else none := by
  induction reg with
  | nil => simp [Registry.find]
  | cons e rest ih =>
    obtain ⟨k0, v0⟩ := e
    by_cases h : k0 = k
    · simp [Registry.find, h]
    · simp only [List.cons_append, Registry.find, h, if_false]
      exact ih

theorem Registry.find_touch_of_some {α : Type} {reg : Registry α} {k : String} {v : α}
    (key : String) (dflt : α) (h : reg.find k = some v) :
    (reg.touch key dflt).find k = some v := by
  unfold Registry.touch
  cases hk : reg.find key with
  | some _ => exact h
  | none => simp only [Registry.find_append, h]

theorem Registry.find_touchAll_of_some {α : Type} (keys : List String) (dflt : α) :
    ∀ {reg : Registry α} {k : String} {v : α}, reg.find k = some v →
      (reg.touchAll keys dflt).find k = some v := by
  induction keys with
  | nil => intro reg k v h; exact h
  | cons key rest ih =>
    intro reg k v h
    exact ih (Registry.find_touch_of_some key dflt h)

theorem Registry.find_set_self {α : Type} (reg : Registry α) (key : String) (value : α) :
    (reg.set key value).find key = some value := by
  unfold Registry.set
  cases hk : reg.find key with
  | some _ => simp [Registry.find_modify, hk]
  | none => simp [Registry.find_append, hk]

theorem Registry.find_set_of_ne {α : Type} (reg : Registry α) {key k : String} (value : α)
    (h : key ≠ k) : (reg.set key value).find k = reg.find k := by
  unfold Registry.set
  have h2 : ¬ k = key := fun e => h e.symm
  cases hk : reg.find key with
  | some _ => simp [Registry.find_modify, h2]
  | none =>
    simp only [Registry.find_append, h, if_false]
    cases reg.find k <;> rfl

theorem Registry.find_set_of_some {α : Type} {reg : Registry α} {key k : String} {v : α}
    (value : α) (h : reg.find k = some v) :
    key = k ∨ (reg.set key value).find k = some v := by
  by_cases hk : key = k
  · exact Or.inl hk
  · exact Or.inr (by rw [Registry.find_set_of_ne reg value hk, h])

theorem forEach_preserves {β σ : Type} (body : β → σ → Outcome σ) (P : σ → Prop) :
    ∀ (xs : List β) (s s1 : σ), forEach body xs s = .ok s1 →
      (∀ x ∈ xs, ∀ t t1, body x t = .ok t1 → P t → P t1) → P s → P s1 := by
  intro xs
  induction xs with
  | nil =>
    intro s s1 h _ hs
    simp only [forEach, Outcome.ok.injEq] at h
    exact h ▸ hs
  | cons x rest ih =>
    intro s s1 h hpres hs
    simp only [forEach] at h
    obtain ⟨mid, hmid, h⟩ := Outcome.bind_eq_ok.mp h
    exact ih mid s1 h (fun y hy => hpres y (List.mem_cons_of_mem _ hy))
      (hpres x (List.mem_cons_self _ _) s mid hmid hs)

theorem forEach_establishes {β σ : Type} (body : β → σ → Outcome σ) (P : σ → Prop)
    (T : β → Prop) :
    ∀ (xs : List β) (s s1 : σ), forEach body xs s = .ok s1 →
      (∀ x ∈ xs, ∀ t t1, body x t = .ok t1 → P t → P t1) →
      (∀ x ∈ xs, T x → ∀ t t1, body x t = .ok t1 → P t1) →
      (∃ x ∈ xs, T x) → P s1 := by
  intro xs
  induction xs with
  | nil => intro s s1 _ _ _ ⟨x, hx, _⟩; cases hx
  | cons x rest ih =>
    intro s s1 h hpres hest ⟨y, hy, hTy⟩
    simp only [forEach] at h
    obtain ⟨mid, hmid, hrun⟩ := Outcome.bind_eq_ok.mp h
    by_cases hrest : ∃ z ∈ rest, T z
    · exact ih mid s1 hrun (fun z hz => hpres z (List.mem_cons_of_mem _ hz))
        (fun z hz => hest z (List.mem_cons_of_mem _ hz)) hrest
    · have hyx : y = x := by
        rcases List.mem_cons.mp hy with e | e
        · exact e
        · exact absurd ⟨y, e, hTy⟩ hrest
      subst hyx
      exact forEach_preserves body P rest mid s1 hrun
        (fun z hz => hpres z (List.mem_cons_of_mem _ hz))
        (hest y (List.mem_cons_self _ _) hTy s mid hmid)


/-- What a successful step of the inner loop of `load` does to the registries. -/
theorem addAccessorInfo_eq_ok {host : Host} {key : String} {obj : Json} {f f1 : File}
    (h : addAccessorInfo host key obj f = .ok f1) :
    ∃ ret, decodeAccessor host obj = .ok ret ∧
      f1 = { f with
             mBufferViews := f.mBufferViews.touchAll ret.bufferView.toList
               host.defaults.bufferView
             mAccessors := f.mAccessors.set key ret } := by
  unfold addAccessorInfo at h
  cases hd : decodeAccessor host obj with
  | ok ret =>
    rw [hd, Outcome.bind_ok] at h
    exact ⟨ret, rfl, (Outcome.ok.inj h).symm⟩
  | _ => rw [hd] at h; cases h

theorem addInfo_foreign {host : Host} {tn tk : String} {obj : Json} {f f1 : File}
    (h : addInfo host tn tk obj f = .ok f1)
    (h1 : tn ≠ "accessors") (h2 : tn ≠ "animations") (h3 : tn ≠ "bufferViews")
    (h4 : tn ≠ "buffers") (h5 : tn ≠ "nodes") (h6 : tn ≠ "scenes") (h7 : tn ≠ "cameras") :
    f1 = f ∨ addForeignInfo host tn tk obj f = .ok f1 := by
  unfold addInfo at h
  rw [if_neg h1, if_neg h2, if_neg h3, if_neg h4, if_neg h7] at h
  by_cases c2 : tn = "images"
  · rw [if_pos c2] at h; exact Or.inr h
  rw [if_neg c2] at h
  by_cases c3 : tn = "materials"
  · rw [if_pos c3] at h; exact Or.inr h
  rw [if_neg c3] at h
  by_cases c4 : tn = "meshes"
  · rw [if_pos c4] at h; exact Or.inr h
  rw [if_neg c4, if_neg h5] at h
  by_cases c5 : tn = "programs"
  · rw [if_pos c5] at h; exact Or.inr h
  rw [if_neg c5] at h
  by_cases c6 : tn = "samplers"
  · rw [if_pos c6] at h; exact Or.inr h
  rw [if_neg c6, if_neg h6] at h
  by_cases c7 : tn = "shaders"
  · rw [if_pos c7] at h; exact Or.inr h
  rw [if_neg c7] at h
  by_cases c8 : tn = "skins"
  · rw [if_pos c8] at h; exact Or.inr h
  rw [if_neg c8] at h
  by_cases c9 : tn = "techniques"
  · rw [if_pos c9] at h; exact Or.inr h
  rw [if_neg c9] at h
  by_cases c10 : tn = "textures"
  · rw [if_pos c10] at h; exact Or.inr h
  rw [if_neg c10] at h
  exact Or.inl (Outcome.ok.inj h).symm

theorem addBufferViewInfo_eq_ok {host : Host} {key : String} {obj : Json} {f f1 : File}
    (h : addBufferViewInfo host key obj f = .ok f1) :
    ∃ ret, decodeBufferView host obj = .ok ret ∧
      f1 = { f with
             mBuffers := f.mBuffers.touchAll ret.buffer.toList host.defaults.buffer
             mBufferViews := f.mBufferViews.set key ret } := by
  unfold addBufferViewInfo at h
  cases hd : decodeBufferView host obj with
  | ok ret =>
    rw [hd, Outcome.bind_ok] at h
    exact ⟨ret, rfl, (Outcome.ok.inj h).symm⟩
  | _ => rw [hd] at h; cases h

theorem addBufferInfo_eq_ok {host : Host} {key : String} {obj : Json} {f f1 : File}
    (h : addBufferInfo host key obj f = .ok f1) :
    ∃ ret, decodeBuffer host key obj = .ok ret ∧
      f1 = { f with mBuffers := f.mBuffers.set key ret } := by
  unfold addBufferInfo at h
  cases hd : decodeBuffer host key obj with
  | ok ret =>
    rw [hd, Outcome.bind_ok] at h
    exact ⟨ret, rfl, (Outcome.ok.inj h).symm⟩
  | _ => rw [hd] at h; cases h

theorem addAnimationInfo_eq_ok {host : Host} {key : String} {obj : Json} {f f1 : File}
    (h : addAnimationInfo host key obj f = .ok f1) :
    ∃ decoded, decodeAnimation host obj = .ok decoded ∧
      f1 = { f with
             mNodes := f.mNodes.touchAll decoded.nodeKeys host.defaults.node
             mAccessors := f.mAccessors.touchAll decoded.accessorKeys host.defaults.accessor
             mAnimations := f.mAnimations.set key decoded.ret } := by
  unfold addAnimationInfo at h
  cases hd : decodeAnimation host obj with
  | ok decoded =>
    rw [hd, Outcome.bind_ok] at h
    exact ⟨decoded, rfl, (Outcome.ok.inj h).symm⟩
  | _ => rw [hd] at h; cases h

theorem addNodeInfo_eq_ok {host : Host} {key : String} {obj : Json} {f f1 : File}
    (h : addNodeInfo host key obj f = .ok f1) :
    ∃ decoded, decodeNode host obj = .ok decoded ∧
      f1 = { f with
             mNodes := (f.mNodes.touchAll decoded.nodeKeys host.defaults.node).set key
               decoded.ret
             mCameras := f.mCameras.touchAll decoded.cameraKeys host.defaults.camera } := by
  unfold addNodeInfo at h
  cases hd : decodeNode host obj with
  | ok decoded =>
    rw [hd, Outcome.bind_ok] at h
    exact ⟨decoded, rfl, (Outcome.ok.inj h).symm⟩
  | _ => rw [hd] at h; cases h

theorem addSceneInfo_eq_ok {host : Host} {key : String} {obj : Json} {f f1 : File}
    (h : addSceneInfo host key obj f = .ok f1) :
    ∃ ret, decodeScene host obj = .ok ret ∧
      f1 = { f with
             mNodes := f.mNodes.touchAll ret.nodes host.defaults.node
             mScenes := f.mScenes.set key ret } := by
  unfold addSceneInfo at h
  cases hd : decodeScene host obj with
  | ok ret =>
    rw [hd, Outcome.bind_ok] at h
    exact ⟨ret, rfl, (Outcome.ok.inj h).symm⟩
  | _ => rw [hd] at h; cases h

theorem addCameraInfo_eq_ok {host : Host} {key : String} {obj : Json} {f f1 : File}
    (h : addCameraInfo host key obj f = .ok f1) :
    ∃ ret, decodeCamera host obj = .ok ret ∧
      f1 = { f with mCameras := f.mCameras.set key ret } := by
  unfold addCameraInfo at h
  cases hd : decodeCamera host obj with
  | ok ret =>
    rw [hd, Outcome.bind_ok] at h
    exact ⟨ret, rfl, (Outcome.ok.inj h).symm⟩
  | _ => rw [hd] at h; cases h

theorem addInfo_cameras (host : Host) (tk : String) (obj : Json) (f : File) :
    addInfo host "cameras" tk obj f = addCameraInfo host tk obj f := by
  unfold addInfo
  simp

theorem addForeignInfo_eq_ok {host : Host} {tn key : String} {obj : Json} {f f1 : File}
    (h : addForeignInfo host tn key obj f = .ok f1) :
    ∃ touched, host.foreign tn key obj = .ok touched ∧
      f1 = { f with
             mAccessors := f.mAccessors.touchAll touched.1 host.defaults.accessor
             mNodes := f.mNodes.touchAll touched.2 host.defaults.node } := by
  unfold addForeignInfo at h
  cases hd : host.foreign tn key obj with
  | ok touched =>
    rw [hd, Outcome.bind_ok] at h
    exact ⟨touched, rfl, (Outcome.ok.inj h).symm⟩
  | _ => rw [hd] at h; cases h

theorem addInfo_accessors (host : Host) (tk : String) (obj : Json) (f : File) :
    addInfo host "accessors" tk obj f = addAccessorInfo host tk obj f := by
  unfold addInfo
  simp

theorem addInfo_animations (host : Host) (tk : String) (obj : Json) (f : File) :
    addInfo host "animations" tk obj f = addAnimationInfo host tk obj f := by
  unfold addInfo
  simp

theorem addInfo_bufferViews (host : Host) (tk : String) (obj : Json) (f : File) :
    addInfo host "bufferViews" tk obj f = addBufferViewInfo host tk obj f := by
  unfold addInfo
  simp

theorem addInfo_buffers (host : Host) (tk : String) (obj : Json) (f : File) :
    addInfo host "buffers" tk obj f = addBufferInfo host tk obj f := by
  unfold addInfo
  simp

theorem addInfo_nodes (host : Host) (tk : String) (obj : Json) (f : File) :
    addInfo host "nodes" tk obj f = addNodeInfo host tk obj f := by
  unfold addInfo
  simp

theorem addInfo_scenes (host : Host) (tk : String) (obj : Json) (f : File) :
    addInfo host "scenes" tk obj f = addSceneInfo host tk obj f := by
  unfold addInfo
  simp

/-- A step of the inner loop of `load` leaves every entry of every registry in place,
except the entry of its own category and key. -/
theorem addInfo_preserves {host : Host} {tn tk : String} {obj : Json} {f f1 : File}
    (h : addInfo host tn tk obj f = .ok f1) :
    (∀ k v, f.mAccessors.find k = some v →
      (tn = "accessors" ∧ tk = k) ∨ f1.mAccessors.find k = some v) ∧
    (∀ k v, f.mBufferViews.find k = some v →
      (tn = "bufferViews" ∧ tk = k) ∨ f1.mBufferViews.find k = some v) ∧
    (∀ k v, f.mBuffers.find k = some v →
      (tn = "buffers" ∧ tk = k) ∨ f1.mBuffers.find k = some v) ∧
    (∀ k v, f.mNodes.find k = some v →
      (tn = "nodes" ∧ tk = k) ∨ f1.mNodes.find k = some v) ∧
    (∀ k v, f.mAnimations.find k = some v →
      (tn = "animations" ∧ tk = k) ∨ f1.mAnimations.find k = some v) ∧
    (∀ k v, f.mScenes.find k = some v →
      (tn = "scenes" ∧ tk = k) ∨ f1.mScenes.find k = some v) := by
  by_cases c_accessors : tn = "accessors"
  · subst c_accessors
    rw [addInfo_accessors] at h
    obtain ⟨ret, _, rfl⟩ := addAccessorInfo_eq_ok h
    refine ⟨?_, ?_, ?_, ?_, ?_, ?_⟩
    · intro k v hk
      rcases Registry.find_set_of_some _ hk with e | e
      · exact Or.inl ⟨rfl, e⟩
      · exact Or.inr e
    · exact fun k v hk => Or.inr (Registry.find_touchAll_of_some _ _ hk)
    · exact fun k v hk => Or.inr hk
    · exact fun k v hk => Or.inr hk
    · exact fun k v hk => Or.inr hk
    · exact fun k v hk => Or.inr hk
  by_cases c_animations : tn = "animations"
  · subst c_animations
    rw [addInfo_animations] at h
    obtain ⟨decoded, _, rfl⟩ := addAnimationInfo_eq_ok h
    refine ⟨?_, ?_, ?_, ?_, ?_, ?_⟩
    · exact fun k v hk => Or.inr (Registry.find_touchAll_of_some _ _ hk)
    · exact fun k v hk => Or.inr hk
    · exact fun k v hk => Or.inr hk
    · exact fun k v hk => Or.inr (Registry.find_touchAll_of_some _ _ hk)
    · intro k v hk
      rcases Registry.find_set_of_some _ hk with e | e
      · exact Or.inl ⟨rfl, e⟩
      · exact Or.inr e
    · exact fun k v hk => Or.inr hk
  by_cases c_bufferViews : tn = "bufferViews"
  · subst c_bufferViews
    rw [addInfo_bufferViews] at h
    obtain ⟨ret, _, rfl⟩ := addBufferViewInfo_eq_ok h
    refine ⟨?_, ?_, ?_, ?_, ?_, ?_⟩
    · exact fun k v hk => Or.inr hk
    · intro k v hk
      rcases Registry.find_set_of_some _ hk with e | e
      · exact Or.inl ⟨rfl, e⟩
      · exact Or.inr e
    · exact fun k v hk => Or.inr (Registry.find_touchAll_of_some _ _ hk)
    · exact fun k v hk => Or.inr hk
    · exact fun k v hk => Or.inr hk
    · exact fun k v hk => Or.inr hk
  by_cases c_buffers : tn = "buffers"
  · subst c_buffers
    rw [addInfo_buffers] at h
    obtain ⟨ret, _, rfl⟩ := addBufferInfo_eq_ok h
    refine ⟨?_, ?_, ?_, ?_, ?_, ?_⟩
    · exact fun k v hk => Or.inr hk
    · exact fun k v hk => Or.inr hk
    · intro k v hk
      rcases Registry.find_set_of_some _ hk with e | e
      · exact Or.inl ⟨rfl, e⟩
      · exact Or.inr e
    · exact fun k v hk => Or.inr hk
    · exact fun k v hk => Or.inr hk
    · exact fun k v hk => Or.inr hk
  by_cases c_nodes : tn = "nodes"
  · subst c_nodes
    rw [addInfo_nodes] at h
    obtain ⟨decoded, _, rfl⟩ := addNodeInfo_eq_ok h
    refine ⟨?_, ?_, ?_, ?_, ?_, ?_⟩
    · exact fun k v hk => Or.inr hk
    · exact fun k v hk => Or.inr hk
    · exact fun k v hk => Or.inr hk
    · intro k v hk
      rcases Registry.find_set_of_some _ (Registry.find_touchAll_of_some _ _ hk) with e | e
      · exact Or.inl ⟨rfl, e⟩
      · exact Or.inr e
    · exact fun k v hk => Or.inr hk
    · exact fun k v hk => Or.inr hk
  by_cases c_scenes : tn = "scenes"
  · subst c_scenes
    rw [addInfo_scenes] at h
    obtain ⟨ret, _, rfl⟩ := addSceneInfo_eq_ok h
    refine ⟨?_, ?_, ?_, ?_, ?_, ?_⟩
    · exact fun k v hk => Or.inr hk
    · exact fun k v hk => Or.inr hk
    · exact fun k v hk => Or.inr hk
    · exact fun k v hk => Or.inr (Registry.find_touchAll_of_some _ _ hk)
    · exact fun k v hk => Or.inr hk
    · intro k v hk
      rcases Registry.find_set_of_some _ hk with e | e
      · exact Or.inl ⟨rfl, e⟩
      · exact Or.inr e
  by_cases c_cameras : tn = "cameras"
  · subst c_cameras
    rw [addInfo_cameras] at h
    obtain ⟨ret, _, rfl⟩ := addCameraInfo_eq_ok h
    exact ⟨fun k v hk => Or.inr hk, fun k v hk => Or.inr hk, fun k v hk => Or.inr hk,
      fun k v hk => Or.inr hk, fun k v hk => Or.inr hk, fun k v hk => Or.inr hk⟩
  rcases addInfo_foreign h c_accessors c_animations c_bufferViews c_buffers c_nodes c_scenes
    c_cameras with e | e
  · subst e
    exact ⟨fun k v hk => Or.inr hk, fun k v hk => Or.inr hk, fun k v hk => Or.inr hk,
      fun k v hk => Or.inr hk, fun k v hk => Or.inr hk, fun k v hk => Or.inr hk⟩
  · obtain ⟨touched, _, rfl⟩ := addForeignInfo_eq_ok e
    refine ⟨?_, ?_, ?_, ?_, ?_, ?_⟩
    · exact fun k v hk => Or.inr (Registry.find_touchAll_of_some _ _ hk)
    · exact fun k v hk => Or.inr hk
    · exact fun k v hk => Or.inr hk
    · exact fun k v hk => Or.inr (Registry.find_touchAll_of_some _ _ hk)
    · exact fun k v hk => Or.inr hk
    · exact fun k v hk => Or.inr hk

/-- The step of the inner loop of `load` for an entry of `accessors` stores what the decoder
makes of the entry under its key. -/
theorem addInfo_accessors_stores {host : Host} {tk : String} {obj : Json} {f f1 : File}
    (h : addInfo host "accessors" tk obj f = .ok f1) :
    ∃ v, decodeAccessor host obj = .ok v ∧ f1.mAccessors.find tk = some v := by
  rw [addInfo_accessors] at h
  obtain ⟨r, hr, rfl⟩ := addAccessorInfo_eq_ok h
  exact ⟨r, hr, Registry.find_set_self _ _ _⟩

/-- The step of the inner loop of `load` for an entry of `bufferViews` stores what the decoder
makes of the entry under its key. -/
theorem addInfo_bufferViews_stores {host : Host} {tk : String} {obj : Json} {f f1 : File}
    (h : addInfo host "bufferViews" tk obj f = .ok f1) :
    ∃ v, decodeBufferView host obj = .ok v ∧ f1.mBufferViews.find tk = some v := by
  rw [addInfo_bufferViews] at h
  obtain ⟨r, hr, rfl⟩ := addBufferViewInfo_eq_ok h
  exact ⟨r, hr, Registry.find_set_self _ _ _⟩

/-- The step of the inner loop of `load` for an entry of `buffers` stores what the decoder
makes of the entry under its key. -/
theorem addInfo_buffers_stores {host : Host} {tk : String} {obj : Json} {f f1 : File}
    (h : addInfo host "buffers" tk obj f = .ok f1) :
    ∃ v, decodeBuffer host tk obj = .ok v ∧ f1.mBuffers.find tk = some v := by
  rw [addInfo_buffers] at h
  obtain ⟨r, hr, rfl⟩ := addBufferInfo_eq_ok h
  exact ⟨r, hr, Registry.find_set_self _ _ _⟩

/-- The step of the inner loop of `load` for an entry of `nodes` stores what the decoder
makes of the entry under its key. -/
theorem addInfo_nodes_stores {host : Host} {tk : String} {obj : Json} {f f1 : File}
    (h : addInfo host "nodes" tk obj f = .ok f1) :
    ∃ d, decodeNode host obj = .ok d ∧ f1.mNodes.find tk = some d.ret := by
  rw [addInfo_nodes] at h
  obtain ⟨r, hr, rfl⟩ := addNodeInfo_eq_ok h
  exact ⟨r, hr, Registry.find_set_self _ _ _⟩

/-- The step of the inner loop of `load` for an entry of `animations` stores what the decoder
makes of the entry under its key. -/
theorem addInfo_animations_stores {host : Host} {tk : String} {obj : Json} {f f1 : File}
    (h : addInfo host "animations" tk obj f = .ok f1) :
    ∃ d, decodeAnimation host obj = .ok d ∧ f1.mAnimations.find tk = some d.ret := by
  rw [addInfo_animations] at h
  obtain ⟨r, hr, rfl⟩ := addAnimationInfo_eq_ok h
  exact ⟨r, hr, Registry.find_set_self _ _ _⟩

/-- The step of the inner loop of `load` for an entry of `scenes` stores what the decoder
makes of the entry under its key. -/
theorem addInfo_scenes_stores {host : Host} {tk : String} {obj : Json} {f f1 : File}
    (h : addInfo host "scenes" tk obj f = .ok f1) :
    ∃ v, decodeScene host obj = .ok v ∧ f1.mScenes.find tk = some v := by
  rw [addInfo_scenes] at h
  obtain ⟨r, hr, rfl⟩ := addSceneInfo_eq_ok h
  exact ⟨r, hr, Registry.find_set_self _ _ _⟩

theorem addForeignInfo_preserves {host : Host} {tn tk : String} {obj : Json} {f f1 : File}
    (h : addForeignInfo host tn tk obj f = .ok f1) :
    (∀ k v, f.mAccessors.find k = some v → f1.mAccessors.find k = some v) ∧
    (∀ k v, f.mNodes.find k = some v → f1.mNodes.find k = some v) ∧
    f1.mBufferViews = f.mBufferViews ∧ f1.mBuffers = f.mBuffers ∧
    f1.mAnimations = f.mAnimations ∧ f1.mScenes = f.mScenes := by
  obtain ⟨touched, _, rfl⟩ := addForeignInfo_eq_ok h
  exact ⟨fun k v hk => Registry.find_touchAll_of_some _ _ hk,
    fun k v hk => Registry.find_touchAll_of_some _ _ hk, rfl, rfl, rfl, rfl⟩

theorem declared_eq_some {mGltfTree : Json} {typeName key : String} {info : Json}
    (h : declared mGltfTree typeName key = some info) :
    ∃ members entries, mGltfTree = .obj members ∧ typeName ∈ members.map Prod.fst ∧
      Json.lookupMember typeName members = .obj entries ∧ key ∈ entries.map Prod.fst ∧
      Json.lookupMember key entries = info := by
  unfold declared at h
  cases mGltfTree with
  | obj members =>
    simp only at h
    split_ifs at h with h1
    cases hl : Json.lookupMember typeName members with
    | obj entries =>
      rw [hl] at h
      simp only at h
      split_ifs at h with h2
      exact ⟨members, entries, rfl, h1, hl, h2, Option.some.inj h⟩
    | _ => rw [hl] at h; cases h
  | _ => cases h

theorem loadType_stored
    {α : Type} (name : String) (reg : File → Registry α)
    (decode : Host → String → Json → Outcome α)
    (hpres : ∀ (host : Host) (tn tk : String) (obj : Json) (f f1 : File),
      addInfo host tn tk obj f = .ok f1 → ∀ k v, (reg f).find k = some v →
        (tn = name ∧ tk = k) ∨ (reg f1).find k = some v)
    (hstore : ∀ (host : Host) (tk : String) (obj : Json) (f f1 : File),
      addInfo host name tk obj f = .ok f1 →
        ∃ v, decode host tk obj = .ok v ∧ (reg f1).find tk = some v)
    (host : Host) (tn : String) (typeObj : Json) (f f1 : File)
    (k : String) (info : Json)
    (h : loadType host tn typeObj f = .ok f1)
    (hobj : tn = name → member typeObj k = .ok info) :
    (Stored reg decode host k info f → Stored reg decode host k info f1) ∧
    (tn = name → (∃ keys, typeObj.getMemberNames = some keys ∧ k ∈ keys) →
      Stored reg decode host k info f1) := by
  unfold loadType at h
  obtain ⟨typeKeys, hkeys, hloop⟩ := Outcome.bind_eq_ok.mp h
  have hk := Outcome.ofJson_eq_ok.mp hkeys
  have hstep : ∀ tk ∈ typeKeys, ∀ t t1,
      ((member typeObj tk).bind fun obj => addInfo host tn tk obj t) = .ok t1 →
      Stored reg decode host k info t → Stored reg decode host k info t1 := by
    intro tk _ t t1 ht ⟨v, hv, hf⟩
    obtain ⟨obj, hobj1, hadd⟩ := Outcome.bind_eq_ok.mp ht
    rcases hpres host tn tk obj t t1 hadd k v hf with ⟨e1, e2⟩ | e
    · subst e1 e2
      rw [hobj rfl] at hobj1
      cases hobj1
      exact hstore host tk info t t1 hadd
    · exact ⟨v, hv, e⟩
  refine ⟨forEach_preserves _ _ typeKeys f f1 hloop hstep, ?_⟩
  rintro rfl ⟨keys, hkeys2, hmem⟩
  rw [hk] at hkeys2
  cases hkeys2
  refine forEach_establishes _ _ (fun tk => tk = k) typeKeys f f1 hloop hstep ?_ ⟨k, hmem, rfl⟩
  intro tk _ htk t t1 ht
  subst htk
  obtain ⟨obj, hobj1, hadd⟩ := Outcome.bind_eq_ok.mp ht
  rw [hobj rfl] at hobj1
  cases hobj1
  exact hstore host tk info t t1 hadd

theorem loadLights_stored
    {α : Type} (reg : File → Registry α) (decode : Host → String → Json → Outcome α)
    (hforeign : ∀ (host : Host) (tn tk : String) (obj : Json) (f f1 : File),
      addForeignInfo host tn tk obj f = .ok f1 → ∀ k v, (reg f).find k = some v →
        (reg f1).find k = some v)
    (host : Host) (typeObj : Json) (f f1 : File) (k : String)
    (info : Json) (h : loadLights host typeObj f = .ok f1) :
    Stored reg decode host k info f → Stored reg decode host k info f1 := by
  unfold loadLights at h
  obtain ⟨common, _, h1⟩ := Outcome.bind_eq_ok.mp h
  obtain ⟨lights, _, h2⟩ := Outcome.bind_eq_ok.mp h1
  obtain ⟨lightKeys, _, hloop⟩ := Outcome.bind_eq_ok.mp h2
  refine forEach_preserves _ _ lightKeys f f1 hloop ?_
  intro lk _ t t1 ht ⟨v, hv, hf⟩
  obtain ⟨obj, _, hadd⟩ := Outcome.bind_eq_ok.mp ht
  exact ⟨v, hv, hforeign host "lights" lk obj t t1 hadd k v hf⟩

theorem loadStep_stored
    {α : Type} (name : String) (reg : File → Registry α)
    (decode : Host → String → Json → Outcome α)
    (hpres : ∀ (host : Host) (tn tk : String) (obj : Json) (f f1 : File),
      addInfo host tn tk obj f = .ok f1 → ∀ k v, (reg f).find k = some v →
        (tn = name ∧ tk = k) ∨ (reg f1).find k = some v)
    (hstore : ∀ (host : Host) (tk : String) (obj : Json) (f f1 : File),
      addInfo host name tk obj f = .ok f1 →
        ∃ v, decode host tk obj = .ok v ∧ (reg f1).find tk = some v)
    (hforeign : ∀ (host : Host) (tn tk : String) (obj : Json) (f f1 : File),
      addForeignInfo host tn tk obj f = .ok f1 → ∀ k v, (reg f).find k = some v →
        (reg f1).find k = some v)
    (hscene : ∀ (f : File) (s : String), reg { f with mDefaultScene := s } = reg f)
    (hname : name ≠ "scene" ∧ name ≠ "extensionsUsed" ∧ name ≠ "extensions")
    (host : Host) (hmc : Bool) (members : List (String × Json)) (entries : List (String × Json))
    (typeName : String) (f f1 : File) (k : String) (info : Json)
    (hentries : Json.lookupMember name members = .obj entries)
    (hk : k ∈ entries.map Prod.fst) (hinfo : Json.lookupMember k entries = info)
    (h : loadStep host hmc (.obj members) typeName f = .ok f1) :
    (Stored reg decode host k info f → Stored reg decode host k info f1) ∧
    (typeName = name → Stored reg decode host k info f1) := by
  unfold loadStep at h
  obtain ⟨typeObj, htype, h1⟩ := Outcome.bind_eq_ok.mp h
  have htypeObj : typeObj = Json.lookupMember typeName members := by
    have := Outcome.ofJson_eq_ok.mp htype
    simpa [Json.get] using this.symm
  by_cases c1 : typeName = "scene"
  · rw [if_pos c1] at h1
    obtain ⟨s, _, h2⟩ := Outcome.bind_eq_ok.mp h1
    cases h2
    refine ⟨?_, fun e => absurd (e ▸ c1) hname.1⟩
    rintro ⟨v, hv, hf⟩
    exact ⟨v, hv, by rw [hscene]; exact hf⟩
  rw [if_neg c1] at h1
  by_cases c2 : typeName = "extensionsUsed"
  · rw [if_pos c2] at h1
    cases h1
    exact ⟨id, fun e => absurd (e ▸ c2) hname.2.1⟩
  rw [if_neg c2] at h1
  obtain ⟨file1, hlights, htypeLoop⟩ := Outcome.bind_eq_ok.mp h1
  have hobj : typeName = name → member typeObj k = .ok info := by
    rintro rfl
    rw [htypeObj, hentries]
    simp [member, Json.get, Outcome.ofJson, hinfo]
  obtain ⟨hp, he⟩ := loadType_stored name reg decode hpres hstore host typeName typeObj
    file1 f1 k info htypeLoop hobj
  have hfirst : Stored reg decode host k info f → Stored reg decode host k info file1 := by
    by_cases c3 : typeName = "extensions"
    · rw [if_pos c3] at hlights
      cases hmc with
      | true =>
        simp only [if_true] at hlights
        exact loadLights_stored reg decode hforeign host typeObj f file1 k info hlights
      | false =>
        simp only [Bool.false_eq_true, if_false] at hlights
        cases hlights
        exact id
    · rw [if_neg c3] at hlights
      cases hlights
      exact id
  refine ⟨fun hs => hp (hfirst hs), ?_⟩
  rintro rfl
  have hfile : file1 = f := by
    rw [if_neg hname.2.2] at hlights
    exact (Outcome.ok.inj hlights).symm
  subst hfile
  apply he rfl
  rw [htypeObj, hentries]
  exact ⟨entries.map Prod.fst, rfl, hk⟩

/-- After the decoding loop of `load` every entry that the manifest declares in the category
`name` is stored, as decoded, under its key. -/
theorem decodeManifest_stored
    {α : Type} (name : String) (reg : File → Registry α)
    (decode : Host → String → Json → Outcome α)
    (hpres : ∀ (host : Host) (tn tk : String) (obj : Json) (f f1 : File),
      addInfo host tn tk obj f = .ok f1 → ∀ k v, (reg f).find k = some v →
        (tn = name ∧ tk = k) ∨ (reg f1).find k = some v)
    (hstore : ∀ (host : Host) (tk : String) (obj : Json) (f f1 : File),
      addInfo host name tk obj f = .ok f1 →
        ∃ v, decode host tk obj = .ok v ∧ (reg f1).find tk = some v)
    (hforeign : ∀ (host : Host) (tn tk : String) (obj : Json) (f f1 : File),
      addForeignInfo host tn tk obj f = .ok f1 → ∀ k v, (reg f).find k = some v →
        (reg f1).find k = some v)
    (hscene : ∀ (f : File) (s : String), reg { f with mDefaultScene := s } = reg f)
    (hname : name ≠ "scene" ∧ name ≠ "extensionsUsed" ∧ name ≠ "extensions")
    (host : Host) (mExtensions : List String) (mGltfTree : Json) (f f1 : File)
    (h : decodeManifest host mExtensions mGltfTree f = .ok f1) (k : String) (info : Json)
    (hdecl : declared mGltfTree name k = some info) :
    Stored reg decode host k info f1 := by
  obtain ⟨members, entries, rfl, hmem, hentries, hk, hinfo⟩ := declared_eq_some hdecl
  unfold decodeManifest at h
  obtain ⟨gltfTypes, htypes, hloop⟩ := Outcome.bind_eq_ok.mp h
  have hg := Outcome.ofJson_eq_ok.mp htypes
  simp only [Json.getMemberNames, Option.some.injEq] at hg
  subst hg
  exact forEach_establishes _ _ (fun typeName => typeName = name) _ f f1 hloop
    (fun typeName _ t t1 ht =>
      (loadStep_stored name reg decode hpres hstore hforeign hscene hname host _ members
        entries typeName t t1 k info hentries hk hinfo ht).1)
    (fun typeName _ hT t t1 ht =>
      (loadStep_stored name reg decode hpres hstore hforeign hscene hname host _ members
        entries typeName t t1 k info hentries hk hinfo ht).2 hT)
    ⟨name, hmem, rfl⟩

theorem decodeManifest_accessors {host : Host} {mExtensions : List String} {mGltfTree : Json}
    {f f1 : File} (h : decodeManifest host mExtensions mGltfTree f = .ok f1) {k : String}
    {info : Json} (hdecl : declared mGltfTree "accessors" k = some info) :
    ∃ acc, decodeAccessor host info = .ok acc ∧ f1.mAccessors.find k = some acc :=
  decodeManifest_stored "accessors" File.mAccessors (fun host _ info => decodeAccessor host info)
    (fun _ _ _ _ _ _ h => (addInfo_preserves h).1)
    (fun _ _ _ _ _ h => addInfo_accessors_stores h)
    (fun _ _ _ _ _ _ h => (addForeignInfo_preserves h).1)
    (fun _ _ => rfl) (by decide) host mExtensions mGltfTree f f1 h k info hdecl

theorem decodeManifest_bufferViews {host : Host} {mExtensions : List String}
    {mGltfTree : Json} {f f1 : File}
    (h : decodeManifest host mExtensions mGltfTree f = .ok f1) {k : String}
    {info : Json} (hdecl : declared mGltfTree "bufferViews" k = some info) :
    ∃ view, decodeBufferView host info = .ok view ∧ f1.mBufferViews.find k = some view :=
  decodeManifest_stored "bufferViews" File.mBufferViews
    (fun host _ info => decodeBufferView host info)
    (fun _ _ _ _ _ _ h => (addInfo_preserves h).2.1)
    (fun _ _ _ _ _ h => addInfo_bufferViews_stores h)
    (fun _ _ _ _ _ _ h k v hk => by rw [(addForeignInfo_preserves h).2.2.1]; exact hk)
    (fun _ _ => rfl) (by decide) host mExtensions mGltfTree f f1 h k info hdecl

theorem decodeManifest_buffers {host : Host} {mExtensions : List String} {mGltfTree : Json}
    {f f1 : File} (h : decodeManifest host mExtensions mGltfTree f = .ok f1) {k : String}
    {info : Json} (hdecl : declared mGltfTree "buffers" k = some info) :
    ∃ buffer, decodeBuffer host k info = .ok buffer ∧ f1.mBuffers.find k = some buffer :=
  decodeManifest_stored "buffers" File.mBuffers decodeBuffer
    (fun _ _ _ _ _ _ h => (addInfo_preserves h).2.2.1)
    (fun _ _ _ _ _ h => addInfo_buffers_stores h)
    (fun _ _ _ _ _ _ h k v hk => by rw [(addForeignInfo_preserves h).2.2.2.1]; exact hk)
    (fun _ _ => rfl) (by decide) host mExtensions mGltfTree f f1 h k info hdecl

theorem decodeManifest_nodes {host : Host} {mExtensions : List String} {mGltfTree : Json}
    {f f1 : File} (h : decodeManifest host mExtensions mGltfTree f = .ok f1) {k : String}
    {info : Json} (hdecl : declared mGltfTree "nodes" k = some info) :
    ∃ d, decodeNode host info = .ok d ∧ f1.mNodes.find k = some d.ret := by
  obtain ⟨v, hv, hf⟩ := decodeManifest_stored "nodes" File.mNodes
    (fun host _ info => (decodeNode host info).bind fun d => .ok d.ret)
    (fun _ _ _ _ _ _ h => (addInfo_preserves h).2.2.2.1)
    (fun _ _ _ _ _ h => by
      obtain ⟨d, hd, hf⟩ := addInfo_nodes_stores h
      exact ⟨d.ret, by simp [hd], hf⟩)
    (fun _ _ _ _ _ _ h => (addForeignInfo_preserves h).2.1)
    (fun _ _ => rfl) (by decide) host mExtensions mGltfTree f f1 h k info hdecl
  obtain ⟨d, hd, hret⟩ := Outcome.bind_eq_ok.mp hv
  cases hret
  exact ⟨d, hd, hf⟩

theorem decodeManifest_animations {host : Host} {mExtensions : List String}
    {mGltfTree : Json} {f f1 : File}
    (h : decodeManifest host mExtensions mGltfTree f = .ok f1) {k : String}
    {info : Json} (hdecl : declared mGltfTree "animations" k = some info) :
    ∃ d, decodeAnimation host info = .ok d ∧ f1.mAnimations.find k = some d.ret := by
  obtain ⟨v, hv, hf⟩ := decodeManifest_stored "animations" File.mAnimations
    (fun host _ info => (decodeAnimation host info).bind fun d => .ok d.ret)
    (fun _ _ _ _ _ _ h => (addInfo_preserves h).2.2.2.2.1)
    (fun _ _ _ _ _ h => by
      obtain ⟨d, hd, hf⟩ := addInfo_animations_stores h
      exact ⟨d.ret, by simp [hd], hf⟩)
    (fun _ _ _ _ _ _ h k v hk => by rw [(addForeignInfo_preserves h).2.2.2.2.1]; exact hk)
    (fun _ _ => rfl) (by decide) host mExtensions mGltfTree f f1 h k info hdecl
  obtain ⟨d, hd, hret⟩ := Outcome.bind_eq_ok.mp hv
  cases hret
  exact ⟨d, hd, hf⟩

theorem decodeManifest_scenes {host : Host} {mExtensions : List String} {mGltfTree : Json}
    {f f1 : File} (h : decodeManifest host mExtensions mGltfTree f = .ok f1) {k : String}
    {info : Json} (hdecl : declared mGltfTree "scenes" k = some info) :
    ∃ scene, decodeScene host info = .ok scene ∧ f1.mScenes.find k = some scene :=
  decodeManifest_stored "scenes" File.mScenes (fun host _ info => decodeScene host info)
    (fun _ _ _ _ _ _ h => (addInfo_preserves h).2.2.2.2.2)
    (fun _ _ _ _ _ h => addInfo_scenes_stores h)
    (fun _ _ _ _ _ _ h k v hk => by rw [(addForeignInfo_preserves h).2.2.2.2.2]; exact hk)
    (fun _ _ => rfl) (by decide) host mExtensions mGltfTree f f1 h k info hdecl

theorem visitNode_rest (k : String) (n : Node) (v : Visit) :
    visitNode k n v =
      { n with parent := (visitNode k n v).parent, children := (visitNode k n v).children } := by
  unfold visitNode
  dsimp only
  split_ifs <;> rfl

theorem foldl_visitNode_rest (k : String) (tr : List Visit) (n : Node) :
    tr.foldl (visitNode k) n =
      { n with parent := (tr.foldl (visitNode k) n).parent,
               children := (tr.foldl (visitNode k) n).children } := by
  induction tr generalizing n with
  | nil => rfl
  | cons v rest ih =>
    rw [List.foldl_cons]
    have h1 := ih (visitNode k n v)
    have h2 := visitNode_rest k n v
    rw [h2] at h1
    rw [h2]
    exact h1

/-- The two phases of `load`: the registries after the decoding loop, and the writes of the
linking walk on the nodes. -/
theorem load_eq_ok {host : Host} {mExtensions : List String} {mGltfTree : Json} {depth : Nat}
    {f file : File} (h : load host mExtensions mGltfTree depth f = .ok file) :
    ∃ f1 tr, decodeManifest host mExtensions mGltfTree f = .ok f1 ∧
      file = { f1 with mNodes := applyVisits tr f1.mNodes } := by
  unfold load at h
  obtain ⟨f1, hf1, h1⟩ := Outcome.bind_eq_ok.mp h
  obtain ⟨mNodes, hlink, h2⟩ := Outcome.bind_eq_ok.mp h1
  obtain ⟨tr, _, _, rfl⟩ := (linkScenes_eq_ok_iff _ _ _ _).mp hlink
  exact ⟨f1, tr, hf1, (Outcome.ok.inj h2).symm⟩

theorem load_nodes {host : Host} {mExtensions : List String} {mGltfTree : Json} {depth : Nat}
    {f file : File} (h : load host mExtensions mGltfTree depth f = .ok file) {k : String}
    {info : Json} (hdecl : declared mGltfTree "nodes" k = some info) :
    ∃ d node, decodeNode host info = .ok d ∧ file.mNodes.find k = some node ∧
      node = { d.ret with parent := node.parent, children := node.children } := by
  obtain ⟨f1, tr, hf1, rfl⟩ := load_eq_ok h
  obtain ⟨d, hd, hfind⟩ := decodeManifest_nodes hf1 hdecl
  refine ⟨d, tr.foldl (visitNode k) d.ret, hd, ?_, foldl_visitNode_rest k tr d.ret⟩
  simp only
  rw [find_applyVisits, hfind]
  rfl

theorem deref_some {α : Type} {reg : Registry α} {k : String} {v : α}
    (h : reg.find k = some v) : deref reg (some k) = .ok v := by
  simp [deref, h]

theorem decodeAccessor_bufferView {host : Host} {info : Json} {acc : Accessor}
    (h : decodeAccessor host info = .ok acc) :
    ∃ b, memberString info "bufferView" = .ok b ∧ acc.bufferView = some b := by
  unfold decodeAccessor at h
  obtain ⟨_, _, h⟩ := Outcome.bind_eq_ok.mp h
  obtain ⟨_, _, h⟩ := Outcome.bind_eq_ok.mp h
  obtain ⟨_, _, h⟩ := Outcome.bind_eq_ok.mp h
  obtain ⟨_, _, h⟩ := Outcome.bind_eq_ok.mp h
  obtain ⟨_, _, h⟩ := Outcome.bind_eq_ok.mp h
  obtain ⟨_, _, h⟩ := Outcome.bind_eq_ok.mp h
  obtain ⟨_, _, h⟩ := Outcome.bind_eq_ok.mp h
  obtain ⟨_, _, h⟩ := Outcome.bind_eq_ok.mp h
  obtain ⟨_, _, h⟩ := Outcome.bind_eq_ok.mp h
  obtain ⟨_, _, h⟩ := Outcome.bind_eq_ok.mp h
  obtain ⟨b, hb, h⟩ := Outcome.bind_eq_ok.mp h
  obtain ⟨_, _, h⟩ := Outcome.bind_eq_ok.mp h
  obtain ⟨_, _, h⟩ := Outcome.bind_eq_ok.mp h
  obtain ⟨_, _, h⟩ := Outcome.bind_eq_ok.mp h
  obtain ⟨_, _, h⟩ := Outcome.bind_eq_ok.mp h
  obtain ⟨_, _, h⟩ := Outcome.bind_eq_ok.mp h
  obtain ⟨_, _, h⟩ := Outcome.bind_eq_ok.mp h
  obtain ⟨_, _, h⟩ := Outcome.bind_eq_ok.mp h
  obtain ⟨_, _, h⟩ := Outcome.bind_eq_ok.mp h
  obtain ⟨_, _, h⟩ := Outcome.bind_eq_ok.mp h
  obtain ⟨_, _, h⟩ := Outcome.bind_eq_ok.mp h
  obtain ⟨_, _, h⟩ := Outcome.bind_eq_ok.mp h
  cases h
  exact ⟨b, hb, rfl⟩

theorem decodeBufferView_buffer {host : Host} {info : Json} {view : BufferView}
    (h : decodeBufferView host info = .ok view) :
    ∃ b, memberString info "buffer" = .ok b ∧ view.buffer = some b := by
  unfold decodeBufferView at h
  obtain ⟨_, _, h⟩ := Outcome.bind_eq_ok.mp h
  obtain ⟨_, _, h⟩ := Outcome.bind_eq_ok.mp h
  obtain ⟨_, _, h⟩ := Outcome.bind_eq_ok.mp h
  obtain ⟨_, _, h⟩ := Outcome.bind_eq_ok.mp h
  obtain ⟨b, hb, h⟩ := Outcome.bind_eq_ok.mp h
  obtain ⟨_, _, h⟩ := Outcome.bind_eq_ok.mp h
  obtain ⟨_, _, h⟩ := Outcome.bind_eq_ok.mp h
  obtain ⟨_, _, h⟩ := Outcome.bind_eq_ok.mp h
  obtain ⟨_, _, h⟩ := Outcome.bind_eq_ok.mp h
  cases h
  exact ⟨b, hb, rfl⟩

theorem decodeChannel_target {channel : Json} {ch : Channel}
    (h : decodeChannel channel = .ok ch) : ch.target = some ch.targetId := by
  unfold decodeChannel at h
  obtain ⟨_, _, h⟩ := Outcome.bind_eq_ok.mp h
  obtain ⟨_, _, h⟩ := Outcome.bind_eq_ok.mp h
  obtain ⟨_, _, h⟩ := Outcome.bind_eq_ok.mp h
  obtain ⟨_, _, h⟩ := Outcome.bind_eq_ok.mp h
  obtain ⟨_, _, h⟩ := Outcome.bind_eq_ok.mp h
  obtain ⟨_, _, h⟩ := Outcome.bind_eq_ok.mp h
  obtain ⟨_, _, h⟩ := Outcome.bind_eq_ok.mp h
  obtain ⟨_, _, h⟩ := Outcome.bind_eq_ok.mp h
  obtain ⟨_, _, h⟩ := Outcome.bind_eq_ok.mp h
  obtain ⟨_, _, h⟩ := Outcome.bind_eq_ok.mp h
  obtain ⟨_, _, h⟩ := Outcome.bind_eq_ok.mp h
  cases h
  rfl

theorem decodeEach_mem {α β : Type} (decode : α → Outcome β) :
    ∀ (xs : List α) (ys : List β), decodeEach decode xs = .ok ys →
      ∀ y ∈ ys, ∃ x ∈ xs, decode x = .ok y := by
  intro xs
  induction xs with
  | nil =>
    intro ys h y hy
    simp only [decodeEach, Outcome.ok.injEq] at h
    subst h
    cases hy
  | cons x rest ih =>
    intro ys h y hy
    simp only [decodeEach] at h
    obtain ⟨y0, hy0, h⟩ := Outcome.bind_eq_ok.mp h
    obtain ⟨ys0, hys0, h⟩ := Outcome.bind_eq_ok.mp h
    cases h
    rcases List.mem_cons.mp hy with e | e
    · subst e
      exact ⟨x, List.mem_cons_self _ _, hy0⟩
    · obtain ⟨x1, hx1, hd⟩ := ih ys0 hys0 y e
      exact ⟨x1, List.mem_cons_of_mem _ hx1, hd⟩

theorem decodeAnimation_channels {host : Host} {info : Json} {d : DecodedAnimation}
    (h : decodeAnimation host info = .ok d) :
    ∀ ch ∈ d.ret.channels,
      ch ∈ host.defaults.animation.channels ∨ ch.target = some ch.targetId := by
  unfold decodeAnimation at h
  obtain ⟨channels, _, h⟩ := Outcome.bind_eq_ok.mp h
  obtain ⟨decoded, hdecoded, h⟩ := Outcome.bind_eq_ok.mp h
  simp only at h
  split at h
  · cases h
  · obtain ⟨_, _, h⟩ := Outcome.bind_eq_ok.mp h
    obtain ⟨_, _, h⟩ := Outcome.bind_eq_ok.mp h
    obtain ⟨_, _, h⟩ := Outcome.bind_eq_ok.mp h
    obtain ⟨_, _, h⟩ := Outcome.bind_eq_ok.mp h
    obtain ⟨_, _, h⟩ := Outcome.bind_eq_ok.mp h
    obtain ⟨_, _, h⟩ := Outcome.bind_eq_ok.mp h
    cases h
    intro ch hch
    rcases List.mem_append.mp hch with e | e
    · exact Or.inl e
    · obtain ⟨c, _, hc⟩ := decodeEach_mem decodeChannel _ _ hdecoded ch e
      exact Or.inr (decodeChannel_target hc)

/-! ### The container reader does not depend on the magic -/

theorem getD_append_drop (magic buf : List Nat) (off : Nat) (hmagic : magic.length = 4)
    (hoff : 4 ≤ off) :
    (magic ++ buf.drop 4).getD off 0 = buf.getD off 0 := by
  simp only [List.getD_eq_getElem?_getD]
  rw [List.getElem?_append_right (by omega), hmagic, List.getElem?_drop]
  congr 2
  omega

theorem readU32_append_drop (magic buf : List Nat) (off : Nat) (hmagic : magic.length = 4)
    (hoff : 4 ≤ off) :
    readU32 (magic ++ buf.drop 4) off = readU32 buf off := by
  unfold readU32
  rw [getD_append_drop magic buf off hmagic hoff,
    getD_append_drop magic buf (off + 1) hmagic (by omega),
    getD_append_drop magic buf (off + 2) hmagic (by omega),
    getD_append_drop magic buf (off + 3) hmagic (by omega)]

theorem readBytes_append_drop (magic buf : List Nat) (off n : Nat) (hmagic : magic.length = 4)
    (hlen : 4 ≤ buf.length) (hoff : 4 ≤ off) :
    readBytes (magic ++ buf.drop 4) off n = readBytes buf off n := by
  have hlength : (magic ++ buf.drop 4).length = buf.length := by
    simp only [List.length_append, List.length_drop, hmagic]
    omega
  have hdrop : (magic ++ buf.drop 4).drop off = buf.drop off := by
    rw [List.drop_append_eq_append_drop, hmagic, List.drop_eq_nil_of_le (by omega),
      List.nil_append, List.drop_drop]
    congr 1
    omega
  unfold readBytes
  rw [hlength, hdrop]

/-! ### The assertion on the joint name -/

/-- The loop runs into the assertion at the first joint without a `jointName`, when the
joints before it are ready and its own parent resolves. -/
theorem createSkeletonLoop_assert (file : File) (ptr : DataPtr) (key : String)
    (after : List String) (node : Node) (hfind : file.mNodes.find key = some node)
    (hname : node.jointName = "") :
    ∀ (before : List String) (i : Nat) (jointNames : List String) (js : List Joint),
      jointsReady file ptr before i = true →
      (i + before.length ≠ 0 → (deref file.mNodes node.parent).isOk = true) →
      createSkeletonLoop file ptr (before ++ key :: after) i jointNames js = .assertFailed := by
  intro before
  induction before with
  | nil =>
    intro i jointNames js _ hparent
    simp only [List.nil_append, List.length_nil, Nat.add_zero] at hparent ⊢
    unfold createSkeletonLoop
    rw [deref_some_eq_ok.mpr hfind, Outcome.bind_ok]
    by_cases hi : i = 0
    · simp [hi, hname]
    · have hp := hparent hi
      cases hd : deref file.mNodes node.parent with
      | ok parent => simp [hi, hname]
      | _ => rw [hd] at hp; cases hp
  | cons k rest ih =>
    intro i jointNames js hready hparent
    simp only [jointsReady, Bool.and_eq_true] at hready
    obtain ⟨hk, hrest⟩ := hready
    unfold jointReady at hk
    cases hfk : file.mNodes.find k with
    | none => simp [hfk] at hk
    | some joint =>
      simp only [hfk, Bool.and_eq_true, Bool.or_eq_true, decide_eq_true_eq] at hk
      obtain ⟨⟨hjn, hpar⟩, hmat⟩ := hk
      have hnext : i + 1 + rest.length ≠ 0 → (deref file.mNodes node.parent).isOk = true :=
        fun _ => hparent (by simp)
      simp only [List.cons_append]
      unfold createSkeletonLoop
      rw [deref_some_eq_ok.mpr hfk, Outcome.bind_ok, readMat4_ok_of_le hmat]
      by_cases hi : i = 0
      · simp only [hi, if_true, Outcome.bind_ok, if_neg hjn]
        exact ih _ _ _ (by simpa [hi] using hrest) (by simpa [hi] using hnext)
      · rcases hpar with h0 | hp
        · exact absurd h0 hi
        · cases hd : deref file.mNodes joint.parent with
          | ok parent =>
            simp only [hi, if_false, Outcome.bind_ok, if_neg hjn]
            exact ih _ _ _ hrest hnext
          | _ => rw [hd] at hp; cases hp

/-! ### The transform vectors of a decoded node -/

/-- The attachment part of the decoder leaves the four transform vectors alone. -/
theorem decodeAttachment_transform {ret : Node} {nodeInfo : Json} {d : DecodedNode}
    (h : decodeAttachment ret nodeInfo = .ok d) :
    d.ret.transformMatrix = ret.transformMatrix ∧ d.ret.translation = ret.translation ∧
      d.ret.rotation = ret.rotation ∧ d.ret.scale = ret.scale := by
  unfold decodeAttachment at h
  obtain ⟨ext, _, h⟩ := Outcome.bind_eq_ok.mp h
  by_cases hext : (!ext.isNull) = true
  · rw [if_pos hext] at h
    obtain ⟨common, _, h⟩ := Outcome.bind_eq_ok.mp h
    by_cases hcommon : (!common.isNull) = true
    · rw [if_pos hcommon] at h
      obtain ⟨lightKey, _, h⟩ := Outcome.bind_eq_ok.mp h
      cases h
      exact ⟨rfl, rfl, rfl, rfl⟩
    · rw [if_neg hcommon] at h
      cases h
      exact ⟨rfl, rfl, rfl, rfl⟩
  · rw [if_neg hext] at h
    obtain ⟨camera, _, h⟩ := Outcome.bind_eq_ok.mp h
    by_cases hcamera : (!camera.isNull) = true
    · rw [if_pos hcamera] at h
      obtain ⟨cameraKey, _, h⟩ := Outcome.bind_eq_ok.mp h
      cases h
      exact ⟨rfl, rfl, rfl, rfl⟩
    · rw [if_neg hcamera] at h
      obtain ⟨jointName, _, h⟩ := Outcome.bind_eq_ok.mp h
      by_cases hjoint : (!jointName.isNull) = true
      · rw [if_pos hjoint] at h
        obtain ⟨name, _, h⟩ := Outcome.bind_eq_ok.mp h
        cases h
        exact ⟨rfl, rfl, rfl, rfl⟩
      · rw [if_neg hjoint] at h
        obtain ⟨meshes, _, h⟩ := Outcome.bind_eq_ok.mp h
        obtain ⟨skin, _, h⟩ := Outcome.bind_eq_ok.mp h
        obtain ⟨retSkin, _, h⟩ := Outcome.bind_eq_ok.mp h
        obtain ⟨skeletonKeys, _, h⟩ := Outcome.bind_eq_ok.mp h
        cases h
        exact ⟨rfl, rfl, rfl, rfl⟩

/-- The transform vectors of a decoded node are those the transform part produced. -/
theorem decodeNode_transform {host : Host} {nodeInfo : Json} {d : DecodedNode}
    (h : decodeNode host nodeInfo = .ok d) :
    ∃ r1, decodeTransform host.defaults.node nodeInfo = .ok r1 ∧
      d.ret.transformMatrix = r1.transformMatrix ∧ d.ret.translation = r1.translation ∧
      d.ret.rotation = r1.rotation ∧ d.ret.scale = r1.scale := by
  unfold decodeNode at h
  obtain ⟨r1, hr1, h⟩ := Outcome.bind_eq_ok.mp h
  obtain ⟨r2, hr2, h⟩ := Outcome.bind_eq_ok.mp h
  obtain ⟨name, _, h⟩ := Outcome.bind_eq_ok.mp h
  cases h
  exact ⟨r1, hr1, decodeAttachment_transform (d := r2) hr2⟩

theorem memberFloats_eq_ok {nodeInfo : Json} {name : String} {init out : List Json.Number}
    (h : memberFloats nodeInfo name init = .ok out) :
    ∃ array, member nodeInfo name = .ok array ∧
      ((array.isNull = true ∧ out = init) ∨
        (array.isNull = false ∧ ∃ xs, collectFloats array.elements = .ok xs ∧
          out = init ++ xs)) := by
  unfold memberFloats at h
  obtain ⟨array, harray, h⟩ := Outcome.bind_eq_ok.mp h
  refine ⟨array, harray, ?_⟩
  cases hn : array.isNull with
  | true =>
    rw [hn] at h
    simp only [Bool.not_true, Bool.false_eq_true, if_false, Outcome.ok.injEq] at h
    exact Or.inl ⟨rfl, h.symm⟩
  | false =>
    rw [hn] at h
    simp only [Bool.not_false, if_true] at h
    obtain ⟨xs, hxs, h⟩ := Outcome.bind_eq_ok.mp h
    cases h
    exact Or.inr ⟨rfl, xs, hxs, rfl⟩

/-- What the transform part of the decoder produces: with a `matrix` member only the
matrix is appended to, without one the three other vectors are. -/
theorem decodeTransform_eq_ok {ret r1 : Node} {nodeInfo : Json}
    (h : decodeTransform ret nodeInfo = .ok r1) :
    ∃ matrix, member nodeInfo "matrix" = .ok matrix ∧
      ((matrix.isNull = false ∧ ∃ xs, collectFloats matrix.elements = .ok xs ∧
          r1.transformMatrix = ret.transformMatrix ++ xs ∧
          r1.translation = ret.translation ∧ r1.rotation = ret.rotation ∧
          r1.scale = ret.scale) ∨
        (matrix.isNull = true ∧ r1.transformMatrix = ret.transformMatrix ∧
          memberFloats nodeInfo "translation" ret.translation = .ok r1.translation ∧
          memberFloats nodeInfo "rotation" ret.rotation = .ok r1.rotation ∧
          memberFloats nodeInfo "scale" ret.scale = .ok r1.scale)) := by
  unfold decodeTransform at h
  obtain ⟨matrix, hmatrix, h⟩ := Outcome.bind_eq_ok.mp h
  refine ⟨matrix, hmatrix, ?_⟩
  cases hn : matrix.isNull with
  | false =>
    rw [hn] at h
    simp only [Bool.not_false, if_true] at h
    obtain ⟨xs, hxs, h⟩ := Outcome.bind_eq_ok.mp h
    cases h
    exact Or.inl ⟨rfl, xs, hxs, rfl, rfl, rfl, rfl⟩
  | true =>
    rw [hn] at h
    simp only [Bool.not_true, Bool.false_eq_true, if_false] at h
    obtain ⟨t, ht, h⟩ := Outcome.bind_eq_ok.mp h
    obtain ⟨r, hr, h⟩ := Outcome.bind_eq_ok.mp h
    obtain ⟨s, hs, h⟩ := Outcome.bind_eq_ok.mp h
    cases h
    exact Or.inr ⟨rfl, rfl, ht, hr, hs⟩

theorem collectFloats_length : ∀ (js : List Json) (xs : List Json.Number),
    collectFloats js = .ok xs → xs.length = js.length := by
  intro js
  induction js with
  | nil =>
    intro xs h
    simp only [collectFloats, Outcome.ok.injEq] at h
    subst h
    rfl
  | cons j rest ih =>
    intro xs h
    simp only [collectFloats] at h
    obtain ⟨x, _, h⟩ := Outcome.bind_eq_ok.mp h
    obtain ⟨xs0, hxs0, h⟩ := Outcome.bind_eq_ok.mp h
    cases h
    simp [ih xs0 hxs0]

/-! ### The default scene after the decoding loop -/

theorem addInfo_defaultScene {host : Host} {tn tk : String} {obj : Json} {f f1 : File}
    (h : addInfo host tn tk obj f = .ok f1) : f1.mDefaultScene = f.mDefaultScene := by
  by_cases c_accessors : tn = "accessors"
  · subst c_accessors
    rw [addInfo_accessors] at h
    obtain ⟨ret, _, rfl⟩ := addAccessorInfo_eq_ok h
    rfl
  by_cases c_animations : tn = "animations"
  · subst c_animations
    rw [addInfo_animations] at h
    obtain ⟨ret, _, rfl⟩ := addAnimationInfo_eq_ok h
    rfl
  by_cases c_bufferViews : tn = "bufferViews"
  · subst c_bufferViews
    rw [addInfo_bufferViews] at h
    obtain ⟨ret, _, rfl⟩ := addBufferViewInfo_eq_ok h
    rfl
  by_cases c_buffers : tn = "buffers"
  · subst c_buffers
    rw [addInfo_buffers] at h
    obtain ⟨ret, _, rfl⟩ := addBufferInfo_eq_ok h
    rfl
  by_cases c_nodes : tn = "nodes"
  · subst c_nodes
    rw [addInfo_nodes] at h
    obtain ⟨ret, _, rfl⟩ := addNodeInfo_eq_ok h
    rfl
  by_cases c_scenes : tn = "scenes"
  · subst c_scenes
    rw [addInfo_scenes] at h
    obtain ⟨ret, _, rfl⟩ := addSceneInfo_eq_ok h
    rfl
  by_cases c_cameras : tn = "cameras"
  · subst c_cameras
    rw [addInfo_cameras] at h
    obtain ⟨ret, _, rfl⟩ := addCameraInfo_eq_ok h
    rfl
  rcases addInfo_foreign h c_accessors c_animations c_bufferViews c_buffers c_nodes c_scenes
    c_cameras with e | e
  · rw [e]
  · obtain ⟨touched, _, rfl⟩ := addForeignInfo_eq_ok e
    rfl

theorem loadType_defaultScene {host : Host} {tn : String} {typeObj : Json} {f f1 : File}
    (h : loadType host tn typeObj f = .ok f1) : f1.mDefaultScene = f.mDefaultScene := by
  unfold loadType at h
  obtain ⟨typeKeys, _, hloop⟩ := Outcome.bind_eq_ok.mp h
  refine forEach_preserves _ (fun t => t.mDefaultScene = f.mDefaultScene) typeKeys f f1 hloop
    ?_ rfl
  intro tk _ t t1 ht hP
  obtain ⟨obj, _, hadd⟩ := Outcome.bind_eq_ok.mp ht
  show t1.mDefaultScene = f.mDefaultScene
  rw [addInfo_defaultScene hadd]
  exact hP

theorem loadLights_defaultScene {host : Host} {typeObj : Json} {f f1 : File}
    (h : loadLights host typeObj f = .ok f1) : f1.mDefaultScene = f.mDefaultScene := by
  unfold loadLights at h
  obtain ⟨common, _, h1⟩ := Outcome.bind_eq_ok.mp h
  obtain ⟨lights, _, h2⟩ := Outcome.bind_eq_ok.mp h1
  obtain ⟨lightKeys, _, hloop⟩ := Outcome.bind_eq_ok.mp h2
  refine forEach_preserves _ (fun t => t.mDefaultScene = f.mDefaultScene) lightKeys f f1 hloop
    ?_ rfl
  intro lk _ t t1 ht hP
  obtain ⟨obj, _, hadd⟩ := Outcome.bind_eq_ok.mp ht
  obtain ⟨touched, _, rfl⟩ := addForeignInfo_eq_ok hadd
  exact hP

/-- The body of the outer loop of `load` writes `mDefaultScene` for the member `scene`
and for no other. -/
theorem loadStep_defaultScene {host : Host} {hmc : Bool} {members : List (String × Json)}
    {typeName : String} {f f1 : File}
    (h : loadStep host hmc (.obj members) typeName f = .ok f1) :
    (typeName ≠ "scene" → f1.mDefaultScene = f.mDefaultScene) ∧
    (typeName = "scene" →
      (Json.lookupMember "scene" members).asString = some f1.mDefaultScene) := by
  unfold loadStep at h
  obtain ⟨typeObj, htype, h1⟩ := Outcome.bind_eq_ok.mp h
  have htypeObj : typeObj = Json.lookupMember typeName members := by
    have := Outcome.ofJson_eq_ok.mp htype
    simpa [Json.get] using this.symm
  by_cases c1 : typeName = "scene"
  · rw [if_pos c1] at h1
    obtain ⟨s, hs, h2⟩ := Outcome.bind_eq_ok.mp h1
    cases h2
    refine ⟨fun hne => absurd c1 hne, fun _ => ?_⟩
    rw [← c1, ← htypeObj]
    exact Outcome.ofJson_eq_ok.mp hs
  rw [if_neg c1] at h1
  refine ⟨fun _ => ?_, fun e => absurd e c1⟩
  by_cases c2 : typeName = "extensionsUsed"
  · rw [if_pos c2] at h1
    cases h1
    rfl
  rw [if_neg c2] at h1
  obtain ⟨file1, hlights, htypeLoop⟩ := Outcome.bind_eq_ok.mp h1
  rw [loadType_defaultScene htypeLoop]
  by_cases c3 : typeName = "extensions"
  · rw [if_pos c3] at hlights
    cases hmc with
    | true =>
      simp only [if_true] at hlights
      exact loadLights_defaultScene hlights
    | false =>
      simp only [Bool.false_eq_true, if_false] at hlights
      cases hlights
      rfl
  · rw [if_neg c3] at hlights
    cases hlights
    rfl

/-- After the decoding loop `mDefaultScene` holds the string of the manifest's `scene`
member, and what it held before when the manifest has no such member. -/
theorem decodeManifest_defaultScene {host : Host} {mExtensions : List String}
    {mGltfTree : Json} {f f1 : File}
    (h : decodeManifest host mExtensions mGltfTree f = .ok f1) :
    (∀ v, sceneEntry mGltfTree = some v → v.asString = some f1.mDefaultScene) ∧
    (sceneEntry mGltfTree = none → f1.mDefaultScene = f.mDefaultScene) := by
  unfold decodeManifest at h
  obtain ⟨gltfTypes, htypes, hloop⟩ := Outcome.bind_eq_ok.mp h
  have hg := Outcome.ofJson_eq_ok.mp htypes
  cases mGltfTree with
  | obj members =>
    simp only [Json.getMemberNames, Option.some.injEq] at hg
    subst hg
    constructor
    · intro v hv
      simp only [sceneEntry] at hv
      split_ifs at hv with hmem
      cases hv
      exact forEach_establishes _
        (fun t => (Json.lookupMember "scene" members).asString = some t.mDefaultScene)
        (fun typeName => typeName = "scene") _ f f1 hloop
        (fun typeName _ t t1 ht hP => by
          obtain ⟨h1, h2⟩ := loadStep_defaultScene ht
          by_cases c : typeName = "scene"
          · exact h2 c
          · show (Json.lookupMember "scene" members).asString = some t1.mDefaultScene
            rw [h1 c]
            exact hP)
        (fun typeName _ hT t t1 ht => (loadStep_defaultScene ht).2 hT)
        ⟨"scene", hmem, rfl⟩
    · intro hnone
      simp only [sceneEntry] at hnone
      split_ifs at hnone with hmem
      exact forEach_preserves _ (fun t => t.mDefaultScene = f.mDefaultScene) _ f f1 hloop
        (fun typeName hin t t1 ht hP => by
          have hne : typeName ≠ "scene" := fun e => hmem (e ▸ hin)
          show t1.mDefaultScene = f.mDefaultScene
          rw [(loadStep_defaultScene ht).1 hne]
          exact hP) rfl
  | null =>
    simp only [Json.getMemberNames, Option.some.injEq] at hg
    subst hg
    simp only [forEach, Outcome.ok.injEq] at hloop
    subst hloop
    exact ⟨fun v hv => by simp [sceneEntry] at hv, fun _ => rfl⟩
  | _ => simp [Json.getMemberNames] at hg

theorem Registry.find_head {α : Type} (key : String) (v : α) (rest : Registry α) :
    Registry.find ((key, v) :: rest) key = some v := by
  simp [Registry.find]

/-! ### The buffer `binary_glTF` -/

theorem decodeBuffer_binary {host : Host} {bufferInfo : Json} {buffer : Buffer} {uri : String}
    (h : decodeBuffer host "binary_glTF" bufferInfo = .ok buffer)
    (huri : memberString bufferInfo "uri" = .ok uri) (hcomma : ',' ∉ uri.toList) :
    buffer.data = host.mBuffer := by
  unfold decodeBuffer at h
  obtain ⟨uriVal, _, h1⟩ := Outcome.bind_eq_ok.mp h
  obtain ⟨_, _, h2⟩ := Outcome.bind_eq_ok.mp h1
  obtain ⟨uri2, hu, h3⟩ := Outcome.bind_eq_ok.mp h2
  rw [huri] at hu
  cases hu
  rw [if_neg hcomma, if_pos rfl] at h3
  obtain ⟨uriData, hud, h4⟩ := Outcome.bind_eq_ok.mp h3
  cases hud
  obtain ⟨type, _, h5⟩ := Outcome.bind_eq_ok.mp h4
  obtain ⟨byteLength, _, h6⟩ := Outcome.bind_eq_ok.mp h5
  obtain ⟨name, _, h7⟩ := Outcome.bind_eq_ok.mp h6
  cases h7
  rfl

theorem decodeBuffer_comma {host : Host} {key : String} {bufferInfo : Json} {buffer : Buffer}
    {uri : String} (h : decodeBuffer host key bufferInfo = .ok buffer)
    (huri : memberString bufferInfo "uri" = .ok uri) (hcomma : ',' ∈ uri.toList) :
    buffer.data =
      some (host.fromBase64 (String.mk ((uri.toList.dropWhile fun c => c ≠ ',').drop 1))) := by
  unfold decodeBuffer at h
  obtain ⟨uriVal, _, h1⟩ := Outcome.bind_eq_ok.mp h
  obtain ⟨_, _, h2⟩ := Outcome.bind_eq_ok.mp h1
  obtain ⟨uri2, hu, h3⟩ := Outcome.bind_eq_ok.mp h2
  rw [huri] at hu
  cases hu
  rw [if_pos hcomma] at h3
  obtain ⟨uriData, hud, h4⟩ := Outcome.bind_eq_ok.mp h3
  cases hud
  obtain ⟨type, _, h5⟩ := Outcome.bind_eq_ok.mp h4
  obtain ⟨byteLength, _, h6⟩ := Outcome.bind_eq_ok.mp h5
  obtain ⟨name, _, h7⟩ := Outcome.bind_eq_ok.mp h6
  cases h7
  rfl

theorem readBytes_eq_ok {buf : List Nat} {off n : Nat} {bytes : List Nat}
    (h : readBytes buf off n = .ok bytes) :
    off + bytes.length ≤ buf.length ∧ bytes = (buf.drop off).take bytes.length := by
  unfold readBytes at h
  by_cases hle : off + n ≤ buf.length
  · rw [if_pos hle] at h
    cases h
    have hlen : ((buf.drop off).take n).length = n := by
      rw [List.length_take, List.length_drop]
      omega
    rw [hlen]
    exact ⟨hle, rfl⟩
  · rw [if_neg hle] at h
    cases h

/-- What `verifyFile` leaves in `mBuffer` for a `.glb` file: the bytes that follow the JSON
chunk. -/
theorem verifyFile_glb_blob {data : DataSource} {verified : VerifiedFile}
    (hext : data.extension = ".glb") (h : verifyFile data = .ok verified) :
    ∃ blob, verified.mBuffer = some blob ∧
      20 + (readHeader data.buffer).sceneLength + blob.length ≤ data.buffer.length ∧
      blob = (data.buffer.drop (20 + (readHeader data.buffer).sceneLength)).take blob.length := by
  unfold verifyFile at h
  rw [if_pos hext] at h
  by_cases hsize : sizeofBinaryHeader ≤ data.buffer.length
  · rw [if_pos hsize] at h
    obtain ⟨gltfJson, _, h1⟩ := Outcome.bind_eq_ok.mp h
    obtain ⟨blob, hblob, h2⟩ := Outcome.bind_eq_ok.mp h1
    cases h2
    exact ⟨blob, rfl, readBytes_eq_ok hblob⟩
  · rw [if_neg hsize] at h
    cases h

/-! ### The attachment of a decoded node -/

theorem decodeAccessor_componentType {host : Host} {info : Json} {acc : Accessor}
    (h : decodeAccessor host info = .ok acc) :
    memberUInt host info "componentType" = .ok acc.componentType := by
  unfold decodeAccessor at h
  obtain ⟨_, _, h⟩ := Outcome.bind_eq_ok.mp h
  obtain ⟨_, _, h⟩ := Outcome.bind_eq_ok.mp h
  obtain ⟨_, _, h⟩ := Outcome.bind_eq_ok.mp h
  obtain ⟨_, _, h⟩ := Outcome.bind_eq_ok.mp h
  obtain ⟨_, _, h⟩ := Outcome.bind_eq_ok.mp h
  obtain ⟨_, _, h⟩ := Outcome.bind_eq_ok.mp h
  obtain ⟨_, _, h⟩ := Outcome.bind_eq_ok.mp h
  obtain ⟨_, _, h⟩ := Outcome.bind_eq_ok.mp h
  obtain ⟨_, _, h⟩ := Outcome.bind_eq_ok.mp h
  obtain ⟨_, _, h⟩ := Outcome.bind_eq_ok.mp h
  obtain ⟨_, _, h⟩ := Outcome.bind_eq_ok.mp h
  obtain ⟨_, _, h⟩ := Outcome.bind_eq_ok.mp h
  obtain ⟨_, _, h⟩ := Outcome.bind_eq_ok.mp h
  obtain ⟨_, _, h⟩ := Outcome.bind_eq_ok.mp h
  obtain ⟨_, _, h⟩ := Outcome.bind_eq_ok.mp h
  obtain ⟨c, hc, h⟩ := Outcome.bind_eq_ok.mp h
  obtain ⟨_, _, h⟩ := Outcome.bind_eq_ok.mp h
  obtain ⟨_, _, h⟩ := Outcome.bind_eq_ok.mp h
  obtain ⟨_, _, h⟩ := Outcome.bind_eq_ok.mp h
  obtain ⟨_, _, h⟩ := Outcome.bind_eq_ok.mp h
  obtain ⟨_, _, h⟩ := Outcome.bind_eq_ok.mp h
  obtain ⟨_, _, h⟩ := Outcome.bind_eq_ok.mp h
  cases h
  exact hc

/-- The transform part of the decoder leaves the attachments alone. -/
theorem decodeTransform_attachment {ret r1 : Node} {nodeInfo : Json}
    (h : decodeTransform ret nodeInfo = .ok r1) :
    r1.light = ret.light ∧ r1.camera = ret.camera ∧ r1.jointName = ret.jointName ∧
      r1.meshes = ret.meshes ∧ r1.skin = ret.skin ∧ r1.skeletons = ret.skeletons := by
  unfold decodeTransform at h
  obtain ⟨matrix, _, h⟩ := Outcome.bind_eq_ok.mp h
  by_cases hm : (!matrix.isNull) = true
  · rw [if_pos hm] at h
    obtain ⟨xs, _, h⟩ := Outcome.bind_eq_ok.mp h
    cases h
    exact ⟨rfl, rfl, rfl, rfl, rfl, rfl⟩
  · rw [if_neg hm] at h
    obtain ⟨t, _, h⟩ := Outcome.bind_eq_ok.mp h
    obtain ⟨r, _, h⟩ := Outcome.bind_eq_ok.mp h
    obtain ⟨s, _, h⟩ := Outcome.bind_eq_ok.mp h
    cases h
    exact ⟨rfl, rfl, rfl, rfl, rfl, rfl⟩

/-- The four branches of the attachment part of the decoder, by the members of the entry:
with `extensions` at most the light is written; without it, with `camera` only the camera;
without both, with `jointName` only the joint name; otherwise only the renderable data. -/
theorem decodeAttachment_eq_ok {ret : Node} {nodeInfo : Json} {d : DecodedNode}
    (h : decodeAttachment ret nodeInfo = .ok d) :
    ∃ ext, member nodeInfo "extensions" = .ok ext ∧
      ((ext.isNull = false ∧ d.ret.camera = ret.camera ∧ d.ret.jointName = ret.jointName ∧
          d.ret.meshes = ret.meshes ∧ d.ret.skin = ret.skin ∧
          d.ret.skeletons = ret.skeletons ∧ d.nodeKeys = [] ∧ d.cameraKeys = []) ∨
       (ext.isNull = true ∧ d.ret.light = ret.light ∧
          ((d.ret.jointName = ret.jointName ∧ d.ret.meshes = ret.meshes ∧
              d.ret.skin = ret.skin ∧ d.ret.skeletons = ret.skeletons) ∨
           (d.ret.camera = ret.camera ∧ d.ret.meshes = ret.meshes ∧
              d.ret.skin = ret.skin ∧ d.ret.skeletons = ret.skeletons) ∨
           (d.ret.camera = ret.camera ∧ d.ret.jointName = ret.jointName)))) := by
  unfold decodeAttachment at h
  obtain ⟨ext, hext0, h⟩ := Outcome.bind_eq_ok.mp h
  refine ⟨ext, hext0, ?_⟩
  cases hn : ext.isNull with
  | false =>
    left
    rw [hn] at h
    simp only [Bool.not_false, if_true] at h
    obtain ⟨common, _, h⟩ := Outcome.bind_eq_ok.mp h
    by_cases hcommon : (!common.isNull) = true
    · rw [if_pos hcommon] at h
      obtain ⟨lightKey, _, h⟩ := Outcome.bind_eq_ok.mp h
      cases h
      exact ⟨rfl, rfl, rfl, rfl, rfl, rfl, rfl, rfl⟩
    · rw [if_neg hcommon] at h
      cases h
      exact ⟨rfl, rfl, rfl, rfl, rfl, rfl, rfl, rfl⟩
  | true =>
    right
    rw [hn] at h
    simp only [Bool.not_true, Bool.false_eq_true, if_false] at h
    obtain ⟨camera, _, h⟩ := Outcome.bind_eq_ok.mp h
    by_cases hcamera : (!camera.isNull) = true
    · rw [if_pos hcamera] at h
      obtain ⟨cameraKey, _, h⟩ := Outcome.bind_eq_ok.mp h
      cases h
      exact ⟨rfl, rfl, Or.inl ⟨rfl, rfl, rfl, rfl⟩⟩
    · rw [if_neg hcamera] at h
      obtain ⟨jointName, _, h⟩ := Outcome.bind_eq_ok.mp h
      by_cases hjoint : (!jointName.isNull) = true
      · rw [if_pos hjoint] at h
        obtain ⟨name, _, h⟩ := Outcome.bind_eq_ok.mp h
        cases h
        exact ⟨rfl, rfl, Or.inr (Or.inl ⟨rfl, rfl, rfl, rfl⟩)⟩
      · rw [if_neg hjoint] at h
        obtain ⟨meshes, _, h⟩ := Outcome.bind_eq_ok.mp h
        obtain ⟨skin, _, h⟩ := Outcome.bind_eq_ok.mp h
        obtain ⟨retSkin, _, h⟩ := Outcome.bind_eq_ok.mp h
        obtain ⟨skeletonKeys, _, h⟩ := Outcome.bind_eq_ok.mp h
        cases h
        exact ⟨rfl, rfl, Or.inr (Or.inr ⟨rfl, rfl⟩)⟩

/-! ### The pair loops of `addTechniqueInfo` -/

theorem forEach_pairStep (source : Json) :
    ∀ (names : List String) (init out : List (String × String)),
      forEach (pairStep source) names init = .ok out →
      ∃ pairs, out = init ++ pairs ∧ pairs.map Prod.fst = names ∧
        ∀ pair ∈ pairs, ∃ value, source.get pair.1 = some value ∧
          value.asString = some pair.2 := by
  intro names
  induction names with
  | nil =>
    intro init out h
    simp only [forEach, Outcome.ok.injEq] at h
    exact ⟨[], by simp [h], rfl, by simp⟩
  | cons name rest ih =>
    intro init out h
    simp only [forEach] at h
    obtain ⟨s1, hstep, hrest⟩ := Outcome.bind_eq_ok.mp h
    unfold pairStep at hstep
    obtain ⟨value, hvalue, hstep⟩ := Outcome.bind_eq_ok.mp hstep
    obtain ⟨text, htext, hstep⟩ := Outcome.bind_eq_ok.mp hstep
    cases hstep
    obtain ⟨pairs, hout, hnames, hall⟩ := ih _ _ hrest
    have hget : source.get name = some value := by
      unfold member at hvalue
      cases hg : source.get name with
      | none =>
        rw [hg] at hvalue
        cases hvalue
      | some v =>
        rw [hg] at hvalue
        cases hvalue
        rfl
    have htxt : value.asString = some text := by
      cases hg : value.asString with
      | none =>
        rw [hg] at htext
        cases htext
      | some v =>
        rw [hg] at htext
        cases htext
        rfl
    refine ⟨(name, text) :: pairs, ?_, ?_, ?_⟩
    · rw [hout, List.append_assoc]
      rfl
    · simp [hnames]
    · intro pair hp
      rcases List.mem_cons.mp hp with rfl | hp
      · exact ⟨value, hget, htxt⟩
      · exact hall pair hp

/-! ### Keys of a registry under the writes of the decoders -/

theorem Registry.mem_keys {α : Type} (reg : Registry α) (k : String) :
    k ∈ reg.keys ↔ ∃ v, reg.find k = some v := by
  induction reg with
  | nil => simp [Registry.keys, Registry.find]
  | cons e rest ih =>
    obtain ⟨k0, v0⟩ := e
    unfold Registry.keys at ih ⊢
    by_cases h : k0 = k
    · subst h
      simp [Registry.find]
    · have h2 : ¬ k = k0 := fun e => h e.symm
      simp only [List.map_cons, List.mem_cons, h2, false_or, Registry.find, h, if_false]
      exact ih

theorem Registry.mem_keys_touch {α : Type} (reg : Registry α) (key : String) (dflt : α)
    (k : String) : k ∈ (reg.touch key dflt).keys ↔ k ∈ reg.keys ∨ k = key := by
  unfold Registry.touch
  cases hk : reg.find key with
  | some v =>
    constructor
    · exact Or.inl
    · rintro (h | rfl)
      · exact h
      · exact (Registry.mem_keys reg k).mpr ⟨v, hk⟩
  | none => simp [Registry.keys]

theorem Registry.mem_keys_touchAll {α : Type} (keys : List String) (dflt : α) (k : String) :
    ∀ (reg : Registry α), k ∈ (reg.touchAll keys dflt).keys ↔ k ∈ reg.keys ∨ k ∈ keys := by
  induction keys with
  | nil => intro reg; simp [Registry.touchAll]
  | cons key rest ih =>
    intro reg
    show k ∈ ((reg.touch key dflt).touchAll rest dflt).keys ↔ _
    rw [ih, Registry.mem_keys_touch, List.mem_cons]
    tauto

theorem Registry.keys_modify {α : Type} (reg : Registry α) (key : String) (f : α → α) :
    (reg.modify key f).keys = reg.keys := by
  induction reg with
  | nil => rfl
  | cons e rest ih =>
    obtain ⟨k0, v0⟩ := e
    unfold Registry.keys at ih ⊢
    by_cases h : k0 = key
    · simp [Registry.modify, h]
    · simp [Registry.modify, h, ih]

theorem Registry.mem_keys_set {α : Type} (reg : Registry α) (key : String) (value : α)
    (k : String) : k ∈ (reg.set key value).keys ↔ k ∈ reg.keys ∨ k = key := by
  unfold Registry.set
  cases hk : reg.find key with
  | some v =>
    simp only [Registry.keys_modify]
    constructor
    · exact Or.inl
    · rintro (h | rfl)
      · exact h
      · exact (Registry.mem_keys reg k).mpr ⟨v, hk⟩
  | none => simp [Registry.keys]

theorem Registry.mem_keys_written {α : Type} (reg : Registry α) (keys : List String)
    (dflt : α) (own : Bool) (key : String) (value : α) (k : String) :
    k ∈ (reg.written keys dflt own key value).keys ↔
      k ∈ reg.keys ∨ k ∈ keys ∨ (own = true ∧ k = key) := by
  unfold Registry.written
  cases own with
  | true =>
    simp only [if_true, Registry.mem_keys_set, Registry.mem_keys_touchAll, true_and]
    tauto
  | false =>
    simp only [Bool.false_eq_true, if_false, Registry.mem_keys_touchAll, false_and, or_false]

theorem Registry.find_touch_cases {α : Type} {reg : Registry α} {key : String} {dflt : α}
    {k : String} {w : α} (h : (reg.touch key dflt).find k = some w) :
    reg.find k = some w ∨ (k = key ∧ w = dflt) := by
  unfold Registry.touch at h
  cases hk : reg.find key with
  | some v =>
    rw [hk] at h
    exact Or.inl h
  | none =>
    rw [hk] at h
    simp only [Registry.find_append] at h
    cases hf : reg.find k with
    | some v =>
      rw [hf] at h
      exact Or.inl h
    | none =>
      rw [hf] at h
      by_cases e : key = k
      · rw [if_pos e] at h
        exact Or.inr ⟨e.symm, (Option.some.inj h).symm⟩
      · rw [if_neg e] at h
        cases h

theorem Registry.find_touchAll_cases {α : Type} (keys : List String) (dflt : α) (k : String)
    (w : α) :
    ∀ (reg : Registry α), (reg.touchAll keys dflt).find k = some w →
      reg.find k = some w ∨ (k ∈ keys ∧ w = dflt) := by
  induction keys with
  | nil => intro reg h; exact Or.inl h
  | cons key rest ih =>
    intro reg h
    have h1 : ((reg.touch key dflt).touchAll rest dflt).find k = some w := h
    rcases ih _ h1 with h2 | ⟨hm, hw⟩
    · rcases Registry.find_touch_cases h2 with h3 | ⟨e, hw⟩
      · exact Or.inl h3
      · exact Or.inr ⟨e ▸ List.mem_cons_self _ _, hw⟩
    · exact Or.inr ⟨List.mem_cons_of_mem _ hm, hw⟩

theorem Registry.find_written_cases {α : Type} {reg : Registry α} {keys : List String}
    {dflt : α} {own : Bool} {key : String} {value : α} {k : String} {w : α}
    (h : (reg.written keys dflt own key value).find k = some w) :
    (own = true ∧ k = key) ∨ reg.find k = some w ∨ (k ∈ keys ∧ w = dflt) := by
  unfold Registry.written at h
  cases own with
  | true =>
    simp only [if_true] at h
    by_cases e : key = k
    · exact Or.inl ⟨rfl, e.symm⟩
    · rw [Registry.find_set_of_ne _ _ e] at h
      exact Or.inr (Registry.find_touchAll_cases keys dflt k w reg h)
  | false =>
    simp only [Bool.false_eq_true, if_false] at h
    exact Or.inr (Registry.find_touchAll_cases keys dflt k w reg h)
/-- What a successful step of the inner loop of `load` writes to each registry: the keys the
decoder references are looked up with `operator[]`, and the registry of the decoder's own
category receives the decoded entry. -/
theorem addInfo_written {host : Host} {tn tk : String} {obj : Json} {f f1 : File}
    (h : addInfo host tn tk obj f = .ok f1) :
    (∃ v, f1.mBuffers = f.mBuffers.written (references host tn tk obj).buffers
      host.defaults.buffer (decide (tn = "buffers")) tk v) ∧
    (∃ v, f1.mBufferViews = f.mBufferViews.written (references host tn tk obj).bufferViews
      host.defaults.bufferView (decide (tn = "bufferViews")) tk v) ∧
    (∃ v, f1.mAccessors = f.mAccessors.written (references host tn tk obj).accessors
      host.defaults.accessor (decide (tn = "accessors")) tk v) ∧
    (∃ v, f1.mNodes = f.mNodes.written (references host tn tk obj).nodes
      host.defaults.node (decide (tn = "nodes")) tk v) ∧
    (∃ v, f1.mCameras = f.mCameras.written (references host tn tk obj).cameras
      host.defaults.camera (decide (tn = "cameras")) tk v) ∧
    (∃ v, f1.mAnimations = f.mAnimations.written [] host.defaults.animation
      (decide (tn = "animations")) tk v) ∧
    (∃ v, f1.mScenes = f.mScenes.written [] host.defaults.scene
      (decide (tn = "scenes")) tk v) := by
  by_cases c_accessors : tn = "accessors"
  · subst c_accessors
    rw [addInfo_accessors] at h
    obtain ⟨ret, hret, rfl⟩ := addAccessorInfo_eq_ok h
    have href : references host "accessors" tk obj = { bufferViews := ret.bufferView.toList } := by
      simp [references, hret]
    rw [href]
    exact ⟨⟨host.defaults.buffer, rfl⟩, ⟨host.defaults.bufferView, rfl⟩, ⟨ret, rfl⟩,
      ⟨host.defaults.node, rfl⟩, ⟨host.defaults.camera, rfl⟩, ⟨host.defaults.animation, rfl⟩,
      ⟨host.defaults.scene, rfl⟩⟩
  by_cases c_animations : tn = "animations"
  · subst c_animations
    rw [addInfo_animations] at h
    obtain ⟨decoded, hret, rfl⟩ := addAnimationInfo_eq_ok h
    have href : references host "animations" tk obj =
        { nodes := decoded.nodeKeys, accessors := decoded.accessorKeys } := by
      simp [references, hret]
    rw [href]
    exact ⟨⟨host.defaults.buffer, rfl⟩, ⟨host.defaults.bufferView, rfl⟩,
      ⟨host.defaults.accessor, rfl⟩, ⟨host.defaults.node, rfl⟩, ⟨host.defaults.camera, rfl⟩,
      ⟨decoded.ret, rfl⟩, ⟨host.defaults.scene, rfl⟩⟩
  by_cases c_bufferViews : tn = "bufferViews"
  · subst c_bufferViews
    rw [addInfo_bufferViews] at h
    obtain ⟨ret, hret, rfl⟩ := addBufferViewInfo_eq_ok h
    have href : references host "bufferViews" tk obj = { buffers := ret.buffer.toList } := by
      simp [references, hret]
    rw [href]
    exact ⟨⟨host.defaults.buffer, rfl⟩, ⟨ret, rfl⟩, ⟨host.defaults.accessor, rfl⟩,
      ⟨host.defaults.node, rfl⟩, ⟨host.defaults.camera, rfl⟩, ⟨host.defaults.animation, rfl⟩,
      ⟨host.defaults.scene, rfl⟩⟩
  by_cases c_buffers : tn = "buffers"
  · subst c_buffers
    rw [addInfo_buffers] at h
    obtain ⟨ret, hret, rfl⟩ := addBufferInfo_eq_ok h
    have href : references host "buffers" tk obj = {} := by
      simp [references]
    rw [href]
    exact ⟨⟨ret, rfl⟩, ⟨host.defaults.bufferView, rfl⟩, ⟨host.defaults.accessor, rfl⟩,
      ⟨host.defaults.node, rfl⟩, ⟨host.defaults.camera, rfl⟩, ⟨host.defaults.animation, rfl⟩,
      ⟨host.defaults.scene, rfl⟩⟩
  by_cases c_nodes : tn = "nodes"
  · subst c_nodes
    rw [addInfo_nodes] at h
    obtain ⟨decoded, hret, rfl⟩ := addNodeInfo_eq_ok h
    have href : references host "nodes" tk obj =
        { nodes := decoded.nodeKeys, cameras := decoded.cameraKeys } := by
      simp [references, hret]
    rw [href]
    exact ⟨⟨host.defaults.buffer, rfl⟩, ⟨host.defaults.bufferView, rfl⟩,
      ⟨host.defaults.accessor, rfl⟩, ⟨decoded.ret, rfl⟩, ⟨host.defaults.camera, rfl⟩,
      ⟨host.defaults.animation, rfl⟩, ⟨host.defaults.scene, rfl⟩⟩
  by_cases c_scenes : tn = "scenes"
  · subst c_scenes
    rw [addInfo_scenes] at h
    obtain ⟨ret, hret, rfl⟩ := addSceneInfo_eq_ok h
    have href : references host "scenes" tk obj = { nodes := ret.nodes } := by
      simp [references, hret]
    rw [href]
    exact ⟨⟨host.defaults.buffer, rfl⟩, ⟨host.defaults.bufferView, rfl⟩,
      ⟨host.defaults.accessor, rfl⟩, ⟨host.defaults.node, rfl⟩, ⟨host.defaults.camera, rfl⟩,
      ⟨host.defaults.animation, rfl⟩, ⟨ret, rfl⟩⟩
  by_cases c_cameras : tn = "cameras"
  · subst c_cameras
    rw [addInfo_cameras] at h
    obtain ⟨ret, hret, rfl⟩ := addCameraInfo_eq_ok h
    have href : references host "cameras" tk obj = {} := by
      simp [references]
    rw [href]
    exact ⟨⟨host.defaults.buffer, rfl⟩, ⟨host.defaults.bufferView, rfl⟩,
      ⟨host.defaults.accessor, rfl⟩, ⟨host.defaults.node, rfl⟩, ⟨ret, rfl⟩,
      ⟨host.defaults.animation, rfl⟩, ⟨host.defaults.scene, rfl⟩⟩
  have hown : decide (tn = "buffers") = false ∧ decide (tn = "bufferViews") = false ∧
      decide (tn = "accessors") = false ∧ decide (tn = "nodes") = false ∧
      decide (tn = "cameras") = false ∧ decide (tn = "animations") = false ∧
      decide (tn = "scenes") = false := by
    simp [c_buffers, c_bufferViews, c_accessors, c_nodes, c_cameras, c_animations, c_scenes]
  obtain ⟨o1, o2, o3, o4, o5, o6, o7⟩ := hown
  rw [o1, o2, o3, o4, o5, o6, o7]
  by_cases hforeign : tn ∈ ["images", "materials", "meshes", "programs", "samplers", "shaders",
      "skins", "techniques", "textures"]
  · have hadd : addForeignInfo host tn tk obj f = .ok f1 := by
      unfold addInfo at h
      simp only [List.mem_cons, List.mem_singleton, List.not_mem_nil, or_false] at hforeign
      rcases hforeign with e | e | e | e | e | e | e | e | e <;> subst e <;> simpa using h
    obtain ⟨touched, htouched, rfl⟩ := addForeignInfo_eq_ok hadd
    have href : references host tn tk obj =
        { accessors := touched.1, nodes := touched.2 } := by
      unfold references
      rw [if_neg c_accessors, if_neg c_animations, if_neg c_bufferViews, if_neg c_nodes,
        if_neg c_scenes, if_pos hforeign, htouched]
    rw [href]
    exact ⟨⟨host.defaults.buffer, rfl⟩, ⟨host.defaults.bufferView, rfl⟩,
      ⟨host.defaults.accessor, rfl⟩, ⟨host.defaults.node, rfl⟩, ⟨host.defaults.camera, rfl⟩,
      ⟨host.defaults.animation, rfl⟩, ⟨host.defaults.scene, rfl⟩⟩
  · have hsame : f1 = f := by
      unfold addInfo at h
      simp only [List.mem_cons, List.mem_singleton, List.not_mem_nil, or_false, not_or]
        at hforeign
      obtain ⟨n1, n2, n3, n4, n5, n6, n7, n8, n9⟩ := hforeign
      rw [if_neg c_accessors, if_neg c_animations, if_neg c_bufferViews, if_neg c_buffers,
        if_neg c_cameras, if_neg n1, if_neg n2, if_neg n3, if_neg c_nodes, if_neg n4,
        if_neg n5, if_neg c_scenes, if_neg n6, if_neg n7, if_neg n8, if_neg n9] at h
      exact (Outcome.ok.inj h).symm
    subst hsame
    have href : references host tn tk obj = {} := by
      unfold references
      rw [if_neg c_accessors, if_neg c_animations, if_neg c_bufferViews, if_neg c_nodes,
        if_neg c_scenes, if_neg hforeign]
    rw [href]
    exact ⟨⟨host.defaults.buffer, rfl⟩, ⟨host.defaults.bufferView, rfl⟩,
      ⟨host.defaults.accessor, rfl⟩, ⟨host.defaults.node, rfl⟩, ⟨host.defaults.camera, rfl⟩,
      ⟨host.defaults.animation, rfl⟩, ⟨host.defaults.scene, rfl⟩⟩
/-! ### Invariants of the decoding loop -/

/-- The entries the inner loop of `load` runs over are the declared ones. -/
theorem declared_of_member {members : List (String × Json)} {typeName tk : String}
    {keys : List String} {obj : Json} (hmem : typeName ∈ members.map Prod.fst)
    (hkeys : (Json.lookupMember typeName members).getMemberNames = some keys)
    (htk : tk ∈ keys) (hobj : member (Json.lookupMember typeName members) tk = .ok obj) :
    declared (.obj members) typeName tk = some obj := by
  unfold declared
  simp only [hmem, if_true]
  cases hl : Json.lookupMember typeName members with
  | obj entries =>
    rw [hl] at hkeys hobj
    simp only [Json.getMemberNames, Option.some.injEq] at hkeys
    subst hkeys
    simp only [htk, if_true]
    simp only [member, Json.get, Outcome.ofJson, Outcome.ok.injEq] at hobj
    rw [hobj]
  | null =>
    rw [hl] at hkeys
    simp only [Json.getMemberNames, Option.some.injEq] at hkeys
    subst hkeys
    cases htk
  | bool b => rw [hl] at hkeys; cases hkeys
  | num n => rw [hl] at hkeys; cases hkeys
  | real r => rw [hl] at hkeys; cases hkeys
  | str s => rw [hl] at hkeys; cases hkeys
  | arr a => rw [hl] at hkeys; cases hkeys

theorem loadType_invariant (host : Host) (P : File → Prop) (tn : String) (typeObj : Json)
    (hstep : ∀ tk obj f f1, (∃ keys, typeObj.getMemberNames = some keys ∧ tk ∈ keys) →
      member typeObj tk = .ok obj → addInfo host tn tk obj f = .ok f1 → P f → P f1)
    {f f1 : File} (h : loadType host tn typeObj f = .ok f1) : P f → P f1 := by
  unfold loadType at h
  obtain ⟨typeKeys, hkeys, hloop⟩ := Outcome.bind_eq_ok.mp h
  have hk := Outcome.ofJson_eq_ok.mp hkeys
  refine forEach_preserves _ P typeKeys f f1 hloop ?_
  intro tk htk t t1 ht hP
  obtain ⟨obj, hobj, hadd⟩ := Outcome.bind_eq_ok.mp ht
  exact hstep tk obj t t1 ⟨typeKeys, hk, htk⟩ hobj hadd hP

theorem loadType_reach (host : Host) (P : File → Prop) (tn : String) (typeObj : Json)
    (hmono : ∀ tk obj f f1, addInfo host tn tk obj f = .ok f1 → P f → P f1)
    (k : String) (info : Json)
    (hk : ∃ keys, typeObj.getMemberNames = some keys ∧ k ∈ keys)
    (hinfo : member typeObj k = .ok info)
    (hest : ∀ f f1, addInfo host tn k info f = .ok f1 → P f1)
    {f f1 : File} (h : loadType host tn typeObj f = .ok f1) : P f1 := by
  unfold loadType at h
  obtain ⟨typeKeys, hkeys, hloop⟩ := Outcome.bind_eq_ok.mp h
  have hk0 := Outcome.ofJson_eq_ok.mp hkeys
  obtain ⟨keys, hkeys2, hmem⟩ := hk
  rw [hk0] at hkeys2
  cases hkeys2
  refine forEach_establishes _ P (fun tk => tk = k) typeKeys f f1 hloop ?_ ?_ ⟨k, hmem, rfl⟩
  · intro tk _ t t1 ht hP
    obtain ⟨obj, _, hadd⟩ := Outcome.bind_eq_ok.mp ht
    exact hmono tk obj t t1 hadd hP
  · intro tk _ htk t t1 ht
    subst htk
    obtain ⟨obj, hobj, hadd⟩ := Outcome.bind_eq_ok.mp ht
    rw [hinfo] at hobj
    cases hobj
    exact hest t t1 hadd

theorem loadLights_invariant (host : Host) (P : File → Prop) (typeObj : Json)
    (hlight : ∀ tk obj f f1, addForeignInfo host "lights" tk obj f = .ok f1 → P f → P f1)
    {f f1 : File} (h : loadLights host typeObj f = .ok f1) : P f → P f1 := by
  unfold loadLights at h
  obtain ⟨common, _, h1⟩ := Outcome.bind_eq_ok.mp h
  obtain ⟨lights, _, h2⟩ := Outcome.bind_eq_ok.mp h1
  obtain ⟨lightKeys, _, hloop⟩ := Outcome.bind_eq_ok.mp h2
  refine forEach_preserves _ P lightKeys f f1 hloop ?_
  intro lk _ t t1 ht hP
  obtain ⟨obj, _, hadd⟩ := Outcome.bind_eq_ok.mp ht
  exact hlight lk obj t t1 hadd hP

/-- The shape of one turn of the outer loop of `load`: the default scene is assigned, or
nothing is done, or the lights are decoded (for `extensions`, when the extension is in
use) and then the entries of the category. -/
theorem loadStep_eq_ok {host : Host} {hmc : Bool} {members : List (String × Json)}
    {typeName : String} {f f1 : File}
    (h : loadStep host hmc (.obj members) typeName f = .ok f1) :
    (typeName = "scene" ∧ ∃ s, f1 = { f with mDefaultScene := s }) ∨
    (typeName = "extensionsUsed" ∧ f1 = f) ∨
    (typeName ≠ "scene" ∧ typeName ≠ "extensionsUsed" ∧
      ∃ file1, (file1 = f ∨ (typeName = "extensions" ∧
          loadLights host (Json.lookupMember typeName members) f = .ok file1)) ∧
        loadType host typeName (Json.lookupMember typeName members) file1 = .ok f1) := by
  unfold loadStep at h
  obtain ⟨typeObj, htype, h1⟩ := Outcome.bind_eq_ok.mp h
  have htypeObj : typeObj = Json.lookupMember typeName members := by
    have := Outcome.ofJson_eq_ok.mp htype
    simpa [Json.get] using this.symm
  subst htypeObj
  by_cases c1 : typeName = "scene"
  · rw [if_pos c1] at h1
    obtain ⟨s, _, h2⟩ := Outcome.bind_eq_ok.mp h1
    exact Or.inl ⟨c1, s, (Outcome.ok.inj h2).symm⟩
  rw [if_neg c1] at h1
  by_cases c2 : typeName = "extensionsUsed"
  · rw [if_pos c2] at h1
    exact Or.inr (Or.inl ⟨c2, (Outcome.ok.inj h1).symm⟩)
  rw [if_neg c2] at h1
  obtain ⟨file1, hlights, htypeLoop⟩ := Outcome.bind_eq_ok.mp h1
  refine Or.inr (Or.inr ⟨c1, c2, file1, ?_, htypeLoop⟩)
  by_cases c3 : typeName = "extensions"
  · rw [if_pos c3] at hlights
    cases hmc with
    | true =>
      simp only [if_true] at hlights
      exact Or.inr ⟨c3, hlights⟩
    | false =>
      simp only [Bool.false_eq_true, if_false] at hlights
      exact Or.inl (Outcome.ok.inj hlights).symm
  · rw [if_neg c3] at hlights
    exact Or.inl (Outcome.ok.inj hlights).symm

/-- A property of the registries that every step of the decoding loop keeps holds after the
loop when it holds before. -/
theorem decodeManifest_invariant (host : Host) (mExtensions : List String) (mGltfTree : Json)
    (P : File → Prop)
    (hstep : ∀ tn tk obj f f1, declared mGltfTree tn tk = some obj →
      addInfo host tn tk obj f = .ok f1 → P f → P f1)
    (hlight : ∀ tk obj f f1, addForeignInfo host "lights" tk obj f = .ok f1 → P f → P f1)
    (hscene : ∀ f s, P f → P { f with mDefaultScene := s })
    {f f1 : File} (h : decodeManifest host mExtensions mGltfTree f = .ok f1) :
    P f → P f1 := by
  unfold decodeManifest at h
  obtain ⟨gltfTypes, htypes, hloop⟩ := Outcome.bind_eq_ok.mp h
  have hg := Outcome.ofJson_eq_ok.mp htypes
  cases mGltfTree with
  | obj members =>
    simp only [Json.getMemberNames, Option.some.injEq] at hg
    subst hg
    refine forEach_preserves _ P _ f f1 hloop ?_
    intro typeName hmem t t1 ht hP
    rcases loadStep_eq_ok ht with ⟨_, s, rfl⟩ | ⟨_, rfl⟩ | ⟨_, _, file1, hfirst, htype⟩
    · exact hscene t s hP
    · exact hP
    · have hP1 : P file1 := by
        rcases hfirst with rfl | ⟨_, hl⟩
        · exact hP
        · exact loadLights_invariant host P _ hlight hl hP
      refine loadType_invariant host P typeName _ ?_ htype hP1
      rintro tk obj g g1 ⟨keys, hkeys, htk⟩ hobj hadd hg
      exact hstep typeName tk obj g g1 (declared_of_member hmem hkeys htk hobj) hadd hg
  | null =>
    simp only [Json.getMemberNames, Option.some.injEq] at hg
    subst hg
    simp only [forEach, Outcome.ok.injEq] at hloop
    subst hloop
    exact id
  | bool b => cases hg
  | num n => cases hg
  | real r => cases hg
  | str s => cases hg
  | arr a => cases hg

/-- A property that every step of the decoding loop keeps, and that the step of one declared
entry brings about, holds after the loop. -/
theorem decodeManifest_reach (host : Host) (mExtensions : List String) (mGltfTree : Json)
    (P : File → Prop)
    (hmono : ∀ tn tk obj f f1, addInfo host tn tk obj f = .ok f1 → P f → P f1)
    (hlight : ∀ tk obj f f1, addForeignInfo host "lights" tk obj f = .ok f1 → P f → P f1)
    (hscene : ∀ f s, P f → P { f with mDefaultScene := s })
    {tn tk : String} {obj : Json} (hdecl : declared mGltfTree tn tk = some obj)
    (hname : tn ≠ "scene" ∧ tn ≠ "extensionsUsed")
    (hest : ∀ f f1, addInfo host tn tk obj f = .ok f1 → P f1)
    {f f1 : File} (h : decodeManifest host mExtensions mGltfTree f = .ok f1) : P f1 := by
  obtain ⟨members, entries, rfl, hmem, hentries, hk, hinfo⟩ := declared_eq_some hdecl
  unfold decodeManifest at h
  obtain ⟨gltfTypes, htypes, hloop⟩ := Outcome.bind_eq_ok.mp h
  have hg := Outcome.ofJson_eq_ok.mp htypes
  simp only [Json.getMemberNames, Option.some.injEq] at hg
  subst hg
  refine forEach_establishes _ P (fun typeName => typeName = tn) _ f f1 hloop ?_ ?_
    ⟨tn, hmem, rfl⟩
  · intro typeName _ t t1 ht hP
    rcases loadStep_eq_ok ht with ⟨_, s, rfl⟩ | ⟨_, rfl⟩ | ⟨_, _, file1, hfirst, htype⟩
    · exact hscene t s hP
    · exact hP
    · have hP1 : P file1 := by
        rcases hfirst with rfl | ⟨_, hl⟩
        · exact hP
        · exact loadLights_invariant host P _ hlight hl hP
      exact loadType_invariant host P typeName _
        (fun tk obj g g1 _ _ hadd hg => hmono typeName tk obj g g1 hadd hg) htype hP1
  · intro typeName _ hT t t1 ht
    subst hT
    rcases loadStep_eq_ok ht with ⟨e, _⟩ | ⟨e, _⟩ | ⟨_, _, file1, _, htype⟩
    · exact absurd e hname.1
    · exact absurd e hname.2
    · refine loadType_reach host P typeName _ (fun tk obj g g1 hadd hg =>
        hmono typeName tk obj g g1 hadd hg) tk obj ?_ ?_ hest htype
      · rw [hentries]
        exact ⟨entries.map Prod.fst, rfl, hk⟩
      · rw [hentries]
        simp [member, Json.get, Outcome.ofJson, hinfo]
theorem references_of_skipped (host : Host) {tn : String} (tk : String) (obj : Json)
    (h : tn = "scene" ∨ tn = "extensionsUsed") : references host tn tk obj = {} := by
  rcases h with rfl | rfl <;> simp [references]

theorem addForeignInfo_lights {host : Host} {lk : String} {obj : Json} {f f1 : File}
    (hlights : ∀ lk obj touched, host.foreign "lights" lk obj = .ok touched →
      touched = ([], []))
    (h : addForeignInfo host "lights" lk obj f = .ok f1) : f1 = f := by
  obtain ⟨touched, htouched, rfl⟩ := addForeignInfo_eq_ok h
  rw [hlights lk obj touched htouched]
  rfl

/-- The keys and the entries of one registry after the decoding loop of `load`: the keys are
those it had, the declared keys of its category and the referenced keys; an entry it did
not have, under a key that is not declared, is default-constructed. -/
theorem decodeManifest_keys {α : Type} (reg : File → Registry α) (cat : String)
    (sel : References → List String) (dflt : Host → α)
    (hwritten : ∀ (host : Host) (tn tk : String) (obj : Json) (f f1 : File),
      addInfo host tn tk obj f = .ok f1 →
      ∃ v, reg f1 = (reg f).written (sel (references host tn tk obj)) (dflt host)
        (decide (tn = cat)) tk v)
    (hscene : ∀ (f : File) (s : String), reg { f with mDefaultScene := s } = reg f)
    (hsel : sel {} = [])
    (hcat : cat ≠ "scene" ∧ cat ≠ "extensionsUsed")
    (host : Host) (mExtensions : List String) (mGltfTree : Json) (f f1 : File)
    (hlights : ∀ lk obj touched, host.foreign "lights" lk obj = .ok touched →
      touched = ([], []))
    (h : decodeManifest host mExtensions mGltfTree f = .ok f1) :
    (∀ k, k ∈ (reg f1).keys ↔ k ∈ (reg f).keys ∨
      (declared mGltfTree cat k).isSome = true ∨ Referenced host mGltfTree sel k) ∧
    (∀ k w, (reg f1).find k = some w → (reg f).find k = some w ∨
      (declared mGltfTree cat k).isSome = true ∨ w = dflt host) := by
  have hmono : ∀ (k : String) tn tk obj (g g1 : File), addInfo host tn tk obj g = .ok g1 →
      k ∈ (reg g).keys → k ∈ (reg g1).keys := by
    intro k tn tk obj g g1 hadd hk
    obtain ⟨v, hv⟩ := hwritten host tn tk obj g g1 hadd
    rw [hv, Registry.mem_keys_written]
    exact Or.inl hk
  have hlightKeys : ∀ (k : String) tk obj (g g1 : File),
      addForeignInfo host "lights" tk obj g = .ok g1 → k ∈ (reg g).keys →
      k ∈ (reg g1).keys := by
    intro k tk obj g g1 hadd hk
    rw [addForeignInfo_lights hlights hadd]
    exact hk
  have hsceneKeys : ∀ (k : String) (g : File) (s : String), k ∈ (reg g).keys →
      k ∈ (reg { g with mDefaultScene := s }).keys := by
    intro k g s hk
    rw [hscene]
    exact hk
  refine ⟨fun k => ⟨?_, ?_⟩, ?_⟩
  · refine decodeManifest_invariant host mExtensions mGltfTree
      (fun g => k ∈ (reg g).keys → k ∈ (reg f).keys ∨
        (declared mGltfTree cat k).isSome = true ∨ Referenced host mGltfTree sel k)
      ?_ ?_ ?_ h Or.inl
    · intro tn tk obj g g1 hdecl hadd hP hk
      obtain ⟨v, hv⟩ := hwritten host tn tk obj g g1 hadd
      rw [hv, Registry.mem_keys_written] at hk
      rcases hk with hk | hk | ⟨hown, rfl⟩
      · exact hP hk
      · exact Or.inr (Or.inr ⟨tn, tk, obj, hdecl, hk⟩)
      · have e : tn = cat := of_decide_eq_true hown
        subst e
        exact Or.inr (Or.inl (by rw [hdecl]; rfl))
    · intro tk obj g g1 hadd hP hk
      rw [addForeignInfo_lights hlights hadd] at hk
      exact hP hk
    · intro g s hP hk
      rw [hscene] at hk
      exact hP hk
  · rintro (hk | hk | ⟨tn, tk, obj, hdecl, hk⟩)
    · exact decodeManifest_invariant host mExtensions mGltfTree (fun g => k ∈ (reg g).keys)
        (fun tn tk obj g g1 _ hadd hP => hmono k tn tk obj g g1 hadd hP)
        (hlightKeys k) (hsceneKeys k) h hk
    · obtain ⟨info, hinfo⟩ := Option.isSome_iff_exists.mp hk
      refine decodeManifest_reach host mExtensions mGltfTree (fun g => k ∈ (reg g).keys)
        (hmono k) (hlightKeys k) (hsceneKeys k) hinfo hcat ?_ h
      intro g g1 hadd
      obtain ⟨v, hv⟩ := hwritten host cat k info g g1 hadd
      rw [hv, Registry.mem_keys_written]
      exact Or.inr (Or.inr ⟨by simp, rfl⟩)
    · have hname : tn ≠ "scene" ∧ tn ≠ "extensionsUsed" := by
        constructor
        · intro e
          rw [references_of_skipped host tk obj (Or.inl e), hsel] at hk
          cases hk
        · intro e
          rw [references_of_skipped host tk obj (Or.inr e), hsel] at hk
          cases hk
      refine decodeManifest_reach host mExtensions mGltfTree (fun g => k ∈ (reg g).keys)
        (hmono k) (hlightKeys k) (hsceneKeys k) hdecl hname ?_ h
      intro g g1 hadd
      obtain ⟨v, hv⟩ := hwritten host tn tk obj g g1 hadd
      rw [hv, Registry.mem_keys_written]
      exact Or.inr (Or.inl hk)
  · intro k w
    refine decodeManifest_invariant host mExtensions mGltfTree
      (fun g => (reg g).find k = some w → (reg f).find k = some w ∨
        (declared mGltfTree cat k).isSome = true ∨ w = dflt host)
      ?_ ?_ ?_ h Or.inl
    · intro tn tk obj g g1 hdecl hadd hP hk
      obtain ⟨v, hv⟩ := hwritten host tn tk obj g g1 hadd
      rw [hv] at hk
      rcases Registry.find_written_cases hk with ⟨hown, rfl⟩ | hk | ⟨_, hw⟩
      · have e : tn = cat := of_decide_eq_true hown
        subst e
        exact Or.inr (Or.inl (by rw [hdecl]; rfl))
      · exact hP hk
      · exact Or.inr (Or.inr hw)
    · intro tk obj g g1 hadd hP hk
      rw [addForeignInfo_lights hlights hadd] at hk
      exact hP hk
    · intro g s hP hk
      rw [hscene] at hk
      exact hP hk

theorem keys_applyVisits (tr : List Visit) (m : Registry Node) :
    (applyVisits tr m).keys = m.keys := by
  induction tr generalizing m with
  | nil => rfl
  | cons v rest ih =>
    show (applyVisits rest (applyVisit m v)).keys = m.keys
    rw [ih]
    unfold applyVisit
    cases v.1 with
    | none => simp only [Registry.keys_modify]
    | some p => simp only [Registry.keys_modify]

/-! ### The walk on an acyclic manifest -/

theorem visitsEach_total {f : String → Outcome (List Visit)} :
    ∀ (cs : List String), (∀ c ∈ cs, ∃ t, f c = .ok t) → ∃ tr, visitsEach f cs = .ok tr := by
  intro cs
  induction cs with
  | nil => intro _; exact ⟨[], rfl⟩
  | cons c rest ih =>
    intro h
    obtain ⟨t, ht⟩ := h c (List.mem_cons_self _ _)
    obtain ⟨ts, hts⟩ := ih fun c1 hc1 => h c1 (List.mem_cons_of_mem _ hc1)
    exact ⟨t ++ ts, visitsEach_cons_eq_ok.mpr ⟨t, ts, ht, hts, rfl⟩⟩

/-- On a part of the manifest graph without a cycle, whose nodes are among `keys` and have
readable children lists, the calls of a walk exist as soon as the depth bound exceeds the
number of keys that are not ancestors of the starting key. -/
theorem visits_of_acyclic (mGltfTree : Json) (keys : List String) (k0 : String)
    (hread : ∀ b, Relation.ReflTransGen (childRel mGltfTree) k0 b →
      b ∈ keys ∧ ∃ cs, childKeys mGltfTree b = .ok cs)
    (hacyclic : ∀ b, Relation.ReflTransGen (childRel mGltfTree) k0 b →
      ¬ Relation.TransGen (childRel mGltfTree) b b) :
    ∀ (d : Nat) (anc : List String) (par : Option String) (k : String),
      Relation.ReflTransGen (childRel mGltfTree) k0 k → anc.Nodup →
      (∀ a ∈ anc, a ∈ keys ∧ Relation.TransGen (childRel mGltfTree) a k) →
      keys.length < anc.length + d → ∃ tr, visits mGltfTree d par k = .ok tr := by
  intro d
  induction d with
  | zero =>
    intro anc par k _ hnodup hanc hlen
    have hsub : anc ⊆ keys := fun a ha => (hanc a ha).1
    have := (hnodup.subperm hsub).length_le
    omega
  | succ d ih =>
    intro anc par k hk hnodup hanc hlen
    obtain ⟨hkeys, cs, hcs⟩ := hread k hk
    have hnot : k ∉ anc := fun hmem => hacyclic k hk (hanc k hmem).2
    have heach : ∀ c ∈ cs, ∃ t, visits mGltfTree d (some k) c = .ok t := by
      intro c hc
      have hrel : childRel mGltfTree k c := by
        unfold childRel
        rw [childList_of_childKeys hcs]
        exact hc
      refine ih (k :: anc) (some k) c (Relation.ReflTransGen.tail hk hrel)
        (List.nodup_cons.mpr ⟨hnot, hnodup⟩) ?_ ?_
      · intro a ha
        rcases List.mem_cons.mp ha with rfl | ha
        · exact ⟨hkeys, Relation.TransGen.single hrel⟩
        · exact ⟨(hanc a ha).1, Relation.TransGen.tail (hanc a ha).2 hrel⟩
      · simp only [List.length_cons]
        omega
    obtain ⟨sub, hsub⟩ := visitsEach_total cs heach
    exact ⟨(par, k) :: sub, visits_succ_eq_ok.mpr ⟨cs, sub, hcs, hsub, rfl⟩⟩

/-- A walk that returns does not visit its starting key again below it. -/
theorem visits_head_once {mGltfTree : Json} {d : Nat} {key : String}
    {cs : List String} {sub : List Visit}
    (hcs : childKeys mGltfTree key = .ok cs)
    (hsub : visitsEach (fun c => visits mGltfTree d (some key) c) cs = .ok sub) :
    (visited sub).count key = 0 := by
  rw [List.count_eq_zero]
  intro hmem
  obtain ⟨c, hc, t, ht, hpt⟩ := visitsEach_visited hsub key hmem
  have hrel : childRel mGltfTree key c := by
    unfold childRel
    rw [childList_of_childKeys hcs]
    exact hc
  have hreach := visits_reachable mGltfTree d (some key) c t ht key hpt
  have hcyc : Relation.TransGen (childRel mGltfTree) key key :=
    Relation.TransGen.head' hrel hreach
  exact not_walkable_of_cycle hcyc (d + 1)
    ⟨(none, key) :: sub, visits_succ_eq_ok.mpr ⟨cs, sub, hcs, hsub, rfl⟩⟩

theorem appendedTo_visitsEach_any (mGltfTree : Json) (d : Nat) (p : String)
    (hA : ∀ par key tr, visits mGltfTree d par key = .ok tr →
      appendedTo p tr.tail =
        (List.replicate ((visited tr).count p) (childList mGltfTree p)).flatten)
    (par : Option String) (hpar : par ≠ some p) :
    ∀ (cs : List String) (tr : List Visit),
      visitsEach (fun c => visits mGltfTree d par c) cs = .ok tr →
      appendedTo p tr =
        (List.replicate ((visited tr).count p) (childList mGltfTree p)).flatten := by
  intro cs
  induction cs with
  | nil =>
    intro tr htr
    simp only [visitsEach, Outcome.ok.injEq] at htr
    subst htr
    simp [appendedTo, visited]
  | cons c rest ih =>
    intro tr htr
    obtain ⟨t, ts, ht, hts, rfl⟩ := visitsEach_cons_eq_ok.mp htr
    rw [visited_append, List.count_append]
    have h1 := hA par c t ht
    have h2 := ih ts hts
    have hhead : appendedTo p t = appendedTo p t.tail := by
      cases d with
      | zero => exact absurd ht (visits_zero_ne_ok _ _ _ _)
      | succ d0 =>
        obtain ⟨cs0, sub, _, _, rfl⟩ := visits_succ_eq_ok.mp ht
        rw [appendedTo_cons]
        simp [hpar]
    rw [appendedTo_append, hhead, h1, h2, List.replicate_add, List.flatten_append]

theorem appendedTo_visitsEach_own (mGltfTree : Json) (d : Nat) (p : String)
    (hA : ∀ par key tr, visits mGltfTree d par key = .ok tr →
      appendedTo p tr.tail =
        (List.replicate ((visited tr).count p) (childList mGltfTree p)).flatten) :
    ∀ (cs : List String) (tr : List Visit),
      visitsEach (fun c => visits mGltfTree d (some p) c) cs = .ok tr →
      (visited tr).count p = 0 → appendedTo p tr = cs := by
  intro cs
  induction cs with
  | nil =>
    intro tr htr _
    simp only [visitsEach, Outcome.ok.injEq] at htr
    subst htr
    simp [appendedTo]
  | cons c rest ih =>
    intro tr htr hcount
    obtain ⟨t, ts, ht, hts, rfl⟩ := visitsEach_cons_eq_ok.mp htr
    rw [visited_append, List.count_append] at hcount
    have hc1 : (visited t).count p = 0 := by omega
    have h1 := hA (some p) c t ht
    have h2 := ih ts hts (by omega)
    rw [hc1] at h1
    cases d with
    | zero => exact absurd ht (visits_zero_ne_ok _ _ _ _)
    | succ d0 =>
      obtain ⟨cs0, sub, _, _, rfl⟩ := visits_succ_eq_ok.mp ht
      rw [appendedTo_append, appendedTo_cons, h2]
      simp only [List.tail_cons] at h1
      simp [h1]

/-- Below its head, a call appends the manifest children of `p` to the children list of `p`
once for every visit of `p`. -/
theorem appendedTo_visits_any (mGltfTree : Json) (p : String) :
    ∀ (d : Nat) (par : Option String) (key : String) (tr : List Visit),
      visits mGltfTree d par key = .ok tr →
      appendedTo p tr.tail =
        (List.replicate ((visited tr).count p) (childList mGltfTree p)).flatten := by
  intro d
  induction d with
  | zero =>
    intro par key tr htr
    exact absurd htr (visits_zero_ne_ok _ _ _ _)
  | succ d ih =>
    intro par key tr htr
    obtain ⟨cs, sub, hcs, hsub, rfl⟩ := visits_succ_eq_ok.mp htr
    rw [visited_cons, List.count_cons]
    simp only [List.tail_cons]
    by_cases hkey : key = p
    · subst hkey
      have h0 : (visited sub).count key = 0 := visits_head_once hcs hsub
      rw [appendedTo_visitsEach_own mGltfTree d key ih cs sub hsub h0, h0,
        childList_of_childKeys hcs]
      simp
    · have hne : (key == p) = false := by simpa using hkey
      simp only [hne, Bool.false_eq_true, if_false, Nat.add_zero]
      have hpar : (some key : Option String) ≠ some p := by
        intro h
        exact hkey (Option.some.inj h)
      exact appendedTo_visitsEach_any mGltfTree d p ih (some key) hpar cs sub hsub

theorem count_appendedTo (p c : String) (tr : List Visit) :
    (appendedTo p tr).count c = tr.count (some p, c) := by
  induction tr with
  | nil => rfl
  | cons v rest ih =>
    obtain ⟨q, k⟩ := v
    rw [appendedTo_cons, List.count_cons]
    by_cases hq : q = some p
    · subst hq
      simp only [if_true, Option.toList_some, List.singleton_append, List.count_cons, ih]
      by_cases hk : k = c
      · subst hk
        simp
      · have h1 : (k == c) = false := by simpa using hk
        have h2 : ((some p, k) == (some p, c)) = false := by simpa using hk
        simp [h1, h2]
    · have h2 : ((q, k) == (some p, c)) = false := by
        simp only [beq_eq_false_iff_ne, ne_eq, Prod.mk.injEq, not_and]
        exact fun e => absurd e hq
      simp [hq, h2, ih]

theorem count_visitsEach (c : String) (f : String → Outcome (List Visit)) (g : String → Nat)
    (hf : ∀ x t, f x = .ok t → (visited t).count c = g x) :
    ∀ (cs : List String) (tr : List Visit), visitsEach f cs = .ok tr →
      (visited tr).count c = (cs.map g).sum := by
  intro cs
  induction cs with
  | nil =>
    intro tr htr
    simp only [visitsEach, Outcome.ok.injEq] at htr
    subst htr
    rfl
  | cons x rest ih =>
    intro tr htr
    obtain ⟨t, ts, ht, hts, rfl⟩ := visitsEach_cons_eq_ok.mp htr
    rw [visited_append, List.count_append, hf x t ht, ih ts hts]
    simp

/-- The number of visits of `c` by a walk from `key` is the number of paths from `key` to
`c`. -/
theorem count_visits (mGltfTree : Json) (c : String) :
    ∀ (d : Nat) (par : Option String) (key : String) (tr : List Visit),
      visits mGltfTree d par key = .ok tr →
      (visited tr).count c = pathCount mGltfTree d key c := by
  intro d
  induction d with
  | zero =>
    intro par key tr htr
    exact absurd htr (visits_zero_ne_ok _ _ _ _)
  | succ d ih =>
    intro par key tr htr
    obtain ⟨cs, sub, hcs, hsub, rfl⟩ := visits_succ_eq_ok.mp htr
    rw [visited_cons, List.count_cons,
      count_visitsEach c _ (fun x => pathCount mGltfTree d x c) (fun x t ht => ih (some key) x t ht)
        cs sub hsub]
    show _ = (if key = c then 1 else 0) +
      ((childList mGltfTree key).map fun x => pathCount mGltfTree d x c).sum
    rw [childList_of_childKeys hcs, Nat.add_comm]
    by_cases hk : key = c
    · simp [hk]
    · have h1 : (key == c) = false := by simpa using hk
      simp [hk, h1]

/-! ### Facts about the sample inputs -/

theorem children_nil_of_all (m : Registry Node)
    (h : (m.all fun e => e.2.children.isEmpty) = true) :
    ∀ k n, m.find k = some n → n.children = [] := by
  induction m with
  | nil =>
    intro k n hk
    cases hk
  | cons e rest ih =>
    obtain ⟨k0, n0⟩ := e
    intro k n hk
    simp only [List.all_cons, Bool.and_eq_true] at h
    by_cases hk0 : k0 = k
    · simp only [Registry.find, hk0, if_true, Option.some.injEq] at hk
      subst hk
      exact List.isEmpty_iff.mp h.1
    · simp only [Registry.find, hk0, if_false] at hk
      exact ih h.2 k n hk

theorem loopTree_reach (b : String)
    (h : Relation.ReflTransGen (childRel loopTree) "a" b) : b = "a" := by
  induction h with
  | refl => rfl
  | tail _ hbc ih =>
    subst ih
    have hl : childList loopTree "a" = ["a"] := by decide
    unfold childRel at hbc
    rw [hl] at hbc
    simpa using hbc

theorem loopTree_readable : Readable loopTree loopNodes "a" := by
  intro b hb
  rw [loopTree_reach b hb]
  exact ⟨by decide, ["a"], by decide⟩

theorem loopTree_cycle : Relation.TransGen (childRel loopTree) "a" "a" :=
  Relation.TransGen.single (by unfold childRel; decide)

theorem diamondTree_reach_d (y : String)
    (h : Relation.ReflTransGen (childRel diamondTree) "d" y) : y = "d" := by
  induction h with
  | refl => rfl
  | tail _ hbc ih =>
    subst ih
    have hl : childList diamondTree "d" = [] := by decide
    unfold childRel at hbc
    rw [hl] at hbc
    cases hbc

theorem diamondTree_reach_a (y : String)
    (h : Relation.ReflTransGen (childRel diamondTree) "a" y) : y = "a" ∨ y = "d" := by
  induction h with
  | refl => exact Or.inl rfl
  | tail _ hbc ih =>
    unfold childRel at hbc
    rcases ih with rfl | rfl
    · have hl : childList diamondTree "a" = ["d"] := by decide
      rw [hl] at hbc
      exact Or.inr (by simpa using hbc)
    · have hl : childList diamondTree "d" = [] := by decide
      rw [hl] at hbc
      cases hbc

theorem diamondTree_reach_b (y : String)
    (h : Relation.ReflTransGen (childRel diamondTree) "b" y) : y = "b" ∨ y = "d" := by
  induction h with
  | refl => exact Or.inl rfl
  | tail _ hbc ih =>
    unfold childRel at hbc
    rcases ih with rfl | rfl
    · have hl : childList diamondTree "b" = ["d"] := by decide
      rw [hl] at hbc
      exact Or.inr (by simpa using hbc)
    · have hl : childList diamondTree "d" = [] := by decide
      rw [hl] at hbc
      cases hbc

theorem diamondTree_reach_r (y : String)
    (h : Relation.ReflTransGen (childRel diamondTree) "r" y) :
    y = "r" ∨ y = "a" ∨ y = "b" ∨ y = "d" := by
  induction h with
  | refl => exact Or.inl rfl
  | tail _ hbc ih =>
    unfold childRel at hbc
    rcases ih with rfl | rfl | rfl | rfl
    · have hl : childList diamondTree "r" = ["a", "b"] := by decide
      rw [hl] at hbc
      simp only [List.mem_cons, List.mem_singleton, List.not_mem_nil, or_false] at hbc
      rcases hbc with e | e
      · exact Or.inr (Or.inl e)
      · exact Or.inr (Or.inr (Or.inl e))
    · have hl : childList diamondTree "a" = ["d"] := by decide
      rw [hl] at hbc
      exact Or.inr (Or.inr (Or.inr (by simpa using hbc)))
    · have hl : childList diamondTree "b" = ["d"] := by decide
      rw [hl] at hbc
      exact Or.inr (Or.inr (Or.inr (by simpa using hbc)))
    · have hl : childList diamondTree "d" = [] := by decide
      rw [hl] at hbc
      cases hbc

theorem diamondTree_readable : ∀ r ∈ ["r"], Readable diamondTree diamondNodes r := by
  intro r hr b hb
  rw [List.mem_singleton] at hr
  subst hr
  rcases diamondTree_reach_r b hb with rfl | rfl | rfl | rfl
  · exact ⟨by decide, ["a", "b"], by decide⟩
  · exact ⟨by decide, ["d"], by decide⟩
  · exact ⟨by decide, ["d"], by decide⟩
  · exact ⟨by decide, [], by decide⟩

theorem diamondTree_acyclic : ∀ r ∈ ["r"], ∀ b,
    Relation.ReflTransGen (childRel diamondTree) r b →
    ¬ Relation.TransGen (childRel diamondTree) b b := by
  intro r hr b hb hcyc
  rw [List.mem_singleton] at hr
  subst hr
  obtain ⟨x, hx, hxb⟩ := Relation.TransGen.head'_iff.mp hcyc
  unfold childRel at hx
  rcases diamondTree_reach_r b hb with rfl | rfl | rfl | rfl
  · have hl : childList diamondTree "r" = ["a", "b"] := by decide
    rw [hl] at hx
    simp only [List.mem_cons, List.mem_singleton, List.not_mem_nil, or_false] at hx
    rcases hx with rfl | rfl
    · rcases diamondTree_reach_a _ hxb with e | e <;> exact absurd e (by decide)
    · rcases diamondTree_reach_b _ hxb with e | e <;> exact absurd e (by decide)
  · have hl : childList diamondTree "a" = ["d"] := by decide
    rw [hl] at hx
    have e : x = "d" := by simpa using hx
    subst e
    exact absurd (diamondTree_reach_d _ hxb) (by decide)
  · have hl : childList diamondTree "b" = ["d"] := by decide
    rw [hl] at hx
    have e : x = "d" := by simpa using hx
    subst e
    exact absurd (diamondTree_reach_d _ hxb) (by decide)
  · have hl : childList diamondTree "d" = [] := by decide
    rw [hl] at hx
    cases hx

/-! ## The claims -/

/-- Witness of C1 on `sampleGlb`. -/
theorem verifyFile_glb_chunks_witness :
    ∃ json blob, verifyFile sampleGlb = .ok { gltfJson := json, mBuffer := some blob } ∧
      json.length = (readHeader sampleGlb.buffer).sceneLength ∧
      (∀ i, i < (readHeader sampleGlb.buffer).sceneLength →
        json[i]? = sampleGlb.buffer[20 + i]?) ∧
      blob.length =
        (readHeader sampleGlb.buffer).length - (readHeader sampleGlb.buffer).sceneLength - 20 ∧
      (∀ i, 20 + (readHeader sampleGlb.buffer).sceneLength + i
          < (readHeader sampleGlb.buffer).length →
        blob[i]? = sampleGlb.buffer[20 + (readHeader sampleGlb.buffer).sceneLength + i]?) :=
  verifyFile_glb_chunks sampleGlb (by decide) (by decide) (by decide)

/-- Witness of C2 on `sampleManifest`. -/
theorem hasExtension_iff_declared_witness :
    ∃ mExtensions, loadExtensions sampleManifest = .ok mExtensions ∧
      ∀ x, hasExtension mExtensions x = true ↔
        x ∈ ["KHR_materials_common", "KHR_binary_glTF", "KHR_materials_common"] :=
  hasExtension_iff_declared sampleManifest
    ["KHR_materials_common", "KHR_binary_glTF", "KHR_materials_common"] rfl

/-- C3. When the linking loop of `load` starts from a registry whose children lists are
empty (the decoders never write them), visits declared keys only and visits every key once
(the graph reachable from the scenes' roots is a forest), it returns, every scene root has
a null parent, and every reached node `p` has as `children` exactly its manifest children
list, in order, each of those children having `p` as parent. -/
theorem linkScenes_forest_links (mGltfTree : Json) (depth : Nat) (mNodes : Registry Node)
    (tr : List Visit)
    (hinit : ∀ k n, mNodes.find k = some n → n.children = [])
    (hcalls : visitsOfScenes mGltfTree depth = .ok tr)
    (hdecl : allDeclared mNodes tr = true)
    (honce : (visited tr).Nodup) :
    ∃ linked, linkScenes mGltfTree depth mNodes = .ok linked ∧
      (∀ roots, rootKeys mGltfTree = .ok roots →
        ∀ r ∈ roots, ∃ n, linked.find r = some n ∧ n.parent = none) ∧
      (∀ p ∈ visited tr, ∃ n, linked.find p = some n ∧
        childKeys mGltfTree p = .ok n.children ∧
        ∀ c ∈ n.children, ∃ nc, linked.find c = some nc ∧ nc.parent = some p) := by
  obtain ⟨roots0, hroots0, htr⟩ := visitsOfScenes_eq_ok hcalls
  have hnode := forest_node mGltfTree depth mNodes roots0 tr hinit htr hdecl honce
  refine ⟨applyVisits tr mNodes, (linkScenes_eq_ok_iff _ _ _ _).mpr ⟨tr, hcalls, hdecl, rfl⟩,
    ?_, ?_⟩
  · intro roots hroots r hr
    rw [hroots0] at hroots
    cases hroots
    obtain ⟨n, hn, hpar, _⟩ :=
      hnode none r (visitsEach_heads mGltfTree depth none roots0 tr htr r hr)
    exact ⟨n, hn, hpar⟩
  · intro p hp
    obtain ⟨q, hq⟩ := mem_visited.mp hp
    obtain ⟨n, hn, _, happ, hcl⟩ := hnode q p hq
    refine ⟨n, hn, ?_, ?_⟩
    · rw [hcl]
      exact visitsEach_childKeys mGltfTree depth (visits_childKeys mGltfTree depth) none
        roots0 tr htr p hp
    · intro c hc
      rw [happ] at hc
      obtain ⟨nc, hnc, hpar, _⟩ := hnode (some p) c (mem_appendedTo.mp hc)
      exact ⟨nc, hnc, hpar⟩

/-- Witness of C3 on the chain `r → c → g`. -/
theorem linkScenes_forest_links_witness :
    ∃ linked, linkScenes chainTree 3 chainNodes = .ok linked ∧
      (∀ roots, rootKeys chainTree = .ok roots →
        ∀ r ∈ roots, ∃ n, linked.find r = some n ∧ n.parent = none) ∧
      (∀ p ∈ visited [(none, "r"), (some "r", "c"), (some "c", "g")],
        ∃ n, linked.find p = some n ∧ childKeys chainTree p = .ok n.children ∧
        ∀ c ∈ n.children, ∃ nc, linked.find c = some nc ∧ nc.parent = some p) :=
  linkScenes_forest_links chainTree 3 chainNodes
    [(none, "r"), (some "r", "c"), (some "c", "g")]
    (children_nil_of_all chainNodes (by decide)) (by decide) (by decide) (by decide)

/-- Counterexample to C4 as stated: on the chain `r → c → g` a second run of the walk
appends `c` to `r.children` again, so the graph after two runs differs from the graph after
one. -/
theorem setParentForChildren_twice_differs :
    ∃ once twice, setParentForChildren chainTree 3 none "r" chainNodes = .ok once ∧
      setParentForChildren chainTree 3 none "r" once = .ok twice ∧
      (once.find "r").map Node.children = some ["c"] ∧
      (twice.find "r").map Node.children = some ["c", "c"] :=
  ⟨chainLinked,
    [("c", { parent := some "r", children := ["g", "g"] }), ("g", { parent := some "c" }),
      ("r", { children := ["c", "c"] })],
    by decide, by decide, by decide, by decide⟩

/-- C4 (amended). When a run of `setParentForChildren( nullptr, root )` returns, a second
run returns too and leaves every node's parent as the first run left it; the children list
of every node grows by the same entries the first run appended (the walk is idempotent on
parents, it is not on children lists). -/
theorem setParentForChildren_twice (mGltfTree : Json) (depth : Nat) (root : String)
    (mNodes once : Registry Node)
    (hfirst : setParentForChildren mGltfTree depth none root mNodes = .ok once) :
    ∃ twice, setParentForChildren mGltfTree depth none root once = .ok twice ∧
      ∀ k n1, once.find k = some n1 →
        ∃ n0 n2 added, mNodes.find k = some n0 ∧ twice.find k = some n2 ∧
          n2.parent = n1.parent ∧ n1.children = n0.children ++ added ∧
          n2.children = n1.children ++ added := by
  obtain ⟨tr, htr, hd, rfl⟩ := (setParentForChildren_eq_ok_iff _ _ _ _ _ _).mp hfirst
  refine ⟨applyVisits tr (applyVisits tr mNodes),
    (setParentForChildren_eq_ok_iff _ _ _ _ _ _).mpr
      ⟨tr, htr, by rw [allDeclared_applyVisits]; exact hd, rfl⟩, ?_⟩
  intro k n1 hn1
  cases h0 : mNodes.find k with
  | none =>
    rw [find_applyVisits, h0] at hn1
    cases hn1
  | some n0 =>
    obtain ⟨n1a, hn1a, hpar1, hch1, _⟩ := find_applyVisits_fields tr h0
    rw [hn1] at hn1a
    cases hn1a
    obtain ⟨n2, hn2, hpar2, hch2, _⟩ := find_applyVisits_fields tr hn1
    refine ⟨n0, n2, appendedTo k tr, rfl, hn2, ?_, hch1, hch2⟩
    rw [hpar2, hpar1, lastParent_idem]

/-- Witness of C4 (amended) on the chain `r → c → g`. -/
theorem setParentForChildren_twice_witness :
    ∃ twice, setParentForChildren chainTree 3 none "r" chainLinked = .ok twice ∧
      ∀ k n1, chainLinked.find k = some n1 →
        ∃ n0 n2 added, chainNodes.find k = some n0 ∧ twice.find k = some n2 ∧
          n2.parent = n1.parent ∧ n1.children = n0.children ++ added ∧
          n2.children = n1.children ++ added :=
  setParentForChildren_twice chainTree 3 "r" chainNodes chainLinked (by decide)

/-- Counterexample to C5 as stated: in the loaded diamond `r → a → d`, `r → b → d` the node
`d` is in `a.children` while `d.parent` is `b`. -/
theorem linkScenes_shared_child :
    ∃ linked na nd, linkScenes diamondTree 3 diamondNodes = .ok linked ∧
      linked.find "a" = some na ∧ "d" ∈ na.children ∧
      linked.find "d" = some nd ∧ nd.parent = some "b" ∧ nd.parent ≠ some "a" :=
  ⟨[("a", { parent := some "r", children := ["d"] }),
      ("b", { parent := some "r", children := ["d"] }), ("d", { parent := some "b" }),
      ("r", { children := ["a", "b"] })],
    { parent := some "r", children := ["d"] }, { parent := some "b" },
    by decide, by decide, by decide, by decide, by decide, by decide⟩

/-- C5 (amended). For every model loaded from a registry with empty children lists in which
the linking loop visits every key once (the graph reachable from the roots is a forest):
no reached node reaches itself through stored children, every reached node is a root with
null parent or has a reached parent, and for every reached `p` the list `p.children` has no
repetition and each `c` in it is reached and has `c.parent == p`. -/
theorem linkScenes_forest_wellformed (mGltfTree : Json) (depth : Nat)
    (mNodes : Registry Node) (tr : List Visit)
    (hinit : ∀ k n, mNodes.find k = some n → n.children = [])
    (hcalls : visitsOfScenes mGltfTree depth = .ok tr)
    (hdecl : allDeclared mNodes tr = true)
    (honce : (visited tr).Nodup) :
    ∃ linked roots, linkScenes mGltfTree depth mNodes = .ok linked ∧
      rootKeys mGltfTree = .ok roots ∧
      (∀ p ∈ visited tr, ¬ Relation.TransGen (storedChild linked) p p) ∧
      (∀ p ∈ visited tr, ∃ n, linked.find p = some n ∧
        ((p ∈ roots ∧ n.parent = none) ∨ ∃ q, n.parent = some q ∧ q ∈ visited tr)) ∧
      (∀ p ∈ visited tr, ∃ n, linked.find p = some n ∧ n.children.Nodup ∧
        ∀ c ∈ n.children, c ∈ visited tr ∧
          ∃ nc, linked.find c = some nc ∧ nc.parent = some p) := by
  obtain ⟨roots, hroots, htr⟩ := visitsOfScenes_eq_ok hcalls
  have hnode := forest_node mGltfTree depth mNodes roots tr hinit htr hdecl honce
  have hstored : ∀ p ∈ visited tr, ∀ c, storedChild (applyVisits tr mNodes) p c →
      childRel mGltfTree p c ∧ c ∈ visited tr := by
    rintro p hp c ⟨n, hn, hc⟩
    obtain ⟨q, hq⟩ := mem_visited.mp hp
    obtain ⟨n1, hn1, _, happ, hcl⟩ := hnode q p hq
    rw [hn] at hn1
    cases hn1
    refine ⟨?_, ?_⟩
    · unfold childRel
      rw [← hcl]
      exact hc
    · rw [happ] at hc
      exact mem_visited.mpr ⟨some p, mem_appendedTo.mp hc⟩
  refine ⟨applyVisits tr mNodes, roots,
    (linkScenes_eq_ok_iff _ _ _ _).mpr ⟨tr, hcalls, hdecl, rfl⟩, hroots, ?_, ?_, ?_⟩
  · intro p hp hcyc
    obtain ⟨hman, _⟩ := storedChild_transGen hstored hp hcyc
    obtain ⟨d1, hd1⟩ := walkable_of_visited htr hp
    exact not_walkable_of_cycle hman d1 hd1
  · intro p hp
    obtain ⟨q0, hq0⟩ := mem_visited.mp hp
    obtain ⟨n, hn, hpar, _⟩ := hnode q0 p hq0
    refine ⟨n, hn, ?_⟩
    rcases visitsEach_parents mGltfTree depth (visits_parents mGltfTree depth) none roots tr htr
      (q0, p) hq0 with ⟨h1, h2⟩ | ⟨q, hq, hqv⟩
    · exact Or.inl ⟨h2, by rw [hpar]; exact h1⟩
    · exact Or.inr ⟨q, by rw [hpar]; exact hq, hqv⟩
  · intro p hp
    obtain ⟨q0, hq0⟩ := mem_visited.mp hp
    obtain ⟨n, hn, _, happ, _⟩ := hnode q0 p hq0
    refine ⟨n, hn, ?_, ?_⟩
    · rw [happ]
      exact (appendedTo_sublist p tr).nodup honce
    · intro c hc
      rw [happ] at hc
      have hmem : (some p, c) ∈ tr := mem_appendedTo.mp hc
      obtain ⟨nc, hnc, hparc, _⟩ := hnode (some p) c hmem
      exact ⟨mem_visited.mpr ⟨some p, hmem⟩, nc, hnc, hparc⟩

/-- Witness of C5 (amended) on the chain `r → c → g`. -/
theorem linkScenes_forest_wellformed_witness :
    ∃ linked roots, linkScenes chainTree 3 chainNodes = .ok linked ∧
      rootKeys chainTree = .ok roots ∧
      (∀ p ∈ visited [(none, "r"), (some "r", "c"), (some "c", "g")],
        ¬ Relation.TransGen (storedChild linked) p p) ∧
      (∀ p ∈ visited [(none, "r"), (some "r", "c"), (some "c", "g")],
        ∃ n, linked.find p = some n ∧
        ((p ∈ roots ∧ n.parent = none) ∨
          ∃ q, n.parent = some q ∧ q ∈ visited [(none, "r"), (some "r", "c"), (some "c", "g")])) ∧
      (∀ p ∈ visited [(none, "r"), (some "r", "c"), (some "c", "g")],
        ∃ n, linked.find p = some n ∧ n.children.Nodup ∧
        ∀ c ∈ n.children, c ∈ visited [(none, "r"), (some "r", "c"), (some "c", "g")] ∧
          ∃ nc, linked.find c = some nc ∧ nc.parent = some p) :=
  linkScenes_forest_wellformed chainTree 3 chainNodes
    [(none, "r"), (some "r", "c"), (some "c", "g")]
    (children_nil_of_all chainNodes (by decide)) (by decide) (by decide) (by decide)

/-- Counterexample to C6 as stated: on a manifest whose root `a` lists itself as a child,
loading raises no error under any depth bound; the linking loop is still recursing. -/
theorem linkScenes_loop_diverges :
    ¬ ∃ depth, linkScenes loopTree depth loopNodes ≠ .outOfFuel := by
  rintro ⟨depth, h⟩
  apply h
  have hw : setParentForChildren loopTree depth none "a" loopNodes = .outOfFuel :=
    setParentForChildren_cycle_outOfFuel Relation.ReflTransGen.refl loopTree_cycle loopNodes
      loopTree_readable depth none
  simp [linkScenes, loopTree, Json.get, Json.lookupMember, Outcome.ofJson, Json.elements,
    forEach, Json.asString, Outcome.bind] at hw ⊢
  rw [hw]

/-- C6 (amended). If a scene root reaches a cycle of the manifest's children lists, the walk
from that root never returns and the linking loop of `load` never returns, whatever the
depth bound; when every node reachable from the root is declared and has a readable
children list, the walk exhausts every depth bound (unbounded recursion). No cycle is
detected and no error is raised. -/
theorem cyclic_scene_never_links (mGltfTree : Json) (mNodes : Registry Node) (root a : String)
    (hreach : Relation.ReflTransGen (childRel mGltfTree) root a)
    (hcyc : Relation.TransGen (childRel mGltfTree) a a) :
    (∀ depth, (setParentForChildren mGltfTree depth none root mNodes).isOk = false) ∧
      (Readable mGltfTree mNodes root →
        ∀ depth, setParentForChildren mGltfTree depth none root mNodes = .outOfFuel) ∧
      (∀ roots, rootKeys mGltfTree = .ok roots → root ∈ roots →
        ∀ depth, (linkScenes mGltfTree depth mNodes).isOk = false) := by
  refine ⟨?_, ?_, ?_⟩
  · intro depth
    cases h : setParentForChildren mGltfTree depth none root mNodes with
    | ok m' => exact absurd h (setParentForChildren_cycle_not_ok hreach hcyc depth none _ _)
    | _ => rfl
  · intro hgood depth
    exact setParentForChildren_cycle_outOfFuel hreach hcyc mNodes hgood depth none
  · intro roots hroots hroot depth
    cases h : linkScenes mGltfTree depth mNodes with
    | ok m' => exact absurd h (linkScenes_cycle_not_ok hreach hcyc roots hroots hroot depth _ _)
    | _ => rfl

/-- Witness of C6 (amended) on the self-loop manifest. -/
theorem cyclic_scene_never_links_witness :
    (∀ depth, (setParentForChildren loopTree depth none "a" loopNodes).isOk = false) ∧
      (Readable loopTree loopNodes "a" →
        ∀ depth, setParentForChildren loopTree depth none "a" loopNodes = .outOfFuel) ∧
      (∀ roots, rootKeys loopTree = .ok roots → "a" ∈ roots →
        ∀ depth, (linkScenes loopTree depth loopNodes).isOk = false) :=
  cyclic_scene_never_links loopTree loopNodes "a" "a" Relation.ReflTransGen.refl loopTree_cycle

/-- C10. For an Animation whose time accessor is SCALAR with count `n` and whose parameter
accessors all have count `n` (the accessors resolving, their floats lying inside their
buffers, `n * numComponents` fitting 32 bits), `getParameters` returns
`parameters.size() + 1` records: first `("TIME", 1, the n floats of the time accessor)`,
then for each parameter, in the order of the parameters list,
`(its name, numComponents of its accessor, the n * numComponents floats at that accessor's
data pointer)`. -/
theorem getParameters_records (file : File) (anim : Animation) (timeAccessor : Accessor)
    (timeData : List Nat) (resolved : List (Parameter × Accessor × List Nat))
    (htime : deref file.mAccessors anim.timeAccessor = .ok timeAccessor)
    (hscalar : timeAccessor.dataType = .SCALAR)
    (htimeData : accessorFloats file timeAccessor timeAccessor.count = .ok timeData)
    (hparams : (resolved.map fun r => r.1) = anim.parameters)
    (hres : ∀ r ∈ resolved, deref file.mAccessors r.1.accessor = .ok r.2.1 ∧
      r.2.1.count = timeAccessor.count ∧
      timeAccessor.count * r.2.1.getNumComponents < 2 ^ 32 ∧
      accessorFloats file r.2.1 (timeAccessor.count * r.2.1.getNumComponents) = .ok r.2.2) :
    ∃ ret, anim.getParameters file = .ok ret ∧
      ret.length = anim.parameters.length + 1 ∧
      ret = { paramName := "TIME", numComponents := 1, data := timeData } ::
        resolved.map (fun r =>
          { paramName := r.1.parameter, numComponents := r.2.1.getNumComponents,
            data := r.2.2 }) ∧
      timeData.length = timeAccessor.count ∧
      ∀ r ∈ resolved, r.2.2.length = timeAccessor.count * r.2.1.getNumComponents := by
  obtain ⟨ptr, hptr, hread⟩ := Outcome.bind_eq_ok.mp htimeData
  refine ⟨_, ?_, ?_, rfl, accessorFloats_length htimeData,
    fun r hr => accessorFloats_length (hres r hr).2.2.2⟩
  · unfold Animation.getParameters
    simp only [htime, Outcome.bind_ok, hscalar, ne_eq, not_true_eq_false, if_false, hptr, hread]
    rw [← hparams, getParameters_loop file timeAccessor.count resolved _ hres]
    rfl
  · rw [← hparams]
    simp

set_option maxRecDepth 20000 in
/-- Witness of C10 on `clipAnimation`: TIME `[0.0, 1.0]` and translation
`[0,0,0, 1,0,0]`. -/
theorem getParameters_records_witness :
    ∃ ret, clipAnimation.getParameters clipFile = .ok ret ∧
      ret.length = clipAnimation.parameters.length + 1 ∧
      ret = { paramName := "TIME", numComponents := 1, data := [0, 1065353216] } ::
        [(({ parameter := "translation", accessor := some "trans" } : Parameter),
          clipTranslation, [0, 0, 0, 1065353216, 0, 0])].map (fun r =>
          { paramName := r.1.parameter, numComponents := r.2.1.getNumComponents,
            data := r.2.2 }) ∧
      [0, 1065353216].length = clipTime.count ∧
      ∀ r ∈ [(({ parameter := "translation", accessor := some "trans" } : Parameter),
          clipTranslation, [0, 0, 0, 1065353216, 0, 0])],
        r.2.2.length = clipTime.count * r.2.1.getNumComponents :=
  getParameters_records clipFile clipAnimation clipTime [0, 1065353216]
    [({ parameter := "translation", accessor := some "trans" }, clipTranslation,
      [0, 0, 0, 1065353216, 0, 0])]
    (by decide) (by decide) (by decide) (by decide)
    (by
      intro r hr
      simp only [List.mem_singleton] at hr
      subst hr
      exact ⟨by decide, by decide, by decide, by decide⟩)

/-- C7. Whenever `createSkeleton` returns a skeleton, it holds one joint and one joint name
per entry of the skin's joint list, in the same order: joint `i` has `nameIndex` `i` and
joint name `i` is the `jointName` of the skin's `i`-th joint node. It returns one for every
skin that can be read without undefined behaviour or a failed assertion. -/
theorem createSkeleton_joints (file : File) (skin : Skin) :
    (∀ skel, skin.createSkeleton file = .ok skel →
      skel.joints.length = skin.joints.length ∧
      skel.jointNames.length = skin.joints.length ∧
      ∀ i key, skin.joints[i]? = some key →
        ∃ (node : Node) (joint : Joint), file.mNodes.find key = some node ∧
          skel.jointNames[i]? = some node.jointName ∧
          skel.joints[i]? = some joint ∧ joint.nameId = i) ∧
    (skin.wellFormed file = true → ∃ skel, skin.createSkeleton file = .ok skel) := by
  refine ⟨?_, createSkeleton_total⟩
  intro skel h
  obtain ⟨ptr, hn, hj, _, hk⟩ := createSkeleton_eq_ok h
  refine ⟨by rw [hj, jointsFrom_length], by rw [hn, List.length_map], ?_⟩
  intro i key hkey
  obtain ⟨node, hfind, _, _⟩ := hk i key hkey
  obtain ⟨ptr1, hget⟩ := createSkeleton_getElem? h i
  rw [hkey] at hget
  refine ⟨node, _, hfind, ?_, hget, rfl⟩
  rw [hn, List.getElem?_map, hkey]
  simp [jointNameOf, hfind]

set_option maxRecDepth 20000 in
/-- Witness of C7 on the three-joint rig. -/
theorem createSkeleton_joints_witness :
    ∃ skel, rigSkin.createSkeleton rigFile = .ok skel ∧
      skel.joints.length = rigSkin.joints.length ∧
      skel.jointNames.length = rigSkin.joints.length ∧
      ∀ i key, rigSkin.joints[i]? = some key →
        ∃ (node : Node) (joint : Joint), rigFile.mNodes.find key = some node ∧
          skel.jointNames[i]? = some node.jointName ∧
          skel.joints[i]? = some joint ∧ joint.nameId = i := by
  obtain ⟨skel, hskel⟩ := (createSkeleton_joints rigFile rigSkin).2 (by decide)
  exact ⟨skel, hskel, (createSkeleton_joints rigFile rigSkin).1 skel hskel⟩

set_option maxRecDepth 20000 in
/-- Counterexample to C8 as stated: with joints `A → B` whose `jointName`s are `jA`, `jB`,
the joint whose node name is the name of `B`'s parent stands at position 0 of the skin's
joint order, while `createSkeleton` gives `B` the parent index 1. -/
theorem createSkeleton_alias_parentId :
    ∃ skel, aliasSkin.createSkeleton aliasFile = .ok skel ∧
      skel.joints.map Joint.parentId = [0xFF, 1] ∧
      parentPositionByNodeName aliasFile aliasSkin 1 = some 0 :=
  ⟨{ joints := [{ parentId := 255, nameId := 0, inverseBind := List.replicate 16 0 },
                { parentId := 1, nameId := 1, inverseBind := List.replicate 16 0 }],
     jointNames := ["jA", "jB"] },
    by decide, by decide, by decide⟩

/-- C8 (amended). In the skeleton produced by `createSkeleton`, joint 0 has `parentIndex`
`0xFF`, and for every `i > 0` the `parentIndex` of joint `i` is the position, among the
`jointName`s of the joints before it, of the first one equal to the node name of joint
`i`'s parent (the position `i` when there is none), reduced modulo 256. A skeleton is
produced for every skin that can be read without undefined behaviour or a failed
assertion. -/
theorem createSkeleton_parentIds (file : File) (skin : Skin) :
    (∀ skel, skin.createSkeleton file = .ok skel →
      (∀ j, skel.joints[0]? = some j → j.parentId = 0xFF) ∧
      ∀ i key j, 0 < i → skin.joints[i]? = some key → skel.joints[i]? = some j →
        ∃ node parent, file.mNodes.find key = some node ∧
          deref file.mNodes node.parent = .ok parent ∧
          j.parentId = (skel.jointNames.take i).indexOf parent.name % 256) ∧
    (skin.wellFormed file = true → ∃ skel, skin.createSkeleton file = .ok skel) := by
  refine ⟨?_, createSkeleton_total⟩
  intro skel h
  obtain ⟨ptr, hn, _, _, hk⟩ := createSkeleton_eq_ok h
  refine ⟨?_, ?_⟩
  · intro j hj
    obtain ⟨ptr1, hget⟩ := createSkeleton_getElem? h 0
    rw [hj] at hget
    cases hkey : skin.joints[0]? with
    | none => simp [hkey] at hget
    | some key =>
      simp only [hkey, Option.map_some', Option.some.injEq] at hget
      rw [hget]
      simp [parentIdAt]
  · intro i key j hi hkey hj
    obtain ⟨node, hfind, _, hparent⟩ := hk i key hkey
    obtain ⟨parent, hparent⟩ := hparent (by omega)
    obtain ⟨ptr1, hget⟩ := createSkeleton_getElem? h i
    rw [hj, hkey] at hget
    simp only [Option.map_some', Option.some.injEq] at hget
    refine ⟨node, parent, hfind, hparent, ?_⟩
    rw [hget, hn, ← List.map_take]
    exact parentIdAt_of_parent (by omega) hfind hparent

set_option maxRecDepth 20000 in
/-- Witness of C8 (amended) on the three-joint rig. -/
theorem createSkeleton_parentIds_witness :
    ∃ skel, rigSkin.createSkeleton rigFile = .ok skel ∧
      (∀ j, skel.joints[0]? = some j → j.parentId = 0xFF) ∧
      ∀ i key j, 0 < i → rigSkin.joints[i]? = some key → skel.joints[i]? = some j →
        ∃ node parent, rigFile.mNodes.find key = some node ∧
          deref rigFile.mNodes node.parent = .ok parent ∧
          j.parentId = (skel.jointNames.take i).indexOf parent.name % 256 := by
  obtain ⟨skel, hskel⟩ := (createSkeleton_parentIds rigFile rigSkin).2 (by decide)
  exact ⟨skel, hskel, (createSkeleton_parentIds rigFile rigSkin).1 skel hskel⟩

set_option maxRecDepth 20000 in
/-- Counterexample to C9 as stated: the parent `X` of joint `B` is no joint of the skin, and
`createSkeleton` gives `B`, at index 1, the parent index 1. -/
theorem createSkeleton_stray_parentId :
    ∃ skel j, straySkin.createSkeleton strayFile = .ok skel ∧
      skel.joints[1]? = some j ∧ ¬ j.parentId < 1 :=
  ⟨{ joints := [{ parentId := 255, nameId := 0, inverseBind := List.replicate 16 0 },
                { parentId := 1, nameId := 1, inverseBind := List.replicate 16 0 }],
     jointNames := ["root", "B"] },
    { parentId := 1, nameId := 1, inverseBind := List.replicate 16 0 },
    by decide, by decide, by decide⟩

/-- C9 (amended). For a skin of at most 256 joints in which the node name of every
non-first joint's parent is the `jointName` of an earlier joint, every skeleton produced by
`createSkeleton` has `parentIndex < i` for every joint at index `i > 0`, and joint 0 is the
only joint whose `parentIndex` equals `0xFF`. -/
theorem createSkeleton_parent_before (file : File) (skin : Skin)
    (hlen : skin.joints.length ≤ 256)
    (hfound : parentsPrecede file skin = true) :
    (∀ skel, skin.createSkeleton file = .ok skel →
      ∀ i j, skel.joints[i]? = some j →
        (0 < i → j.parentId < i) ∧ (j.parentId = 0xFF ↔ i = 0)) ∧
    (skin.wellFormed file = true → ∃ skel, skin.createSkeleton file = .ok skel) := by
  refine ⟨?_, createSkeleton_total⟩
  intro skel h i j hj
  obtain ⟨ptr, hget⟩ := createSkeleton_getElem? h i
  rw [hj] at hget
  cases hkey : skin.joints[i]? with
  | none => simp [hkey] at hget
  | some key =>
    simp only [hkey, Option.map_some', Option.some.injEq] at hget
    have hilt : i < skin.joints.length := by
      by_contra hcon
      rw [List.getElem?_eq_none (by omega)] at hkey
      cases hkey
    by_cases hi : i = 0
    · subst hi
      rw [hget]
      simp [parentIdAt]
    · have hall := (List.all_eq_true.mp hfound) i (List.mem_range.mpr hilt)
      simp only [hi, decide_False, Bool.false_or, hkey] at hall
      cases hpn : parentNameOf file key with
      | none => simp [hpn] at hall
      | some parentName =>
        simp only [hpn, decide_eq_true_eq] at hall
        have hidx : ((skin.joints.take i).map (jointNameOf file)).indexOf parentName < i := by
          have h1 := List.indexOf_lt_length.mpr hall
          have h2 : ((skin.joints.take i).map (jointNameOf file)).length ≤ i := by
            simp [List.length_take]
          omega
        have hpid : j.parentId =
            ((skin.joints.take i).map (jointNameOf file)).indexOf parentName := by
          rw [hget]
          simp only [parentIdAt, hi, if_false, hpn]
          exact Nat.mod_eq_of_lt (by omega)
        rw [hpid]
        refine ⟨fun _ => hidx, ?_⟩
        constructor
        · intro h255
          omega
        · intro h0
          exact absurd h0 hi

set_option maxRecDepth 20000 in
/-- Witness of C9 (amended) on the three-joint rig. -/
theorem createSkeleton_parent_before_witness :
    ∃ skel, rigSkin.createSkeleton rigFile = .ok skel ∧
      ∀ i j, skel.joints[i]? = some j →
        (0 < i → j.parentId < i) ∧ (j.parentId = 0xFF ↔ i = 0) := by
  obtain ⟨skel, hskel⟩ :=
    (createSkeleton_parent_before rigFile rigSkin (by decide) (by decide)).2 (by decide)
  exact ⟨skel, hskel,
    (createSkeleton_parent_before rigFile rigSkin (by decide) (by decide)).1 skel hskel⟩

/-- C16. For an Accessor whose `dataType` is SCALAR, VEC2, VEC3, VEC4, MAT2 or MAT3,
`getNumComponents` returns 1, 2, 3, 4, 4, 9 respectively. -/
theorem getNumComponents_upto_MAT3 (acc : Accessor) :
    (acc.dataType = .SCALAR → acc.getNumComponents = 1) ∧
    (acc.dataType = .VEC2 → acc.getNumComponents = 2) ∧
    (acc.dataType = .VEC3 → acc.getNumComponents = 3) ∧
    (acc.dataType = .VEC4 → acc.getNumComponents = 4) ∧
    (acc.dataType = .MAT2 → acc.getNumComponents = 4) ∧
    (acc.dataType = .MAT3 → acc.getNumComponents = 9) := by
  unfold Accessor.getNumComponents
  refine ⟨?_, ?_, ?_, ?_, ?_, ?_⟩ <;> intro h <;> rw [h]

/-- Witness of C16 on the accessors of `clipFile` (SCALAR and VEC3). -/
theorem getNumComponents_upto_MAT3_witness :
    clipTime.getNumComponents = 1 ∧ clipTranslation.getNumComponents = 3 :=
  ⟨(getNumComponents_upto_MAT3 clipTime).1 rfl,
    (getNumComponents_upto_MAT3 clipTranslation).2.2.1 rfl⟩

/-- C17 fails on the code: for an Accessor whose `dataType` is MAT4, `getNumComponents`
returns 12, not the 16 components of a 4×4 matrix. -/
theorem getNumComponents_MAT4 (acc : Accessor) (h : acc.dataType = .MAT4) :
    acc.getNumComponents = 12 ∧ acc.getNumComponents ≠ 16 := by
  unfold Accessor.getNumComponents
  rw [h]
  exact ⟨rfl, by decide⟩

/-- The MAT4 accessor of `rigFile` has 12 components for `getNumComponents`. -/
theorem getNumComponents_MAT4_witness :
    rigMatrices.getNumComponents = 12 ∧ rigMatrices.getNumComponents ≠ 16 :=
  getNumComponents_MAT4 rigMatrices rfl

/-- C18. For an Accessor whose `bufferView` and that view's `buffer` resolve, the buffer
holding data, `getDataPtr` returns the pointer at byte offset
`bufferView.byteOffset + byteOffset` within the data of that buffer (the element-pointer
formula at `i = 0`). -/
theorem getDataPtr_offset (file : File) (acc : Accessor) (bufferView : BufferView)
    (buffer : Buffer) (bytes : List Nat)
    (hview : deref file.mBufferViews acc.bufferView = .ok bufferView)
    (hbuffer : deref file.mBuffers bufferView.buffer = .ok buffer)
    (hdata : buffer.data = some bytes) :
    acc.getDataPtr file =
      .ok { memory := bytes, offset := bufferView.byteOffset + acc.byteOffset } := by
  unfold Accessor.getDataPtr
  rw [hview, Outcome.bind_ok, hbuffer, Outcome.bind_ok]
  simp only [hdata]

/-- Witness of C18 on the translation accessor of `clipFile` (view offset 0, accessor
offset 8). -/
theorem getDataPtr_offset_witness :
    clipTranslation.getDataPtr clipFile =
      .ok { memory := [0, 0, 0, 0, 0, 0, 128, 63, 0, 0, 0, 0, 0, 0, 0, 0, 0, 0, 0, 0,
                       0, 0, 128, 63, 0, 0, 0, 0, 0, 0, 0, 0],
            offset := 0 + clipTranslation.byteOffset } :=
  getDataPtr_offset clipFile clipTranslation
    { buffer := some "b", byteOffset := 0, byteLength := 32, target := 34962 }
    { data := some [0, 0, 0, 0, 0, 0, 128, 63, 0, 0, 0, 0, 0, 0, 0, 0, 0, 0, 0, 0,
                    0, 0, 128, 63, 0, 0, 0, 0, 0, 0, 0, 0],
      byteLength := 32 }
    _ (by decide) (by decide) rfl


/-- C11. For a ParameterData list whose TIME record (the last one of that name) has `n`
samples, `n` fitting an `int`: every clip `createTransformClip` returns has translation,
rotation and scale tracks of exactly `n` keyframes, and keyframe `i` of each of the three
carries the `i`-th time sample. A clip is returned whenever every present track has data
for all `n` keys. -/
theorem createTransformClip_timestamps (paramData : List ParameterData)
    (time : ParameterData) (htime : lastNamed paramData "TIME" = some time)
    (hint : time.data.length < 2 ^ 31) :
    (∀ clip, createTransformClip paramData = .ok clip →
      (clip.translation.length = time.data.length ∧
        clip.rotation.length = time.data.length ∧
        clip.scale.length = time.data.length) ∧
      ∀ (i t : Nat), time.data[i]? = some t →
        clip.translation[i]?.map Prod.fst = some t ∧
        clip.rotation[i]?.map Prod.fst = some t ∧
        clip.scale[i]?.map Prod.fst = some t) ∧
    (clipReady paramData = true → ∃ clip, createTransformClip paramData = .ok clip) := by
  refine ⟨?_, createTransformClip_total⟩
  intro clip h
  have ht : (selectData paramData).timeData = some time.data := by
    rw [selectData_timeData, htime]; rfl
  obtain ⟨hlen, hkeys⟩ := createTransformClip_eq_ok ht h
  refine ⟨hlen, ?_⟩
  intro i t hi
  obtain ⟨hlt, hget⟩ := List.getElem?_eq_some_iff.mp hi
  obtain ⟨k1, k2, k3⟩ := hkeys i hlt
  have hd : time.data.getD i 0 = t := by simp [List.getD_eq_getElem?_getD, hi]
  rw [toInt32_small hint] at k1 k2 k3
  simp only [hlt, if_true, hd] at k1 k2 k3
  rw [k1, k2, k3]
  simp

/-- Witness of C11 on `clipRecords`: three tracks of two keyframes with the time samples
`0.0` and `1.0`. -/
theorem createTransformClip_timestamps_witness :
    ((∀ clip, createTransformClip clipRecords = .ok clip →
      (clip.translation.length = 2 ∧ clip.rotation.length = 2 ∧ clip.scale.length = 2) ∧
      ∀ (i t : Nat), [0, floatOne][i]? = some t →
        clip.translation[i]?.map Prod.fst = some t ∧
        clip.rotation[i]?.map Prod.fst = some t ∧
        clip.scale[i]?.map Prod.fst = some t) ∧
    (clipReady clipRecords = true → ∃ clip, createTransformClip clipRecords = .ok clip)) ∧
    createTransformClip clipRecords = .ok
      { translation := [(0, Vec3.zero), (floatOne, { x := floatOne, y := 0, z := 0 })]
        rotation := [(0, Quat.identity), (floatOne, Quat.identity)]
        scale := [(0, Vec3.one), (floatOne, Vec3.one)] } :=
  ⟨createTransformClip_timestamps clipRecords
    { paramName := "TIME", numComponents := 1, data := [0, floatOne] } (by decide) (by decide),
    by decide⟩

/-- C12. For a ParameterData list with a TIME record of `n` samples, every clip
`createTransformClip` returns has, in each track whose parameter no record of the list
names, `n` keyframes that all carry the default value: `(0,0,0)` for translation, the
identity quaternion for rotation, `(1,1,1)` for scale. A clip is returned whenever every
present track has data for all `n` keys. -/
theorem createTransformClip_defaults (paramData : List ParameterData)
    (time : ParameterData) (htime : lastNamed paramData "TIME" = some time) :
    (∀ clip, createTransformClip paramData = .ok clip →
      ((∀ p ∈ paramData, p.paramName ≠ "translation") →
        clip.translation.length = time.data.length ∧
        ∀ kf ∈ clip.translation, kf.2 = Vec3.zero) ∧
      ((∀ p ∈ paramData, p.paramName ≠ "rotation") →
        clip.rotation.length = time.data.length ∧
        ∀ kf ∈ clip.rotation, kf.2 = Quat.identity) ∧
      ((∀ p ∈ paramData, p.paramName ≠ "scale") →
        clip.scale.length = time.data.length ∧
        ∀ kf ∈ clip.scale, kf.2 = Vec3.one)) ∧
    (clipReady paramData = true → ∃ clip, createTransformClip paramData = .ok clip) := by
  refine ⟨?_, createTransformClip_total⟩
  intro clip h
  have ht : (selectData paramData).timeData = some time.data := by
    rw [selectData_timeData, htime]; rfl
  obtain ⟨⟨l1, l2, l3⟩, hkeys⟩ := createTransformClip_eq_ok ht h
  refine ⟨fun habs => ⟨l1, ?_⟩, fun habs => ⟨l2, ?_⟩, fun habs => ⟨l3, ?_⟩⟩
  · have hnone : (selectData paramData).transData = none := by
      rw [selectData_transData, lastNamed_eq_none.mpr habs]; rfl
    intro kf hkf
    obtain ⟨j, hj⟩ := List.mem_iff_getElem?.mp hkf
    have hlt : j < time.data.length := by
      rw [← l1]; exact (List.getElem?_eq_some_iff.mp hj).1
    have k1 := (hkeys j hlt).1
    rw [hnone, hj] at k1
    simp only [readValue_none, Option.getD_none, ite_self, Option.some.injEq] at k1
    rw [k1]
  · have hnone : (selectData paramData).rotData = none := by
      rw [selectData_rotData, lastNamed_eq_none.mpr habs]; rfl
    intro kf hkf
    obtain ⟨j, hj⟩ := List.mem_iff_getElem?.mp hkf
    have hlt : j < time.data.length := by
      rw [← l2]; exact (List.getElem?_eq_some_iff.mp hj).1
    have k2 := (hkeys j hlt).2.1
    rw [hnone, hj] at k2
    simp only [readValue_none, Option.getD_none, ite_self, Option.some.injEq] at k2
    rw [k2]
  · have hnone : (selectData paramData).scaleData = none := by
      rw [selectData_scaleData, lastNamed_eq_none.mpr habs]; rfl
    intro kf hkf
    obtain ⟨j, hj⟩ := List.mem_iff_getElem?.mp hkf
    have hlt : j < time.data.length := by
      rw [← l3]; exact (List.getElem?_eq_some_iff.mp hj).1
    have k3 := (hkeys j hlt).2.2
    rw [hnone, hj] at k3
    simp only [readValue_none, Option.getD_none, ite_self, Option.some.injEq] at k3
    rw [k3]

/-- Witness of C12 on `timeOnlyRecords`, which names no track. -/
theorem createTransformClip_defaults_witness :
    ((∀ clip, createTransformClip timeOnlyRecords = .ok clip →
      ((∀ p ∈ timeOnlyRecords, p.paramName ≠ "translation") →
        clip.translation.length = 2 ∧ ∀ kf ∈ clip.translation, kf.2 = Vec3.zero) ∧
      ((∀ p ∈ timeOnlyRecords, p.paramName ≠ "rotation") →
        clip.rotation.length = 2 ∧ ∀ kf ∈ clip.rotation, kf.2 = Quat.identity) ∧
      ((∀ p ∈ timeOnlyRecords, p.paramName ≠ "scale") →
        clip.scale.length = 2 ∧ ∀ kf ∈ clip.scale, kf.2 = Vec3.one)) ∧
    (clipReady timeOnlyRecords = true →
      ∃ clip, createTransformClip timeOnlyRecords = .ok clip)) ∧
    createTransformClip timeOnlyRecords = .ok
      { translation := [(0, Vec3.zero), (floatOne, Vec3.zero)]
        rotation := [(0, Quat.identity), (floatOne, Quat.identity)]
        scale := [(0, Vec3.one), (floatOne, Vec3.one)] } :=
  ⟨createTransformClip_defaults timeOnlyRecords
    { paramName := "TIME", numComponents := 1, data := [0, floatOne] } (by decide),
    by decide⟩

/-- C13. For a ParameterData list with a TIME record of `n` samples in which a present
translation or scale record has `3n` floats and a present rotation record has `4n` floats
(the indices `4i` fitting an `int`), `createTransformClip` returns a clip in which
keyframe `i` of the translation (resp. scale) track has value `(d[3i], d[3i+1], d[3i+2])`
of that record's data `d`, and keyframe `i` of the rotation track is the quaternion with
`(x,y,z,w) = (d[4i], d[4i+1], d[4i+2], d[4i+3])`. -/
theorem createTransformClip_values (paramData : List ParameterData)
    (time : ParameterData) (htime : lastNamed paramData "TIME" = some time)
    (hint : 4 * time.data.length ≤ 2 ^ 31)
    (htrans : ∀ r, lastNamed paramData "translation" = some r →
      r.data.length = 3 * time.data.length)
    (hrot : ∀ r, lastNamed paramData "rotation" = some r →
      r.data.length = 4 * time.data.length)
    (hscale : ∀ r, lastNamed paramData "scale" = some r →
      r.data.length = 3 * time.data.length) :
    ∃ clip, createTransformClip paramData = .ok clip ∧
      (∀ r, lastNamed paramData "translation" = some r → ∀ i : Nat, i < time.data.length →
        clip.translation[i]?.map Prod.snd =
          some { x := r.data.getD (3 * i) 0, y := r.data.getD (3 * i + 1) 0,
                 z := r.data.getD (3 * i + 2) 0 }) ∧
      (∀ r, lastNamed paramData "rotation" = some r → ∀ i : Nat, i < time.data.length →
        clip.rotation[i]?.map Prod.snd =
          some { x := r.data.getD (4 * i) 0, y := r.data.getD (4 * i + 1) 0,
                 z := r.data.getD (4 * i + 2) 0, w := r.data.getD (4 * i + 3) 0 }) ∧
      (∀ r, lastNamed paramData "scale" = some r → ∀ i : Nat, i < time.data.length →
        clip.scale[i]?.map Prod.snd =
          some { x := r.data.getD (3 * i) 0, y := r.data.getD (3 * i + 1) 0,
                 z := r.data.getD (3 * i + 2) 0 }) := by
  have ht : (selectData paramData).timeData = some time.data := by
    rw [selectData_timeData, htime]; rfl
  have hn : time.data.length < 2 ^ 31 := by omega
  have rtr : trackReady 3 time.data.length (selectData paramData).transData = true := by
    apply trackReady_of_length _ _ _ (by omega) (by omega)
    intro d hd
    rw [selectData_transData] at hd
    obtain ⟨r, hr, rfl⟩ := Option.map_eq_some'.mp hd
    exact htrans r hr
  have rro : trackReady 4 time.data.length (selectData paramData).rotData = true := by
    apply trackReady_of_length _ _ _ (by omega) (by omega)
    intro d hd
    rw [selectData_rotData] at hd
    obtain ⟨r, hr, rfl⟩ := Option.map_eq_some'.mp hd
    exact hrot r hr
  have rsc : trackReady 3 time.data.length (selectData paramData).scaleData = true := by
    apply trackReady_of_length _ _ _ (by omega) (by omega)
    intro d hd
    rw [selectData_scaleData] at hd
    obtain ⟨r, hr, rfl⟩ := Option.map_eq_some'.mp hd
    exact hscale r hr
  have hready : clipReady paramData = true := by
    unfold clipReady
    simp only [ht, Bool.and_eq_true, decide_eq_true_eq]
    exact ⟨⟨⟨hn, rtr⟩, rro⟩, rsc⟩
  obtain ⟨clip, hclip⟩ := createTransformClip_total hready
  obtain ⟨_, hkeys⟩ := createTransformClip_eq_ok ht hclip
  refine ⟨clip, hclip, ?_, ?_, ?_⟩
  · intro r hr i hi
    have hsel : (selectData paramData).transData = some r.data := by
      rw [selectData_transData, hr]; rfl
    have k1 := (hkeys i hi).1
    rw [toInt32_small hn, hsel, readValue_vec3 r.data i (by omega)
      (by rw [htrans r hr]; omega)] at k1
    rw [k1]
    simp [hi]
  · intro r hr i hi
    have hsel : (selectData paramData).rotData = some r.data := by
      rw [selectData_rotData, hr]; rfl
    have k2 := (hkeys i hi).2.1
    rw [toInt32_small hn, hsel, readValue_quat r.data i (by omega)
      (by rw [hrot r hr]; omega)] at k2
    rw [k2]
    simp [hi]
  · intro r hr i hi
    have hsel : (selectData paramData).scaleData = some r.data := by
      rw [selectData_scaleData, hr]; rfl
    have k3 := (hkeys i hi).2.2
    rw [toInt32_small hn, hsel, readValue_vec3 r.data i (by omega)
      (by rw [hscale r hr]; omega)] at k3
    rw [k3]
    simp [hi]

/-- Witness of C13 on `gradedRecords`: the clip holds translation `(11,12,13)` then
`(14,15,16)`, rotation `(21,22,23,24)` then `(25,26,27,28)`, scale `(1,2,3)` then
`(4,5,6)`. -/
theorem createTransformClip_values_witness :
    ∃ clip, createTransformClip gradedRecords = .ok clip ∧
      (∀ r, lastNamed gradedRecords "translation" = some r → ∀ i : Nat, i < 2 →
        clip.translation[i]?.map Prod.snd =
          some { x := r.data.getD (3 * i) 0, y := r.data.getD (3 * i + 1) 0,
                 z := r.data.getD (3 * i + 2) 0 }) ∧
      (∀ r, lastNamed gradedRecords "rotation" = some r → ∀ i : Nat, i < 2 →
        clip.rotation[i]?.map Prod.snd =
          some { x := r.data.getD (4 * i) 0, y := r.data.getD (4 * i + 1) 0,
                 z := r.data.getD (4 * i + 2) 0, w := r.data.getD (4 * i + 3) 0 }) ∧
      (∀ r, lastNamed gradedRecords "scale" = some r → ∀ i : Nat, i < 2 →
        clip.scale[i]?.map Prod.snd =
          some { x := r.data.getD (3 * i) 0, y := r.data.getD (3 * i + 1) 0,
                 z := r.data.getD (3 * i + 2) 0 }) :=
  createTransformClip_values gradedRecords
    { paramName := "TIME", numComponents := 1, data := [100, 101] } (by decide) (by decide)
    (by decide) (by decide) (by decide)


/-- C14. For a skeleton with joint names `j0..j(n-1)`, each the target of at least one
Animation of the registry: every result of `createSkeletonAnim` holds exactly `n` clips, in
joint order, clip `i` being `createTransformClip( getParameters( Ai ) )` for the first
Animation `Ai` in registry order whose target is `ji`. A result is returned whenever each
of these first animations yields a clip. -/
theorem createSkeletonAnim_clips (file : File) (skeleton : Skeleton)
    (htargets : ∀ name ∈ skeleton.jointNames, ∃ e ∈ file.mAnimations, e.2.target = name) :
    (∀ clips, file.createSkeletonAnim skeleton = .ok clips →
      clips.length = skeleton.jointNames.length ∧
      ∀ (i : Nat) (name : String), skeleton.jointNames[i]? = some name →
        ∃ (before after : Registry Animation) (key : String) (anim : Animation)
          (params : List ParameterData) (clip : TransformClip),
          file.mAnimations = before ++ (key, anim) :: after ∧
          anim.target = name ∧ (∀ e ∈ before, e.2.target ≠ name) ∧
          anim.getParameters file = .ok params ∧
          createTransformClip params = .ok clip ∧
          clips[i]? = some clip) ∧
    ((∀ name ∈ skeleton.jointNames, ∀ found,
        findAnimation file.mAnimations name = some found →
        ∃ clip, buildClip file found.2 = .ok clip) →
      ∃ clips, file.createSkeletonAnim skeleton = .ok clips) := by
  constructor
  · intro clips h
    obtain ⟨built, hclips, hlen, hall⟩ := skeletonAnimLoop_eq_ok file _ _ _ h
    simp only [List.nil_append] at hclips
    subst hclips
    refine ⟨hlen, ?_⟩
    intro i name hi
    obtain ⟨found, clip, hf, hb, hget⟩ := hall i name hi
    obtain ⟨htarget, before, after, hsplit, hfirst⟩ := findAnimation_eq_some.mp hf
    obtain ⟨params, hparams, hclip⟩ := Outcome.bind_eq_ok.mp hb
    exact ⟨before, after, found.1, found.2, params, clip, hsplit, htarget, hfirst, hparams,
      hclip, hget⟩
  · intro hbuild
    apply skeletonAnimLoop_total
    intro name hname
    cases hf : findAnimation file.mAnimations name with
    | none =>
      obtain ⟨e, he, ht⟩ := htargets name hname
      exact absurd ht (findAnimation_eq_none.mp hf e he)
    | some found =>
      obtain ⟨clip, hclip⟩ := hbuild name hname found hf
      exact ⟨found, clip, rfl, hclip⟩

set_option maxRecDepth 20000 in
/-- Witness of C14 on `boneFile` and `boneSkeleton`: two clips, the first from the
animation `a`, which precedes `b` with the same target. -/
theorem createSkeletonAnim_clips_witness :
    ((∀ clips, boneFile.createSkeletonAnim boneSkeleton = .ok clips →
      clips.length = boneSkeleton.jointNames.length ∧
      ∀ (i : Nat) (name : String), boneSkeleton.jointNames[i]? = some name →
        ∃ (before after : Registry Animation) (key : String) (anim : Animation)
          (params : List ParameterData) (clip : TransformClip),
          boneFile.mAnimations = before ++ (key, anim) :: after ∧
          anim.target = name ∧ (∀ e ∈ before, e.2.target ≠ name) ∧
          anim.getParameters boneFile = .ok params ∧
          createTransformClip params = .ok clip ∧
          clips[i]? = some clip) ∧
    ((∀ name ∈ boneSkeleton.jointNames, ∀ found,
        findAnimation boneFile.mAnimations name = some found →
        ∃ clip, buildClip boneFile found.2 = .ok clip) →
      ∃ clips, boneFile.createSkeletonAnim boneSkeleton = .ok clips)) ∧
    boneFile.createSkeletonAnim boneSkeleton = .ok
      [{ translation := [(0, Vec3.zero), (floatOne, { x := floatOne, y := 0, z := 0 })]
         rotation := [(0, Quat.identity), (floatOne, Quat.identity)]
         scale := [(0, Vec3.one), (floatOne, Vec3.one)] },
       { translation := [(0, Vec3.zero), (floatOne, Vec3.zero)]
         rotation := [(0, Quat.identity), (floatOne, Quat.identity)]
         scale := [(0, Vec3.one), (floatOne, Vec3.one)] }] :=
  ⟨createSkeletonAnim_clips boneFile boneSkeleton (by decide), by decide⟩

/-- C15. A joint name that is the target of no Animation of the registry keeps
`createSkeletonAnim` from returning an animation object. When every joint that does have an
animation yields its clip, the call fails on the assertion of the missing-animation branch
if and only if some joint name of the skeleton is the target of no Animation. -/
theorem createSkeletonAnim_missing (file : File) (skeleton : Skeleton) :
    ((∃ name ∈ skeleton.jointNames, ∀ e ∈ file.mAnimations, e.2.target ≠ name) →
      (file.createSkeletonAnim skeleton).isOk = false) ∧
    ((∀ name ∈ skeleton.jointNames, ∀ found,
        findAnimation file.mAnimations name = some found →
        ∃ clip, buildClip file found.2 = .ok clip) →
      (file.createSkeletonAnim skeleton = .assertFailed ↔
        ∃ name ∈ skeleton.jointNames, ∀ e ∈ file.mAnimations, e.2.target ≠ name)) := by
  constructor
  · rintro ⟨name, hname, hnone⟩
    exact skeletonAnimLoop_missing file _ _ ⟨name, hname, findAnimation_eq_none.mpr hnone⟩
  · intro hbuild
    constructor
    · intro hfail
      by_contra hno
      have hall : ∀ name ∈ skeleton.jointNames, ∃ found clip,
          findAnimation file.mAnimations name = some found ∧
          buildClip file found.2 = .ok clip := by
        intro name hname
        cases hf : findAnimation file.mAnimations name with
        | none => exact absurd ⟨name, hname, findAnimation_eq_none.mp hf⟩ hno
        | some found =>
          obtain ⟨clip, hclip⟩ := hbuild name hname found hf
          exact ⟨found, clip, rfl, hclip⟩
      obtain ⟨clips, hclips⟩ := skeletonAnimLoop_total file _ [] hall
      unfold File.createSkeletonAnim at hfail
      rw [hclips] at hfail
      cases hfail
    · rintro ⟨name, hname, hnone⟩
      exact skeletonAnimLoop_assert file _ _ hbuild
        ⟨name, hname, findAnimation_eq_none.mpr hnone⟩

set_option maxRecDepth 20000 in
/-- Witness of C15 on `boneFile` and `ghostSkeleton`: the joint `ghost` has no animation,
and the call fails on the assertion. -/
theorem createSkeletonAnim_missing_witness :
    (∃ name ∈ ghostSkeleton.jointNames, ∀ e ∈ boneFile.mAnimations, e.2.target ≠ name) ∧
    (boneFile.createSkeletonAnim ghostSkeleton).isOk = false ∧
    boneFile.createSkeletonAnim ghostSkeleton = .assertFailed :=
  have hmissing : ∃ name ∈ ghostSkeleton.jointNames,
      ∀ e ∈ boneFile.mAnimations, e.2.target ≠ name := ⟨"ghost", by decide, by decide⟩
  ⟨hmissing, (createSkeletonAnim_missing boneFile ghostSkeleton).1 hmissing,
    ((createSkeletonAnim_missing boneFile ghostSkeleton).2 (by
      intro name hname found hf
      have h2 : name = "n" ∨ name = "ghost" := by simpa [ghostSkeleton] using hname
      rcases h2 with rfl | rfl
      · have : found = ("a", clipAnimation) := by
          have h3 : findAnimation boneFile.mAnimations "n" = some ("a", clipAnimation) := by
            decide
          rw [h3] at hf
          exact (Option.some.inj hf).symm
        subst this
        exact ⟨_, (by decide : buildClip boneFile clipAnimation = .ok
          { translation := [(0, Vec3.zero), (floatOne, { x := floatOne, y := 0, z := 0 })]
            rotation := [(0, Quat.identity), (floatOne, Quat.identity)]
            scale := [(0, Vec3.one), (floatOne, Vec3.one)] })⟩
      · have h3 : findAnimation boneFile.mAnimations "ghost" = none := by decide
        rw [h3] at hf
        cases hf)).2 hmissing⟩


/-- C19 fails on the code: `load` compares no offset, count or length with the size of a
buffer view or buffer. The manifest `overrunManifest` loads, and its accessor `a` claims
1200 bytes of a view of 8 bytes, the view claims bytes 4 to 12 of a buffer of 8 bytes, and
reading the accessor's `count` elements at its data pointer leaves the buffer. -/
theorem load_accepts_overrun :
    ∃ (file : File) (acc : Accessor) (view : BufferView) (buffer : Buffer),
      load plainHost [] overrunManifest 1 emptyFile = .ok file ∧
      file.mAccessors.find "a" = some acc ∧
      deref file.mBufferViews acc.bufferView = .ok view ∧
      deref file.mBuffers view.buffer = .ok buffer ∧
      ¬ (acc.byteOffset + acc.count * (acc.getNumComponents * acc.getNumBytesForComponentType)
          ≤ view.byteLength) ∧
      ¬ (view.byteOffset + view.byteLength ≤ buffer.byteLength) ∧
      accessorFloats file acc (acc.count * acc.getNumComponents) = .undefined :=
  ⟨{ mBuffers := [("b", { data := some [0, 0, 0, 0, 0, 0, 128, 63], byteLength := 8,
                          type := "arraybuffer" })]
     mBufferViews := [("v", { buffer := some "b", byteOffset := 4, byteLength := 8,
                              target := 34962 })]
     mAccessors := [("a", { bufferView := some "v", byteOffset := 0, count := 100,
                            componentType := 5126, dataType := .VEC3, byteStride := 0 })]
     mNodes := [] },
   { bufferView := some "v", byteOffset := 0, count := 100, componentType := 5126,
     dataType := .VEC3, byteStride := 0 },
   { buffer := some "b", byteOffset := 4, byteLength := 8, target := 34962 },
   { data := some [0, 0, 0, 0, 0, 0, 128, 63], byteLength := 8, type := "arraybuffer" },
   by decide, by decide, by decide, by decide, by decide, by decide, by decide⟩

/-- C19, amended. For an Accessor `A` whose buffer view and buffer resolve and whose buffer
holds data: if `A.byteOffset + A.count * (numComponents * componentBytes)` is at most the
view's `byteLength`, the view's `byteOffset + byteLength` is at most the buffer's
`byteLength`, and the buffer's data has at least `byteLength` bytes, then the `A.count`
elements that start at `getDataPtr` lie inside the buffer view and inside the buffer's
data; for a FLOAT accessor reading them succeeds. `load` itself checks none of these
bounds. -/
theorem getDataPtr_range_in_view (file : File) (acc : Accessor) (view : BufferView)
    (buffer : Buffer) (bytes : List Nat)
    (hview : deref file.mBufferViews acc.bufferView = .ok view)
    (hbuffer : deref file.mBuffers view.buffer = .ok buffer)
    (hdata : buffer.data = some bytes)
    (hacc : acc.byteOffset +
      acc.count * (acc.getNumComponents * acc.getNumBytesForComponentType) ≤ view.byteLength)
    (hinside : view.byteOffset + view.byteLength ≤ buffer.byteLength)
    (hsize : buffer.byteLength ≤ bytes.length) :
    ∃ ptr, acc.getDataPtr file = .ok ptr ∧ ptr.memory = bytes ∧
      view.byteOffset ≤ ptr.offset ∧
      ptr.offset + acc.count * (acc.getNumComponents * acc.getNumBytesForComponentType) ≤
        view.byteOffset + view.byteLength ∧
      ptr.offset + acc.count * (acc.getNumComponents * acc.getNumBytesForComponentType) ≤
        bytes.length ∧
      (acc.componentType = 5126 →
        ∃ floats, readFloats ptr (acc.count * acc.getNumComponents) = .ok floats ∧
          floats.length = acc.count * acc.getNumComponents) := by
  refine ⟨{ memory := bytes, offset := view.byteOffset + acc.byteOffset }, ?_, rfl, ?_, ?_,
    ?_, ?_⟩
  · simp [Accessor.getDataPtr, hview, hbuffer, hdata]
  · simp
  · simp only; omega
  · simp only; omega
  · intro hfloat
    have hbytes : acc.getNumBytesForComponentType = 4 := by
      simp [Accessor.getNumBytesForComponentType, hfloat]
    rw [hbytes] at hacc
    have hread : readFloats { memory := bytes, offset := view.byteOffset + acc.byteOffset }
        (acc.count * acc.getNumComponents) =
        .ok ((List.range (acc.count * acc.getNumComponents)).map fun i =>
          readU32 bytes (view.byteOffset + acc.byteOffset + 4 * i)) := by
      unfold readFloats
      rw [if_pos]
      simp only
      have : 4 * (acc.count * acc.getNumComponents) =
          acc.count * (acc.getNumComponents * 4) := by ring
      omega
    exact ⟨_, hread, by simp⟩

set_option maxRecDepth 20000 in
/-- Witness of the amended C19 on the translation accessor of `clipFile`: 2 `VEC3` floats
at offset 8 of a view of 32 bytes. -/
theorem getDataPtr_range_in_view_witness :
    ∃ ptr, clipTranslation.getDataPtr clipFile = .ok ptr ∧
      ptr.memory = [0, 0, 0, 0, 0, 0, 128, 63, 0, 0, 0, 0, 0, 0, 0, 0, 0, 0, 0, 0,
                    0, 0, 128, 63, 0, 0, 0, 0, 0, 0, 0, 0] ∧
      0 ≤ ptr.offset ∧
      ptr.offset + clipTranslation.count *
        (clipTranslation.getNumComponents * clipTranslation.getNumBytesForComponentType) ≤
        0 + 32 ∧
      ptr.offset + clipTranslation.count *
        (clipTranslation.getNumComponents * clipTranslation.getNumBytesForComponentType) ≤
        [0, 0, 0, 0, 0, 0, 128, 63, 0, 0, 0, 0, 0, 0, 0, 0, 0, 0, 0, 0,
         0, 0, 128, 63, 0, 0, 0, 0, 0, 0, 0, 0].length ∧
      (clipTranslation.componentType = 5126 →
        ∃ floats, readFloats ptr (clipTranslation.count * clipTranslation.getNumComponents) =
          .ok floats ∧
          floats.length = clipTranslation.count * clipTranslation.getNumComponents) :=
  getDataPtr_range_in_view clipFile clipTranslation
    { buffer := some "b", byteOffset := 0, byteLength := 32, target := 34962 }
    { data := some [0, 0, 0, 0, 0, 0, 128, 63, 0, 0, 0, 0, 0, 0, 0, 0, 0, 0, 0, 0,
                    0, 0, 128, 63, 0, 0, 0, 0, 0, 0, 0, 0], byteLength := 32 }
    [0, 0, 0, 0, 0, 0, 128, 63, 0, 0, 0, 0, 0, 0, 0, 0, 0, 0, 0, 0,
     0, 0, 128, 63, 0, 0, 0, 0, 0, 0, 0, 0]
    (by decide) (by decide) rfl (by decide) (by decide) (by decide)


/-- C20. After `load`, whatever the order of the categories in the manifest: a declared
accessor is stored as decoded, its `bufferView` reference is the key the manifest gives,
and when that key is declared among `bufferViews` the reference resolves to the entry that
holds the decoded declaration; likewise a buffer view and its buffer; a declared animation
is stored as decoded, each channel the decoder appended targets the key `target.id`, and
every channel target, parameter accessor and time accessor whose key is declared resolves
to the entry that holds the decoded declaration (for a node: up to the `parent` and
`children` written by the linking walk); likewise a scene and its nodes. -/
theorem load_references_resolve (host : Host) (mExtensions : List String) (mGltfTree : Json)
    (depth : Nat) (file0 file : File)
    (hload : load host mExtensions mGltfTree depth file0 = .ok file) :
    (∀ a info, declared mGltfTree "accessors" a = some info →
      ∃ acc b, decodeAccessor host info = .ok acc ∧ file.mAccessors.find a = some acc ∧
        memberString info "bufferView" = .ok b ∧ acc.bufferView = some b ∧
        ∀ vinfo, declared mGltfTree "bufferViews" b = some vinfo →
          ∃ view, deref file.mBufferViews acc.bufferView = .ok view ∧
            decodeBufferView host vinfo = .ok view) ∧
    (∀ v vinfo, declared mGltfTree "bufferViews" v = some vinfo →
      ∃ view b, decodeBufferView host vinfo = .ok view ∧
        file.mBufferViews.find v = some view ∧
        memberString vinfo "buffer" = .ok b ∧ view.buffer = some b ∧
        ∀ binfo, declared mGltfTree "buffers" b = some binfo →
          ∃ buffer, deref file.mBuffers view.buffer = .ok buffer ∧
            decodeBuffer host b binfo = .ok buffer) ∧
    (∀ an info, declared mGltfTree "animations" an = some info →
      ∃ d, decodeAnimation host info = .ok d ∧ file.mAnimations.find an = some d.ret ∧
        (∀ ch ∈ d.ret.channels,
          ch ∈ host.defaults.animation.channels ∨ ch.target = some ch.targetId) ∧
        (∀ ch ∈ d.ret.channels, ∀ k ninfo, ch.target = some k →
          declared mGltfTree "nodes" k = some ninfo →
          ∃ dn node, decodeNode host ninfo = .ok dn ∧
            deref file.mNodes ch.target = .ok node ∧
            node = { dn.ret with parent := node.parent, children := node.children }) ∧
        (∀ p ∈ d.ret.parameters, ∀ k ainfo, p.accessor = some k →
          declared mGltfTree "accessors" k = some ainfo →
          ∃ acc, deref file.mAccessors p.accessor = .ok acc ∧
            decodeAccessor host ainfo = .ok acc) ∧
        (∀ k ainfo, d.ret.timeAccessor = some k →
          declared mGltfTree "accessors" k = some ainfo →
          ∃ acc, deref file.mAccessors d.ret.timeAccessor = .ok acc ∧
            decodeAccessor host ainfo = .ok acc)) ∧
    (∀ s sinfo, declared mGltfTree "scenes" s = some sinfo →
      ∃ scene, decodeScene host sinfo = .ok scene ∧ file.mScenes.find s = some scene ∧
        ∀ k ∈ scene.nodes, ∀ ninfo, declared mGltfTree "nodes" k = some ninfo →
          ∃ dn node, decodeNode host ninfo = .ok dn ∧
            deref file.mNodes (some k) = .ok node ∧
            node = { dn.ret with parent := node.parent, children := node.children }) := by
  obtain ⟨f1, tr, hf1, hfile⟩ := load_eq_ok hload
  have hA : file.mAccessors = f1.mAccessors := by rw [hfile]
  have hV : file.mBufferViews = f1.mBufferViews := by rw [hfile]
  have hB : file.mBuffers = f1.mBuffers := by rw [hfile]
  have hM : file.mAnimations = f1.mAnimations := by rw [hfile]
  have hS : file.mScenes = f1.mScenes := by rw [hfile]
  refine ⟨?_, ?_, ?_, ?_⟩
  · intro a info hdecl
    obtain ⟨acc, hacc, hfind⟩ := decodeManifest_accessors hf1 hdecl
    obtain ⟨b, hb, href⟩ := decodeAccessor_bufferView hacc
    refine ⟨acc, b, hacc, by rw [hA]; exact hfind, hb, href, ?_⟩
    intro vinfo hv
    obtain ⟨view, hview, hvfind⟩ := decodeManifest_bufferViews hf1 hv
    exact ⟨view, by rw [href, hV]; exact deref_some hvfind, hview⟩
  · intro v vinfo hdecl
    obtain ⟨view, hview, hfind⟩ := decodeManifest_bufferViews hf1 hdecl
    obtain ⟨b, hb, href⟩ := decodeBufferView_buffer hview
    refine ⟨view, b, hview, by rw [hV]; exact hfind, hb, href, ?_⟩
    intro binfo hbd
    obtain ⟨buffer, hbuffer, hbfind⟩ := decodeManifest_buffers hf1 hbd
    exact ⟨buffer, by rw [href, hB]; exact deref_some hbfind, hbuffer⟩
  · intro an info hdecl
    obtain ⟨d, hd, hfind⟩ := decodeManifest_animations hf1 hdecl
    refine ⟨d, hd, by rw [hM]; exact hfind, decodeAnimation_channels hd, ?_, ?_, ?_⟩
    · intro ch _ k ninfo hk hn
      obtain ⟨dn, node, hdn, hnode, hrest⟩ := load_nodes hload hn
      exact ⟨dn, node, hdn, by rw [hk]; exact deref_some hnode, hrest⟩
    · intro p _ k ainfo hk ha
      obtain ⟨acc, hacc, hafind⟩ := decodeManifest_accessors hf1 ha
      exact ⟨acc, by rw [hk, hA]; exact deref_some hafind, hacc⟩
    · intro k ainfo hk ha
      obtain ⟨acc, hacc, hafind⟩ := decodeManifest_accessors hf1 ha
      exact ⟨acc, by rw [hk, hA]; exact deref_some hafind, hacc⟩
  · intro s sinfo hdecl
    obtain ⟨scene, hscene, hfind⟩ := decodeManifest_scenes hf1 hdecl
    refine ⟨scene, hscene, by rw [hS]; exact hfind, ?_⟩
    intro k _ ninfo hn
    obtain ⟨dn, node, hdn, hnode, hrest⟩ := load_nodes hload hn
    exact ⟨dn, node, hdn, deref_some hnode, hrest⟩

set_option maxRecDepth 20000 in
/-- Witness of C20 on `crossManifest`, whose accessor `a` is decoded before the buffer view
`v` it names and whose animation `an` is decoded before the node `n` it targets: the load
returns `crossLoaded`. -/
theorem load_references_resolve_witness :
    load plainHost [] crossManifest 2 emptyFile = .ok crossLoaded ∧
    ((∀ a info, declared crossManifest "accessors" a = some info →
       ∃ acc b, decodeAccessor plainHost info = .ok acc ∧
         crossLoaded.mAccessors.find a = some acc ∧
         memberString info "bufferView" = .ok b ∧ acc.bufferView = some b ∧
         ∀ vinfo, declared crossManifest "bufferViews" b = some vinfo →
           ∃ view, deref crossLoaded.mBufferViews acc.bufferView = .ok view ∧
             decodeBufferView plainHost vinfo = .ok view) ∧
     (∀ v vinfo, declared crossManifest "bufferViews" v = some vinfo →
       ∃ view b, decodeBufferView plainHost vinfo = .ok view ∧
         crossLoaded.mBufferViews.find v = some view ∧
         memberString vinfo "buffer" = .ok b ∧ view.buffer = some b ∧
         ∀ binfo, declared crossManifest "buffers" b = some binfo →
           ∃ buffer, deref crossLoaded.mBuffers view.buffer = .ok buffer ∧
             decodeBuffer plainHost b binfo = .ok buffer) ∧
     (∀ an info, declared crossManifest "animations" an = some info →
       ∃ d, decodeAnimation plainHost info = .ok d ∧
         crossLoaded.mAnimations.find an = some d.ret ∧
         (∀ ch ∈ d.ret.channels,
           ch ∈ plainHost.defaults.animation.channels ∨ ch.target = some ch.targetId) ∧
         (∀ ch ∈ d.ret.channels, ∀ k ninfo, ch.target = some k →
           declared crossManifest "nodes" k = some ninfo →
           ∃ dn node, decodeNode plainHost ninfo = .ok dn ∧
             deref crossLoaded.mNodes ch.target = .ok node ∧
             node = { dn.ret with parent := node.parent, children := node.children }) ∧
         (∀ p ∈ d.ret.parameters, ∀ k ainfo, p.accessor = some k →
           declared crossManifest "accessors" k = some ainfo →
           ∃ acc, deref crossLoaded.mAccessors p.accessor = .ok acc ∧
             decodeAccessor plainHost ainfo = .ok acc) ∧
         (∀ k ainfo, d.ret.timeAccessor = some k →
           declared crossManifest "accessors" k = some ainfo →
           ∃ acc, deref crossLoaded.mAccessors d.ret.timeAccessor = .ok acc ∧
             decodeAccessor plainHost ainfo = .ok acc)) ∧
     (∀ s sinfo, declared crossManifest "scenes" s = some sinfo →
       ∃ scene, decodeScene plainHost sinfo = .ok scene ∧
         crossLoaded.mScenes.find s = some scene ∧
         ∀ k ∈ scene.nodes, ∀ ninfo, declared crossManifest "nodes" k = some ninfo →
           ∃ dn node, decodeNode plainHost ninfo = .ok dn ∧
             deref crossLoaded.mNodes (some k) = .ok node ∧
             node = { dn.ret with parent := node.parent, children := node.children })) :=
  ⟨by decide,
    load_references_resolve plainHost [] crossManifest 2 emptyFile crossLoaded (by decide)⟩


/-- C21. For a registry of any entity kind, a key `k` and a value `v`: after
`add( k, v )` the lookup of `k` returns `v`, whether or not `k` had an entry before, and
the lookup of every other key returns what it returned before. The same on a `File` for
the accessors and the nodes. -/
theorem add_then_getInfo {α : Type} (reg : Registry α) (file : File) (k : String) (v : α)
    (accessor : Accessor) (node : Node) :
    ((reg.set k v).getInfo k = .ok v ∧
      ∀ k1, k1 ≠ k → (reg.set k v).getInfo k1 = reg.getInfo k1) ∧
    ((file.addAccessor k accessor).getAccessorInfo k = .ok accessor ∧
      ∀ k1, k1 ≠ k →
        (file.addAccessor k accessor).getAccessorInfo k1 = file.getAccessorInfo k1) ∧
    ((file.addNode k node).getNodeInfo k = .ok node ∧
      ∀ k1, k1 ≠ k → (file.addNode k node).getNodeInfo k1 = file.getNodeInfo k1) := by
  refine ⟨⟨?_, ?_⟩, ⟨?_, ?_⟩, ⟨?_, ?_⟩⟩
  · simp [Registry.getInfo, Registry.find_set_self]
  · intro k1 h
    simp [Registry.getInfo, Registry.find_set_of_ne reg v (Ne.symm h)]
  · simp [File.getAccessorInfo, File.addAccessor, Registry.getInfo, Registry.find_set_self]
  · intro k1 h
    simp [File.getAccessorInfo, File.addAccessor, Registry.getInfo,
      Registry.find_set_of_ne file.mAccessors accessor (Ne.symm h)]
  · simp [File.getNodeInfo, File.addNode, Registry.getInfo, Registry.find_set_self]
  · intro k1 h
    simp [File.getNodeInfo, File.addNode, Registry.getInfo,
      Registry.find_set_of_ne file.mNodes node (Ne.symm h)]

/-- Witness of C21 on `clipFile`: the accessor stored under `time` is replaced, the one
under `trans` stays. -/
theorem add_then_getInfo_witness :
    (clipFile.addAccessor "time" clipTranslation).getAccessorInfo "time" = .ok clipTranslation ∧
    (clipFile.addAccessor "time" clipTranslation).getAccessorInfo "trans" =
      clipFile.getAccessorInfo "trans" ∧
    clipFile.getAccessorInfo "time" = .ok clipTime ∧
    (clipFile.addAccessor "fresh" clipTime).getAccessorInfo "fresh" = .ok clipTime :=
  ⟨(add_then_getInfo clipFile.mAccessors clipFile "time" clipTranslation clipTranslation
      {}).2.1.1,
    (add_then_getInfo clipFile.mAccessors clipFile "time" clipTranslation clipTranslation
      {}).2.1.2 "trans" (by decide),
    by decide,
    (add_then_getInfo clipFile.mAccessors clipFile "fresh" clipTime clipTime {}).2.1.1⟩

/-- C22 fails on the code: the lookup of a key without an entry raises no error. On the
empty registry `getAccessorInfo( "a" )` dereferences `end()`. -/
theorem getAccessorInfo_absent_undefined :
    emptyFile.getAccessorInfo "a" = .undefined ∧ emptyFile.getAccessorInfo "a" ≠ .thrown ∧
    emptyFile.getNodeInfo "a" = .undefined ∧ emptyFile.getNodeInfo "a" ≠ .thrown :=
  ⟨by decide, by decide, by decide, by decide⟩

/-- C22, amended. The lookups compare nothing with `end()`: for a key that is not present
in the registry the lookup dereferences `end()`, which is undefined behaviour, and reports
no error; for a key that is present it returns the stored entity. -/
theorem getInfo_absent {α : Type} (reg : Registry α) (file : File) (k : String)
    (habsent : reg.find k = none) :
    reg.getInfo k = .undefined ∧
    (∀ k1 entity, reg.find k1 = some entity → reg.getInfo k1 = .ok entity) ∧
    (file.mAccessors.find k = none → file.getAccessorInfo k = .undefined) ∧
    (file.mNodes.find k = none → file.getNodeInfo k = .undefined) ∧
    (file.mBufferViews.find k = none → file.getBufferViewInfo k = .undefined) ∧
    (file.mBuffers.find k = none → file.getBufferInfo k = .undefined) ∧
    (file.mAnimations.find k = none → file.getAnimationInfo k = .undefined) ∧
    (file.mScenes.find k = none → file.getSceneInfo k = .undefined) ∧
    (file.mCameras.find k = none → file.getCameraInfo k = .undefined) := by
  refine ⟨by simp [Registry.getInfo, habsent], ?_, ?_, ?_, ?_, ?_, ?_, ?_, ?_⟩
  · intro k1 entity h
    simp [Registry.getInfo, h]
  · intro h; simp [File.getAccessorInfo, Registry.getInfo, h]
  · intro h; simp [File.getNodeInfo, Registry.getInfo, h]
  · intro h; simp [File.getBufferViewInfo, Registry.getInfo, h]
  · intro h; simp [File.getBufferInfo, Registry.getInfo, h]
  · intro h; simp [File.getAnimationInfo, Registry.getInfo, h]
  · intro h; simp [File.getSceneInfo, Registry.getInfo, h]
  · intro h; simp [File.getCameraInfo, Registry.getInfo, h]

/-- Witness of the amended C22 on `clipFile`, which has no accessor `ghost`. -/
theorem getInfo_absent_witness :
    clipFile.mAccessors.getInfo "ghost" = .undefined ∧
    clipFile.getAccessorInfo "ghost" = .undefined ∧
    clipFile.getAccessorInfo "time" = .ok clipTime :=
  ⟨(getInfo_absent clipFile.mAccessors clipFile "ghost" (by decide)).1,
    (getInfo_absent clipFile.mAccessors clipFile "ghost" (by decide)).2.2.1 (by decide),
    by decide⟩


/-- C25 fails on the code: `verifyFile` does not look at the magic. The container
`badMagicGlb`, whose first four bytes are zero, is split like a well-formed one. -/
theorem verifyFile_accepts_bad_magic :
    badMagicGlb.extension = ".glb" ∧ badMagicGlb.buffer.take 4 ≠ [103, 108, 84, 70] ∧
    verifyFile badMagicGlb = .ok { gltfJson := [123, 125], mBuffer := some [1, 2, 3, 4] } :=
  ⟨by decide, by decide, by decide⟩

/-- C25, amended. `verifyFile` never compares the first four bytes of a `.glb` input with
`glTF` and has no `MalformedContainer` failure: its outcome and result are the same
whatever four bytes stand in the place of the magic. -/
theorem verifyFile_ignores_magic (data : DataSource) (magic : List Nat)
    (hext : data.extension = ".glb") (hmagic : magic.length = 4)
    (hlen : 4 ≤ data.buffer.length) :
    verifyFile { data with buffer := magic ++ data.buffer.drop 4 } = verifyFile data := by
  have hlength : (magic ++ data.buffer.drop 4).length = data.buffer.length := by
    simp only [List.length_append, List.length_drop, hmagic]
    omega
  have h8 := readU32_append_drop magic data.buffer 8 hmagic (by omega)
  have h12 := readU32_append_drop magic data.buffer 12 hmagic (by omega)
  have hr : ∀ off n, 4 ≤ off →
      readBytes (magic ++ data.buffer.drop 4) off n = readBytes data.buffer off n :=
    fun off n hoff => readBytes_append_drop magic data.buffer off n hmagic hlen hoff
  unfold verifyFile
  simp only [hext, if_true, hlength, readHeader, h8, h12]
  rw [hr sizeofBinaryHeader _ (by unfold sizeofBinaryHeader; omega),
    hr (sizeofBinaryHeader + readU32 data.buffer 12) _ (by unfold sizeofBinaryHeader; omega)]

/-- Witness of the amended C25: `badMagicGlb` is `sampleGlb` with another magic, and both
give the same result. -/
theorem verifyFile_ignores_magic_witness :
    verifyFile { sampleGlb with buffer := [0, 0, 0, 0] ++ sampleGlb.buffer.drop 4 } =
      verifyFile sampleGlb :=
  verifyFile_ignores_magic sampleGlb [0, 0, 0, 0] (by decide) (by decide) (by decide)

/-- C26 fails on the code: `verifyFile` compares no length with the size of the file and
has no `TruncatedContainer` failure. On `truncatedGlb` (manifest length beyond the end) and
on `shortLengthGlb` (length below header plus manifest) the copies read past the end of
the file. -/
theorem verifyFile_reads_past_end :
    truncatedGlb.extension = ".glb" ∧
    truncatedGlb.buffer.length < 20 + (readHeader truncatedGlb.buffer).sceneLength ∧
    verifyFile truncatedGlb = .undefined ∧ verifyFile truncatedGlb ≠ .thrown ∧
    (readHeader shortLengthGlb.buffer).length <
      (readHeader shortLengthGlb.buffer).sceneLength + 20 ∧
    verifyFile shortLengthGlb = .undefined ∧ verifyFile shortLengthGlb ≠ .thrown :=
  ⟨by decide, by decide, by decide, by decide, by decide, by decide, by decide⟩

/-- C26, amended. `verifyFile` checks no bound. For a `.glb` input in which the file is
shorter than the header, or `20 + sceneLength` or the header's `length` exceeds the file
size, or `length < sceneLength + 20` (the file being smaller than 4 GiB), one of its two
copies reads past the end of the file: undefined behaviour, and no error is reported. -/
theorem verifyFile_truncated (data : DataSource) (hext : data.extension = ".glb")
    (h : data.buffer.length < 20 ∨
      data.buffer.length < 20 + (readHeader data.buffer).sceneLength ∨
      data.buffer.length < (readHeader data.buffer).length ∨
      ((readHeader data.buffer).length < (readHeader data.buffer).sceneLength + 20 ∧
        data.buffer.length < 2 ^ 32)) :
    verifyFile data = .undefined := by
  have hL : (readHeader data.buffer).length < 2 ^ 32 := readU32_lt _ _
  have hS0 : (readHeader data.buffer).sceneLength < 2 ^ 32 := readU32_lt _ _
  generalize hS : (readHeader data.buffer).sceneLength = S at *
  generalize hLe : (readHeader data.buffer).length = L at *
  unfold verifyFile
  simp only [hext, if_true, hS, hLe]
  by_cases h20 : sizeofBinaryHeader ≤ data.buffer.length
  · rw [if_pos h20]
    unfold sizeofBinaryHeader at h20 ⊢
    by_cases hscene : 20 + S ≤ data.buffer.length
    · rw [readBytes_ok hscene, Outcome.bind_ok]
      have hover : ¬ (20 + S + ((L + 2 ^ 32 - S) % 2 ^ 32 + 2 ^ 64 - 20) % 2 ^ 64
          ≤ data.buffer.length) := by
        omega
      simp only [readBytes, hover, if_false]
      rfl
    · simp only [readBytes, hscene, if_false]
      rfl
  · rw [if_neg h20]

/-- Witness of the amended C26 on `truncatedGlb`. -/
theorem verifyFile_truncated_witness : verifyFile truncatedGlb = .undefined :=
  verifyFile_truncated truncatedGlb (by decide) (Or.inr (Or.inl (by decide)))


/-- C27. A node without a `jointName` in the skin's joint list keeps `createSkeleton` from
producing a skeleton. The failure is the assertion on the joint name: when the matrices
accessor resolves, the joints before the first such node are ready and the parent of that
node resolves (it is looked up before the assertion), the call ends in the failed
assertion. -/
theorem createSkeleton_empty_jointName (file : File) (skin : Skin) :
    ((∃ key ∈ skin.joints, ∃ node, file.mNodes.find key = some node ∧ node.jointName = "") →
      (skin.createSkeleton file).isOk = false) ∧
    (∀ (acc : Accessor) (ptr : DataPtr) (before after : List String) (key : String)
      (node : Node),
      deref file.mAccessors skin.inverseBindMatrices = .ok acc →
      acc.getDataPtr file = .ok ptr →
      skin.joints = before ++ key :: after → skin.joints.length < 2 ^ 31 →
      jointsReady file ptr before 0 = true →
      file.mNodes.find key = some node → node.jointName = "" →
      (before ≠ [] → (deref file.mNodes node.parent).isOk = true) →
      skin.createSkeleton file = .assertFailed) := by
  constructor
  · rintro ⟨key, hkey, node, hfind, hname⟩
    cases h : skin.createSkeleton file with
    | ok skel =>
      obtain ⟨_, _, _, _, hall⟩ := createSkeleton_eq_ok h
      obtain ⟨k, hk⟩ := List.mem_iff_getElem?.mp hkey
      obtain ⟨joint, hjoint, hne, _⟩ := hall k key hk
      rw [hfind] at hjoint
      cases hjoint
      exact absurd hname hne
    | _ => rfl
  · intro acc ptr before after key node hacc hptr hjoints hlen hready hfind hname hparent
    unfold Skin.createSkeleton
    rw [hacc, Outcome.bind_ok, hptr, Outcome.bind_ok]
    simp only
    rw [if_neg (by omega), hjoints]
    exact createSkeletonLoop_assert file ptr key after node hfind hname before 0 [] [] hready
      (fun h => hparent (by
        intro hnil
        rw [hnil] at h
        exact h rfl))

set_option maxRecDepth 20000 in
/-- Witness of C27 on `namelessFile`, whose joint `j1` has no `jointName`. -/
theorem createSkeleton_empty_jointName_witness :
    (rigSkin.createSkeleton namelessFile).isOk = false ∧
    rigSkin.createSkeleton namelessFile = .assertFailed :=
  ⟨(createSkeleton_empty_jointName namelessFile rigSkin).1
      ⟨"j1", by decide, { parent := some "j0", name := "j1", jointName := "" }, by decide, rfl⟩,
    (createSkeleton_empty_jointName namelessFile rigSkin).2 rigMatrices
      { memory := List.replicate 192 0, offset := 0 } ["j0"] ["j2"] "j1"
      { parent := some "j0", name := "j1", jointName := "" }
      (by decide) (by decide) (by decide) (by decide) (by decide) (by decide) rfl
      (fun _ => by decide)⟩


/-- C29 fails on the code: a node that declares a matrix and a translation is decoded
without the translation, so `getTranslation` returns `(0,0,0)` although `[1,2,3]` is
declared. -/
theorem getTranslation_ignored_with_matrix :
    member matrixNodeInfo "translation" = .ok (.arr [.num 1, .num 2, .num 3]) ∧
    ∃ d, decodeNode plainHost matrixNodeInfo = .ok d ∧
      d.ret.getTranslation = .ok Float3.zero ∧
      d.ret.getTranslation ≠ .ok { x := .int 1, y := .int 2, z := .int 3 } :=
  ⟨rfl, matrixDecoded, rfl, by decide, by decide⟩

/-- C29, amended. For a Node decoded by `addNodeInfo` (the vectors of a default-constructed
Node being empty): when the manifest node has no `matrix` member, `getTransformMatrix`
returns the identity, `getTranslation` returns the three floats of a declared
`translation` and `(0,0,0)` without one, `getRotation` returns the quaternion
`(x,y,z,w)` of the four floats of a declared `rotation` and the identity without one,
`getScale` returns the three floats of a declared `scale` and `(1,1,1)` without one; when
the manifest node has a `matrix` member of sixteen floats, `getTransformMatrix` returns
them in their order (column-major) and the three other getters return their defaults,
whatever else is declared. -/
theorem decoded_node_getters (host : Host) (nodeInfo : Json) (d : DecodedNode)
    (hempty : host.defaults.node.transformMatrix = [] ∧ host.defaults.node.translation = [] ∧
      host.defaults.node.rotation = [] ∧ host.defaults.node.scale = [])
    (hdecode : decodeNode host nodeInfo = .ok d) :
    (member nodeInfo "matrix" = .ok .null →
      d.ret.getTransformMatrix = .ok identityMat4 ∧
      (member nodeInfo "translation" = .ok .null → d.ret.getTranslation = .ok Float3.zero) ∧
      (∀ a b c, member nodeInfo "translation" = .ok (.arr [a, b, c]) →
        ∃ x y z, a.asFloat = some x ∧ b.asFloat = some y ∧ c.asFloat = some z ∧
          d.ret.getTranslation = .ok { x := x, y := y, z := z }) ∧
      (member nodeInfo "rotation" = .ok .null → d.ret.getRotation = .ok Float4.identity) ∧
      (∀ a b c e, member nodeInfo "rotation" = .ok (.arr [a, b, c, e]) →
        ∃ x y z w, a.asFloat = some x ∧ b.asFloat = some y ∧ c.asFloat = some z ∧
          e.asFloat = some w ∧ d.ret.getRotation = .ok { x := x, y := y, z := z, w := w }) ∧
      (member nodeInfo "scale" = .ok .null → d.ret.getScale = .ok Float3.one) ∧
      (∀ a b c, member nodeInfo "scale" = .ok (.arr [a, b, c]) →
        ∃ x y z, a.asFloat = some x ∧ b.asFloat = some y ∧ c.asFloat = some z ∧
          d.ret.getScale = .ok { x := x, y := y, z := z })) ∧
    (∀ entries, member nodeInfo "matrix" = .ok (.arr entries) → entries.length = 16 →
      ∃ floats, collectFloats entries = .ok floats ∧
        d.ret.getTransformMatrix = .ok floats ∧
        d.ret.getTranslation = .ok Float3.zero ∧
        d.ret.getRotation = .ok Float4.identity ∧
        d.ret.getScale = .ok Float3.one) := by
  obtain ⟨hm0, ht0, hr0, hs0⟩ := hempty
  obtain ⟨r1, hr1, em, et, er, es⟩ := decodeNode_transform hdecode
  obtain ⟨matrix, hmatrix, hcase⟩ := decodeTransform_eq_ok hr1
  constructor
  · intro hnull
    rw [hnull] at hmatrix
    cases hmatrix
    rcases hcase with ⟨hn, _⟩ | ⟨_, hm, ht, hr, hs⟩
    · cases hn
    rw [hm0] at hm
    rw [ht0] at ht
    rw [hr0] at hr
    rw [hs0] at hs
    refine ⟨by simp [Node.getTransformMatrix, em, hm], ?_, ?_, ?_, ?_, ?_, ?_⟩
    · intro hdecl
      obtain ⟨array, harray, hc⟩ := memberFloats_eq_ok ht
      rw [hdecl] at harray
      cases harray
      rcases hc with ⟨_, hout⟩ | ⟨hn, _⟩
      · simp [Node.getTranslation, et, hout]
      · cases hn
    · intro a b c hdecl
      obtain ⟨array, harray, hc⟩ := memberFloats_eq_ok ht
      rw [hdecl] at harray
      cases harray
      rcases hc with ⟨hn, _⟩ | ⟨_, xs, hxs, hout⟩
      · cases hn
      · simp only [Json.elements, collectFloats] at hxs
        obtain ⟨x, hx, hxs⟩ := Outcome.bind_eq_ok.mp hxs
        obtain ⟨ys, hys, hxs⟩ := Outcome.bind_eq_ok.mp hxs
        obtain ⟨y, hy, hys⟩ := Outcome.bind_eq_ok.mp hys
        obtain ⟨zs, hzs, hys⟩ := Outcome.bind_eq_ok.mp hys
        obtain ⟨z, hz, hzs⟩ := Outcome.bind_eq_ok.mp hzs
        obtain ⟨ws, hws, hzs⟩ := Outcome.bind_eq_ok.mp hzs
        cases hws
        cases hzs
        cases hys
        cases hxs
        refine ⟨x, y, z, Outcome.ofJson_eq_ok.mp hx, Outcome.ofJson_eq_ok.mp hy,
          Outcome.ofJson_eq_ok.mp hz, ?_⟩
        simp [Node.getTranslation, et, hout, makeVec3]
    · intro hdecl
      obtain ⟨array, harray, hc⟩ := memberFloats_eq_ok hr
      rw [hdecl] at harray
      cases harray
      rcases hc with ⟨_, hout⟩ | ⟨hn, _⟩
      · simp [Node.getRotation, er, hout]
      · cases hn
    · intro a b c e hdecl
      obtain ⟨array, harray, hc⟩ := memberFloats_eq_ok hr
      rw [hdecl] at harray
      cases harray
      rcases hc with ⟨hn, _⟩ | ⟨_, xs, hxs, hout⟩
      · cases hn
      · simp only [Json.elements, collectFloats] at hxs
        obtain ⟨x, hx, hxs⟩ := Outcome.bind_eq_ok.mp hxs
        obtain ⟨ys, hys, hxs⟩ := Outcome.bind_eq_ok.mp hxs
        obtain ⟨y, hy, hys⟩ := Outcome.bind_eq_ok.mp hys
        obtain ⟨zs, hzs, hys⟩ := Outcome.bind_eq_ok.mp hys
        obtain ⟨z, hz, hzs⟩ := Outcome.bind_eq_ok.mp hzs
        obtain ⟨ws, hws, hzs⟩ := Outcome.bind_eq_ok.mp hzs
        obtain ⟨w, hw, hws⟩ := Outcome.bind_eq_ok.mp hws
        obtain ⟨vs, hvs, hws⟩ := Outcome.bind_eq_ok.mp hws
        cases hvs
        cases hws
        cases hzs
        cases hys
        cases hxs
        refine ⟨x, y, z, w, Outcome.ofJson_eq_ok.mp hx, Outcome.ofJson_eq_ok.mp hy,
          Outcome.ofJson_eq_ok.mp hz, Outcome.ofJson_eq_ok.mp hw, ?_⟩
        simp [Node.getRotation, er, hout, makeQuat]
    · intro hdecl
      obtain ⟨array, harray, hc⟩ := memberFloats_eq_ok hs
      rw [hdecl] at harray
      cases harray
      rcases hc with ⟨_, hout⟩ | ⟨hn, _⟩
      · simp [Node.getScale, es, hout]
      · cases hn
    · intro a b c hdecl
      obtain ⟨array, harray, hc⟩ := memberFloats_eq_ok hs
      rw [hdecl] at harray
      cases harray
      rcases hc with ⟨hn, _⟩ | ⟨_, xs, hxs, hout⟩
      · cases hn
      · simp only [Json.elements, collectFloats] at hxs
        obtain ⟨x, hx, hxs⟩ := Outcome.bind_eq_ok.mp hxs
        obtain ⟨ys, hys, hxs⟩ := Outcome.bind_eq_ok.mp hxs
        obtain ⟨y, hy, hys⟩ := Outcome.bind_eq_ok.mp hys
        obtain ⟨zs, hzs, hys⟩ := Outcome.bind_eq_ok.mp hys
        obtain ⟨z, hz, hzs⟩ := Outcome.bind_eq_ok.mp hzs
        obtain ⟨ws, hws, hzs⟩ := Outcome.bind_eq_ok.mp hzs
        cases hws
        cases hzs
        cases hys
        cases hxs
        refine ⟨x, y, z, Outcome.ofJson_eq_ok.mp hx, Outcome.ofJson_eq_ok.mp hy,
          Outcome.ofJson_eq_ok.mp hz, ?_⟩
        simp [Node.getScale, es, hout, makeVec3]
  · intro entries hdecl hlen
    rw [hdecl] at hmatrix
    cases hmatrix
    rcases hcase with ⟨_, xs, hxs, hm, ht, hr, hs⟩ | ⟨hn, _⟩
    swap
    · cases hn
    rw [hm0] at hm
    rw [ht0] at ht
    rw [hr0] at hr
    rw [hs0] at hs
    simp only [Json.elements] at hxs
    have hxl : xs.length = 16 := by rw [collectFloats_length _ _ hxs, hlen]
    have hne : xs ≠ [] := by
      intro e
      rw [e] at hxl
      cases hxl
    refine ⟨xs, hxs, ?_, by simp [Node.getTranslation, et, ht],
      by simp [Node.getRotation, er, hr], by simp [Node.getScale, es, hs]⟩
    simp only [Node.getTransformMatrix, em, hm, List.nil_append, makeMat4, hxl]
    simp [hne, ← hxl]

/-- Witness of the amended C29 on `trsNodeInfo`: translation `(1,2,3)`, rotation
`(0,0,0,1)`, scale `(2,2,2)`, and the identity matrix because no matrix is declared. -/
theorem decoded_node_getters_witness :
    (decodeNode plainHost trsNodeInfo = .ok trsDecoded ∧
      trsDecoded.ret.getTranslation = .ok { x := .int 1, y := .int 2, z := .int 3 } ∧
      trsDecoded.ret.getRotation =
        .ok { x := .int 0, y := .int 0, z := .int 0, w := .int 1 } ∧
      trsDecoded.ret.getScale = .ok { x := .int 2, y := .int 2, z := .int 2 } ∧
      trsDecoded.ret.getTransformMatrix = .ok identityMat4) ∧
    ((member trsNodeInfo "matrix" = .ok .null →
       trsDecoded.ret.getTransformMatrix = .ok identityMat4 ∧
       (member trsNodeInfo "translation" = .ok .null →
         trsDecoded.ret.getTranslation = .ok Float3.zero) ∧
       (∀ a b c, member trsNodeInfo "translation" = .ok (.arr [a, b, c]) →
         ∃ x y z, a.asFloat = some x ∧ b.asFloat = some y ∧ c.asFloat = some z ∧
           trsDecoded.ret.getTranslation = .ok { x := x, y := y, z := z }) ∧
       (member trsNodeInfo "rotation" = .ok .null →
         trsDecoded.ret.getRotation = .ok Float4.identity) ∧
       (∀ a b c e, member trsNodeInfo "rotation" = .ok (.arr [a, b, c, e]) →
         ∃ x y z w, a.asFloat = some x ∧ b.asFloat = some y ∧ c.asFloat = some z ∧
           e.asFloat = some w ∧
           trsDecoded.ret.getRotation = .ok { x := x, y := y, z := z, w := w }) ∧
       (member trsNodeInfo "scale" = .ok .null → trsDecoded.ret.getScale = .ok Float3.one) ∧
       (∀ a b c, member trsNodeInfo "scale" = .ok (.arr [a, b, c]) →
         ∃ x y z, a.asFloat = some x ∧ b.asFloat = some y ∧ c.asFloat = some z ∧
           trsDecoded.ret.getScale = .ok { x := x, y := y, z := z })) ∧
     (∀ entries, member trsNodeInfo "matrix" = .ok (.arr entries) → entries.length = 16 →
       ∃ floats, collectFloats entries = .ok floats ∧
         trsDecoded.ret.getTransformMatrix = .ok floats ∧
         trsDecoded.ret.getTranslation = .ok Float3.zero ∧
         trsDecoded.ret.getRotation = .ok Float4.identity ∧
         trsDecoded.ret.getScale = .ok Float3.one)) :=
  ⟨⟨rfl, by decide, by decide, by decide, by decide⟩,
    decoded_node_getters plainHost trsNodeInfo trsDecoded ⟨rfl, rfl, rfl, rfl⟩ rfl⟩

/-- C30. For every manifest node, the Node produced by `addNodeInfo` (the vectors of a
default-constructed Node being empty) never has both transform variants populated: if its
`transformMatrix` is not empty then `translation`, `rotation` and `scale` are empty, and
if one of these three is not empty then `transformMatrix` is empty; a manifest node with a
`matrix` member leaves the three empty whatever else it declares. -/
theorem decoded_node_one_variant (host : Host) (nodeInfo : Json) (d : DecodedNode)
    (hempty : host.defaults.node.transformMatrix = [] ∧ host.defaults.node.translation = [] ∧
      host.defaults.node.rotation = [] ∧ host.defaults.node.scale = [])
    (hdecode : decodeNode host nodeInfo = .ok d) :
    (d.ret.transformMatrix ≠ [] →
      d.ret.translation = [] ∧ d.ret.rotation = [] ∧ d.ret.scale = []) ∧
    (d.ret.translation ≠ [] ∨ d.ret.rotation ≠ [] ∨ d.ret.scale ≠ [] →
      d.ret.transformMatrix = []) ∧
    (∀ matrix, member nodeInfo "matrix" = .ok matrix → matrix.isNull = false →
      d.ret.translation = [] ∧ d.ret.rotation = [] ∧ d.ret.scale = []) := by
  obtain ⟨hm0, ht0, hr0, hs0⟩ := hempty
  obtain ⟨r1, hr1, em, et, er, es⟩ := decodeNode_transform hdecode
  obtain ⟨matrix, hmatrix, hcase⟩ := decodeTransform_eq_ok hr1
  rcases hcase with ⟨hn, xs, _, _, ht, hr, hs⟩ | ⟨hn, hm, _, _, _⟩
  · have hall : d.ret.translation = [] ∧ d.ret.rotation = [] ∧ d.ret.scale = [] :=
      ⟨by rw [et, ht, ht0], by rw [er, hr, hr0], by rw [es, hs, hs0]⟩
    refine ⟨fun _ => hall, ?_, fun _ _ _ => hall⟩
    rintro (h | h | h)
    · exact absurd hall.1 h
    · exact absurd hall.2.1 h
    · exact absurd hall.2.2 h
  · have hmat : d.ret.transformMatrix = [] := by rw [em, hm, hm0]
    refine ⟨fun h => absurd hmat h, fun _ => hmat, ?_⟩
    intro matrix1 hm1 hnull
    rw [hmatrix] at hm1
    cases hm1
    rw [hn] at hnull
    cases hnull

/-- Witness of C30 on `matrixNodeInfo`, which declares a matrix and a translation: the
decoded node holds the matrix and no translation. -/
theorem decoded_node_one_variant_witness :
    (decodeNode plainHost matrixNodeInfo = .ok matrixDecoded ∧
      matrixDecoded.ret.transformMatrix ≠ [] ∧ matrixDecoded.ret.translation = []) ∧
    ((matrixDecoded.ret.transformMatrix ≠ [] →
        matrixDecoded.ret.translation = [] ∧ matrixDecoded.ret.rotation = [] ∧
          matrixDecoded.ret.scale = []) ∧
      (matrixDecoded.ret.translation ≠ [] ∨ matrixDecoded.ret.rotation ≠ [] ∨
          matrixDecoded.ret.scale ≠ [] →
        matrixDecoded.ret.transformMatrix = []) ∧
      (∀ matrix, member matrixNodeInfo "matrix" = .ok matrix → matrix.isNull = false →
        matrixDecoded.ret.translation = [] ∧ matrixDecoded.ret.rotation = [] ∧
          matrixDecoded.ret.scale = [])) :=
  ⟨⟨rfl, by decide, by decide⟩,
    decoded_node_one_variant plainHost matrixNodeInfo matrixDecoded ⟨rfl, rfl, rfl, rfl⟩ rfl⟩


/-- C28. For a camera key present in the registry: `getOrthoCameraByName` returns a
projection if and only if the camera's type is ORTHOGRAPHIC, the projection is then built
from `(-xmag, xmag, -ymag, ymag, znear, zfar)` of that camera, and it throws otherwise;
`getPerspCameraByName` throws if and only if the camera's type is not PERSPECTIVE, and
otherwise configures the projection with the camera's `aspectRatio, yfov, znear, zfar`. -/
theorem camera_by_name (file : File) (name : String) (cam : Camera)
    (hpresent : file.mCameras.find name = some cam) :
    ((file.getOrthoCameraByName name).isOk = true ↔ cam.type = .ORTHOGRAPHIC) ∧
    (cam.type = .ORTHOGRAPHIC →
      file.getOrthoCameraByName name =
        .ok { left := .minus cam.xmag, right := .plus cam.xmag, bottom := .minus cam.ymag,
              top := .plus cam.ymag, nearPlane := .plus cam.znear,
              farPlane := .plus cam.zfar }) ∧
    (cam.type ≠ .ORTHOGRAPHIC → file.getOrthoCameraByName name = .thrown) ∧
    (file.getPerspCameraByName name = .thrown ↔ cam.type ≠ .PERSPECTIVE) ∧
    (cam.type = .PERSPECTIVE →
      file.getPerspCameraByName name =
        .ok { first := cam.aspectRatio, second := cam.yfov, third := cam.znear,
              fourth := cam.zfar }) := by
  have hget : file.getCameraInfo name = .ok cam := by
    simp [File.getCameraInfo, Registry.getInfo, hpresent]
  unfold File.getOrthoCameraByName File.getPerspCameraByName
  rw [hget, Outcome.bind_ok, Outcome.bind_ok]
  cases htype : cam.type <;> simp [Outcome.isOk]

/-- Witness of C28 on `cameraFile`, the cameras loaded from `cameraManifest`: the
orthographic camera `o` gives `(-2, 2, -3, 3, 1, 100)` and no perspective projection, the
perspective camera `p` the reverse. -/
theorem camera_by_name_witness :
    load plainHost [] cameraManifest 1 emptyFile = .ok cameraFile ∧
    cameraFile.getOrthoCameraByName "o" =
      .ok { left := .minus (.int 2), right := .plus (.int 2), bottom := .minus (.int 3),
            top := .plus (.int 3), nearPlane := .plus (.int 1), farPlane := .plus (.int 100) } ∧
    cameraFile.getPerspCameraByName "o" = .thrown ∧
    cameraFile.getOrthoCameraByName "p" = .thrown ∧
    cameraFile.getPerspCameraByName "p" =
      .ok { first := .real "1.5", second := .real "0.66", third := .int 1,
            fourth := .int 100 } :=
  ⟨by decide,
    (camera_by_name cameraFile "o"
      { type := .ORTHOGRAPHIC, xmag := .int 2, ymag := .int 3, znear := .int 1,
        zfar := .int 100 } (by decide)).2.1 rfl,
    (camera_by_name cameraFile "o"
      { type := .ORTHOGRAPHIC, xmag := .int 2, ymag := .int 3, znear := .int 1,
        zfar := .int 100 } (by decide)).2.2.2.1.mpr (by decide),
    (camera_by_name cameraFile "p"
      { type := .PERSPECTIVE, aspectRatio := .real "1.5", yfov := .real "0.66",
        znear := .int 1, zfar := .int 100 } (by decide)).2.2.1 (by decide),
    (camera_by_name cameraFile "p"
      { type := .PERSPECTIVE, aspectRatio := .real "1.5", yfov := .real "0.66",
        znear := .int 1, zfar := .int 100 } (by decide)).2.2.2.2 rfl⟩


/-- C23. After `load`: when the manifest has a top-level `scene` member whose string `k`
is not empty and names a declared scene, `getDefaultScene` returns the scene stored under
`k`, which is the decoded declaration; when the manifest has no `scene` member (the string
being empty when `load` starts) or an empty one, and declares at least one scene,
`getDefaultScene` returns the first scene of the registry in iteration order, again a
decoded declaration; a scene declared with an empty `nodes` list is decoded with an empty
`nodes` list. -/
theorem getDefaultScene_after_load (host : Host) (mExtensions : List String)
    (mGltfTree : Json) (depth : Nat) (file0 file : File)
    (hload : load host mExtensions mGltfTree depth file0 = .ok file) :
    (∀ v k sinfo, sceneEntry mGltfTree = some v → v.asString = some k → k ≠ "" →
      declared mGltfTree "scenes" k = some sinfo →
      ∃ scene, decodeScene host sinfo = .ok scene ∧ file.mScenes.find k = some scene ∧
        file.getDefaultScene = .ok scene) ∧
    ((sceneEntry mGltfTree = none ∧ file0.mDefaultScene = "") ∨
        (∃ v, sceneEntry mGltfTree = some v ∧ v.asString = some "") →
      (∃ s sinfo, declared mGltfTree "scenes" s = some sinfo) →
      ∃ key scene rest, file.mScenes = (key, scene) :: rest ∧
        file.getDefaultScene = .ok scene ∧
        ∀ sinfo, declared mGltfTree "scenes" key = some sinfo →
          decodeScene host sinfo = .ok scene) ∧
    (∀ sinfo scene, decodeScene host sinfo = .ok scene →
      member sinfo "nodes" = .ok (.arr []) → scene.nodes = []) := by
  obtain ⟨f1, tr, hf1, hfile⟩ := load_eq_ok hload
  have hS : file.mScenes = f1.mScenes := by rw [hfile]
  have hD : file.mDefaultScene = f1.mDefaultScene := by rw [hfile]
  obtain ⟨hentry, hnoentry⟩ := decodeManifest_defaultScene hf1
  refine ⟨?_, ?_, ?_⟩
  · intro v k sinfo hv hk hne hdecl
    obtain ⟨scene, hscene, hfind⟩ := decodeManifest_scenes hf1 hdecl
    have hdef : file.mDefaultScene = k := by
      have := hentry v hv
      rw [hk] at this
      rw [hD]
      exact (Option.some.inj this).symm
    refine ⟨scene, hscene, by rw [hS]; exact hfind, ?_⟩
    unfold File.getDefaultScene
    rw [if_pos (by rw [hdef]; exact hne), hdef, hS]
    simp [Registry.getInfo, hfind]
  · intro hcase ⟨s, sinfo, hdecl⟩
    have hdef : file.mDefaultScene = "" := by
      rw [hD]
      rcases hcase with ⟨hnone, h0⟩ | ⟨v, hv, hk⟩
      · rw [hnoentry hnone, h0]
      · have := hentry v hv
        rw [hk] at this
        exact (Option.some.inj this).symm
    obtain ⟨decoded, _, hfind⟩ := decodeManifest_scenes hf1 hdecl
    rw [← hS] at hfind
    cases hlist : file.mScenes with
    | nil =>
      rw [hlist] at hfind
      cases hfind
    | cons e rest =>
      obtain ⟨key, scene⟩ := e
      refine ⟨key, scene, rest, rfl, ?_, ?_⟩
      · unfold File.getDefaultScene
        rw [if_neg (by rw [hdef]; exact fun h => h rfl), hlist]
      · intro sinfo1 hd1
        obtain ⟨scene1, hscene1, hfind1⟩ := decodeManifest_scenes hf1 hd1
        rw [← hS, hlist, Registry.find_head] at hfind1
        cases hfind1
        exact hscene1
  · intro sinfo scene hscene hnodes
    unfold decodeScene at hscene
    rw [hnodes, Outcome.bind_ok] at hscene
    simp only [Json.elements, collectStrings, Outcome.bind_ok] at hscene
    obtain ⟨name, _, h⟩ := Outcome.bind_eq_ok.mp hscene
    cases h
    rfl

/-- Witness of C23 on `emptySceneManifest`: the default scene `s` is returned and has no
nodes; on `twoScenesManifest`, which has no `scene` member, the first scene of the registry
is returned. -/
theorem getDefaultScene_after_load_witness :
    (load plainHost [] emptySceneManifest 1 emptyFile = .ok emptySceneFile ∧
      emptySceneFile.getDefaultScene = .ok { nodes := [] } ∧
      ∃ file, load plainHost [] twoScenesManifest 1 emptyFile = .ok file ∧
        file.getDefaultScene = .ok { nodes := ["n"] }) ∧
    ((∀ v k sinfo, sceneEntry emptySceneManifest = some v → v.asString = some k → k ≠ "" →
       declared emptySceneManifest "scenes" k = some sinfo →
       ∃ scene, decodeScene plainHost sinfo = .ok scene ∧
         emptySceneFile.mScenes.find k = some scene ∧
         emptySceneFile.getDefaultScene = .ok scene) ∧
     ((sceneEntry emptySceneManifest = none ∧ emptyFile.mDefaultScene = "") ∨
         (∃ v, sceneEntry emptySceneManifest = some v ∧ v.asString = some "") →
       (∃ s sinfo, declared emptySceneManifest "scenes" s = some sinfo) →
       ∃ key scene rest, emptySceneFile.mScenes = (key, scene) :: rest ∧
         emptySceneFile.getDefaultScene = .ok scene ∧
         ∀ sinfo, declared emptySceneManifest "scenes" key = some sinfo →
           decodeScene plainHost sinfo = .ok scene) ∧
     (∀ sinfo scene, decodeScene plainHost sinfo = .ok scene →
       member sinfo "nodes" = .ok (.arr []) → scene.nodes = [])) :=
  ⟨⟨by decide, by decide,
      { emptyFile with
        mNodes := [("n", {})]
        mScenes := [("a", { nodes := ["n"] }), ("b", { nodes := [] })] },
      by decide, by decide⟩,
    getDefaultScene_after_load plainHost [] emptySceneManifest 1 emptyFile emptySceneFile
      (by decide)⟩


/-- C24 fails on the code when the uri has a comma. For a `.glb` container whose manifest
declares a buffer under the key `binary_glTF` with the uri string `uri`, after `load`:
when `uri` has no comma, the data of that Buffer is the `mBuffer` that `verifyFile` made
of the container, the bytes of the file from offset `20 + sceneLength` on (the ones that
follow the JSON chunk); when `uri` has a comma, as in `data:,`, the data is the base64
decoding of the text after the first comma, whatever the binary chunk is. -/
theorem binary_buffer_data (data : DataSource) (verified : VerifiedFile) (host : Host)
    (mExtensions : List String) (mGltfTree : Json) (depth : Nat) (file0 file : File)
    (info : Json) (uri : String)
    (hext : data.extension = ".glb")
    (hverify : verifyFile data = .ok verified)
    (hhost : host.mBuffer = verified.mBuffer)
    (hload : load host mExtensions mGltfTree depth file0 = .ok file)
    (hdecl : declared mGltfTree "buffers" "binary_glTF" = some info)
    (huri : memberString info "uri" = .ok uri) :
    ∃ buffer, file.mBuffers.find "binary_glTF" = some buffer ∧
      (',' ∉ uri.toList →
        ∃ blob, buffer.data = some blob ∧ verified.mBuffer = some blob ∧
          20 + (readHeader data.buffer).sceneLength + blob.length ≤ data.buffer.length ∧
          blob = (data.buffer.drop (20 + (readHeader data.buffer).sceneLength)).take
            blob.length) ∧
      (',' ∈ uri.toList →
        buffer.data =
          some (host.fromBase64
            (String.mk ((uri.toList.dropWhile fun c => c ≠ ',').drop 1)))) := by
  obtain ⟨f1, tr, hf1, rfl⟩ := load_eq_ok hload
  obtain ⟨buffer, hdec, hfind⟩ := decodeManifest_buffers hf1 hdecl
  refine ⟨buffer, hfind, fun hcomma => ?_, fun hcomma => decodeBuffer_comma hdec huri hcomma⟩
  obtain ⟨blob, hblob, hle, htake⟩ := verifyFile_glb_blob hext hverify
  refine ⟨blob, ?_, hblob, hle, htake⟩
  rw [decodeBuffer_binary hdec huri hcomma, hhost, hblob]

set_option maxRecDepth 20000 in
/-- The container `dataUriGlb` has the binary chunk `1, 2, 3, 4` and its manifest declares
the buffer `binary_glTF` with the uri `data:,`: the loaded buffer holds the base64 decoding
of the empty text, not the chunk. On `binaryGlb`, the same container with an empty uri, the
loaded buffer holds the chunk. -/
theorem binary_buffer_data_witness :
    verifyFile dataUriGlb = .ok { gltfJson := dataUriGlbText, mBuffer := some [1, 2, 3, 4] } ∧
    load chunkHost [] dataUriManifest 1 emptyFile =
      .ok { mBuffers := [("binary_glTF", { data := some [], byteLength := 4, uri := "data:",
                                           type := "arraybuffer" })]
            mBufferViews := []
            mAccessors := []
            mNodes := [] } ∧
    (∃ buffer,
      (File.mBuffers { mBuffers := [("binary_glTF", { data := some [], byteLength := 4,
                                                      uri := "data:", type := "arraybuffer" })]
                       mBufferViews := []
                       mAccessors := []
                       mNodes := [] }).find "binary_glTF" = some buffer ∧
      buffer.data = some (chunkHost.fromBase64 "") ∧
      buffer.data ≠ some [1, 2, 3, 4]) ∧
    ∃ buffer,
      (File.mBuffers { mBuffers := [("binary_glTF", { data := some [1, 2, 3, 4],
                                                      byteLength := 4, uri := "",
                                                      type := "arraybuffer" })]
                       mBufferViews := []
                       mAccessors := []
                       mNodes := [] }).find "binary_glTF" = some buffer ∧
      buffer.data = some [1, 2, 3, 4] := by
  refine ⟨by decide, by decide, ?_, ?_⟩
  case refine_2 =>
    obtain ⟨buffer, hfind, hplain, _⟩ :=
      binary_buffer_data binaryGlb { gltfJson := binaryGlbText, mBuffer := some [1, 2, 3, 4] }
        chunkHost [] binaryManifest 1 emptyFile
        { mBuffers := [("binary_glTF", { data := some [1, 2, 3, 4], byteLength := 4, uri := "",
                                         type := "arraybuffer" })]
          mBufferViews := []
          mAccessors := []
          mNodes := [] }
        (.obj [("byteLength", .num 4), ("type", .str "arraybuffer"), ("uri", .str "")])
        "" (by decide) (by decide) (by decide) (by decide) rfl (by decide)
    obtain ⟨blob, hb, hv, _, _⟩ := hplain (by decide)
    rw [← Option.some.inj hv] at hb
    exact ⟨buffer, hfind, hb⟩
  obtain ⟨buffer, hfind, _, hdata⟩ :=
    binary_buffer_data dataUriGlb { gltfJson := dataUriGlbText, mBuffer := some [1, 2, 3, 4] }
      chunkHost [] dataUriManifest 1 emptyFile
      { mBuffers := [("binary_glTF", { data := some [], byteLength := 4, uri := "data:",
                                       type := "arraybuffer" })]
        mBufferViews := []
        mAccessors := []
        mNodes := [] }
      (.obj [("byteLength", .num 4), ("type", .str "arraybuffer"), ("uri", .str "data:,")])
      "data:," (by decide) (by decide) (by decide) (by decide) rfl (by decide)
  have hd := hdata (by decide)
  refine ⟨buffer, hfind, hd, ?_⟩
  rw [hd]
  decide


/-- C33. `Accessor::getNumBytesForComponentType` returns 1 for the component types 5120
(BYTE) and 5121 (UNSIGNED_BYTE), 2 for 5122 (SHORT) and 5123 (UNSIGNED_SHORT), 4 for 5126
(FLOAT) and 0 for every other value; the value of an accessor decoded by `addAccessorInfo`
is the `asUInt` of the member `componentType` of its manifest entry; and the element size
`numComponents * componentByteSize` of a FLOAT VEC3 accessor is 12. -/
theorem getNumBytesForComponentType_values (acc : Accessor) :
    (acc.componentType = 5120 ∨ acc.componentType = 5121 →
      acc.getNumBytesForComponentType = 1) ∧
    (acc.componentType = 5122 ∨ acc.componentType = 5123 →
      acc.getNumBytesForComponentType = 2) ∧
    (acc.componentType = 5126 → acc.getNumBytesForComponentType = 4) ∧
    (acc.componentType ∉ [5120, 5121, 5122, 5123, 5126] →
      acc.getNumBytesForComponentType = 0) ∧
    (∀ (host : Host) (accessorInfo : Json), decodeAccessor host accessorInfo = .ok acc →
      memberUInt host accessorInfo "componentType" = .ok acc.componentType) ∧
    (acc.componentType = 5126 → acc.dataType = .VEC3 →
      acc.getNumComponents * acc.getNumBytesForComponentType = 12) := by
  refine ⟨?_, ?_, ?_, ?_, fun _ _ h => decodeAccessor_componentType h, ?_⟩
  · intro h
    unfold Accessor.getNumBytesForComponentType
    rw [if_pos h]
  · intro h
    unfold Accessor.getNumBytesForComponentType
    rw [if_neg (by omega), if_pos h]
  · intro h
    unfold Accessor.getNumBytesForComponentType
    rw [if_neg (by omega), if_neg (by omega), if_pos h]
  · intro h
    simp only [List.mem_cons, List.mem_singleton, List.not_mem_nil, or_false, not_or] at h
    unfold Accessor.getNumBytesForComponentType
    rw [if_neg (by omega), if_neg (by omega), if_neg (by omega)]
  · intro hfloat hvec
    unfold Accessor.getNumBytesForComponentType Accessor.getNumComponents
    rw [if_neg (by omega), if_neg (by omega), if_pos hfloat, hvec]
    rfl

/-- Witness of C33: the FLOAT VEC3 accessor of `clipFile` has elements of 12 bytes, the
FLOAT SCALAR one has components of 4 bytes, and the accessor decoded from
`uintAccessorInfo`, whose component type 5125 is none of the five, has size 0. -/
theorem getNumBytesForComponentType_values_witness :
    clipTranslation.getNumComponents * clipTranslation.getNumBytesForComponentType = 12 ∧
    clipTime.getNumBytesForComponentType = 4 ∧
    decodeAccessor plainHost uintAccessorInfo =
      .ok { bufferView := some "v", byteOffset := 0, count := 3, componentType := 5125,
            dataType := .SCALAR, byteStride := 0 } ∧
    memberUInt plainHost uintAccessorInfo "componentType" = .ok 5125 ∧
    Accessor.getNumBytesForComponentType
      { bufferView := some "v", byteOffset := 0, count := 3, componentType := 5125,
        dataType := .SCALAR, byteStride := 0 } = 0 :=
  ⟨(getNumBytesForComponentType_values clipTranslation).2.2.2.2.2 rfl rfl,
    (getNumBytesForComponentType_values clipTime).2.2.1 rfl,
    by decide,
    (getNumBytesForComponentType_values
      { bufferView := some "v", byteOffset := 0, count := 3, componentType := 5125,
        dataType := .SCALAR, byteStride := 0 }).2.2.2.2.1 plainHost uintAccessorInfo
      (by decide),
    (getNumBytesForComponentType_values
      { bufferView := some "v", byteOffset := 0, count := 3, componentType := 5125,
        dataType := .SCALAR, byteStride := 0 }).2.2.2.1 (by decide)⟩

/-- C36. For every manifest node, the Node produced by `addNodeInfo` (a default-constructed
Node carrying no attachment) carries at most one of: a light, a camera, a joint name that is
not empty, renderable data (meshes, skin, skeletons). When the manifest node has an
`extensions` member that is not null, whatever it contains, the node's camera, joint name,
meshes, skin and skeletons are left as default-constructed, and the decoder inserts no
camera and no skeleton root into the registries. -/
theorem decoded_node_one_attachment (host : Host) (nodeInfo : Json) (d : DecodedNode)
    (hbare : host.defaults.node.light = none ∧ host.defaults.node.camera = none ∧
      host.defaults.node.jointName = "" ∧ host.defaults.node.meshes = [] ∧
      host.defaults.node.skin = none ∧ host.defaults.node.skeletons = [])
    (hdecode : decodeNode host nodeInfo = .ok d) :
    d.ret.attachmentCount ≤ 1 ∧
    (∀ ext, member nodeInfo "extensions" = .ok ext → ext.isNull = false →
      d.ret.camera = none ∧ d.ret.jointName = "" ∧ d.ret.meshes = [] ∧ d.ret.skin = none ∧
        d.ret.skeletons = [] ∧ d.nodeKeys = [] ∧ d.cameraKeys = []) := by
  obtain ⟨hl0, hc0, hj0, hm0, hs0, hk0⟩ := hbare
  unfold decodeNode at hdecode
  obtain ⟨r1, hr1, h⟩ := Outcome.bind_eq_ok.mp hdecode
  obtain ⟨r2, hr2, h⟩ := Outcome.bind_eq_ok.mp h
  obtain ⟨name, _, h⟩ := Outcome.bind_eq_ok.mp h
  cases h
  obtain ⟨hl1, hc1, hj1, hm1, hs1, hk1⟩ := decodeTransform_attachment hr1
  rw [hl0] at hl1
  rw [hc0] at hc1
  rw [hj0] at hj1
  rw [hm0] at hm1
  rw [hs0] at hs1
  rw [hk0] at hk1
  obtain ⟨ext, hext, hcase⟩ := decodeAttachment_eq_ok hr2
  rw [hc1, hj1, hm1, hs1, hk1, hl1] at hcase
  show (if r2.ret.light.isSome then 1 else 0) + (if r2.ret.camera.isSome then 1 else 0) +
      (if r2.ret.jointName ≠ "" then 1 else 0) +
      (if r2.ret.meshes ≠ [] ∨ r2.ret.skin.isSome ∨ r2.ret.skeletons ≠ [] then 1 else 0) ≤ 1 ∧ _
  rcases hcase with ⟨hn, hc, hj, hm, hs, hk, hnk, hck⟩ | ⟨hn, hl, hrest⟩
  · refine ⟨?_, fun _ _ _ => ⟨hc, hj, hm, hs, hk, hnk, hck⟩⟩
    rw [hc, hj, hm, hs, hk]
    cases r2.ret.light <;> simp
  · refine ⟨?_, ?_⟩
    · rcases hrest with ⟨hj, hm, hs, hk⟩ | ⟨hc, hm, hs, hk⟩ | ⟨hc, hj⟩
      · rw [hl, hj, hm, hs, hk]
        cases r2.ret.camera <;> simp
      · rw [hl, hc, hm, hs, hk]
        by_cases hjn : r2.ret.jointName = "" <;> simp [hjn]
      · rw [hl, hc, hj]
        by_cases hr : r2.ret.meshes ≠ [] ∨ r2.ret.skin.isSome = true ∨ r2.ret.skeletons ≠ []
        · rw [if_pos hr]
          simp
        · rw [if_neg hr]
          simp
    · intro ext1 hext1 hnull
      rw [hext] at hext1
      cases hext1
      rw [hn] at hnull
      cases hnull

/-- Witness of C36 on `extendedNodeInfo`, which declares an `extensions` member without
`KHR_materials_common` beside a camera, a joint name, a mesh, a skin and a skeleton root:
the decoded node carries none of them; and on `cameraNodeInfo`, a camera beside a mesh: the
decoded node carries the camera only. -/
theorem decoded_node_one_attachment_witness :
    decodeNode plainHost extendedNodeInfo = .ok { ret := { name := "n" }, nodeKeys := [] } ∧
    (Node.attachmentCount { name := "n" } ≤ 1 ∧
      (∀ ext, member extendedNodeInfo "extensions" = .ok ext → ext.isNull = false →
        Node.camera { name := "n" } = none ∧ Node.jointName { name := "n" } = "" ∧
          Node.meshes { name := "n" } = [] ∧ Node.skin { name := "n" } = none ∧
          Node.skeletons { name := "n" } = [] ∧
          DecodedNode.nodeKeys { ret := { name := "n" }, nodeKeys := [] } = [] ∧
          DecodedNode.cameraKeys { ret := { name := "n" }, nodeKeys := [] } = [])) ∧
    decodeNode plainHost cameraNodeInfo =
      .ok { ret := { camera := some "cam" }, nodeKeys := [], cameraKeys := ["cam"] } ∧
    Node.attachmentCount { camera := some "cam" } ≤ 1 :=
  ⟨rfl, decoded_node_one_attachment plainHost extendedNodeInfo
    { ret := { name := "n" }, nodeKeys := [] } ⟨rfl, rfl, rfl, rfl, rfl, rfl⟩ rfl,
    rfl,
    (decoded_node_one_attachment plainHost cameraNodeInfo
      { ret := { camera := some "cam" }, nodeKeys := [], cameraKeys := ["cam"] }
      ⟨rfl, rfl, rfl, rfl, rfl, rfl⟩ rfl).1⟩

/-- C37. For every File and every skeleton, `createSkeletonAnim`,
`createSkeletonAnimCombined` and `createSkeletonAnimSeparated` hand the same outcome to
the constructor of their container: the same list of clips when one of them returns, the
same failure when one of them fails. -/
theorem createSkeletonAnim_variants_agree (file : File) (skeleton : Skeleton) :
    file.createSkeletonAnimCombined skeleton = file.createSkeletonAnim skeleton ∧
    file.createSkeletonAnimSeparated skeleton = file.createSkeletonAnim skeleton := by
  have hc : skeletonAnimCombinedStep file = skeletonAnimStep file := by
    funext boneName skeletonClips
    unfold skeletonAnimCombinedStep skeletonAnimStep findAnimation buildClip
    rfl
  have hs : skeletonAnimSeparatedStep file = skeletonAnimStep file := by
    funext boneName skeletonClips
    unfold skeletonAnimSeparatedStep skeletonAnimStep findAnimation buildClip
    rfl
  unfold File.createSkeletonAnimCombined File.createSkeletonAnimSeparated
    File.createSkeletonAnim
  rw [hc, hs]
  exact ⟨rfl, rfl⟩


/-- C31 fails on the code. The Technique that `addTechniqueInfo` fills has one uniforms
pair per member name of the technique's `uniforms` object, in order, but the second
component of each pair is `attribs[name].asString()`, what the `attributes` object holds
under the uniform's name (the empty string when it has no such member), not the parameter
name the `uniforms` object maps the name to. -/
theorem technique_uniforms_read_attributes (techniqueInfo : Json) (technique : Technique)
    (hdecode : decodeTechnique techniqueInfo = .ok technique) :
    ∃ attribs uniforms names, member techniqueInfo "attributes" = .ok attribs ∧
      member techniqueInfo "uniforms" = .ok uniforms ∧
      uniforms.getMemberNames = some names ∧
      technique.uniforms.map Prod.fst = names ∧
      ∀ pair ∈ technique.uniforms, ∃ value, attribs.get pair.1 = some value ∧
        value.asString = some pair.2 := by
  unfold decodeTechnique at hdecode
  obtain ⟨_, _, h⟩ := Outcome.bind_eq_ok.mp hdecode
  obtain ⟨_, _, h⟩ := Outcome.bind_eq_ok.mp h
  obtain ⟨programKey, _, h⟩ := Outcome.bind_eq_ok.mp h
  obtain ⟨attribs, hattribs, h⟩ := Outcome.bind_eq_ok.mp h
  obtain ⟨attribNames, _, h⟩ := Outcome.bind_eq_ok.mp h
  obtain ⟨attributes, _, h⟩ := Outcome.bind_eq_ok.mp h
  obtain ⟨uniforms, huniforms, h⟩ := Outcome.bind_eq_ok.mp h
  obtain ⟨uniformNames, hnames, h⟩ := Outcome.bind_eq_ok.mp h
  obtain ⟨uniformPairs, hloop, h⟩ := Outcome.bind_eq_ok.mp h
  cases h
  obtain ⟨pairs, hout, hfst, hall⟩ := forEach_pairStep attribs _ _ _ hloop
  rw [List.nil_append] at hout
  subst hout
  refine ⟨attribs, uniforms, uniformNames, hattribs, huniforms, ?_, hfst, hall⟩
  cases hg : uniforms.getMemberNames with
  | none =>
    rw [hg] at hnames
    cases hnames
  | some v =>
    rw [hg] at hnames
    cases hnames
    rfl

/-- The technique `sampleTechniqueInfo` maps the uniform `u_mvp` to the parameter
`modelViewProjection`; the decoded Technique pairs `u_mvp` with the empty string, which is
what the `attributes` object holds under `u_mvp`. -/
theorem technique_uniforms_read_attributes_witness :
    decodeTechnique sampleTechniqueInfo =
      .ok { program := some "p", attributes := [("a_position", "position")],
            uniforms := [("u_mvp", "")] } ∧
    declaredUniforms sampleTechniqueInfo = .ok [("u_mvp", "modelViewProjection")] ∧
    ∃ attribs uniforms names, member sampleTechniqueInfo "attributes" = .ok attribs ∧
      member sampleTechniqueInfo "uniforms" = .ok uniforms ∧
      uniforms.getMemberNames = some names ∧
      List.map Prod.fst [("u_mvp", "")] = names ∧
      ∀ pair ∈ [("u_mvp", "")], ∃ value, attribs.get pair.1 = some value ∧
        value.asString = some pair.2 :=
  ⟨by decide, by decide,
    technique_uniforms_read_attributes sampleTechniqueInfo
      { program := some "p", attributes := [("a_position", "position")],
        uniforms := [("u_mvp", "")] } (by decide)⟩
/-- C32 fails on the code: the constructor does not look at what `reader.parse` returns.
The text of `openBraceFile`, an opening brace alone, is no valid JSON and the reader
rejects it, leaving an empty object in the tree; `File::create` returns a handle all the
same, with empty registries. -/
theorem create_accepts_malformed_json :
    verifyFile openBraceFile = .ok { gltfJson := [123], mBuffer := none } ∧
    (match sampleJsonLibrary.parse [123] with
      | .returned successful _ => successful = false
      | .runtimeError _ => False) ∧
    File.create plainHost sampleJsonLibrary 1 openBraceFile = .ok File.initial :=
  ⟨by decide, rfl, by decide⟩

/-- C32, amended. The constructor reports no MalformedJson: the verdict of the reader is
not looked at (and a `std::runtime_error` it throws is caught and logged), so construction
goes on with the tree the reader has left, whatever the reader says about the text. When
that tree is null or an object without members, the caller receives a handle whose
registries are all empty. When the root of that tree is neither null nor an object (a
string, a number, a boolean, an array), construction ends with the exception the JSON
library throws at the first `mGltfTree[...]`, and the caller receives no handle. -/
theorem create_ignores_verdict (host : Host) (json : JsonLibrary) (depth : Nat)
    (gltfFile : DataSource) (verified : VerifiedFile)
    (hverify : verifyFile gltfFile = .ok verified) :
    (∀ json2 : JsonLibrary,
      (json2.parse verified.gltfJson).root = (json.parse verified.gltfJson).root →
      json2.realToBool = json.realToBool →
      File.create host json2 depth gltfFile = File.create host json depth gltfFile) ∧
    ((json.parse verified.gltfJson).root = .null ∨
        (json.parse verified.gltfJson).root = .obj [] →
      File.create host json depth gltfFile = .ok File.initial) ∧
    ((json.parse verified.gltfJson).root.isNull = false →
      (json.parse verified.gltfJson).root.isObject = false →
      File.create host json depth gltfFile = .thrown) := by
  refine ⟨?_, ?_, ?_⟩
  · intro json2 hroot hbool
    unfold File.create
    rw [hverify]
    simp only [Outcome.bind_ok]
    rw [hroot, hbool]
  · intro hroot
    unfold File.create
    rw [hverify]
    simp only [Outcome.bind_ok]
    rcases hroot with h | h
    · rw [h]
      rfl
    · rw [h]
      rfl
  · intro hnull hobj
    unfold File.create
    rw [hverify]
    simp only [Outcome.bind_ok]
    cases hr : (json.parse verified.gltfJson).root with
    | null =>
      rw [hr] at hnull
      cases hnull
    | obj members =>
      rw [hr] at hobj
      cases hobj
    | bool b => rfl
    | num n => rfl
    | real printed => rfl
    | str s => rfl
    | arr elems => rfl

/-- Witness of the amended C32: on `openBraceFile` the reader's rejection is ignored and a
handle with empty registries is returned; on `stringRootFile`, whose root is a string,
construction ends with the library's exception. -/
theorem create_ignores_verdict_witness :
    File.create plainHost sampleJsonLibrary 1 openBraceFile = .ok File.initial ∧
    File.create plainHost sampleJsonLibrary 1 stringRootFile = .thrown :=
  ⟨(create_ignores_verdict plainHost sampleJsonLibrary 1 openBraceFile
      { gltfJson := [123], mBuffer := none } (by decide)).2.1 (Or.inr rfl),
    (create_ignores_verdict plainHost sampleJsonLibrary 1 stringRootFile
      { gltfJson := [34, 104, 105, 34], mBuffer := none } (by decide)).2.2 rfl rfl⟩


/-- C35 fails on the code. The children of a node are cross-references that `load` does not
insert: `addNodeInfo` does not read them and the linking walk looks a child up with `find`.
The node `a` of `ghostChildManifest` lists the child `ghost`, declared nowhere: after
`load` the registry of nodes has the key `a` only. When a scene reaches `a`, as in
`ghostChildScene`, the walk dereferences `end()` at `ghost`. -/
theorem load_skips_undeclared_child :
    load plainHost [] ghostChildManifest 1 File.initial =
      .ok { mBuffers := [], mBufferViews := [], mAccessors := [], mNodes := [("a", {})] } ∧
    "ghost" ∈ childList ghostChildManifest "a" ∧
    (declared ghostChildManifest "nodes" "ghost").isSome = false ∧
    "ghost" ∉ Registry.keys [("a", ({} : Node))] ∧
    load plainHost [] ghostChildScene 5 File.initial = .undefined :=
  ⟨by decide, by decide, by decide, by decide, by decide⟩

/-- C35, amended. Loading does not reject an unresolved cross-reference that a decoder
follows with `operator[]` (the buffer view of an accessor, the buffer of a buffer view, the
channel targets and the parameter accessors of an animation, the camera and the skeleton
roots of a node, the nodes of a scene, and what the decoders that are not embedded look
up): after `load` on a freshly constructed File, the key set of each registry is the set of
the declared keys of its category united with the keys referenced in that way, and an entry
under a key that is not declared is default-constructed (for a node: up to the `parent` and
`children` the linking walk writes). The decoder of a light is taken to look up no accessor
and no node, as `addLightInfo` does. -/
theorem load_key_sets (host : Host) (mExtensions : List String) (mGltfTree : Json)
    (depth : Nat) (file : File)
    (hlights : ∀ lk obj touched, host.foreign "lights" lk obj = .ok touched →
      touched = ([], []))
    (hload : load host mExtensions mGltfTree depth File.initial = .ok file) :
    (∀ k, k ∈ file.mBuffers.keys ↔ (declared mGltfTree "buffers" k).isSome = true ∨
      Referenced host mGltfTree References.buffers k) ∧
    (∀ k, k ∈ file.mBufferViews.keys ↔ (declared mGltfTree "bufferViews" k).isSome = true ∨
      Referenced host mGltfTree References.bufferViews k) ∧
    (∀ k, k ∈ file.mAccessors.keys ↔ (declared mGltfTree "accessors" k).isSome = true ∨
      Referenced host mGltfTree References.accessors k) ∧
    (∀ k, k ∈ file.mNodes.keys ↔ (declared mGltfTree "nodes" k).isSome = true ∨
      Referenced host mGltfTree References.nodes k) ∧
    (∀ k, k ∈ file.mCameras.keys ↔ (declared mGltfTree "cameras" k).isSome = true ∨
      Referenced host mGltfTree References.cameras k) ∧
    (∀ k, k ∈ file.mAnimations.keys ↔ (declared mGltfTree "animations" k).isSome = true) ∧
    (∀ k, k ∈ file.mScenes.keys ↔ (declared mGltfTree "scenes" k).isSome = true) ∧
    (∀ k w, (declared mGltfTree "buffers" k).isSome = false →
      file.mBuffers.find k = some w → w = host.defaults.buffer) ∧
    (∀ k w, (declared mGltfTree "bufferViews" k).isSome = false →
      file.mBufferViews.find k = some w → w = host.defaults.bufferView) ∧
    (∀ k w, (declared mGltfTree "accessors" k).isSome = false →
      file.mAccessors.find k = some w → w = host.defaults.accessor) ∧
    (∀ k w, (declared mGltfTree "cameras" k).isSome = false →
      file.mCameras.find k = some w → w = host.defaults.camera) ∧
    (∀ k w, (declared mGltfTree "nodes" k).isSome = false →
      file.mNodes.find k = some w →
      w = { host.defaults.node with parent := w.parent, children := w.children }) := by
  obtain ⟨f1, tr, hf1, rfl⟩ := load_eq_ok hload
  obtain ⟨kB, vB⟩ := decodeManifest_keys File.mBuffers "buffers" References.buffers
    (fun host => host.defaults.buffer) (fun _ _ _ _ _ _ h => (addInfo_written h).1)
    (fun _ _ => rfl) rfl (by decide) host mExtensions mGltfTree _ f1 hlights hf1
  obtain ⟨kV, vV⟩ := decodeManifest_keys File.mBufferViews "bufferViews"
    References.bufferViews (fun host => host.defaults.bufferView)
    (fun _ _ _ _ _ _ h => (addInfo_written h).2.1)
    (fun _ _ => rfl) rfl (by decide) host mExtensions mGltfTree _ f1 hlights hf1
  obtain ⟨kA, vA⟩ := decodeManifest_keys File.mAccessors "accessors" References.accessors
    (fun host => host.defaults.accessor) (fun _ _ _ _ _ _ h => (addInfo_written h).2.2.1)
    (fun _ _ => rfl) rfl (by decide) host mExtensions mGltfTree _ f1 hlights hf1
  obtain ⟨kN, vN⟩ := decodeManifest_keys File.mNodes "nodes" References.nodes
    (fun host => host.defaults.node) (fun _ _ _ _ _ _ h => (addInfo_written h).2.2.2.1)
    (fun _ _ => rfl) rfl (by decide) host mExtensions mGltfTree _ f1 hlights hf1
  obtain ⟨kC, vC⟩ := decodeManifest_keys File.mCameras "cameras" References.cameras
    (fun host => host.defaults.camera) (fun _ _ _ _ _ _ h => (addInfo_written h).2.2.2.2.1)
    (fun _ _ => rfl) rfl (by decide) host mExtensions mGltfTree _ f1 hlights hf1
  obtain ⟨kM, _⟩ := decodeManifest_keys File.mAnimations "animations" (fun _ => [])
    (fun host => host.defaults.animation)
    (fun _ _ _ _ _ _ h => (addInfo_written h).2.2.2.2.2.1)
    (fun _ _ => rfl) rfl (by decide) host mExtensions mGltfTree _ f1 hlights hf1
  obtain ⟨kS, _⟩ := decodeManifest_keys File.mScenes "scenes" (fun _ => [])
    (fun host => host.defaults.scene)
    (fun _ _ _ _ _ _ h => (addInfo_written h).2.2.2.2.2.2)
    (fun _ _ => rfl) rfl (by decide) host mExtensions mGltfTree _ f1 hlights hf1
  have hnil : ∀ (k : String), ¬ Referenced host mGltfTree (fun _ => []) k := by
    rintro k ⟨_, _, _, _, hk⟩
    cases hk
  have hinit : ∀ {α : Type} (k : String), k ∉ Registry.keys ([] : Registry α) := by
    intro α k hk
    cases hk
  have hfresh : ∀ {α : Type} (k : String) (w : α), Registry.find ([] : Registry α) k ≠ some w := by
    intro α k w hk
    cases hk
  have hval : ∀ {α : Type} {reg : Registry α} {cat : String} {d : α},
      (∀ k w, reg.find k = some w → Registry.find ([] : Registry α) k = some w ∨
        (declared mGltfTree cat k).isSome = true ∨ w = d) →
      ∀ k w, (declared mGltfTree cat k).isSome = false → reg.find k = some w → w = d := by
    intro α reg cat d hv k w hnone hfind
    rcases hv k w hfind with h | h | h
    · cases h
    · rw [hnone] at h
      cases h
    · exact h
  refine ⟨?_, ?_, ?_, ?_, ?_, ?_, ?_, hval vB, hval vV, hval vA, hval vC, ?_⟩
  · intro k
    rw [show (File.mBuffers { f1 with mNodes := applyVisits tr f1.mNodes }) = f1.mBuffers from rfl,
      kB k]
    exact ⟨fun h => h.resolve_left (hinit k), Or.inr⟩
  · intro k
    rw [show (File.mBufferViews { f1 with mNodes := applyVisits tr f1.mNodes }) =
      f1.mBufferViews from rfl, kV k]
    exact ⟨fun h => h.resolve_left (hinit k), Or.inr⟩
  · intro k
    rw [show (File.mAccessors { f1 with mNodes := applyVisits tr f1.mNodes }) =
      f1.mAccessors from rfl, kA k]
    exact ⟨fun h => h.resolve_left (hinit k), Or.inr⟩
  · intro k
    rw [show (File.mNodes { f1 with mNodes := applyVisits tr f1.mNodes }) =
      applyVisits tr f1.mNodes from rfl, keys_applyVisits, kN k]
    exact ⟨fun h => h.resolve_left (hinit k), Or.inr⟩
  · intro k
    rw [show (File.mCameras { f1 with mNodes := applyVisits tr f1.mNodes }) =
      f1.mCameras from rfl, kC k]
    exact ⟨fun h => h.resolve_left (hinit k), Or.inr⟩
  · intro k
    rw [show (File.mAnimations { f1 with mNodes := applyVisits tr f1.mNodes }) =
      f1.mAnimations from rfl, kM k]
    exact ⟨fun h => (h.resolve_left (hinit k)).resolve_right (hnil k), fun h => Or.inr (Or.inl h)⟩
  · intro k
    rw [show (File.mScenes { f1 with mNodes := applyVisits tr f1.mNodes }) =
      f1.mScenes from rfl, kS k]
    exact ⟨fun h => (h.resolve_left (hinit k)).resolve_right (hnil k), fun h => Or.inr (Or.inl h)⟩
  · intro k w hnone hfind
    have hfind1 : (applyVisits tr f1.mNodes).find k = some w := hfind
    rw [find_applyVisits] at hfind1
    cases h0 : f1.mNodes.find k with
    | none =>
      rw [h0] at hfind1
      cases hfind1
    | some n0 =>
      rw [h0] at hfind1
      have hw : tr.foldl (visitNode k) n0 = w := Option.some.inj hfind1
      have hn0 : n0 = host.defaults.node := hval vN k n0 hnone h0
      rw [← hw, ← hn0]
      exact foldl_visitNode_rest k tr n0
/-- Witness of the amended C35 on `danglingManifest`, whose accessor names a buffer view
that is declared nowhere: the load returns, the key is in the registry of buffer views
because the accessor references it, and the entry under it is default-constructed. -/
theorem load_key_sets_witness :
    load plainHost [] danglingManifest 1 File.initial = .ok danglingLoaded ∧
    ("ghostView" ∈ danglingLoaded.mBufferViews.keys ↔
      (declared danglingManifest "bufferViews" "ghostView").isSome = true ∨
        Referenced plainHost danglingManifest References.bufferViews "ghostView") ∧
    (declared danglingManifest "bufferViews" "ghostView").isSome = false ∧
    Referenced plainHost danglingManifest References.bufferViews "ghostView" ∧
    danglingLoaded.mBufferViews.find "ghostView" = some plainHost.defaults.bufferView ∧
    BufferView.mk none 0 0 0 "" = plainHost.defaults.bufferView :=
  ⟨by decide,
    (load_key_sets plainHost [] danglingManifest 1 danglingLoaded
      (fun _ _ _ h => (Outcome.ok.inj h).symm) (by decide)).2.1 "ghostView",
    by decide,
    ⟨"accessors", "a", _, rfl, by decide⟩,
    by decide,
    (load_key_sets plainHost [] danglingManifest 1 danglingLoaded
      (fun _ _ _ h => (Outcome.ok.inj h).symm) (by decide)).2.2.2.2.2.2.2.2.1 "ghostView"
      (BufferView.mk none 0 0 0 "") (by decide) (by decide)⟩


/-- C34. For a manifest whose scenes have the root keys `roots`, when every node reachable
from a root through the manifest's children lists is declared and has a readable children
list, and no such node reaches itself: with any depth bound above the number of nodes the
linking loop returns, and so does the walk from each root. The result is the registry after
the calls `tr` that the manifest determines; the children list of a node `p` has grown by
one entry for each call that descends from `p` to a child (the child `c` as often as there
are calls from `p` to `c`), which is the manifest's children list of `p` once for every
visit of `p`; and the number of visits of a node `c` is the number of paths that lead from
the roots to `c`. -/
theorem linking_walk_terminates (mGltfTree : Json) (mNodes : Registry Node)
    (roots : List String) (depth : Nat)
    (hroots : rootKeys mGltfTree = .ok roots)
    (hread : ∀ r ∈ roots, Readable mGltfTree mNodes r)
    (hacyclic : ∀ r ∈ roots, ∀ b, Relation.ReflTransGen (childRel mGltfTree) r b →
      ¬ Relation.TransGen (childRel mGltfTree) b b)
    (hdepth : mNodes.length < depth) :
    ∃ tr, visitsOfScenes mGltfTree depth = .ok tr ∧
      linkScenes mGltfTree depth mNodes = .ok (applyVisits tr mNodes) ∧
      (∀ r ∈ roots, ∃ t,
        setParentForChildren mGltfTree depth none r mNodes = .ok (applyVisits t mNodes)) ∧
      (∀ p n0, mNodes.find p = some n0 →
        ∃ n, (applyVisits tr mNodes).find p = some n ∧
          n.children = n0.children ++ appendedTo p tr) ∧
      (∀ p c, (appendedTo p tr).count c = tr.count (some p, c)) ∧
      (∀ p, appendedTo p tr =
        (List.replicate ((visited tr).count p) (childList mGltfTree p)).flatten) ∧
      (∀ c, (visited tr).count c = (roots.map fun r => pathCount mGltfTree depth r c).sum) := by
  have hwalk : ∀ r ∈ roots, ∃ t, visits mGltfTree depth none r = .ok t := by
    intro r hr
    refine visits_of_acyclic mGltfTree mNodes.keys r ?_ (hacyclic r hr) depth [] none r
      Relation.ReflTransGen.refl List.nodup_nil (fun a ha => absurd ha (List.not_mem_nil a)) ?_
    · intro b hb
      obtain ⟨hsome, hcs⟩ := hread r hr b hb
      exact ⟨(Registry.mem_keys mNodes b).mpr (Option.isSome_iff_exists.mp hsome), hcs⟩
    · simp only [Registry.keys, List.length_map, List.length_nil, Nat.zero_add]
      exact hdepth
  obtain ⟨tr, htr⟩ := visitsEach_total roots hwalk
  have hvis : visitsOfScenes mGltfTree depth = .ok tr := by
    unfold visitsOfScenes
    rw [hroots]
    exact htr
  have hdeclT : ∀ r ∈ roots, ∀ t, visits mGltfTree depth none r = .ok t →
      allDeclared mNodes t = true := by
    intro r hr t ht
    unfold allDeclared
    rw [List.all_eq_true]
    intro v hv
    have hmem : v.2 ∈ visited t := mem_visited.mpr ⟨v.1, hv⟩
    exact (hread r hr v.2 (visits_reachable mGltfTree depth none r t ht v.2 hmem)).1
  have hdecl : allDeclared mNodes tr = true := by
    unfold allDeclared
    rw [List.all_eq_true]
    intro v hv
    have hmem : v.2 ∈ visited tr := mem_visited.mpr ⟨v.1, hv⟩
    obtain ⟨r, hr, t, ht, hp⟩ := visitsEach_visited htr v.2 hmem
    exact (hread r hr v.2 (visits_reachable mGltfTree depth none r t ht v.2 hp)).1
  refine ⟨tr, hvis, (linkScenes_eq_ok_iff _ _ _ _).mpr ⟨tr, hvis, hdecl, rfl⟩, ?_, ?_,
    fun p c => count_appendedTo p c tr, ?_, ?_⟩
  · intro r hr
    obtain ⟨t, ht⟩ := hwalk r hr
    exact ⟨t, (setParentForChildren_eq_ok_iff _ _ _ _ _ _).mpr
      ⟨t, ht, hdeclT r hr t ht, rfl⟩⟩
  · intro p n0 h0
    obtain ⟨n, hn, _, hch, _⟩ := find_applyVisits_fields tr h0
    exact ⟨n, hn, hch⟩
  · intro p
    exact appendedTo_visitsEach_any mGltfTree depth p (appendedTo_visits_any mGltfTree p depth)
      none (by simp) roots tr htr
  · intro c
    exact count_visitsEach c _ (fun r => pathCount mGltfTree depth r c)
      (fun x t ht => count_visits mGltfTree c depth none x t ht) roots tr htr

/-- Witness of C34 on the diamond `r → a → d`, `r → b → d`: two paths lead from the root to
`d`, the walk visits `d` twice, and `d` is appended once to the list of `a` and once to the
list of `b`. -/
theorem linking_walk_terminates_witness :
    rootKeys diamondTree = .ok ["r"] ∧
    pathCount diamondTree 5 "r" "d" = 2 ∧
    linkScenes diamondTree 5 diamondNodes =
      .ok [("a", { parent := some "r", children := ["d"] }),
           ("b", { parent := some "r", children := ["d"] }), ("d", { parent := some "b" }),
           ("r", { children := ["a", "b"] })] ∧
    ∃ tr, visitsOfScenes diamondTree 5 = .ok tr ∧
      linkScenes diamondTree 5 diamondNodes = .ok (applyVisits tr diamondNodes) ∧
      (∀ r ∈ ["r"], ∃ t,
        setParentForChildren diamondTree 5 none r diamondNodes =
          .ok (applyVisits t diamondNodes)) ∧
      (∀ p n0, diamondNodes.find p = some n0 →
        ∃ n, (applyVisits tr diamondNodes).find p = some n ∧
          n.children = n0.children ++ appendedTo p tr) ∧
      (∀ p c, (appendedTo p tr).count c = tr.count (some p, c)) ∧
      (∀ p, appendedTo p tr =
        (List.replicate ((visited tr).count p) (childList diamondTree p)).flatten) ∧
      (∀ c, (visited tr).count c =
        (List.map (fun r => pathCount diamondTree 5 r c) ["r"]).sum) :=
  ⟨by decide, by decide, by decide,
    linking_walk_terminates diamondTree diamondNodes ["r"] 5 (by decide) diamondTree_readable
      diamondTree_acyclic (by decide)⟩

end gltf
